import Mathlib

/-!
# ZeOS kernel: virtual memory, faults, fork, new_pages, exec, threads and system calls

A shallow embedding of the virtual-memory code of the kernel
(`kern/vmm/vmm.c`, `kern/faulthandlers/faulthandlers.c`,
`kern/syscall/syscall_pages.c`, `kern/syscall/syscall_fork.c`, `kern/loader.c`)
and of its process layer (`kern/inc/variable_queue.h`, `kern/sched/sched.c`,
`kern/sched/sync.c`, `kern/bootdrvlib/timer_driver.c`, `kern/syscall/syscall.c`,
`kern/syscall/syscall_paramcheck.c` and the handlers of `wait`, `vanish`,
`task_vanish`, `sleep`, `set_status` and `cas2i_runflag`), with the table of
fault handlers of `faulthandlers.c` and the argument frame of
`kern/syscall/syscall_exec.c`.

Conventions of the embedding.

* 32-bit machine words are natural numbers below `2^32`; every arithmetic
  operation that can wrap in C is written with an explicit `% WORD`.
* A function returns `none` when the C code fails a kernel assertion, calls
  `panic`, or dereferences a null pointer.
* The page directory and the page tables of one address space are two
  functions: `pde` indexed by the directory slot (`address >> 22`) and `pte`
  indexed by the virtual page number (`address >> 12`).  The page-table page
  that a directory slot points to is represented by the 1024 entries of that
  slot; installing a fresh zeroed page-table page zeroes these entries.
* The kernel heap (`malloc`, `smemalign`) belongs to a support library; it is
  an oracle: a list of outcomes, one for each allocation request to come.
* The queues of `variable_queue.h` are kept at the level of pointers: a
  memory of queue heads and a memory of links, both indexed by address, with
  `NULL` as 0.  A thread is named by the address of its `kthread`, a task by
  the address of its `ktask`, which is also that of its initial thread.
* A system call runs from its entry to the point where it returns or where
  `schedule` switches to another thread; interrupts arrive between system
  calls.  A loop has a bound on its number of tests (its fuel).  The handler
  of `sleep`, which runs with interrupts enabled, is also given in two parts,
  so that a timer interrupt between its insertion into the sleepers queue and
  its call of `schedule` can be stated.
* The argument frame of `exec` is built in a memory of bytes indexed by
  linear address, the memory that the running thread sees; a 32-bit word is
  four bytes, little endian.  A store to the user stack goes through the page
  tables of the new address space: a store to a page that is not mapped is a
  page fault, and the result names the faulting address.
-/

namespace ZeOS

/-! ## Constants -/

/-- Constants of the support headers (`common_kern.h`) that the sources use
but that are not part of the repository; they are parameters of the model. -/
structure Platform where
  /-- First address of user memory; the kernel window lies below it. -/
  USER_MEM_START : Nat

/-- Modelled from the spec: the page size of `x86/page.h`, a fixed 4 KiB. -/
def PAGE_SIZE : Nat := 4096

/-- Number of values of a 32-bit machine word. -/
def WORD : Nat := 4294967296

/-- `PAGE_MASK` of `i386systemregs.h`. -/
def PAGE_MASK : Nat := 0xfff

/-- `PAGE_OFFSET_MASK` of `syscall_pages.c`. -/
def PAGE_OFFSET_MASK : Nat := 0xfff

/-- `PAGING_PAGE_OFFSET_BITS` of `i386systemregs.h`. -/
def PAGING_PAGE_OFFSET_BITS : Nat := 12

/-- `KERNEL_PAGES_NR` of `vmm.h`. -/
def KERNEL_PAGES_NR (P : Platform) : Nat := P.USER_MEM_START / PAGE_SIZE

/-- `PTE_PER_PAGE` of `vmm.h`: `PAGE_SIZE / sizeof(PTE)`. -/
def PTE_PER_PAGE : Nat := 1024

/-- `KTHREAD_USTACK_PAGES` of `task.h`. -/
def KTHREAD_USTACK_PAGES : Nat := 2

/-- `ALLOC_MEM_QUOTA` of `task.h`. -/
def ALLOC_MEM_QUOTA : Nat := 512 * 1024 * 1024

/-- `TASK_STATUS_ZOMIE` of `task.h`. -/
def TASK_STATUS_ZOMIE : Nat := 0xDEADBEEF

/-- Return codes of `kern_err.h`. -/
abbrev KERN_RET_CODE := Int

def KERN_SUCCESS : KERN_RET_CODE := 0
def KERN_ERROR_GENERIC : KERN_RET_CODE := -1
def KERN_ERROR_UNIMPLEMENTED : KERN_RET_CODE := -2
def KERN_NO_MEM : KERN_RET_CODE := -4
def KERN_ERROR_VM_CANNOT_MAP : KERN_RET_CODE := -8
def KERN_ERROR_ADDRESS_NOT_PRESENT : KERN_RET_CODE := -12
def KERN_PAGE_ERR : KERN_RET_CODE := -13
def KERN_ERR_BAD_SYS_PARAM : KERN_RET_CODE := -14

/-- Fault actions of `faulthandlers.c`. -/
def FAULT_ACTION_KILL : Nat := 0
def FAULT_ACTION_COW : Nat := 1
def FAULT_ACTION_BACK_PAGES : Nat := 3
def FAULT_ACTION_GROW_STACK : Nat := 4
def FAULT_ACTION_PANIC : Nat := 5

/-! ## Data model -/

/-- The hardware page-table entry `struct _PTE` (also used for page-directory
entries and, in the fault handler, to decode the page-fault error code). -/
structure PTE where
  PRESENT : Bool
  RW : Bool
  US : Bool
  WT : Bool
  CACHE_DISABLED : Bool
  ACCESSED : Bool
  DIRTY : Bool
  _PAGE_SIZE : Bool
  GLOBAL : Bool
  /-- Three bits. -/
  AVAIL : Nat
  /-- Twenty bits: the frame number. -/
  ADDRESS : Nat
deriving DecidableEq, Repr

/-- The all-zero entry (`memset(..., 0, ...)`). -/
def PTE.zero : PTE :=
  { PRESENT := false, RW := false, US := false, WT := false, CACHE_DISABLED := false,
    ACCESSED := false, DIRTY := false, _PAGE_SIZE := false, GLOBAL := false,
    AVAIL := 0, ADDRESS := 0 }

/-- Number of values of the 20-bit `ADDRESS` bit field. -/
def ADDRESS_FIELD : Nat := 1048576

/-- One node of the range queue, `struct vm_range`.  The flag `kernel` is the
pointer test `vmrange_ptr == &vm->vm_range_kernel`. -/
structure vm_range where
  start : Nat
  len : Nat
  kernel : Bool
deriving DecidableEq, Repr

/-- The per-task address space, `struct task_vm`. -/
structure task_vm where
  /-- The queue `vm_ranges_head`, front first. -/
  vm_ranges_head : List vm_range
  vm_text_start : Nat
  vm_text_len : Nat
  vm_data_start : Nat
  vm_data_len : Nat
  vm_rdata_start : Nat
  vm_rdata_len : Nat
  vm_stack_start : Nat
  vm_stack_len : Nat
  /-- Page directory, indexed by `address >> 22`. -/
  pde : Nat → PTE
  /-- Page tables, indexed by the virtual page number `address >> 12`. -/
  pte : Nat → PTE
  /-- Address of the block holding the task, returned by `smemalign`. -/
  taskmem : Nat

/-- The frame allocator state `kern_vmm`: one reference count per frame. -/
structure kern_vmm where
  m_pages : Nat → Int
  nr_physical_pages : Nat

/-- The part of `struct ktask` and of its threads that the virtual-memory code
reads or writes. -/
structure ktask where
  vm : task_vm
  /-- Thread queue `ktask_threads_head`, front first (thread addresses). -/
  ktask_threads_head : List Nat
  /-- Children queue `ktask_task_head`, front first (task addresses). -/
  ktask_task_head : List Nat
  /-- The `run_flag` of each thread of the task. -/
  run_flag : Nat → Int
  state : Nat
  status : Int
  allocated_pages_mem : Nat

/-- Global kernel state used by the virtual-memory code. -/
structure Kernel where
  kernel_vmm : kern_vmm
  /-- Outcomes of the allocation requests to come (`none`: the request
  fails, `some a`: it returns address `a`). -/
  heap : List (Option Nat)
  /-- The global `copy_area` of `faulthandlers.c`. -/
  copy_area : Nat
  /-- Physical memory: frame number, offset in the frame, byte. -/
  phys : Nat → Nat → Nat

/-! ## Small helpers -/

/-- Pointwise update of a table. -/
def upd {α : Type} (f : Nat → α) (i : Nat) (v : α) : Nat → α :=
  fun j => if j = i then v else f j

/-- One request to the kernel heap (`malloc`, `smemalign`). -/
def kalloc (heap : List (Option Nat)) : Option Nat × List (Option Nat) :=
  match heap with
  | [] => (none, [])
  | r :: rest => (r, rest)

/-- Directory slot of an address: `LINEAR_ADDRESS_BREAKER.u.PDE_IDX`. -/
def PDE_IDX (address : Nat) : Nat := address / (PAGE_SIZE * PTE_PER_PAGE)

/-- Virtual page number of an address (`PDE_IDX` and `PTE_IDX` together). -/
def VPN (address : Nat) : Nat := address / PAGE_SIZE

/-- The C expression `x & ~PAGE_MASK` on a 32-bit word. -/
def page_floor (x : Nat) : Nat := x - x % PAGE_SIZE

/-- Conversion of a C `int` to `unsigned long`. -/
def to_u32 (i : Int) : Nat := (i % (WORD : Int)).toNat

/-- Conversion of an `unsigned long` to a C `int`. -/
def to_i32 (n : Nat) : Int :=
  if n % WORD < 2147483648 then ((n % WORD : Nat) : Int) else ((n % WORD : Nat) : Int) - (WORD : Int)

/-! ## Frame allocator (`vmm.c`) -/

/-- The loop of `vmm_get_free_user_pages`: `n` frames remain to be looked at,
starting with frame `i`.  Result `none`: the assertion `refcount >= 0` failed;
`some none`: no free frame; `some (some i)`: frame `i` is the first free one. -/
def get_free_scan (m_pages : Nat → Int) (i : Nat) : Nat → Option (Option Nat)
  | 0 => some none
  | n + 1 =>
    if m_pages i < 0 then none
    else if m_pages i = 0 then some (some i)
    else get_free_scan m_pages (i + 1) n

/-- Function `vmm_get_free_user_pages`: `some (none, kv)` is `KERN_NO_MEM`,
`some (some pfn, kv1)` is `KERN_SUCCESS` with `*pfn = pfn`. -/
def vmm_get_free_user_pages (P : Platform) (kv : kern_vmm) : Option (Option Nat × kern_vmm) :=
  match get_free_scan kv.m_pages (KERNEL_PAGES_NR P + 1)
      (kv.nr_physical_pages - (KERNEL_PAGES_NR P + 1)) with
  | none => none
  | some none => some (none, kv)
  | some (some i) => some (some i, { kv with m_pages := upd kv.m_pages i 1 })

/-- Function `vmm_getref_user_page`. -/
def vmm_getref_user_page (P : Platform) (kv : kern_vmm) (pfn : Nat) : Option kern_vmm :=
  if ¬ pfn < kv.nr_physical_pages then none
  else if ¬ pfn ≥ KERNEL_PAGES_NR P + 1 then none
  else if ¬ kv.m_pages pfn ≥ 1 then none
  else some { kv with m_pages := upd kv.m_pages pfn (kv.m_pages pfn + 1) }

/-- Function `vmm_putref_user_page`. -/
def vmm_putref_user_page (P : Platform) (kv : kern_vmm) (pfn : Nat) : Option kern_vmm :=
  if ¬ pfn < kv.nr_physical_pages then none
  else if ¬ pfn ≥ KERNEL_PAGES_NR P + 1 then none
  else if ¬ kv.m_pages pfn - 1 ≥ 0 then none
  else some { kv with m_pages := upd kv.m_pages pfn (kv.m_pages pfn - 1) }

/-! ## Address-space queries (`vmm.c`) -/

/-- Function `vmm_get_pte`: the entry exists when the directory slot is present. -/
def vmm_get_pte (vm : task_vm) (address : Nat) : Option PTE :=
  if (vm.pde (PDE_IDX address)).PRESENT then some (vm.pte (VPN address)) else none

/-- The test of `vmm_get_range` on one queue node. -/
def range_holds (address : Nat) (r : vm_range) : Bool :=
  !r.kernel && decide (address ≥ r.start) && decide (address < (r.start + r.len) % WORD)

/-- Function `vmm_get_range`: the first node of the queue, the kernel node
apart, whose range holds the address. -/
def vmm_get_range (vm : task_vm) (address : Nat) : Option vm_range :=
  vm.vm_ranges_head.find? (range_holds address)

/-- Function `vmm_is_address_ro`. -/
def vmm_is_address_ro (vm : task_vm) (base_addr : Nat) : Bool :=
  if base_addr ≥ vm.vm_text_start ∧ base_addr < (vm.vm_text_start + vm.vm_text_len) % WORD then true
  else if base_addr ≥ vm.vm_rdata_start ∧ base_addr < (vm.vm_rdata_start + vm.vm_rdata_len) % WORD then true
  else false

/-! ## Address-space operations (`vmm.c`) -/

/-- Bound on the number of iterations of a page loop that terminates: the
loop variable takes at most `2^20` page-spaced values before it repeats. -/
def PAGE_LOOP_FUEL : Nat := 1048577

/-- The loop `for (la = first; la < last; la += PAGE_SIZE)` on 32-bit words,
started at `la`; `none` when the body fails or the loop does not terminate. -/
def for_pages {σ : Type} (body : Nat → σ → Option σ) (last : Nat) : Nat → Nat → σ → Option σ
  | 0, _, _ => none
  | fuel + 1, la, s =>
    if la < last then
      match body la s with
      | none => none
      | some s1 => for_pages body last fuel ((la + PAGE_SIZE) % WORD) s1
    else some s

/-- Assignment `*entry = attrs; entry->ADDRESS = old address`. -/
def set_attr (attrs old : PTE) : PTE := { attrs with ADDRESS := old.ADDRESS }

/-- Body of the loop of `vmm_set_range_attr` for one page. -/
def set_range_attr_page (attrs : PTE) (la : Nat) (vm : task_vm) : Option task_vm :=
  match vmm_get_pte vm la with
  | none => none
  | some pte =>
    some { vm with
      pte := upd vm.pte (VPN la) (set_attr attrs pte)
      pde := upd vm.pde (PDE_IDX la) (set_attr attrs (vm.pde (PDE_IDX la))) }

/-- Function `vmm_set_range_attr`. -/
def vmm_set_range_attr (vm : task_vm) (range : vm_range) (attrs : PTE) : Option task_vm :=
  for_pages (set_range_attr_page attrs) ((range.start + range.len) % WORD) PAGE_LOOP_FUEL
    range.start vm

/-- The range as `vmm_install_range` rewrites it in place: start rounded
down, end rounded up, both in 32-bit arithmetic. -/
def install_scaled (range : vm_range) : vm_range :=
  let range_end := (range.start + range.len) % WORD
  let start := page_floor range.start
  let range_end := page_floor ((range_end + (PAGE_SIZE - 1)) % WORD)
  { range with start := start, len := (range_end + WORD - start) % WORD }

/-- The loop of `vmm_install_range` that installs the missing page-table
pages: iterations `i .. i + n - 1`.  The Boolean is false when `smemalign`
failed. -/
def install_ptes (start : Nat) : Nat → Nat → List (Option Nat) → task_vm →
    Bool × List (Option Nat) × task_vm
  | 0, _, heap, vm => (true, heap, vm)
  | n + 1, i, heap, vm =>
    let la := (start + i * PAGE_SIZE) % WORD
    if (vm.pde (PDE_IDX la)).PRESENT then install_ptes start n (i + 1) heap vm
    else
      match kalloc heap with
      | (none, heap1) => (false, heap1, vm)
      | (some new_pte, heap1) =>
        let vm1 : task_vm := { vm with
          pte := fun v => if v / PTE_PER_PAGE = PDE_IDX la then PTE.zero else vm.pte v
          pde := upd vm.pde (PDE_IDX la)
            { vm.pde (PDE_IDX la) with
              PRESENT := true
              ADDRESS := new_pte / PAGE_SIZE % ADDRESS_FIELD } }
        install_ptes start n (i + 1) heap1 vm1

/-- Function `vmm_install_range`.  The result holds the return code, the heap,
the address space and the range structure of the caller, which the function
rewrites. -/
def vmm_install_range (P : Platform) (heap : List (Option Nat)) (address_space : task_vm)
    (range : vm_range) : Option (KERN_RET_CODE × List (Option Nat) × task_vm × vm_range) :=
  let range1 := install_scaled range
  if range1.start < P.USER_MEM_START then
    some (KERN_ERROR_VM_CANNOT_MAP, heap, address_space, range1)
  else
    match kalloc heap with
    | (none, heap1) => some (KERN_NO_MEM, heap1, address_space, range1)
    | (some _, heap1) =>
      let new_range : vm_range := { start := range1.start, len := range1.len, kernel := false }
      let vm1 := { address_space with vm_ranges_head := new_range :: address_space.vm_ranges_head }
      let pages_nr := new_range.len / PAGE_SIZE
      if pages_nr = 0 then none
      else
        match install_ptes range1.start pages_nr 0 heap1 vm1 with
        | (true, heap2, vm2) => some (KERN_SUCCESS, heap2, vm2, range1)
        | (false, heap2, vm2) =>
          some (KERN_NO_MEM, heap2,
            { vm2 with vm_ranges_head := address_space.vm_ranges_head }, range1)

/-- Body of the loop of `vmm_uninstall_range` for one page. -/
def uninstall_page (P : Platform) (la : Nat) (s : kern_vmm × task_vm) :
    Option (kern_vmm × task_vm) :=
  match vmm_get_pte s.2 la with
  | none => none
  | some pte =>
    if pte.PRESENT then
      match vmm_putref_user_page P s.1 pte.ADDRESS with
      | none => none
      | some kv1 =>
        some (kv1, { s.2 with pte := upd s.2.pte (VPN la) { pte with PRESENT := false, ADDRESS := 0 } })
    else some s

/-- The search of `vmm_uninstall_range`: same start and same length. -/
def same_range (range : vm_range) (r : vm_range) : Bool :=
  !r.kernel && decide (r.start = range.start) && decide (r.len = range.len)

/-- Queue without its first node that satisfies `p` (`Q_REMOVE` of the node found). -/
def remove_first (p : vm_range → Bool) : List vm_range → List vm_range
  | [] => []
  | r :: rest => if p r then rest else r :: remove_first p rest

/-- Function `vmm_uninstall_range`.  When the search finds no node, `Q_FOREACH`
leaves the loop variable on the queue head, read as a node; the model takes
the word it then reads as `start` (a kernel pointer) to differ from
`range->start`, so that the function returns `KERN_ERROR_ADDRESS_NOT_PRESENT`. -/
def vmm_uninstall_range (P : Platform) (kv : kern_vmm) (address_space : task_vm)
    (range : vm_range) : Option (KERN_RET_CODE × kern_vmm × task_vm) :=
  match address_space.vm_ranges_head.find? (same_range range) with
  | none => some (KERN_ERROR_ADDRESS_NOT_PRESENT, kv, address_space)
  | some vmrange_ptr =>
    match for_pages (uninstall_page P) ((vmrange_ptr.start + vmrange_ptr.len) % WORD)
        PAGE_LOOP_FUEL vmrange_ptr.start (kv, address_space) with
    | none => none
    | some (kv1, vm1) =>
      some (KERN_SUCCESS, kv1,
        { vm1 with vm_ranges_head := remove_first (same_range range) vm1.vm_ranges_head })

/-- Body of the loop of `vmm_share_physical_range` for one page. -/
def share_page (P : Platform) (vm_src : task_vm) (la : Nat) (s : kern_vmm × task_vm) :
    Option (kern_vmm × task_vm) :=
  match vmm_get_pte vm_src la, vmm_get_pte s.2 la with
  | some src_pte, some dst_pte =>
    match vmm_getref_user_page P s.1 src_pte.ADDRESS with
    | none => none
    | some kv1 =>
      some (kv1, { s.2 with pte := upd s.2.pte (VPN la) { dst_pte with ADDRESS := src_pte.ADDRESS } })
  | _, _ => none

/-- Function `vmm_share_physical_range` (it always returns `KERN_SUCCESS`). -/
def vmm_share_physical_range (P : Platform) (kv : kern_vmm) (vm_dst vm_src : task_vm)
    (range : vm_range) : Option (kern_vmm × task_vm) :=
  for_pages (share_page P vm_src) ((range.start + range.len) % WORD) PAGE_LOOP_FUEL
    range.start (kv, vm_dst)

/-- The inner loop of `vmm_back_all_user_ranges` over the pages of one range.
The Boolean is false when no frame was left: the function then returns
`KERN_NO_MEM` at once. -/
def back_range_pages (P : Platform) (last : Nat) : Nat → Nat → kern_vmm × task_vm →
    Option (Bool × kern_vmm × task_vm)
  | 0, _, _ => none
  | fuel + 1, la, s =>
    if la < last then
      match vmm_get_pte s.2 la with
      | none => none
      | some pte =>
        match vmm_get_free_user_pages P s.1 with
        | none => none
        | some (none, kv1) => some (false, kv1, s.2)
        | some (some pfn, kv1) =>
          back_range_pages P last fuel ((la + PAGE_SIZE) % WORD)
            (kv1, { s.2 with
              pte := upd s.2.pte (VPN la) { pte with PRESENT := true, ADDRESS := pfn % ADDRESS_FIELD } })
    else some (true, s)

/-- The outer loop of `vmm_back_all_user_ranges` over the queue. -/
def back_ranges (P : Platform) : List vm_range → kern_vmm × task_vm →
    Option (Bool × kern_vmm × task_vm)
  | [], s => some (true, s)
  | r :: rest, s =>
    if r.kernel then back_ranges P rest s
    else
      match back_range_pages P ((r.start + r.len) % WORD) PAGE_LOOP_FUEL r.start s with
      | none => none
      | some (false, s1) => some (false, s1)
      | some (true, s1) => back_ranges P rest s1

/-- Function `vmm_back_all_user_ranges`. -/
def vmm_back_all_user_ranges (P : Platform) (kv : kern_vmm) (vm : task_vm) :
    Option (KERN_RET_CODE × kern_vmm × task_vm) :=
  match back_ranges P vm.vm_ranges_head (kv, vm) with
  | none => none
  | some (true, kv1, vm1) => some (KERN_SUCCESS, kv1, vm1)
  | some (false, kv1, vm1) => some (KERN_NO_MEM, kv1, vm1)

/-- Body of the inner loop of `vmm_unback_all_user_ranges`. -/
def unback_page (P : Platform) (la : Nat) (s : kern_vmm × task_vm) :
    Option (kern_vmm × task_vm) :=
  match vmm_get_pte s.2 la with
  | none => none
  | some pte =>
    let kv1 := if pte.ADDRESS ≠ 0 then vmm_putref_user_page P s.1 pte.ADDRESS else some s.1
    match kv1 with
    | none => none
    | some kv1 =>
      some (kv1, { s.2 with pte := upd s.2.pte (VPN la) { pte with PRESENT := false, ADDRESS := 0 } })

/-- The outer loop of `vmm_unback_all_user_ranges` over the queue. -/
def unback_ranges (P : Platform) : List vm_range → kern_vmm × task_vm →
    Option (kern_vmm × task_vm)
  | [], s => some s
  | r :: rest, s =>
    if r.kernel then unback_ranges P rest s
    else
      match for_pages (unback_page P) ((r.start + r.len) % WORD) PAGE_LOOP_FUEL r.start s with
      | none => none
      | some s1 => unback_ranges P rest s1

/-- Function `vmm_unback_all_user_ranges` (it always returns `KERN_SUCCESS`). -/
def vmm_unback_all_user_ranges (P : Platform) (kv : kern_vmm) (vm : task_vm) :
    Option (kern_vmm × task_vm) :=
  unback_ranges P vm.vm_ranges_head (kv, vm)

/-- The loop of `vmm_is_range_present`; `none` when the fuel runs out. -/
def is_range_present_loop (vm : task_vm) (len : Int) : Nat → Nat → Option KERN_RET_CODE
  | 0, _ => none
  | fuel + 1, next_addr =>
    match vmm_get_range vm next_addr with
    | none => some KERN_ERROR_ADDRESS_NOT_PRESENT
    | some vmrange_ptr =>
      let offset := to_i32 ((vmrange_ptr.start + vmrange_ptr.len + WORD - next_addr) % WORD)
      if len ≤ offset then some KERN_SUCCESS
      else is_range_present_loop vm len fuel (to_u32 ((next_addr : Int) + offset))

/-- Function `vmm_is_range_present`.  Every iteration but the last moves
`next_addr` to the end of a range that holds it, so a loop that terminates
does so within one iteration for each queue node, plus one. -/
def vmm_is_range_present (vm : task_vm) (base_addr : Nat) (len : Int) : Option KERN_RET_CODE :=
  is_range_present_loop vm len (vm.vm_ranges_head.length + 1) base_addr

/-- Function `vmm_free_all_vma`: every node but the kernel one leaves the queue. -/
def vmm_free_all_vma (vm_dst : task_vm) : task_vm :=
  { vm_dst with vm_ranges_head := vm_dst.vm_ranges_head.filter (fun r => r.kernel) }

/-- Function `vmm_free_user_ptes`: the directory slots of the user half lose
their page-table page. -/
def vmm_free_user_ptes (P : Platform) (address_space : task_vm) : task_vm :=
  { address_space with
    pde := fun i =>
      if PDE_IDX P.USER_MEM_START ≤ i ∧ i < 1024 ∧ (address_space.pde i).PRESENT then
        { address_space.pde i with ADDRESS := 0, PRESENT := false }
      else address_space.pde i }

/-- Function `vmm_copy_user_ptes`: the directory slots of the user half of the
destination become those of the source, and so point to its page-table pages. -/
def vmm_copy_user_ptes (P : Platform) (address_space_dst address_space_src : task_vm) : task_vm :=
  { address_space_dst with
    pde := fun i =>
      if PDE_IDX P.USER_MEM_START ≤ i ∧ i < 1024 then address_space_src.pde i
      else address_space_dst.pde i
    pte := fun v =>
      if PDE_IDX P.USER_MEM_START ≤ v / PTE_PER_PAGE ∧ v / PTE_PER_PAGE < 1024 then
        address_space_src.pte v
      else address_space_dst.pte v }

/-- The copying loop of `vmm_copy_vmranges_struct`: one `malloc` and one
`Q_INSERT_TAIL` for each node of the source but the kernel one.  The Boolean
is false when `malloc` failed. -/
def copy_ranges : List vm_range → List (Option Nat) → List vm_range →
    Bool × List (Option Nat) × List vm_range
  | [], heap, dst => (true, heap, dst)
  | r :: rest, heap, dst =>
    if r.kernel then copy_ranges rest heap dst
    else
      match kalloc heap with
      | (none, heap1) => (false, heap1, dst)
      | (some _, heap1) =>
        copy_ranges rest heap1 (dst ++ [{ start := r.start, len := r.len, kernel := false }])

/-- Function `vmm_copy_vmranges_struct`. -/
def vmm_copy_vmranges_struct (heap : List (Option Nat)) (vm_dst vm_src : task_vm) :
    KERN_RET_CODE × List (Option Nat) × task_vm :=
  match copy_ranges vm_src.vm_ranges_head heap (vmm_free_all_vma vm_dst).vm_ranges_head with
  | (false, heap1, l) => (KERN_NO_MEM, heap1, { vm_dst with vm_ranges_head := l })
  | (true, heap1, l) =>
    (KERN_SUCCESS, heap1,
      { vm_dst with
        vm_ranges_head := l
        vm_text_start := vm_src.vm_text_start
        vm_text_len := vm_src.vm_text_len
        vm_data_start := vm_src.vm_data_start
        vm_data_len := vm_src.vm_data_len
        vm_rdata_start := vm_src.vm_rdata_start
        vm_rdata_len := vm_src.vm_rdata_len
        vm_stack_start := vm_src.vm_stack_start
        vm_stack_len := vm_src.vm_stack_len })

/-- Number of page-table pages of the kernel window in `vmm_init_task_vm`;
the source writes `initial_pte_pages =+ 1`, an assignment of `+1`. -/
def initial_pte_pages (P : Platform) : Nat :=
  if KERNEL_PAGES_NR P % PTE_PER_PAGE ≠ 0 then 1 else KERNEL_PAGES_NR P / PTE_PER_PAGE

/-- Entry of the kernel window written by `vmm_init_task_vm`. -/
def kernel_entry (address : Nat) : PTE :=
  { PRESENT := true, RW := true, US := false, WT := false, CACHE_DISABLED := false,
    ACCESSED := false, DIRTY := false, _PAGE_SIZE := false, GLOBAL := true,
    AVAIL := 0, ADDRESS := address % ADDRESS_FIELD }

/-- Function `vmm_init_task_vm`.  The result is the return code, the heap, the
parent with the new child on its children queue, and the new task.  The
function is undefined (`none`) when the direct-mapped entries do not fit in
the page-table pages it allocated. -/
def vmm_init_task_vm (P : Platform) (heap : List (Option Nat)) (parentTask : Option ktask) :
    Option (KERN_RET_CODE × List (Option Nat) × Option ktask × Option ktask) :=
  match kalloc heap with
  | (none, heap1) => some (KERN_NO_MEM, heap1, parentTask, none)
  | (some taskmem, heap1) =>
    if KERNEL_PAGES_NR P > initial_pte_pages P * PTE_PER_PAGE then none
    else
      let pte_base := taskmem + PAGE_SIZE * 2 + PAGE_SIZE * 1
      let vm : task_vm :=
        { vm_ranges_head := [{ start := 0, len := P.USER_MEM_START, kernel := true }]
          vm_text_start := match parentTask with | some p => p.vm.vm_text_start | none => 0
          vm_text_len := match parentTask with | some p => p.vm.vm_text_len | none => 0
          vm_data_start := match parentTask with | some p => p.vm.vm_data_start | none => 0
          vm_data_len := match parentTask with | some p => p.vm.vm_data_len | none => 0
          vm_rdata_start := match parentTask with | some p => p.vm.vm_rdata_start | none => 0
          vm_rdata_len := match parentTask with | some p => p.vm.vm_rdata_len | none => 0
          vm_stack_start := match parentTask with | some p => p.vm.vm_stack_start | none => 0
          vm_stack_len := match parentTask with | some p => p.vm.vm_stack_len | none => 0
          pde := fun i =>
            if i < initial_pte_pages P then kernel_entry (page_floor pte_base / PAGE_SIZE + i)
            else PTE.zero
          pte := fun v => if v < KERNEL_PAGES_NR P then kernel_entry v else PTE.zero
          taskmem := taskmem }
      let newTask : ktask :=
        { vm := vm
          ktask_threads_head := [taskmem]
          ktask_task_head := []
          run_flag := fun _ => 0
          state := 0
          status := 0
          allocated_pages_mem := 0 }
      some (KERN_SUCCESS, heap1,
        parentTask.map (fun p => { p with ktask_task_head := taskmem :: p.ktask_task_head }),
        some newTask)

/-! ## Page-fault analysis (`faulthandlers.c`) -/

/-- Function `analyse_fault`; `reason` is the page-fault error code read as a
`PTE` (bit 0 present, bit 1 write). -/
def analyse_fault (P : Platform) (t : ktask) (reason : PTE) (linear_address : Nat) : Nat :=
  let vm_range_ptr := vmm_get_range t.vm linear_address
  if reason.PRESENT && reason.RW && vmm_is_address_ro t.vm linear_address then FAULT_ACTION_KILL
  else if linear_address < P.USER_MEM_START then FAULT_ACTION_KILL
  else if reason.PRESENT = false ∧ vm_range_ptr.isSome then FAULT_ACTION_BACK_PAGES
  else if reason.PRESENT = true ∧ vm_range_ptr.isSome then FAULT_ACTION_COW
  else if vm_range_ptr.isNone ∧ linear_address = (t.vm.vm_stack_start + WORD - 1) % WORD then
    FAULT_ACTION_GROW_STACK
  else FAULT_ACTION_KILL

/-- The decision table of the specification, read top to bottom, as a
function of the present bit, the write bit, the address, whether the address
lies in an installed range, whether it lies in a read-only segment, and the
stack low (`stack_low - 1` is the 32-bit difference). -/
def spec_fault_table (P : Platform) (present write : Bool) (a : Nat) (in_range in_ro : Bool)
    (stack_low : Nat) : Nat :=
  if present ∧ write ∧ in_ro then FAULT_ACTION_KILL
  else if a < P.USER_MEM_START then FAULT_ACTION_KILL
  else if ¬ present ∧ in_range then FAULT_ACTION_BACK_PAGES
  else if present ∧ in_range then FAULT_ACTION_COW
  else if ¬ in_range ∧ a = (stack_low + WORD - 1) % WORD then FAULT_ACTION_GROW_STACK
  else FAULT_ACTION_KILL

/-! ## The page-fault handler (`faulthandlers.c`) -/

/-- Outcome of `page_fault_handler`: either the handler returns and the
faulting instruction is resumed, or the thread is killed and the handler
calls `schedule(CURRENT_NOT_RUNNABLE)`, after `sem_signal` on the vultures of
the parent task if the thread was the last one. -/
structure FaultOutcome where
  killed : Bool
  vultures_signalled : Bool
  kernel : Kernel
  task : ktask

/-- The label `action_kill` of `page_fault_handler`. -/
def action_kill (k : Kernel) (t : ktask) (thisThread : Nat) : FaultOutcome :=
  let threads := t.ktask_threads_head.erase thisThread
  let t1 : ktask :=
    { t with run_flag := upd t.run_flag thisThread (-1), ktask_threads_head := threads }
  if threads.length = 0 then
    { killed := true, vultures_signalled := true, kernel := k,
      task := { t1 with state := TASK_STATUS_ZOMIE } }
  else { killed := true, vultures_signalled := false, kernel := k, task := t1 }

/-- Slot of the entry `src_dst_pte[SRC_PAGE_MAP_IDX]`, which maps the page at
`copy_area` (a page-aligned address, from `smemalign`). -/
def SRC_PAGE_MAP (k : Kernel) : Nat := VPN k.copy_area

/-- Slot of the entry `src_dst_pte[DST_PAGE_MAP_IDX]`, which maps the page at
`copy_area + PAGE_SIZE`. -/
def DST_PAGE_MAP (k : Kernel) : Nat := VPN k.copy_area + 1

/-- The assignments that set up one entry of the copy region. -/
def copy_entry (e : PTE) : PTE :=
  { e with PRESENT := true, RW := true, US := false, WT := true, ADDRESS := 0 }

/-- Attributes of a read-write user page: `memset` to zero, then `PRESENT`,
`RW` and `US` set. -/
def attr_user_rw : PTE := { PTE.zero with PRESENT := true, RW := true, US := true, GLOBAL := false }

/-- Attributes of a read-only user page: `memset` to zero, then `PRESENT` and
`US` set. -/
def attr_user_ro : PTE := { PTE.zero with PRESENT := true, RW := false, US := true, GLOBAL := false }

/-- Queue with its first node that satisfies `p` replaced (an assignment
through the pointer that `vmm_get_range` returned). -/
def replace_first (p : vm_range → Bool) (r1 : vm_range) : List vm_range → List vm_range
  | [] => []
  | r :: rest => if p r then r1 :: rest else r :: replace_first p r1 rest

/-- The case `FAULT_ACTION_BACK_PAGES` of `page_fault_handler`; the faulting
entry is the one of `linear_address` in the address space as it is now. -/
def fault_back_pages (P : Platform) (k : Kernel) (t : ktask) (thisThread linear_address : Nat) :
    Option FaultOutcome :=
  match vmm_get_free_user_pages P k.kernel_vmm with
  | none => none
  | some (none, kv1) => some (action_kill { k with kernel_vmm := kv1 } t thisThread)
  | some (some newPageFrame, kv1) =>
    match vmm_get_pte t.vm linear_address with
    | none => none
    | some faulting_pte =>
      let e : PTE :=
        { faulting_pte with PRESENT := true, ADDRESS := newPageFrame % ADDRESS_FIELD, RW := true }
      some
        { killed := false, vultures_signalled := false
          kernel := { k with kernel_vmm := kv1, phys := upd k.phys e.ADDRESS (fun _ => 0) }
          task := { t with vm := { t.vm with pte := upd t.vm.pte (VPN linear_address) e } } }

/-- The case `FAULT_ACTION_COW` of `page_fault_handler`.  The copy reads the
frame mapped at `copy_area` and writes the frame mapped one page above. -/
def fault_cow (P : Platform) (k : Kernel) (t : ktask) (thisThread linear_address : Nat) :
    Option FaultOutcome :=
  let src := SRC_PAGE_MAP k
  let dst := DST_PAGE_MAP k
  match vmm_get_pte t.vm linear_address with
  | none => none
  | some faulting_pte =>
    let vm1 : task_vm :=
      { t.vm with pte := upd t.vm.pte src { t.vm.pte src with ADDRESS := faulting_pte.ADDRESS } }
    match vmm_get_free_user_pages P k.kernel_vmm with
    | none => none
    | some (none, kv1) =>
      some (action_kill { k with kernel_vmm := kv1 } { t with vm := vm1 } thisThread)
    | some (some newPageFrame, kv1) =>
      let vm2 : task_vm :=
        { vm1 with
          pte := upd vm1.pte dst { vm1.pte dst with ADDRESS := newPageFrame % ADDRESS_FIELD } }
      let phys1 := upd k.phys (vm2.pte dst).ADDRESS (k.phys (vm2.pte src).ADDRESS)
      let vm3 : task_vm :=
        { vm2 with
          pte := upd vm2.pte (VPN linear_address)
            { vm2.pte (VPN linear_address) with ADDRESS := newPageFrame % ADDRESS_FIELD } }
      let rw := !vmm_is_address_ro vm3 linear_address
      let vm4 : task_vm :=
        { vm3 with
          pte := upd vm3.pte (VPN linear_address) { vm3.pte (VPN linear_address) with RW := rw }
          pde := upd vm3.pde (PDE_IDX linear_address)
            { vm3.pde (PDE_IDX linear_address) with RW := rw } }
      some
        { killed := false, vultures_signalled := false
          kernel := { k with kernel_vmm := kv1, phys := phys1 }
          task := { t with vm := vm4 } }

/-- The case `FAULT_ACTION_GROW_STACK` of `page_fault_handler` once the
directory slot of the faulting address is present: the stack range is
adjusted, its attributes are set again, and the case falls through to
`FAULT_ACTION_BACK_PAGES`. -/
def grow_stack_range (P : Platform) (k : Kernel) (t : ktask) (thisThread linear_address : Nat) :
    Option FaultOutcome :=
  match vmm_get_range t.vm t.vm.vm_stack_start with
  | none => none
  | some vmrange_ptr =>
    let r1 : vm_range := { vmrange_ptr with start := (vmrange_ptr.start + WORD - PAGE_SIZE) % WORD }
    let vm2 : task_vm :=
      { t.vm with
        vm_ranges_head := replace_first (range_holds t.vm.vm_stack_start) r1 t.vm.vm_ranges_head
        vm_stack_start := (t.vm.vm_stack_start + WORD - PAGE_SIZE) % WORD }
    match vmm_set_range_attr vm2 r1 attr_user_rw with
    | none => none
    | some vm3 => fault_back_pages P k { t with vm := vm3 } thisThread linear_address

/-- The case `FAULT_ACTION_GROW_STACK` of `page_fault_handler`. -/
def fault_grow_stack (P : Platform) (k : Kernel) (t : ktask) (thisThread linear_address : Nat) :
    Option FaultOutcome :=
  if (t.vm.pde (PDE_IDX linear_address)).PRESENT then
    grow_stack_range P k t thisThread linear_address
  else
    match kalloc k.heap with
    | (none, heap1) => some (action_kill { k with heap := heap1 } t thisThread)
    | (some new_pte, heap1) =>
      let vm1 : task_vm :=
        { t.vm with
          pte := fun v => if v / PTE_PER_PAGE = PDE_IDX linear_address then PTE.zero else t.vm.pte v
          pde := upd t.vm.pde (PDE_IDX linear_address)
            { t.vm.pde (PDE_IDX linear_address) with
              PRESENT := true
              ADDRESS := new_pte / PAGE_SIZE % ADDRESS_FIELD } }
      grow_stack_range P { k with heap := heap1 } { t with vm := vm1 } thisThread linear_address

/-- The assignments of `page_fault_handler` that set up the two entries of
the copy region. -/
def copy_setup (k : Kernel) (t : ktask) : ktask :=
  let vm0 : task_vm :=
    { t.vm with pte := upd t.vm.pte (SRC_PAGE_MAP k) (copy_entry (t.vm.pte (SRC_PAGE_MAP k))) }
  { t with
    vm := { vm0 with pte := upd vm0.pte (DST_PAGE_MAP k) (copy_entry (vm0.pte (DST_PAGE_MAP k))) } }

/-- Function `page_fault_handler`: `reason` is the error code pushed by the
processor and `linear_address` the content of `cr2`.  The translation
look-aside buffer is not part of the model. -/
def page_fault_handler (P : Platform) (k : Kernel) (t : ktask) (thisThread : Nat) (reason : PTE)
    (linear_address : Nat) : Option FaultOutcome :=
  match vmm_get_pte t.vm k.copy_area with
  | none => none
  | some _ =>
    let t0 := copy_setup k t
    let action := analyse_fault P t0 reason linear_address
    if action = FAULT_ACTION_GROW_STACK then fault_grow_stack P k t0 thisThread linear_address
    else if action = FAULT_ACTION_BACK_PAGES then fault_back_pages P k t0 thisThread linear_address
    else if action = FAULT_ACTION_COW then fault_cow P k t0 thisThread linear_address
    else if action = FAULT_ACTION_PANIC then none
    else if action = FAULT_ACTION_KILL then some (action_kill k t0 thisThread)
    else some { killed := false, vultures_signalled := false, kernel := k, task := t0 }

/-! ## `new_pages` and `remove_pages` (`syscall_pages.c`, `syscall_paramcheck.c`) -/

/-- Function `syscall_newpages_check`. -/
def syscall_newpages_check (P : Platform) (base_addr : Nat) (len : Int) : KERN_RET_CODE :=
  if base_addr < P.USER_MEM_START then KERN_PAGE_ERR
  else if base_addr % (PAGE_OFFSET_MASK + 1) ≠ 0 then KERN_PAGE_ERR
  else if len % ((PAGE_OFFSET_MASK : Int) + 1) ≠ 0 then KERN_PAGE_ERR
  else KERN_SUCCESS

/-- The loop `for(i=0;i<len;i+=PAGE_SIZE)` of `syscall_newpages` with `n`
iterations left; `some true` when a page of the request is already present. -/
def newpages_overlap (vm : task_vm) (base_addr : Nat) : Nat → Nat → Option Bool
  | 0, _ => some false
  | n + 1, i =>
    match vmm_is_range_present vm ((base_addr + i) % WORD) (PAGE_SIZE : Int) with
    | none => none
    | some ret =>
      if ret = KERN_SUCCESS then some true else newpages_overlap vm base_addr n (i + PAGE_SIZE)

/-- The loop `do ... while(len > 0)` of `syscall_newpages` that marks the
entries not present. -/
def clear_present (vm : task_vm) : Nat → Nat → Int → Option task_vm
  | 0, _, _ => none
  | fuel + 1, base_addr, len =>
    match vmm_get_pte vm base_addr with
    | none => none
    | some pte =>
      let vm1 : task_vm := { vm with pte := upd vm.pte (VPN base_addr) { pte with PRESENT := false } }
      if len - (PAGE_SIZE : Int) > 0 then
        clear_present vm1 fuel ((base_addr + PAGE_SIZE) % WORD) (len - (PAGE_SIZE : Int))
      else some vm1

/-- Function `syscall_newpages`; `base_addr` and `len` are the two words of
the argument packet and `junk` the content of the stack slot of the local
variable `attributes`, of which the function sets four fields only. -/
def syscall_newpages (P : Platform) (k : Kernel) (thisTask : ktask) (base_addr : Nat) (len : Int)
    (junk : PTE) : Option (KERN_RET_CODE × Kernel × ktask) :=
  let attributes : PTE := { junk with PRESENT := true, RW := true, US := true, GLOBAL := false }
  if (thisTask.allocated_pages_mem + to_u32 len) % WORD > ALLOC_MEM_QUOTA then
    some (KERN_NO_MEM, k, thisTask)
  else if base_addr < P.USER_MEM_START then some (KERN_PAGE_ERR, k, thisTask)
  else if base_addr % (PAGE_OFFSET_MASK + 1) ≠ 0 then some (KERN_PAGE_ERR, k, thisTask)
  else if len % ((PAGE_OFFSET_MASK : Int) + 1) ≠ 0 then some (KERN_PAGE_ERR, k, thisTask)
  else
    match newpages_overlap thisTask.vm base_addr ((len + 4095) / 4096).toNat 0 with
    | none => none
    | some true => some (KERN_PAGE_ERR, k, thisTask)
    | some false =>
      let vmrange : vm_range := { start := base_addr, len := to_u32 len, kernel := false }
      match vmm_install_range P k.heap thisTask.vm vmrange with
      | none => none
      | some (ret, heap1, vm1, vmrange1) =>
        if ret ≠ KERN_SUCCESS then
          some (ret, { k with heap := heap1 }, { thisTask with vm := vm1 })
        else
          match vmm_set_range_attr vm1 vmrange1 attributes with
          | none => none
          | some vm2 =>
            match clear_present vm2 PAGE_LOOP_FUEL base_addr len with
            | none => none
            | some vm3 =>
              some (KERN_SUCCESS, { k with heap := heap1 },
                { thisTask with
                  vm := vm3
                  allocated_pages_mem := (thisTask.allocated_pages_mem + to_u32 len) % WORD })

/-- The system call `new_pages` as `syscall_enter` runs it: the argument
check, then the handler. -/
def new_pages (P : Platform) (k : Kernel) (thisTask : ktask) (base_addr : Nat) (len : Int)
    (junk : PTE) : Option (KERN_RET_CODE × Kernel × ktask) :=
  if syscall_newpages_check P base_addr len ≠ KERN_SUCCESS then
    some (syscall_newpages_check P base_addr len, k, thisTask)
  else syscall_newpages P k thisTask base_addr len junk

/-- Function `syscall_removepages_check`. -/
def syscall_removepages_check (thisTask : ktask) (base_addr : Nat) : Option KERN_RET_CODE :=
  match vmm_is_range_present thisTask.vm base_addr (PAGE_SIZE : Int) with
  | none => none
  | some ret => if ret ≠ KERN_SUCCESS then some KERN_ERR_BAD_SYS_PARAM else some ret

/-- Function `syscall_removepages`. -/
def syscall_removepages (P : Platform) (k : Kernel) (thisTask : ktask) (base_addr : Nat) :
    Option (KERN_RET_CODE × Kernel × ktask) :=
  if base_addr < P.USER_MEM_START then some (KERN_PAGE_ERR, k, thisTask)
  else if base_addr % (PAGE_OFFSET_MASK + 1) ≠ 0 then some (KERN_PAGE_ERR, k, thisTask)
  else
    match vmm_get_range thisTask.vm base_addr with
    | none => some (KERN_ERROR_ADDRESS_NOT_PRESENT, k, thisTask)
    | some vmrange =>
      if vmrange.start ≠ base_addr then some (KERN_ERROR_ADDRESS_NOT_PRESENT, k, thisTask)
      else
        let t1 : ktask :=
          { thisTask with
            allocated_pages_mem := (thisTask.allocated_pages_mem + WORD - vmrange.len % WORD) % WORD }
        match vmm_uninstall_range P k.kernel_vmm t1.vm vmrange with
        | none => none
        | some (ret, kv1, vm1) =>
          some (ret, { k with kernel_vmm := kv1 }, { t1 with vm := vm1 })

/-- The system call `remove_pages` as `syscall_enter` runs it: the argument
check, then the handler. -/
def remove_pages (P : Platform) (k : Kernel) (thisTask : ktask) (base_addr : Nat) :
    Option (KERN_RET_CODE × Kernel × ktask) :=
  match syscall_removepages_check thisTask base_addr with
  | none => none
  | some ret =>
    if ret ≠ KERN_SUCCESS then some (ret, k, thisTask)
    else syscall_removepages P k thisTask base_addr

/-! ## `fork` (`syscall_fork.c`) -/

/-- State of the loop of `syscall_fork` over the ranges of the parent. -/
structure ForkState where
  heap : List (Option Nat)
  kernel_vmm : kern_vmm
  /-- Address space of the parent (`thisTask->vm`), queue apart. -/
  parent : task_vm
  /-- Address space of the child (`newTask->vm`). -/
  child : task_vm

/-- The loop of `syscall_fork` over the queue of the parent.  The nodes
already visited are returned as `vmm_install_range` rewrote them; the return
code is `KERN_SUCCESS` when every range was installed and shared. -/
def fork_ranges (P : Platform) (attributes : PTE) : List vm_range → ForkState →
    Option (KERN_RET_CODE × List vm_range × ForkState)
  | [], s => some (KERN_SUCCESS, [], s)
  | r :: rest, s =>
    if r.kernel then
      match fork_ranges P attributes rest s with
      | none => none
      | some (ret, l, s1) => some (ret, r :: l, s1)
    else
      match vmm_install_range P s.heap s.child r with
      | none => none
      | some (ret, heap1, child1, r1) =>
        if ret ≠ KERN_SUCCESS then
          some (ret, r1 :: rest, { s with heap := heap1, child := child1 })
        else
          match vmm_share_physical_range P s.kernel_vmm child1 s.parent r1 with
          | none => none
          | some (kv1, child2) =>
            match vmm_set_range_attr s.parent r1 attributes with
            | none => none
            | some parent1 =>
              match vmm_set_range_attr child2 r1 attributes with
              | none => none
              | some child3 =>
                match fork_ranges P attributes rest
                    { heap := heap1, kernel_vmm := kv1, parent := parent1, child := child3 } with
                | none => none
                | some (ret, l, s1) => some (ret, r1 :: l, s1)

/-- Result of `syscall_fork`. -/
structure ForkResult where
  /-- Return value: the address of the first thread of the child, or an error. -/
  ret : Int
  kernel : Kernel
  parent : ktask
  child : Option ktask

/-- Function `syscall_fork`; `junk` is the content of the stack slot of the
local variable `attributes`, of which the function sets four fields only.
The fork lock, the kernel stack of the child and the run queue are not part
of the model. -/
def syscall_fork (P : Platform) (k : Kernel) (thisTask : ktask) (junk : PTE) : Option ForkResult :=
  let attributes : PTE := { junk with PRESENT := true, RW := false, US := true, GLOBAL := false }
  match vmm_init_task_vm P k.heap (some thisTask) with
  | none => none
  | some (ret, heap1, parentTask, created) =>
    if ret ≠ KERN_SUCCESS then
      some { ret := ret, kernel := { k with heap := heap1 }, parent := thisTask, child := none }
    else
      match parentTask, created with
      | some thisTask1, some newTask =>
        match fork_ranges P attributes thisTask1.vm.vm_ranges_head
            { heap := heap1, kernel_vmm := k.kernel_vmm, parent := thisTask1.vm,
              child := newTask.vm } with
        | none => none
        | some (ret, l, s) =>
          let k1 : Kernel := { k with heap := s.heap, kernel_vmm := s.kernel_vmm }
          let parent1 : ktask := { thisTask1 with vm := { s.parent with vm_ranges_head := l } }
          let child1 : ktask := { newTask with vm := s.child }
          if ret ≠ KERN_SUCCESS then
            some { ret := ret, kernel := k1, parent := parent1, child := some child1 }
          else
            some { ret := (newTask.vm.taskmem : Int), kernel := k1, parent := parent1,
                   child := some child1 }
      | _, _ => none

/-! ## The loader (`loader.c`) -/

/-- The fields of `simple_elf_t` (support library) that the loader reads. -/
structure simple_elf_t where
  e_entry : Nat
  e_txtoff : Nat
  e_txtlen : Nat
  e_txtstart : Nat
  e_datoff : Nat
  e_datlen : Nat
  e_datstart : Nat
  e_rodatoff : Nat
  e_rodatlen : Nat
  e_rodatstart : Nat
  e_bsslen : Nat

/-- One step of `loader_install_ranges`: install a range and mark it
read-write.  The result holds the range as the installation rewrote it. -/
def loader_install_one (P : Platform) (heap : List (Option Nat)) (vm : task_vm) (start len : Nat) :
    Option (KERN_RET_CODE × List (Option Nat) × task_vm × vm_range) :=
  match vmm_install_range P heap vm { start := start, len := len, kernel := false } with
  | none => none
  | some (ret, heap1, vm1, r1) =>
    if ret ≠ KERN_SUCCESS then some (ret, heap1, vm1, r1)
    else
      match vmm_set_range_attr vm1 r1 attr_user_rw with
      | none => none
      | some vm2 => some (KERN_SUCCESS, heap1, vm2, r1)

/-- The label `err` of `loader_install_ranges` and of `load_elf`. -/
def loader_err (P : Platform) (k : Kernel) (vm : task_vm) : Option (Kernel × task_vm) :=
  match vmm_unback_all_user_ranges P k.kernel_vmm vm with
  | none => none
  | some (kv1, vm1) =>
    some ({ k with kernel_vmm := kv1 }, vmm_free_all_vma (vmm_free_user_ptes P vm1))

/-- Function `loader_install_ranges`, for a file whose header the support
library accepted and decoded as `se_hdr`. -/
def loader_install_ranges (P : Platform) (k : Kernel) (vm : task_vm) (se_hdr : simple_elf_t) :
    Option (KERN_RET_CODE × Kernel × task_vm) :=
  let fail (ret : KERN_RET_CODE) (heap : List (Option Nat)) (vm : task_vm) :
      Option (KERN_RET_CODE × Kernel × task_vm) :=
    match loader_err P { k with heap := heap } vm with
    | none => none
    | some (k1, vm1) => some (ret, k1, vm1)
  match loader_install_one P k.heap vm se_hdr.e_txtstart se_hdr.e_txtlen with
  | none => none
  | some (ret, heap1, vm1, r1) =>
    if ret ≠ KERN_SUCCESS then fail ret heap1 vm1
    else
      let vm1 := { vm1 with vm_text_start := r1.start, vm_text_len := r1.len }
      match loader_install_one P heap1 vm1 se_hdr.e_rodatstart se_hdr.e_rodatlen with
      | none => none
      | some (ret, heap2, vm2, r2) =>
        if ret ≠ KERN_SUCCESS then fail ret heap2 vm2
        else
          let vm2 := { vm2 with vm_rdata_start := r2.start, vm_rdata_len := r2.len }
          match loader_install_one P heap2 vm2 se_hdr.e_datstart
              ((se_hdr.e_datlen + se_hdr.e_bsslen) % WORD) with
          | none => none
          | some (ret, heap3, vm3, r3) =>
            if ret ≠ KERN_SUCCESS then fail ret heap3 vm3
            else
              let vm3 := { vm3 with vm_data_start := r3.start, vm_data_len := r3.len }
              match loader_install_one P heap3 vm3 0xffffa000 (KTHREAD_USTACK_PAGES * PAGE_SIZE) with
              | none => none
              | some (ret, heap4, vm4, r4) =>
                if ret ≠ KERN_SUCCESS then fail ret heap4 vm4
                else
                  let vm4 := { vm4 with vm_stack_start := r4.start, vm_stack_len := r4.len }
                  match vmm_back_all_user_ranges P k.kernel_vmm vm4 with
                  | none => none
                  | some (ret, kv1, vm5) =>
                    if ret ≠ KERN_SUCCESS then
                      match loader_err P { k with heap := heap4, kernel_vmm := kv1 } vm5 with
                      | none => none
                      | some (k1, vm6) => some (ret, k1, vm6)
                    else some (KERN_SUCCESS, { k with heap := heap4, kernel_vmm := kv1 }, vm5)

/-- A store of the kernel to a user address: the byte lands in the frame that
the entry of the page names. -/
def user_store (vm : task_vm) (phys : Nat → Nat → Nat) (address byte : Nat) : Nat → Nat → Nat :=
  upd phys (vm.pte (VPN address)).ADDRESS
    (upd (phys (vm.pte (VPN address)).ADDRESS) (address % PAGE_SIZE) byte)

/-- The copy of `getbytes`: `size` bytes of the file, from `offset` on, to the
user addresses from `buf` on; `file` gives the bytes of the RAM-disk image. -/
def getbytes (vm : task_vm) (file : Nat → Nat) (offset buf : Nat) : Nat → (Nat → Nat → Nat) →
    Nat → Nat → Nat
  | 0, phys => phys
  | size + 1, phys =>
    user_store vm (getbytes vm file offset buf size phys) ((buf + size) % WORD) (file (offset + size))

/-- The call `memset(buf, 0, size)` on user addresses. -/
def user_memset_zero (vm : task_vm) (buf : Nat) : Nat → (Nat → Nat → Nat) → Nat → Nat → Nat
  | 0, phys => phys
  | size + 1, phys => user_store vm (user_memset_zero vm buf size phys) ((buf + size) % WORD) 0

/-- Function `load_elf` for the current task `task`, for a file whose header
the support library accepted and decoded as `se_hdr` and whose bytes are
`file`.  When `vmm_copy_vmranges_struct` fails, the source frees the
page-table pages that the current page directory already uses; the model
gives no result (`none`) there. -/
def load_elf (P : Platform) (k : Kernel) (task : ktask) (se_hdr : simple_elf_t) (file : Nat → Nat) :
    Option (KERN_RET_CODE × Kernel × ktask) :=
  match vmm_init_task_vm P k.heap none with
  | none => none
  | some (ret, heap1, _, created) =>
    match created with
    | none => some (ret, { k with heap := heap1 }, task)
    | some vm_task =>
      match loader_install_ranges P { k with heap := heap1 } vm_task.vm se_hdr with
      | none => none
      | some (ret, k1, vm_new) =>
        if ret ≠ KERN_SUCCESS then
          match loader_err P k1 vm_new with
          | none => none
          | some (k2, _) => some (ret, k2, task)
        else
          match vmm_unback_all_user_ranges P k1.kernel_vmm task.vm with
          | none => none
          | some (kv2, vm_old) =>
            let vm_cur := vmm_copy_user_ptes P (vmm_free_all_vma (vmm_free_user_ptes P vm_old)) vm_new
            let phys1 := getbytes vm_cur file se_hdr.e_txtoff se_hdr.e_txtstart se_hdr.e_txtlen k1.phys
            let phys2 := getbytes vm_cur file se_hdr.e_datoff se_hdr.e_datstart se_hdr.e_datlen phys1
            let phys3 := user_memset_zero vm_cur ((se_hdr.e_datstart + se_hdr.e_datlen) % WORD)
              se_hdr.e_bsslen phys2
            let phys4 := getbytes vm_cur file se_hdr.e_rodatoff se_hdr.e_rodatstart
              se_hdr.e_rodatlen phys3
            match vmm_set_range_attr vm_cur
                { start := se_hdr.e_txtstart, len := se_hdr.e_txtlen, kernel := false }
                attr_user_ro with
            | none => none
            | some vm_cur1 =>
              match vmm_set_range_attr vm_cur1
                  { start := se_hdr.e_rodatstart, len := se_hdr.e_rodatlen, kernel := false }
                  attr_user_ro with
              | none => none
              | some vm_cur2 =>
                match vmm_copy_vmranges_struct k1.heap vm_cur2 vm_new with
                | (ret, heap2, vm_cur3) =>
                  let k3 : Kernel := { k1 with heap := heap2, kernel_vmm := kv2, phys := phys4 }
                  if ret ≠ KERN_SUCCESS then none
                  else some (KERN_SUCCESS, k3, { task with vm := vm_cur3 })

/-! ## Several address spaces -/

/-- The tasks of the machine with the running thread. -/
structure System where
  kernel : Kernel
  /-- The tasks, by the address of their block. -/
  tasks : Nat → Option ktask
  /-- The task `CURRENT_THREAD->pTask`. -/
  current_task : Nat
  /-- The thread `CURRENT_THREAD`. -/
  current_thread : Nat

/-- A page fault of the running thread: `page_fault_handler` works on the
record of the current task.  The Boolean tells whether the thread was killed. -/
def System.page_fault (P : Platform) (s : System) (reason : PTE) (linear_address : Nat) :
    Option (Bool × System) :=
  match s.tasks s.current_task with
  | none => none
  | some t =>
    match page_fault_handler P s.kernel t s.current_thread reason linear_address with
    | none => none
    | some o =>
      some (o.killed, { s with kernel := o.kernel, tasks := upd s.tasks s.current_task (some o.task) })

/-! ## A concrete machine

A machine with 16 MiB of kernel window and 64 user frames, and a program with
one page each of text, read-only data and data, loaded by `load_elf` into a
task that `vmm_init_task_vm` created. -/

/-- The usual value of `USER_MEM_START`. -/
def demo_platform : Platform := { USER_MEM_START := 0x01000000 }

/-- A kernel with `frames` user frames, all free, and a heap that serves the
next 24 requests. -/
def demo_kernel (frames : Nat) : Kernel :=
  { kernel_vmm := { m_pages := fun _ => 0, nr_physical_pages := 4097 + frames }
    heap := (List.range 24).map (fun i => some (0x200000 + i * 0x10000))
    copy_area := 0x100000
    phys := fun _ _ => 0 }

/-- Header of the program: text at `0x01000000`, read-only data at
`0x01001000`, data and bss at `0x01002000`. -/
def demo_header : simple_elf_t :=
  { e_entry := 0x01000000, e_txtoff := 0, e_txtlen := 0x1000, e_txtstart := 0x01000000,
    e_datoff := 0x2000, e_datlen := 0x10, e_datstart := 0x01002000,
    e_rodatoff := 0x1000, e_rodatlen := 0x10, e_rodatstart := 0x01001000, e_bsslen := 0x10 }

/-- The task after `load_elf`, on a machine with `frames` user frames. -/
def demo_exec (frames : Nat) : Option (Kernel × ktask) :=
  match vmm_init_task_vm demo_platform (demo_kernel frames).heap none with
  | some (_, heap1, _, some t) =>
    match load_elf demo_platform { demo_kernel frames with heap := heap1 } t demo_header
        (fun _ => 0xAA) with
    | some (_, k1, t1) => some (k1, t1)
    | none => none
  | _ => none

/-- The kernel and the task after `load_elf` on the machine with 64 user
frames. -/
def demo_state : Kernel × ktask := (demo_exec 64).get (by decide)

/-- Error code of a user-mode write to a present page. -/
def error_write_present : PTE := { PTE.zero with PRESENT := true, RW := true, US := true }

/-- Error code of a user-mode write to a page that is not present. -/
def error_write_absent : PTE := { PTE.zero with PRESENT := false, RW := true, US := true }

/-- The list of the reference counts of frames `4097 .. 4097 + n - 1`. -/
def refcounts (k : Kernel) (n : Nat) : List Int :=
  (List.range n).map (fun i => k.kernel_vmm.m_pages (4097 + i))

/-- Start and length of the nodes of the range queue of a task. -/
def range_list (t : ktask) : List (Nat × Nat) :=
  t.vm.vm_ranges_head.map (fun r => (r.start, r.len))

/-- The task after `load_elf` forks, on a machine with `frames` user frames. -/
def demo_fork (frames : Nat) : Option ForkResult :=
  (demo_exec frames).bind (fun s => syscall_fork demo_platform s.1 s.2 PTE.zero)

/-- After the fork, the parent writes to its data page at `0x01002000`. -/
def demo_cow (frames : Nat) : Option FaultOutcome :=
  (demo_fork frames).bind (fun f =>
    page_fault_handler demo_platform f.kernel f.parent f.parent.vm.taskmem error_write_present
      0x01002000)

/-- The task after `load_elf` touches the byte below its stack, `0xffff9fff`. -/
def demo_grow : Option FaultOutcome :=
  (demo_exec 64).bind (fun s =>
    page_fault_handler demo_platform s.1 s.2 s.2.vm.taskmem error_write_absent 0xffff9fff)

/-- The task after `load_elf` calls `new_pages(base, len)`. -/
def demo_new_pages (base : Nat) (len : Int) : Option (KERN_RET_CODE × Kernel × ktask) :=
  (demo_exec 64).bind (fun s => new_pages demo_platform s.1 s.2 base len PTE.zero)

/-- The task after `load_elf` calls `remove_pages(base)`, then
`new_pages(base, len)`. -/
def demo_remove_new (base : Nat) (len : Int) : Option (KERN_RET_CODE × Kernel × ktask) :=
  (demo_exec 64).bind (fun s =>
    (remove_pages demo_platform s.1 s.2 base).bind (fun o =>
      if o.1 = KERN_SUCCESS then new_pages demo_platform o.2.1 o.2.2 base len PTE.zero else none))

/-- The task after `load_elf` calls `new_pages(base, len)`, then
`remove_pages(base)`; the result is that of `remove_pages`. -/
def demo_new_remove (base : Nat) (len : Int) : Option (KERN_RET_CODE × Kernel × ktask) :=
  (demo_new_pages base len).bind (fun o =>
    if o.1 = KERN_SUCCESS then remove_pages demo_platform o.2.1 o.2.2 base else none)

/-- The machine after the fork on the machine with 64 user frames. -/
def demo_forked : ForkResult := (demo_fork 64).get (by decide)

/-- The machine after the fork, with the parent running and the child, if
any, in the task table. -/
def demo_system : System :=
  { kernel := demo_forked.kernel
    tasks := fun i =>
      if i = demo_forked.parent.vm.taskmem then some demo_forked.parent
      else
        match demo_forked.child with
        | some c => if i = c.vm.taskmem then some c else none
        | none => none
    current_task := demo_forked.parent.vm.taskmem
    current_thread := demo_forked.parent.vm.taskmem }

/-- The task after `load_elf` calls `remove_pages` on its text range, asks
for the same page with `new_pages`, and writes to it. -/
def demo_text_store : Option FaultOutcome :=
  (demo_remove_new 0x01000000 0x1000).bind (fun o =>
    if o.1 = KERN_SUCCESS then
      page_fault_handler demo_platform o.2.1 o.2.2 o.2.2.vm.taskmem error_write_absent 0x01000000
    else none)

/-- A task with one data page at `0x01002000`, mapped read-only to frame 4099;
every directory slot is present. -/
def shared_task : ktask :=
  { vm :=
      { vm_ranges_head :=
          [{ start := 0x01002000, len := 0x1000, kernel := false },
           { start := 0, len := 0x01000000, kernel := true }]
        vm_text_start := 0, vm_text_len := 0, vm_data_start := 0x01002000, vm_data_len := 0x1000
        vm_rdata_start := 0, vm_rdata_len := 0, vm_stack_start := 0, vm_stack_len := 0
        pde := fun _ => attr_user_rw
        pte := fun v => if v = VPN 0x01002000 then { attr_user_ro with ADDRESS := 4099 } else PTE.zero
        taskmem := 0x200000 }
    ktask_threads_head := [0x200000]
    ktask_task_head := []
    run_flag := fun _ => 0
    state := 0
    status := 0
    allocated_pages_mem := 0 }

/-- A machine where `shared_task` runs and frame 4099 has two references. -/
def shared_system : System :=
  { kernel :=
      { kernel_vmm := { m_pages := fun i => if i = 4099 then 2 else 0, nr_physical_pages := 4161 }
        heap := []
        copy_area := 0x100000
        phys := fun fr _ => if fr = 4099 then 0xAA else 0 }
    tasks := fun i => if i = 0x200000 then some shared_task else none
    current_task := 0x200000
    current_thread := 0x200000 }

/-! ## Predicates used in the statements -/

/-- A range as the address-space code expects it: page-aligned and ending
below the top of the 32-bit address space. -/
def range_wf (r : vm_range) : Prop :=
  r.start % PAGE_SIZE = 0 ∧ r.len % PAGE_SIZE = 0 ∧ r.start + r.len < WORD

/-- In the loop of `syscall_fork`, page `v` is shared: the child has a
page-table page for it, the entries of child and parent are equal, and they
carry the attributes `attrs`. -/
def fork_shared (attrs : PTE) (s : ForkState) (v : Nat) : Prop :=
  (s.child.pde (v / PTE_PER_PAGE)).PRESENT = true ∧ s.child.pte v = s.parent.pte v ∧
    s.parent.pte v = set_attr attrs (s.parent.pte v)

/-! ## Queues (`variable_queue.h`)

The queue macros work on two kinds of memory cells: the head of a queue
(`Q_NEW_HEAD`) and the link that an element carries for one link name
(`Q_NEW_LINK`).  The cells that belong to one link name are kept together,
each kind indexed by the address of the object that holds it.  Pointers are
addresses; `NULL` is address 0. -/

/-- A queue head, `Q_NEW_HEAD`. -/
structure Q_HEAD where
  nr_elements : Nat
  next : Nat
  prev : Nat
deriving DecidableEq, Repr

/-- A link, `Q_NEW_LINK`. -/
structure Q_LINK where
  next : Nat
  prev : Nat
deriving DecidableEq, Repr

/-- The memory cells of the queues that one link name organises. -/
structure Q_MEM where
  /-- Queue heads, by the address of the head. -/
  head : Nat → Q_HEAD
  /-- Links, by the address of the element. -/
  link : Nat → Q_LINK

/-- Macro `Q_HEAD_EMPTY`. -/
def Q_HEAD_EMPTY (q : Q_MEM) (head : Nat) : Bool :=
  decide ((q.head head).next = (q.head head).prev) && decide ((q.head head).next = head)

/-- Macro `Q_ELEM_STAND_ALONE`. -/
def Q_ELEM_STAND_ALONE (q : Q_MEM) (elem : Nat) : Bool :=
  decide ((q.link elem).next = (q.link elem).prev) && decide ((q.link elem).next = elem)

/-- Macro `Q_INIT_HEAD`. -/
def Q_INIT_HEAD (q : Q_MEM) (head : Nat) : Q_MEM :=
  { q with head := upd q.head head { nr_elements := 0, next := head, prev := head } }

/-- Macro `Q_INIT_ELEM`. -/
def Q_INIT_ELEM (q : Q_MEM) (elem : Nat) : Q_MEM :=
  { q with link := upd q.link elem { next := elem, prev := elem } }

/-- Macro `Q_INSERT_FRONT`. -/
def Q_INSERT_FRONT (q : Q_MEM) (head elem : Nat) : Q_MEM :=
  let pElemNext := (q.head head).next
  let pElemPrev := head
  let q1 : Q_MEM := { q with link := upd q.link elem { next := pElemNext, prev := pElemPrev } }
  let q2 : Q_MEM :=
    if pElemPrev = head then { q1 with head := upd q1.head head { q1.head head with next := elem } }
    else { q1 with link := upd q1.link pElemPrev { q1.link pElemPrev with next := elem } }
  let q3 : Q_MEM :=
    if pElemNext = head then { q2 with head := upd q2.head head { q2.head head with prev := elem } }
    else { q2 with link := upd q2.link pElemNext { q2.link pElemNext with prev := elem } }
  { q3 with
    head := upd q3.head head
      { q3.head head with nr_elements := ((q3.head head).nr_elements + 1) % WORD } }

/-- Macro `Q_INSERT_TAIL`. -/
def Q_INSERT_TAIL (q : Q_MEM) (head elem : Nat) : Q_MEM :=
  let pElemNext := head
  let pElemPrev := (q.head head).prev
  let q1 : Q_MEM := { q with link := upd q.link elem { next := pElemNext, prev := pElemPrev } }
  let q2 : Q_MEM :=
    if pElemPrev = head then { q1 with head := upd q1.head head { q1.head head with next := elem } }
    else { q1 with link := upd q1.link pElemPrev { q1.link pElemPrev with next := elem } }
  let q3 : Q_MEM :=
    if pElemNext = head then { q2 with head := upd q2.head head { q2.head head with prev := elem } }
    else { q2 with link := upd q2.link pElemNext { q2.link pElemNext with prev := elem } }
  { q3 with
    head := upd q3.head head
      { q3.head head with nr_elements := ((q3.head head).nr_elements + 1) % WORD } }

/-- Macro `Q_GET_FRONT`: the first element, or `NULL` (0) for an empty queue. -/
def Q_GET_FRONT (q : Q_MEM) (head : Nat) : Nat :=
  if Q_HEAD_EMPTY q head then 0 else (q.head head).next

/-- Macro `Q_REMOVE`; `none` when the assertion `!Q_HEAD_EMPTY(Q_HEAD)` fails. -/
def Q_REMOVE (q : Q_MEM) (head elem : Nat) : Option Q_MEM :=
  if Q_ELEM_STAND_ALONE q elem then some q
  else if Q_HEAD_EMPTY q head then none
  else
    let q1 : Q_MEM :=
      if (q.link elem).prev = head then
        { q with
          head := upd q.head head { q.head head with next := (q.link (q.head head).next).next } }
      else
        let p := (q.link elem).prev
        { q with link := upd q.link p { q.link p with next := (q.link (q.link p).next).next } }
    let q2 : Q_MEM :=
      if (q1.link elem).next = head then
        { q1 with
          head := upd q1.head head
            { q1.head head with prev := (q1.link (q1.head head).prev).prev } }
      else
        let n := (q1.link elem).next
        { q1 with link := upd q1.link n { q1.link n with prev := (q1.link (q1.link n).prev).prev } }
    let q3 := Q_INIT_ELEM q2 elem
    some { q3 with
      head := upd q3.head head
        { q3.head head with nr_elements := ((q3.head head).nr_elements + WORD - 1) % WORD } }

/-! ## Threads, tasks and the scheduler (`task.h`, `sched.c`, `sync.c`) -/

/-- Addresses of the global objects of the kernel image. -/
structure Symbols where
  /-- Address of `kern_scheduler.run_queue`. -/
  run_queue : Nat
  /-- Address of `kern_slackers_kthread_head`. -/
  kern_slackers_kthread_head : Nat

/-- `KERN_ERROR_INVALID_SYSCALL` of `kern_err.h`. -/
def KERN_ERROR_INVALID_SYSCALL : KERN_RET_CODE := -6

/-- `KERN_ERROR_TASK_NOT_FOUND` of `kern_err.h`. -/
def KERN_ERROR_TASK_NOT_FOUND : KERN_RET_CODE := -10

/-- Address of the member `ktask_threads_head` of the task at `pTask`.  The
offsets follow the layout of `struct ktask` with 4-byte words and pointers:
`initial_thread` (40 bytes), `vm` (72 bytes), `ktask_threads_head` (12),
`fork_lock` (16, the count first; the spinlock is empty), `ktask_task_head`
(12), `ktask_next` (8), `parentTask` (4), `vultures` (16). -/
def ktask_threads_head_at (pTask : Nat) : Nat := pTask + 112

/-- Address of the member `fork_lock` of the task at `pTask`. -/
def fork_lock_at (pTask : Nat) : Nat := pTask + 124

/-- Address of the member `ktask_task_head` of the task at `pTask`. -/
def ktask_task_head_at (pTask : Nat) : Nat := pTask + 140

/-- Address of the member `vultures` of the task at `pTask`. -/
def vultures_at (pTask : Nat) : Nat := pTask + 164

/-- Address of the member `sem_kthread_head` of the semaphore at `psemaphore`. -/
def sem_kthread_head_at (psemaphore : Nat) : Nat := psemaphore + 4

/-- The scalar members of `struct kthread`. -/
structure kthread where
  pTask : Nat
  state : Nat
  sleepticks : Int
  run_flag : Int
deriving DecidableEq, Repr

/-- `kthread_runnable` of `enum _kthread_state`. -/
def kthread_runnable : Nat := 0

/-- The kernel state that the thread, semaphore and scheduler code works on.
Members of structures are tables indexed by the address of the structure. -/
structure Machine where
  /-- Link `kthread_next`: the thread queues `ktask_threads_head` of the tasks. -/
  kthread_next : Q_MEM
  /-- Link `kthread_wait`: the run queue, the sleepers queue and the queues
  of the semaphores. -/
  kthread_wait : Q_MEM
  /-- Link `ktask_next`: the children queues `ktask_task_head` of the tasks. -/
  ktask_next : Q_MEM
  /-- The threads, by address. -/
  threads : Nat → kthread
  /-- Member `count` of the semaphores, by the address of the semaphore. -/
  count : Nat → Int
  /-- Member `parentTask` of the tasks. -/
  parentTask : Nat → Nat
  /-- Member `state` of the tasks. -/
  state : Nat → Nat
  /-- Member `status` of the tasks. -/
  status : Nat → Int
  /-- Member `vm` of the tasks. -/
  vm : Nat → task_vm
  /-- The frame allocator. -/
  kernel_vmm : kern_vmm
  /-- User memory as the kernel reads and writes it: task, address, 32-bit
  word stored at the address. -/
  user_mem : Nat → Nat → Nat
  /-- The running thread, `CURRENT_THREAD`. -/
  current : Nat
  /-- The global `idle_task`. -/
  idle_task : Nat
  /-- The interrupt-enable flag of `eflags`. -/
  IF : Bool
  /-- The interrupt flag that a thread gets when it is switched to: the local
  `savedflags` of its suspended call of `schedule`. -/
  savedflags : Nat → Bool
  /-- The counter `timer_driver_state.ticks`. -/
  ticks : Nat

/-- Arithmetic on a C `int`: the result wraps to 32 bits. -/
def wrap_int (i : Int) : Int := to_i32 (to_u32 i)

/-- Function `get_idle_thread`: the initial thread is the first member of the task. -/
def get_idle_thread (s : Machine) : Nat := s.idle_task

/-- Functions `disable_preemption` and `spinlock_ifsave` (uniprocessor
build): the flags are saved and interrupts are disabled. -/
def spinlock_ifsave (s : Machine) : Bool × Machine := (s.IF, { s with IF := false })

/-- Functions `enable_preemption` and `spinlock_ifrestore`: the saved flags
are written back. -/
def spinlock_ifrestore (savedflags : Bool) (s : Machine) : Machine := { s with IF := savedflags }

/-- Function `spinlock_unlock`: interrupts are enabled. -/
def spinlock_unlock (s : Machine) : Machine := { s with IF := true }

/-- Function `scheduler_add`. -/
def scheduler_add (G : Symbols) (thread : Nat) (s : Machine) : Machine :=
  let saved := spinlock_ifsave s
  let s1 : Machine :=
    { saved.2 with kthread_wait := Q_INSERT_TAIL saved.2.kthread_wait G.run_queue thread }
  spinlock_ifrestore saved.1 s1

/-- Function `scheduler_remove`. -/
def scheduler_remove (G : Symbols) (thread : Nat) (s : Machine) : Option Machine :=
  let saved := spinlock_ifsave s
  match Q_REMOVE saved.2.kthread_wait G.run_queue thread with
  | none => none
  | some q => some (spinlock_ifrestore saved.1 { saved.2 with kthread_wait := q })

/-- Function `schedule` up to the end of `context_switch` followed by the
`enable_preemption` that the thread switched to executes.  The counter `inti`
is used in no test and is left out. -/
def schedule (G : Symbols) (isCurrentRunnable : Bool) (s : Machine) : Option Machine :=
  let thisThread := s.current
  let saved := spinlock_ifsave s
  let front := Q_GET_FRONT saved.2.kthread_wait G.run_queue
  let rotated : Option (Machine × Nat) :=
    if front ≠ 0 ∧ (saved.2.threads front).run_flag < 0 then
      match scheduler_remove G front saved.2 with
      | none => none
      | some s1 => some (scheduler_add G front s1, 0)
    else some (saved.2, front)
  match rotated with
  | none => none
  | some (s1, nextThread0) =>
    let nextThread := if nextThread0 = 0 then get_idle_thread s1 else nextThread0
    if nextThread ≠ thisThread then
      let removed : Option Machine :=
        if nextThread ≠ get_idle_thread s1 then scheduler_remove G nextThread s1 else some s1
      match removed with
      | none => none
      | some s2 =>
        let s3 : Machine :=
          if thisThread ≠ get_idle_thread s2 ∧ isCurrentRunnable = true then
            scheduler_add G thisThread s2
          else s2
        let s4 : Machine :=
          { s3 with savedflags := upd s3.savedflags thisThread saved.1, current := nextThread }
        some (spinlock_ifrestore (s4.savedflags nextThread) s4)
    else some (spinlock_ifrestore saved.1 s1)

/-- Function `sem_wait`.  The Boolean tells whether the calling thread was
switched away from; the call then returns when the thread runs again. -/
def sem_wait (G : Symbols) (psemaphore : Nat) (s : Machine) : Option (Bool × Machine) :=
  let thisThread := s.current
  let saved := spinlock_ifsave s
  let s1 : Machine :=
    { saved.2 with count := upd saved.2.count psemaphore (wrap_int (saved.2.count psemaphore - 1)) }
  if s1.count psemaphore ≥ 0 then some (false, spinlock_unlock s1)
  else
    let s2 : Machine :=
      { s1 with
        kthread_wait := Q_INSERT_TAIL s1.kthread_wait (sem_kthread_head_at psemaphore) thisThread }
    match schedule G false (spinlock_ifrestore saved.1 s2) with
    | none => none
    | some s3 => some (decide (s3.current ≠ thisThread), s3)

/-- Function `sem_signal`. -/
def sem_signal (G : Symbols) (psemaphore : Nat) (s : Machine) : Option Machine :=
  let saved := spinlock_ifsave s
  let s1 : Machine :=
    { saved.2 with count := upd saved.2.count psemaphore (wrap_int (saved.2.count psemaphore + 1)) }
  if s1.count psemaphore > 0 then some (spinlock_unlock s1)
  else
    let wakeupThread := Q_GET_FRONT s1.kthread_wait (sem_kthread_head_at psemaphore)
    if wakeupThread ≠ 0 then
      match Q_REMOVE s1.kthread_wait (sem_kthread_head_at psemaphore) wakeupThread with
      | none => none
      | some q =>
        some (spinlock_ifrestore saved.1 (scheduler_add G wakeupThread { s1 with kthread_wait := q }))
    else some (spinlock_ifrestore saved.1 s1)

/-- Macro `task_fork_lock`. -/
def task_fork_lock (G : Symbols) (pTask : Nat) (s : Machine) : Option (Bool × Machine) :=
  sem_wait G (fork_lock_at pTask) s

/-- Macro `task_fork_unlock`. -/
def task_fork_unlock (G : Symbols) (pTask : Nat) (s : Machine) : Option Machine :=
  sem_signal G (fork_lock_at pTask) s

/-! ## `sleep` and the timer (`syscall_sleep.c`, `timer_driver.c`) -/

/-- Function `syscall_sleep`.  The result is the state after `schedule`; the
return code is the one that the calling thread gets when it runs again. -/
def syscall_sleep (G : Symbols) (user_param_packet : Nat) (s : Machine) :
    Option (KERN_RET_CODE × Machine) :=
  let ticks := to_i32 user_param_packet
  let s1 : Machine :=
    { s with threads := upd s.threads s.current { s.threads s.current with sleepticks := ticks } }
  let s2 : Machine :=
    { s1 with
      kthread_wait := Q_INSERT_TAIL s1.kthread_wait G.kern_slackers_kthread_head s1.current }
  match schedule G false s2 with
  | none => none
  | some s3 => some (KERN_SUCCESS, s3)

/-- The loop `Q_FOREACH_DEL_SAFE` of `sleep_bottom_half`; `none` when the fuel
runs out or an assertion fails. -/
def sleep_loop (G : Symbols) : Nat → Nat → Nat → Machine → Option Machine
  | 0, _, _, _ => none
  | fuel + 1, threadTrav, threadSaveTrav, s =>
    if threadTrav = G.kern_slackers_kthread_head then some s
    else
      let s1 : Machine :=
        { s with
          threads := upd s.threads threadTrav
            { s.threads threadTrav with
              sleepticks := wrap_int ((s.threads threadTrav).sleepticks - 1) } }
      let woken : Option Machine :=
        if (s1.threads threadTrav).sleepticks ≤ 0 then
          match Q_REMOVE s1.kthread_wait G.kern_slackers_kthread_head threadTrav with
          | none => none
          | some q => some (scheduler_add G threadTrav { s1 with kthread_wait := q })
        else some s1
      match woken with
      | none => none
      | some s2 =>
        sleep_loop G fuel threadSaveTrav (s2.kthread_wait.link threadSaveTrav).next s2

/-- Function `sleep_bottom_half`.  A walk over a well-formed queue takes one
iteration for each element and a last test. -/
def sleep_bottom_half (G : Symbols) (s : Machine) : Option Machine :=
  let head := G.kern_slackers_kthread_head
  let first := (s.kthread_wait.head head).next
  sleep_loop G ((s.kthread_wait.head head).nr_elements + 1) first
    (s.kthread_wait.link first).next s

/-- Function `scheduler_timer_callback`: `TIME_QUANTUM` is 1, so every call
reaches `schedule`. -/
def scheduler_timer_callback (G : Symbols) (s : Machine) : Option Machine :=
  schedule G true s

/-- Function `_BASE_TIMER_CALL_BACK` with the callback that
`task_run_idle_loop` installs before it enables interrupts. -/
def _BASE_TIMER_CALL_BACK (G : Symbols) (s : Machine) : Option Machine :=
  let s1 : Machine := { s with ticks := (s.ticks + 1) % WORD }
  match sleep_bottom_half G s1 with
  | none => none
  | some s2 => scheduler_timer_callback G s2

/-- Macro `GET_NTH_PARAM_FROM_PACKET`. -/
def GET_NTH_PARAM_FROM_PACKET (user_param_packet n : Nat) : Nat :=
  (user_param_packet + 4 * n) % WORD

/-- The task of the running thread, `CURRENT_THREAD->pTask`. -/
def current_task (s : Machine) : Nat := (s.threads s.current).pTask

/-- A read of a word of the argument packet through a user pointer. -/
def packet_word (s : Machine) (user_param_packet n : Nat) : Nat :=
  s.user_mem (current_task s) (GET_NTH_PARAM_FROM_PACKET user_param_packet n)

/-- The loop of `tid_checker`: a walk over the whole thread queue of the task. -/
def tid_checker_loop (q : Q_MEM) (head tid : Nat) : Nat → Nat → KERN_RET_CODE →
    Option KERN_RET_CODE
  | 0, _, _ => none
  | fuel + 1, thread, ret =>
    if thread = head then some ret
    else
      tid_checker_loop q head tid fuel (q.link thread).next
        (if thread = tid then KERN_SUCCESS else ret)

/-- Function `tid_checker`. -/
def tid_checker (s : Machine) (tid : Nat) : Option KERN_RET_CODE :=
  let pTask := (s.threads tid).pTask
  let head := ktask_threads_head_at pTask
  tid_checker_loop s.kthread_next head tid ((s.kthread_next.head head).nr_elements + 1)
    (s.kthread_next.head head).next KERN_ERROR_GENERIC

/-- Function `syscall_noargs_check`. -/
def syscall_noargs_check : KERN_RET_CODE := KERN_SUCCESS

/-- Function `syscall_singleargs_check`. -/
def syscall_singleargs_check : KERN_RET_CODE := KERN_SUCCESS

/-- Function `syscall_settermcolor_check`: `color >> VALID_COLOR_BITS` on an `int`. -/
def syscall_settermcolor_check (user_param_packet : Nat) : KERN_RET_CODE :=
  if Int.fdiv (to_i32 user_param_packet) 128 ≠ 0 then KERN_ERROR_INVALID_SYSCALL else KERN_SUCCESS

/-- Function `syscall_readline_check`. -/
def syscall_readline_check (s : Machine) (user_param_packet : Nat) : Option KERN_RET_CODE :=
  let len := to_i32 (packet_word s user_param_packet 0)
  let buf := packet_word s user_param_packet 1
  match vmm_is_range_present (s.vm (current_task s)) buf len with
  | none => none
  | some ret => if KERN_SUCCESS ≠ ret then some KERN_ERROR_INVALID_SYSCALL else some ret

/-- Function `syscall_print_check`. -/
def syscall_print_check (s : Machine) (user_param_packet : Nat) : Option KERN_RET_CODE :=
  let len := to_i32 (packet_word s user_param_packet 0)
  let buf := packet_word s user_param_packet 1
  match vmm_is_range_present (s.vm (current_task s)) buf len with
  | none => none
  | some ret => if KERN_SUCCESS ≠ ret then some KERN_ERROR_INVALID_SYSCALL else some KERN_SUCCESS

/-- Function `syscall_setcursorpos_check`. -/
def syscall_setcursorpos_check : KERN_RET_CODE := KERN_SUCCESS

/-- Function `syscall_getcursorpos_check`. -/
def syscall_getcursorpos_check (s : Machine) (user_param_packet : Nat) : Option KERN_RET_CODE :=
  let rowp := packet_word s user_param_packet 0
  let colp := packet_word s user_param_packet 1
  match vmm_is_range_present (s.vm (current_task s)) rowp 4 with
  | none => none
  | some ret =>
    if KERN_SUCCESS ≠ ret then some KERN_ERR_BAD_SYS_PARAM
    else
      match vmm_is_range_present (s.vm (current_task s)) colp 4 with
      | none => none
      | some ret => if KERN_SUCCESS ≠ ret then some KERN_ERR_BAD_SYS_PARAM else some ret

/-- Function `syscall_cas2i_check`. -/
def syscall_cas2i_check (s : Machine) (user_param_packet : Nat) : Option KERN_RET_CODE :=
  let tid := packet_word s user_param_packet 0
  let oldp := packet_word s user_param_packet 1
  match vmm_is_range_present (s.vm (current_task s)) oldp 4 with
  | none => none
  | some ret =>
    if KERN_SUCCESS ≠ ret then some KERN_ERR_BAD_SYS_PARAM
    else
      match tid_checker s tid with
      | none => none
      | some ret => if KERN_SUCCESS ≠ ret then some KERN_ERR_BAD_SYS_PARAM else some ret

/-- Function `syscall_newpages_check` on the argument packet. -/
def syscall_newpages_packet_check (P : Platform) (s : Machine) (user_param_packet : Nat) :
    KERN_RET_CODE :=
  syscall_newpages_check P (packet_word s user_param_packet 0)
    (to_i32 (packet_word s user_param_packet 1))

/-- Function `syscall_removepages_check` on the argument packet. -/
def syscall_removepages_packet_check (s : Machine) (user_param_packet : Nat) :
    Option KERN_RET_CODE :=
  match vmm_is_range_present (s.vm (current_task s))
      (GET_NTH_PARAM_FROM_PACKET user_param_packet 0) (PAGE_SIZE : Int) with
  | none => none
  | some ret => if KERN_SUCCESS ≠ ret then some KERN_ERR_BAD_SYS_PARAM else some ret

/-- Function `syscall_exec_check`. -/
def syscall_exec_check : KERN_RET_CODE := KERN_SUCCESS

/-- Function `syscall_ls_check`. -/
def syscall_ls_check (s : Machine) (user_param_packet : Nat) : Option KERN_RET_CODE :=
  let len := to_i32 (packet_word s user_param_packet 0)
  let buf := packet_word s user_param_packet 1
  match vmm_is_range_present (s.vm (current_task s)) buf len with
  | none => none
  | some ret => if KERN_SUCCESS ≠ ret then some KERN_ERR_BAD_SYS_PARAM else some KERN_SUCCESS

/-- Function `syscall_wait_check`: the packet address is the pointer `status`. -/
def syscall_wait_check (s : Machine) (user_param_packet : Nat) : Option KERN_RET_CODE :=
  let status := GET_NTH_PARAM_FROM_PACKET user_param_packet 0
  match vmm_is_range_present (s.vm (current_task s)) status 4 with
  | none => none
  | some ret => if KERN_SUCCESS ≠ ret then some KERN_ERR_BAD_SYS_PARAM else some KERN_SUCCESS

/-- Function `syscall_yield_check`: the packet address is the thread identifier. -/
def syscall_yield_check (s : Machine) (user_param_packet : Nat) : Option KERN_RET_CODE :=
  let tid := GET_NTH_PARAM_FROM_PACKET user_param_packet 0
  if to_i32 tid = -1 then some KERN_SUCCESS else tid_checker s tid

/-- Function `syscall_unimpl`. -/
def syscall_unimpl : KERN_RET_CODE := KERN_ERROR_UNIMPLEMENTED

/-- Number of entries of `sys_call_table`. -/
def TOTAL_SYSTEM_CALLS : Nat := 24

/-- Indices of `sys_call_table`. -/
def WAIT_IDX : Nat := 3
def READLINE_IDX : Nat := 10
def PRINT_IDX : Nat := 11
def GET_CURSOR_POS_IDX : Nat := 14
def LS_IDX : Nat := 19
def CAS2I_RUNFLAG_IDX : Nat := 23

/-- Member `fn_address_param_check` of the entries of `sys_call_table`, in
the order of the table. -/
def fn_address_param_check (P : Platform) (system_call_idx : Nat) (s : Machine)
    (user_param_packet : Nat) : Option KERN_RET_CODE :=
  match system_call_idx with
  | 0 => some syscall_unimpl
  | 1 => some syscall_noargs_check
  | 2 => some syscall_exec_check
  | 3 => syscall_wait_check s user_param_packet
  | 4 => syscall_yield_check s user_param_packet
  | 5 => some syscall_noargs_check
  | 6 => some (syscall_newpages_packet_check P s user_param_packet)
  | 7 => syscall_removepages_packet_check s user_param_packet
  | 8 => some syscall_singleargs_check
  | 9 => some syscall_noargs_check
  | 10 => syscall_readline_check s user_param_packet
  | 11 => syscall_print_check s user_param_packet
  | 12 => some (syscall_settermcolor_check user_param_packet)
  | 13 => some syscall_setcursorpos_check
  | 14 => syscall_getcursorpos_check s user_param_packet
  | 15 => some syscall_noargs_check
  | 16 => some syscall_noargs_check
  | 17 => some syscall_unimpl
  | 18 => some syscall_noargs_check
  | 19 => syscall_ls_check s user_param_packet
  | 20 => some syscall_noargs_check
  | 21 => some syscall_singleargs_check
  | 22 => some syscall_noargs_check
  | 23 => syscall_cas2i_check s user_param_packet
  | _ => none

/-- Function `syscall_enter`.  The handlers, member `fn_address` of the
entries of `sys_call_table`, are the argument `fn_address`. -/
def syscall_enter (P : Platform)
    (fn_address : Nat → Nat → Machine → Option (KERN_RET_CODE × Machine))
    (system_call_idx : Int) (user_param_packet : Nat) (s : Machine) :
    Option (KERN_RET_CODE × Machine) :=
  if ¬ (system_call_idx ≥ 0 ∧ system_call_idx < (TOTAL_SYSTEM_CALLS : Int)) then
    some (KERN_ERROR_INVALID_SYSCALL, s)
  else
    match fn_address_param_check P system_call_idx.toNat s user_param_packet with
    | none => none
    | some ret =>
      if ret ≠ KERN_SUCCESS then some (ret, s)
      else fn_address system_call_idx.toNat user_param_packet s

/-! ## `cas2i_runflag`, `set_status`, `wait`, `vanish`, `task_vanish` -/

/-- Function `syscall_cas2irunflag`.  The result is the state after
`schedule`; the return code is the one that the calling thread gets when it
runs again. -/
def syscall_cas2irunflag (G : Symbols) (user_param_packet : Nat) (s : Machine) :
    Option (KERN_RET_CODE × Machine) :=
  let thisThread := s.current
  let tid := packet_word s user_param_packet 0
  let oldp := packet_word s user_param_packet 1
  let ev1 := to_i32 (packet_word s user_param_packet 2)
  let nv1 := to_i32 (packet_word s user_param_packet 3)
  let ev2 := to_i32 (packet_word s user_param_packet 4)
  let nv2 := to_i32 (packet_word s user_param_packet 5)
  match vmm_is_range_present (s.vm (current_task s)) oldp 4 with
  | none => none
  | some ret =>
    if KERN_SUCCESS ≠ ret then some (KERN_ERROR_GENERIC, s)
    else
      let targetThread := tid
      let saved := spinlock_ifsave s
      let s1 : Machine :=
        { saved.2 with
          user_mem := upd saved.2.user_mem (current_task saved.2)
            (upd (saved.2.user_mem (current_task saved.2)) oldp
              (to_u32 (saved.2.threads targetThread).run_flag)) }
      if to_i32 (s1.user_mem (current_task s1) oldp) = ev1 ∧ nv1 < 0 ∧ targetThread ≠ thisThread then
        some (KERN_ERROR_GENERIC, spinlock_ifrestore saved.1 s1)
      else
        let s2 : Machine :=
          if to_i32 (s1.user_mem (current_task s1) oldp) = ev1 then
            { s1 with
              threads := upd s1.threads targetThread
                { s1.threads targetThread with run_flag := nv1 } }
          else s1
        if to_i32 (s2.user_mem (current_task s2) oldp) = ev2 ∧ nv2 < 0 ∧ targetThread ≠ thisThread then
          some (KERN_ERROR_GENERIC, spinlock_ifrestore saved.1 s2)
        else
          let s3 : Machine :=
            if to_i32 (s2.user_mem (current_task s2) oldp) = ev2 then
              { s2 with
                threads := upd s2.threads targetThread
                  { s2.threads targetThread with run_flag := nv2 } }
            else s2
          match schedule G true (spinlock_ifrestore saved.1 s3) with
          | none => none
          | some s4 => some (KERN_SUCCESS, s4)

/-- Function `syscall_set_status`. -/
def syscall_set_status (user_param_packet : Nat) (s : Machine) : KERN_RET_CODE × Machine :=
  (KERN_SUCCESS, { s with status := upd s.status (current_task s) (to_i32 user_param_packet) })

/-- Function `vmm_free_task_vm` on the address space of the task. -/
def vmm_free_task_vm (P : Platform) (kv : kern_vmm) (vm : task_vm) : Option (kern_vmm × task_vm) :=
  match vmm_unback_all_user_ranges P kv vm with
  | none => none
  | some (kv1, vm1) => some (kv1, vmm_free_all_vma (vmm_free_user_ptes P vm1))

/-- Outcome of a handler that can put the calling thread to sleep half way. -/
inductive Outcome where
  /-- The handler returned this code to the calling thread. -/
  | returned (ret : KERN_RET_CODE) (s : Machine)
  /-- The calling thread was switched away from inside `sem_wait`; it goes
  on at the numbered point when it runs again. -/
  | blocked (point : Nat) (s : Machine)

/-- The loop `Q_FOREACH` of `syscall_wait`: the value of `pTaskTrav` when the
loop ends, by the `break` or at the head. -/
def wait_find (s : Machine) (head : Nat) : Nat → Nat → Option Nat
  | 0, _ => none
  | fuel + 1, pTaskTrav =>
    if pTaskTrav = head then some pTaskTrav
    else if s.state pTaskTrav = TASK_STATUS_ZOMIE then some pTaskTrav
    else wait_find s head fuel (s.ktask_next.link pTaskTrav).next

/-- Function `syscall_wait` from the point where the calling thread holds the
fork lock for the second time. -/
def syscall_wait_3 (P : Platform) (G : Symbols) (user_param_packet : Nat) (s : Machine) :
    Option Outcome :=
  let user_status := GET_NTH_PARAM_FROM_PACKET user_param_packet 0
  let thisTask := current_task s
  let head := ktask_task_head_at thisTask
  match wait_find s head ((s.ktask_next.head head).nr_elements + 1) (s.ktask_next.head head).next with
  | none => none
  | some pTaskTrav =>
    if s.state pTaskTrav ≠ TASK_STATUS_ZOMIE then none
    else
      match Q_REMOVE s.ktask_next head pTaskTrav with
      | none => none
      | some q =>
        let s1 : Machine :=
          { s with
            ktask_next := q
            user_mem := upd s.user_mem thisTask
              (upd (s.user_mem thisTask) user_status (to_u32 (s.status pTaskTrav))) }
        let retval := to_i32 pTaskTrav
        match vmm_free_task_vm P s1.kernel_vmm (s1.vm pTaskTrav) with
        | none => none
        | some (kv, vm) =>
          let s2 : Machine := { s1 with kernel_vmm := kv, vm := upd s1.vm pTaskTrav vm }
          match task_fork_unlock G thisTask s2 with
          | none => none
          | some s3 => some (Outcome.returned retval s3)

/-- Function `syscall_wait` from the return of `sem_wait` on the vultures. -/
def syscall_wait_2 (P : Platform) (G : Symbols) (user_param_packet : Nat) (s : Machine) :
    Option Outcome :=
  match task_fork_lock G (current_task s) s with
  | none => none
  | some (true, s1) => some (Outcome.blocked 3 s1)
  | some (false, s1) => syscall_wait_3 P G user_param_packet s1

/-- Function `syscall_wait` from the point where the calling thread holds the
fork lock for the first time. -/
def syscall_wait_1 (P : Platform) (G : Symbols) (user_param_packet : Nat) (s : Machine) :
    Option Outcome :=
  let thisTask := current_task s
  if (s.ktask_next.head (ktask_task_head_at thisTask)).nr_elements = 0 then
    match task_fork_unlock G thisTask s with
    | none => none
    | some s1 => some (Outcome.returned KERN_ERROR_TASK_NOT_FOUND s1)
  else
    match task_fork_unlock G thisTask s with
    | none => none
    | some s1 =>
      match sem_wait G (vultures_at (current_task s1)) s1 with
      | none => none
      | some (true, s2) => some (Outcome.blocked 2 s2)
      | some (false, s2) => syscall_wait_2 P G user_param_packet s2

/-- Function `syscall_wait` from its entry. -/
def syscall_wait (P : Platform) (G : Symbols) (user_param_packet : Nat) (s : Machine) :
    Option Outcome :=
  match task_fork_lock G (current_task s) s with
  | none => none
  | some (true, s1) => some (Outcome.blocked 1 s1)
  | some (false, s1) => syscall_wait_1 P G user_param_packet s1

/-- Body of the loop `Q_FOREACH` of `syscall_taskvanish`. -/
def taskvanish_body (G : Symbols) (thisTask thread : Nat) (s : Machine) : Option Machine :=
  match Q_REMOVE s.kthread_next (ktask_threads_head_at thisTask) thread with
  | none => none
  | some q =>
    match scheduler_remove G thread { s with kthread_next := q } with
    | none => none
    | some s1 =>
      if (s1.kthread_next.head (ktask_threads_head_at (current_task s1))).nr_elements = 0 then
        let s2 : Machine := { s1 with state := upd s1.state (current_task s1) TASK_STATUS_ZOMIE }
        sem_signal G (vultures_at (s2.parentTask (current_task s2))) s2
      else some s1

/-- The loop `Q_FOREACH` of `syscall_taskvanish`; `none` when the fuel runs
out or an assertion fails. -/
def taskvanish_loop (G : Symbols) (thisTask : Nat) : Nat → Nat → Machine → Option Machine
  | 0, _, _ => none
  | fuel + 1, thread, s =>
    if thread = ktask_threads_head_at thisTask then some s
    else
      match taskvanish_body G thisTask thread s with
      | none => none
      | some s1 => taskvanish_loop G thisTask fuel (s1.kthread_next.link thread).next s1

/-- Function `syscall_taskvanish` from the point where the calling thread
holds the fork lock; the walk over the thread queue has `fuel` tests.  The
call never returns: after `schedule` comes `assert(0)`. -/
def syscall_taskvanish_1 (G : Symbols) (fuel : Nat) (s : Machine) : Option Outcome :=
  let thisTask := current_task s
  match taskvanish_loop G thisTask fuel
      (s.kthread_next.head (ktask_threads_head_at thisTask)).next s with
  | none => none
  | some s1 =>
    match task_fork_unlock G thisTask s1 with
    | none => none
    | some s2 =>
      match schedule G false s2 with
      | none => none
      | some s3 => if s3.current ≠ s2.current then some (Outcome.blocked 2 s3) else none

/-- Function `syscall_taskvanish` from its entry. -/
def syscall_taskvanish (G : Symbols) (fuel : Nat) (s : Machine) : Option Outcome :=
  match task_fork_lock G (current_task s) s with
  | none => none
  | some (true, s1) => some (Outcome.blocked 1 s1)
  | some (false, s1) => syscall_taskvanish_1 G fuel s1

/-- The loop `Q_FOREACH` of `syscall_vanish`, which ends at the `break`. -/
def vanish_loop (G : Symbols) (thisTask : Nat) : Nat → Nat → Machine → Option Machine
  | 0, _, _ => none
  | fuel + 1, thread, s =>
    if thread = ktask_threads_head_at thisTask then some s
    else if thread = s.current then
      match Q_REMOVE s.kthread_next (ktask_threads_head_at thisTask) thread with
      | none => none
      | some q =>
        let s1 : Machine := { s with kthread_next := q }
        if (s1.kthread_next.head (ktask_threads_head_at thisTask)).nr_elements = 0 then
          let s2 : Machine := { s1 with state := upd s1.state thisTask TASK_STATUS_ZOMIE }
          sem_signal G (vultures_at (s2.parentTask thisTask)) s2
        else some s1
    else vanish_loop G thisTask fuel (s.kthread_next.link thread).next s

/-- Function `syscall_vanish` from the point where the calling thread holds
the fork lock.  The call never returns: after `schedule` comes `assert(0)`. -/
def syscall_vanish_1 (G : Symbols) (s : Machine) : Option Outcome :=
  let thisTask := current_task s
  let s1 : Machine :=
    { s with threads := upd s.threads s.current { s.threads s.current with run_flag := -1 } }
  match scheduler_remove G s1.current s1 with
  | none => none
  | some s2 =>
    let head := ktask_threads_head_at thisTask
    match vanish_loop G thisTask ((s2.kthread_next.head head).nr_elements + 1)
        (s2.kthread_next.head head).next s2 with
    | none => none
    | some s3 =>
      match task_fork_unlock G thisTask s3 with
      | none => none
      | some s4 =>
        match schedule G false s4 with
        | none => none
        | some s5 => if s5.current ≠ s4.current then some (Outcome.blocked 2 s5) else none

/-- Function `syscall_vanish` from its entry. -/
def syscall_vanish (G : Symbols) (s : Machine) : Option Outcome :=
  match task_fork_lock G (current_task s) s with
  | none => none
  | some (true, s1) => some (Outcome.blocked 1 s1)
  | some (false, s1) => syscall_vanish_1 G s1

/-! ## Well-formed queues -/

/-- The member `next` of a node of the queue at `head`: of the head itself
or of the link of an element. -/
def Q_next (q : Q_MEM) (head x : Nat) : Nat :=
  if x = head then (q.head head).next else (q.link x).next

/-- The member `prev` of a node of the queue at `head`. -/
def Q_prev (q : Q_MEM) (head x : Nat) : Nat :=
  if x = head then (q.head head).prev else (q.link x).prev

/-- The nodes of `l` follow node `p` one after the other: each `next` points
to the following node and each `prev` to the one before. -/
def Q_seg (q : Q_MEM) (head : Nat) : Nat → List Nat → Prop
  | _, [] => True
  | p, e :: rest => Q_next q head p = e ∧ Q_prev q head e = p ∧ Q_seg q head e rest

instance Q_seg.decidable (q : Q_MEM) (head : Nat) :
    (p : Nat) → (l : List Nat) → Decidable (Q_seg q head p l)
  | _, [] => isTrue trivial
  | p, e :: rest =>
    have := Q_seg.decidable q head e rest
    inferInstanceAs (Decidable (Q_next q head p = e ∧ Q_prev q head e = p ∧ Q_seg q head e rest))

/-- The queue at `head` holds the elements `l`, front first: the pointers go
round from the head through the elements and back, no element occurs twice
or is `NULL`, and `nr_elements` counts them (an `unsigned int`). -/
def is_queue (q : Q_MEM) (head : Nat) (l : List Nat) : Prop :=
  Q_seg q head head (l ++ [head]) ∧ (head :: l).Nodup ∧ 0 ∉ l ∧
    (q.head head).nr_elements = l.length % WORD

instance is_queue.decidable (q : Q_MEM) (head : Nat) (l : List Nat) :
    Decidable (is_queue q head l) :=
  inferInstanceAs (Decidable (Q_seg q head head (l ++ [head]) ∧ (head :: l).Nodup ∧ 0 ∉ l ∧
    (q.head head).nr_elements = l.length % WORD))

/-- Only the heads in `hs` and the links of the elements in `es` differ
between `q` and `q1`. -/
def Q_frame (q q1 : Q_MEM) (hs es : List Nat) : Prop :=
  (∀ h, h ∉ hs → q1.head h = q.head h) ∧ (∀ x, x ∉ es → q1.link x = q.link x)

/-! ## The scheduler in terms of lists -/

/-- The thread that `schedule` switches to when the run queue holds the
threads `l`, front first: the front thread if its `run_flag` is not negative,
else the idle thread. -/
def sched_next (s : Machine) (l : List Nat) : Nat :=
  match l with
  | [] => s.idle_task
  | f :: _ => if (s.threads f).run_flag < 0 then s.idle_task else f

/-- The run queue that `schedule` leaves when it held the threads `l`: a
front thread with a negative `run_flag` has moved to the tail, a front thread
that is switched to has left, and the calling thread has joined the tail when
it is runnable and not the idle thread. -/
def sched_queue (s : Machine) (isCurrentRunnable : Bool) (l : List Nat) : List Nat :=
  let back := if s.current ≠ s.idle_task ∧ isCurrentRunnable = true then [s.current] else []
  match l with
  | [] => back
  | f :: rest => if (s.threads f).run_flag < 0 then rest ++ [f] ++ back else rest ++ back

/-- Consecutive calls of `sem_wait` on one semaphore, each by the thread that
runs at that moment. -/
def sem_wait_n (G : Symbols) (psemaphore : Nat) : Nat → Machine → Option Machine
  | 0, s => some s
  | n + 1, s =>
    match sem_wait G psemaphore s with
    | none => none
    | some r => sem_wait_n G psemaphore n r.2

/-- Consecutive calls of `sem_signal` on one semaphore. -/
def sem_signal_n (G : Symbols) (psemaphore : Nat) : Nat → Machine → Option Machine
  | 0, s => some s
  | n + 1, s =>
    match sem_signal G psemaphore s with
    | none => none
    | some s1 => sem_signal_n G psemaphore n s1

/-! ## Creation of tasks and threads (`vmm_init_task_vm`, `syscall_threadfork`) -/

/-- The assignments of `vmm_init_task_vm` to the initial thread, the queues
and the semaphores of the new task at `newTask`, whose block `memset` has
zeroed; `parentTask` is `NULL` (0) for the idle task. -/
def vmm_init_task_vm_links (parentTask newTask : Nat) (s : Machine) : Machine :=
  let s0 : Machine :=
    { s with
      threads := upd s.threads newTask { pTask := 0, state := 0, sleepticks := 0, run_flag := 0 }
      state := upd s.state newTask 0
      status := upd s.status newTask 0 }
  let s1 : Machine :=
    { s0 with
      count := upd s0.count (vultures_at newTask) 0
      kthread_wait := Q_INIT_HEAD s0.kthread_wait (sem_kthread_head_at (vultures_at newTask)) }
  let s2 : Machine :=
    { s1 with
      kthread_next :=
        Q_INSERT_FRONT
          (Q_INIT_ELEM (Q_INIT_HEAD s1.kthread_next (ktask_threads_head_at newTask)) newTask)
          (ktask_threads_head_at newTask) newTask
      threads := upd s1.threads newTask { s1.threads newTask with pTask := newTask } }
  let s3 : Machine := { s2 with kthread_wait := Q_INIT_ELEM s2.kthread_wait newTask }
  let s4 : Machine :=
    { s3 with
      count := upd s3.count (fork_lock_at newTask) 1
      kthread_wait := Q_INIT_HEAD s3.kthread_wait (sem_kthread_head_at (fork_lock_at newTask))
      ktask_next := Q_INIT_ELEM (Q_INIT_HEAD s3.ktask_next (ktask_task_head_at newTask)) newTask
      parentTask := upd s3.parentTask newTask parentTask }
  if parentTask ≠ 0 then
    { s4 with ktask_next := Q_INSERT_FRONT s4.ktask_next (ktask_task_head_at parentTask) newTask }
  else s4

/-- Function `syscall_threadfork`; `threadmem` is the outcome of `smemalign`.
The new thread starts with the interrupt flag set in its `iret` frame. -/
def syscall_threadfork (G : Symbols) (threadmem : Option Nat) (s : Machine) : Option Outcome :=
  match threadmem with
  | none => some (Outcome.returned KERN_NO_MEM s)
  | some newThread =>
    let thisTask := current_task s
    let s1 : Machine :=
      { s with
        threads := upd s.threads newThread
          { pTask := thisTask, state := 0, sleepticks := 0, run_flag := 0 }
        kthread_next := { s.kthread_next with
          link := upd s.kthread_next.link newThread { next := 0, prev := 0 } }
        kthread_wait := { s.kthread_wait with
          link := upd s.kthread_wait.link newThread { next := 0, prev := 0 } } }
    match task_fork_lock G thisTask s1 with
    | none => none
    | some (true, s2) => some (Outcome.blocked 1 s2)
    | some (false, s2) =>
      let s3 : Machine :=
        { s2 with
          kthread_next :=
            Q_INSERT_FRONT (Q_INIT_ELEM s2.kthread_next newThread)
              (ktask_threads_head_at thisTask) newThread
          savedflags := upd s2.savedflags newThread true }
      match task_fork_unlock G thisTask (scheduler_add G newThread s3) with
      | none => none
      | some s4 => some (Outcome.returned (to_i32 newThread) s4)

/-! ## A concrete machine with several threads -/

/-- Addresses of the global queue heads. -/
def demo_symbols : Symbols := { run_queue := 0x150000, kern_slackers_kthread_head := 0x150100 }

/-- Address of the idle task. -/
def IDLE : Nat := 0x300000

/-- Address of the first user task and of its initial thread. -/
def TASK1 : Nat := 0x302000

/-- Address of the child task of `TASK1` and of its initial thread. -/
def TASK2 : Nat := 0x304000

/-- Addresses of two more threads of `TASK1`. -/
def THREAD_A : Nat := 0x306000
def THREAD_B : Nat := 0x308000

/-- The state after `sleep_init` and `INIT_SCHEDULER`, with no task yet. -/
def boot_machine : Machine :=
  { kthread_next := { head := fun _ => { nr_elements := 0, next := 0, prev := 0 },
                      link := fun _ => { next := 0, prev := 0 } }
    kthread_wait :=
      Q_INIT_HEAD
        (Q_INIT_HEAD { head := fun _ => { nr_elements := 0, next := 0, prev := 0 },
                       link := fun _ => { next := 0, prev := 0 } }
          demo_symbols.kern_slackers_kthread_head)
        demo_symbols.run_queue
    ktask_next := { head := fun _ => { nr_elements := 0, next := 0, prev := 0 },
                    link := fun _ => { next := 0, prev := 0 } }
    threads := fun _ => { pTask := 0, state := 0, sleepticks := 0, run_flag := 0 }
    count := fun _ => 0
    parentTask := fun _ => 0
    state := fun _ => 0
    status := fun _ => 0
    vm := fun _ => demo_state.2.vm
    kernel_vmm := demo_state.1.kernel_vmm
    user_mem := fun _ _ => 0
    current := IDLE
    idle_task := IDLE
    IF := true
    savedflags := fun _ => true
    ticks := 0 }

/-- The state after `task_init`: the idle task runs and the initial thread
of `TASK1` is on the run queue. -/
def init_machine : Machine :=
  scheduler_add demo_symbols TASK1
    (vmm_init_task_vm_links IDLE TASK1 (vmm_init_task_vm_links 0 IDLE boot_machine))

/-- The value of a handler that returned, with the state it left. -/
def Outcome.state : Outcome → Machine
  | Outcome.returned _ s => s
  | Outcome.blocked _ s => s

/-- The idle thread has called `schedule`, the initial thread of `TASK1` has
created the threads `THREAD_A` and `THREAD_B` and the child task `TASK2`,
whose initial thread is on the run queue behind them. -/
def demo_machine_run : Option Machine :=
  (schedule demo_symbols true init_machine).bind (fun s1 =>
    (syscall_threadfork demo_symbols (some THREAD_A) s1).bind (fun o1 =>
      (syscall_threadfork demo_symbols (some THREAD_B) o1.state).bind (fun o2 =>
        some (scheduler_add demo_symbols TASK2 (vmm_init_task_vm_links TASK1 TASK2 o2.state)))))

/-- The machine of `demo_machine_run`. -/
def demo_machine : Machine := demo_machine_run.get (by decide)

/-- The threads on a queue of link `kthread_wait` of at most `n` elements,
front first. -/
def queue_list (q : Q_MEM) (head : Nat) : Nat → Nat → List Nat
  | 0, _ => []
  | n + 1, x => if x = head then [] else x :: queue_list q head n (q.link x).next

/-- The run queue as a list. -/
def run_queue_list (G : Symbols) (s : Machine) : List Nat :=
  queue_list s.kthread_wait G.run_queue 16 (s.kthread_wait.head G.run_queue).next

/-! ## Predicates and machines for the argument checks -/

/-- Some byte of the buffer of `len` bytes at `buf` lies in no user range of
the address space. -/
def buffer_outside (vm : task_vm) (buf : Nat) (len : Int) : Prop :=
  ∃ i, i < len.toNat ∧ vmm_get_range vm (buf + i) = none

instance buffer_outside.decidable (vm : task_vm) (buf : Nat) (len : Int) :
    Decidable (buffer_outside vm buf len) :=
  inferInstanceAs (Decidable (∃ i, i < len.toNat ∧ vmm_get_range vm (buf + i) = none))

/-- The machine `demo_machine` with an argument packet at `0x01002100` in the
data page of the running task: a length of 16 and a buffer pointer
`0x20000000`, an address that lies in no range of the task. -/
def demo_packet_machine : Machine :=
  { demo_machine with
    user_mem := fun _ a => if a = 0x01002100 then 16 else if a = 0x01002104 then 0x20000000 else 0 }

/-- A table of handlers that fail whenever they are called. -/
def no_handlers : Nat → Nat → Machine → Option (KERN_RET_CODE × Machine) := fun _ _ _ => none

/-- For the system calls that carry a user pointer in their argument packet
(`wait`, `readline`, `print`, `get_cursor_pos`, `ls`, `cas2i_runflag`, by
their index in `sys_call_table`): the buffer that the pointer and its length
denote has a byte in no user range of the calling task. -/
def checked_pointer_outside (s : Machine) (system_call_idx user_param_packet : Nat) : Prop :=
  match system_call_idx with
  | 3 => buffer_outside (s.vm (current_task s)) (GET_NTH_PARAM_FROM_PACKET user_param_packet 0) 4
  | 10 => buffer_outside (s.vm (current_task s)) (packet_word s user_param_packet 1)
      (to_i32 (packet_word s user_param_packet 0))
  | 11 => buffer_outside (s.vm (current_task s)) (packet_word s user_param_packet 1)
      (to_i32 (packet_word s user_param_packet 0))
  | 14 => buffer_outside (s.vm (current_task s)) (packet_word s user_param_packet 0) 4 ∨
      buffer_outside (s.vm (current_task s)) (packet_word s user_param_packet 1) 4
  | 19 => buffer_outside (s.vm (current_task s)) (packet_word s user_param_packet 1)
      (to_i32 (packet_word s user_param_packet 0))
  | 23 => buffer_outside (s.vm (current_task s)) (packet_word s user_param_packet 1) 4
  | _ => False

/-- The code that the argument check of a system call returns for a bad
pointer: `readline` and `print` use `KERN_ERROR_INVALID_SYSCALL`, the others
`KERN_ERR_BAD_SYS_PARAM`. -/
def reject_code (system_call_idx : Nat) : KERN_RET_CODE :=
  if system_call_idx = READLINE_IDX ∨ system_call_idx = PRINT_IDX then KERN_ERROR_INVALID_SYSCALL
  else KERN_ERR_BAD_SYS_PARAM

/-- The machine `demo_machine` with the argument packet of a call
`cas2i_runflag(tid, 0x01002200, ev1, nv1, ev2, nv2)` at `0x01002100`; both
addresses lie in the data page of the running task. -/
def demo_cas_machine (tid ev1 nv1 ev2 nv2 : Nat) : Machine :=
  { demo_machine with
    user_mem := fun _ a =>
      if a = 0x01002100 then tid
      else if a = 0x01002104 then 0x01002200
      else if a = 0x01002108 then ev1
      else if a = 0x0100210c then nv1
      else if a = 0x01002110 then ev2
      else if a = 0x01002114 then nv2
      else 0 }

/-- The running thread, the initial thread of `TASK1`, calls
`cas2i_runflag` on itself with `ev1 = 0` and `nv1 = -1`. -/
def demo_self_stop : Option (KERN_RET_CODE × Machine) :=
  syscall_cas2irunflag demo_symbols 0x01002100 (demo_cas_machine TASK1 0 0xffffffff 5 0)

/-- The state that `demo_self_stop` leaves. -/
def demo_self_stopped : Machine := (demo_self_stop.get (by decide)).2

/-- The machine of `demo_cas_machine` where `THREAD_A` has a `run_flag` of -1. -/
def demo_cas_stopped (tid ev1 nv1 ev2 nv2 : Nat) : Machine :=
  { demo_cas_machine tid ev1 nv1 ev2 nv2 with
    threads := upd (demo_cas_machine tid ev1 nv1 ev2 nv2).threads THREAD_A
      { pTask := TASK1, state := 0, sleepticks := 0, run_flag := -1 } }

/-- The running thread of `demo_cas_stopped` calls
`cas2i_runflag(THREAD_A, 0x01002200, 5, 0, 6, 0)` on the stopped `THREAD_A`. -/
def demo_cas_other : Option (KERN_RET_CODE × Machine) :=
  syscall_cas2irunflag demo_symbols 0x01002100 (demo_cas_stopped THREAD_A 5 0 6 0)

/-- The state that `demo_cas_other` leaves. -/
def demo_cas_other_result : KERN_RET_CODE × Machine := demo_cas_other.get (by decide)

/-! ## A machine on which a task vanishes -/

/-- The machine `demo_machine` after three preemptions by `schedule`: the
initial thread of `TASK2`, the only thread of its task, runs. -/
def demo_task2_run : Option Machine :=
  (schedule demo_symbols true demo_machine).bind (fun s1 =>
    (schedule demo_symbols true s1).bind (fun s2 => schedule demo_symbols true s2))

/-- The machine of `demo_task2_run`. -/
def demo_task2_machine : Machine := demo_task2_run.get (by decide)

/-- The machine `demo_task2_machine` after the `task_fork_lock` of
`syscall_taskvanish`. -/
def demo_vanish_locked : Machine :=
  ((task_fork_lock demo_symbols TASK2 demo_task2_machine).get (by decide)).2

/-- The body of the loop of `syscall_taskvanish` run `n` times on `thread`. -/
def taskvanish_iter (G : Symbols) (thisTask thread : Nat) : Nat → Machine → Option Machine
  | 0, s => some s
  | n + 1, s => (taskvanish_body G thisTask thread s).bind (taskvanish_iter G thisTask thread n)

/-! ## Scenario S1: a child sets its status, vanishes, and is waited for -/

/-- The machine `demo_task2_machine` with the address spaces that
`syscall_fork` leaves in `demo_forked`: `TASK1` has that of the parent and
`TASK2` that of the child. -/
def demo_fork_machine : Machine :=
  { demo_task2_machine with
    vm := fun t =>
      if t = TASK2 then
        match demo_forked.child with
        | some c => c.vm
        | none => demo_forked.parent.vm
      else demo_forked.parent.vm
    kernel_vmm := demo_forked.kernel.kernel_vmm }

/-- The return code of a handler that returned. -/
def Outcome.ret : Outcome → Option KERN_RET_CODE
  | Outcome.returned r _ => some r
  | Outcome.blocked _ _ => none

/-- The running thread of `TASK2` calls `set_status(7)`, then `vanish`. -/
def demo_child_exit : Option Outcome :=
  syscall_vanish demo_symbols (syscall_set_status 7 demo_fork_machine).2

/-- The state that `demo_child_exit` leaves: the initial thread of `TASK1`
runs again. -/
def demo_child_exited : Machine := (demo_child_exit.get (by decide)).state

/-- The initial thread of `TASK1` calls `wait(0x01002200)`. -/
def demo_wait : Option Outcome :=
  syscall_wait demo_platform demo_symbols 0x01002200 demo_child_exited

/-- The release of the address space of `TASK2` in `demo_child_exited`. -/
def demo_child_freed : kern_vmm × task_vm :=
  (vmm_free_task_vm demo_platform demo_child_exited.kernel_vmm (demo_child_exited.vm TASK2)).get
    (by decide)

/-! ## Sleeping threads in terms of lists -/

/-- The `sleepticks` of thread `y` after the decrement of `sleep_bottom_half`. -/
def slept (s : Machine) (y : Nat) : Int := wrap_int ((s.threads y).sleepticks - 1)

/-- The threads of `l` that `sleep_bottom_half` leaves on the sleepers queue. -/
def sleep_stay (s : Machine) (l : List Nat) : List Nat :=
  l.filter (fun y => decide (¬ slept s y ≤ 0))

/-- The threads of `l` that `sleep_bottom_half` moves to the run queue. -/
def sleep_woken (s : Machine) (l : List Nat) : List Nat :=
  l.filter (fun y => decide (slept s y ≤ 0))

/-- The state in which a timer interrupt finds the two queues of link
`kthread_wait`: the sleepers queue holds `sl` and the run queue holds `rq`,
no thread is on both, and the running thread and the idle thread are on
neither. -/
def tick_ready (G : Symbols) (s : Machine) (sl rq : List Nat) : Prop :=
  is_queue s.kthread_wait G.kern_slackers_kthread_head sl ∧
    is_queue s.kthread_wait G.run_queue rq ∧
    (∀ x ∈ sl, x ∉ rq) ∧ (∀ x ∈ sl, x ≠ G.run_queue) ∧ sl.length < WORD ∧
    s.current ∉ sl ∧ s.current ∉ rq ∧ s.current ≠ G.run_queue ∧ s.current ≠ 0 ∧
    s.idle_task ∉ sl ∧ s.idle_task ∉ rq ∧ s.idle_task ≠ G.run_queue ∧ s.idle_task ≠ 0

instance tick_ready.decidable (G : Symbols) (s : Machine) (sl rq : List Nat) :
    Decidable (tick_ready G s sl rq) :=
  inferInstanceAs (Decidable (
    is_queue s.kthread_wait G.kern_slackers_kthread_head sl ∧
    is_queue s.kthread_wait G.run_queue rq ∧
    (∀ x ∈ sl, x ∉ rq) ∧ (∀ x ∈ sl, x ≠ G.run_queue) ∧ sl.length < WORD ∧
    s.current ∉ sl ∧ s.current ∉ rq ∧ s.current ≠ G.run_queue ∧ s.current ≠ 0 ∧
    s.idle_task ∉ sl ∧ s.idle_task ∉ rq ∧ s.idle_task ≠ G.run_queue ∧ s.idle_task ≠ 0))

/-- First fit, as the specification words it: the least frame of the managed
region, `KERNEL_PAGES_NR < i < nr_physical_pages`, whose reference count is 0. -/
def first_fit (P : Platform) (kv : kern_vmm) : Option Nat :=
  (List.range' (KERNEL_PAGES_NR P + 1) (kv.nr_physical_pages - (KERNEL_PAGES_NR P + 1))).find?
    (fun i => decide (kv.m_pages i = 0))

/-- The reference allocator `alloc_user_frame`: the first-fit frame with its
reference count set to 1, or `OutOfMemory` (`none`) with the state unchanged. -/
def alloc_user_frame (P : Platform) (kv : kern_vmm) : Option Nat × kern_vmm :=
  match first_fit P kv with
  | some i => (some i, { kv with m_pages := upd kv.m_pages i 1 })
  | none => (none, kv)

/-- A frame table of four managed frames behind the kernel window of
`demo_platform`: frames 4097 and 4098 are in use, 4099 and 4100 are free. -/
def demo_frames : kern_vmm :=
  { m_pages := fun i => if i = 4097 then 1 else if i = 4098 then 2 else 0
    nr_physical_pages := 4101 }

/-- Header of a program whose text segment of 0x1000 bytes begins at
`0x01000800`, in the middle of a page; read-only data at `0x01002000`, data
and bss at `0x01003000`. -/
def demo_header_unaligned : simple_elf_t :=
  { e_entry := 0x01000800, e_txtoff := 0, e_txtlen := 0x1000, e_txtstart := 0x01000800,
    e_datoff := 0x2000, e_datlen := 0x10, e_datstart := 0x01003000,
    e_rodatoff := 0x1000, e_rodatlen := 0x10, e_rodatstart := 0x01002000, e_bsslen := 0x10 }

/-- The task after `load_elf` of the program of `demo_header_unaligned`. -/
def demo_exec_unaligned : Option (KERN_RET_CODE × Kernel × ktask) :=
  match vmm_init_task_vm demo_platform (demo_kernel 64).heap none with
  | some (_, heap1, _, some t) =>
    load_elf demo_platform { demo_kernel 64 with heap := heap1 } t demo_header_unaligned
      (fun _ => 0xAA)
  | _ => none

/-- A fresh address space in which the loader has installed a text range
`[0x01000000, 0x01000800)` and a read-only data range `[0x01000800, 0x01000810)`:
both ranges are scaled to the page at `0x01000000`.  No page is backed yet. -/
def demo_overlap : Option (Kernel × task_vm) :=
  match vmm_init_task_vm demo_platform (demo_kernel 4).heap none with
  | some (_, heap1, _, some t) =>
    match loader_install_one demo_platform heap1 t.vm 0x01000000 0x800 with
    | some (_, heap2, vm1, _) =>
      match loader_install_one demo_platform heap2 vm1 0x01000800 0x10 with
      | some (_, heap3, vm2, _) => some ({ demo_kernel 4 with heap := heap3 }, vm2)
      | none => none
    | none => none
  | _ => none

/-- The address space of `demo_overlap` after `vmm_back_all_user_ranges`. -/
def demo_overlap_backed : Option (KERN_RET_CODE × kern_vmm × task_vm) :=
  demo_overlap.bind (fun s => vmm_back_all_user_ranges demo_platform s.1.kernel_vmm s.2)

/-- The address space of `demo_overlap` after `vmm_back_all_user_ranges` and
`vmm_unback_all_user_ranges`. -/
def demo_overlap_unbacked : Option (kern_vmm × task_vm) :=
  demo_overlap_backed.bind (fun s => vmm_unback_all_user_ranges demo_platform s.2.1 s.2.2)

/-! ## More scenarios on the concrete machine -/

/-- The task after `load_elf` calls `new_pages(0x20000000, 0x1000)` and
forks before it has touched the new page. -/
def demo_new_fork : Option ForkResult :=
  (demo_new_pages 0x20000000 0x1000).bind (fun o =>
    syscall_fork demo_platform o.2.1 o.2.2 PTE.zero)

/-- The task after `load_elf` calls `new_pages(0x20000000, 0x1000)` and
writes to the new page. -/
def demo_new_touched : Option FaultOutcome :=
  (demo_new_pages 0x20000000 0x1000).bind (fun o =>
    page_fault_handler demo_platform o.2.1 o.2.2 o.2.2.vm.taskmem error_write_absent 0x20000000)

/-- The task of `demo_new_touched` forks. -/
def demo_new_touched_fork : Option ForkResult :=
  demo_new_touched.bind (fun f => syscall_fork demo_platform f.kernel f.task PTE.zero)

/-- The task after `load_elf` calls `new_pages(0x20000000, 0x1000)` and then
`exec` of the same program; the heap serves 24 more requests. -/
def demo_new_exec : Option (KERN_RET_CODE × Kernel × ktask) :=
  (demo_new_pages 0x20000000 0x1000).bind (fun o =>
    load_elf demo_platform
      { o.2.1 with heap := (List.range 24).map (fun i => some (0x400000 + i * 0x10000)) }
      o.2.2 demo_header (fun _ => 0xAA))

/-! ## Fault handlers other than the page fault (`faulthandlers.c`, `i386systemregs.h`) -/

def FAULT_DE : Nat := 0
def FAULT_DB : Nat := 1
def FAULT_NMI : Nat := 2
def FAULT_BP : Nat := 3
def FAULT_OF : Nat := 4
def FAULT_BR : Nat := 5
def FAULT_UD : Nat := 6
def FAULT_NM : Nat := 7
def FAULT_DF : Nat := 8
def FAULT_CSO : Nat := 9
def FAULT_TS : Nat := 10
def FAULT_NP : Nat := 11
def FAULT_SS : Nat := 12
def FAULT_GP : Nat := 13
def FAULT_PF : Nat := 14
def FAULT_RESERVED : Nat := 15
def FAULT_MF : Nat := 16
def FAULT_AC : Nat := 17
def FAULT_MC : Nat := 18
def FAULT_XF : Nat := 19

/-- The handler functions that `faulthandler_table` names. -/
inductive fault_fn where
  | fault_generic
  | fault_generic_fatal
  | divby0_fault_handler
  | alignment_fault_handler
  | opcode_fault_handler
  | device_fault_handler
  | double_fault_handler
  | page_fault_handler
deriving DecidableEq, Repr

/-- The global `faulthandler_table`: the fault number and the handler of each
of its 20 slots. -/
def faulthandler_table : List (Nat × fault_fn) :=
  [ (FAULT_DE, fault_fn.divby0_fault_handler),
    (FAULT_DB, fault_fn.fault_generic),
    (FAULT_NMI, fault_fn.fault_generic),
    (FAULT_BP, fault_fn.fault_generic),
    (FAULT_OF, fault_fn.fault_generic),
    (FAULT_BR, fault_fn.fault_generic),
    (FAULT_UD, fault_fn.opcode_fault_handler),
    (FAULT_NM, fault_fn.device_fault_handler),
    (FAULT_DF, fault_fn.double_fault_handler),
    (FAULT_CSO, fault_fn.fault_generic_fatal),
    (FAULT_TS, fault_fn.fault_generic_fatal),
    (FAULT_NP, fault_fn.fault_generic_fatal),
    (FAULT_SS, fault_fn.page_fault_handler),
    (FAULT_GP, fault_fn.page_fault_handler),
    (FAULT_PF, fault_fn.page_fault_handler),
    (FAULT_RESERVED, fault_fn.fault_generic),
    (FAULT_MF, fault_fn.fault_generic),
    (FAULT_AC, fault_fn.alignment_fault_handler),
    (FAULT_MC, fault_fn.fault_generic_fatal),
    (FAULT_XF, fault_fn.fault_generic) ]

/-- Function `i386_install_isr` for a trap gate: the slot `idt_offset` of the
IDT gets a wrapper that calls `pisr`, unless `malloc` fails. -/
def i386_install_isr (heap : List (Option Nat)) (idt : Nat → Option fault_fn) (pisr : fault_fn)
    (idt_offset : Nat) : KERN_RET_CODE × List (Option Nat) × (Nat → Option fault_fn) :=
  match kalloc heap with
  | (none, heap1) => (KERN_NO_MEM, heap1, idt)
  | (some _, heap1) => (KERN_SUCCESS, heap1, upd idt idt_offset (some pisr))

/-- The loop `for(i=0;i<20;i++)` of `faulthandler_init` with `n` iterations
left. -/
def faulthandler_init_loop : Nat → Nat → List (Option Nat) → (Nat → Option fault_fn) →
    KERN_RET_CODE × List (Option Nat) × (Nat → Option fault_fn)
  | 0, _, heap, idt => (KERN_SUCCESS, heap, idt)
  | n + 1, i, heap, idt =>
    if i = FAULT_DF then faulthandler_init_loop n (i + 1) heap idt
    else
      match faulthandler_table.get? i with
      | none => (KERN_SUCCESS, heap, idt)
      | some entry =>
        match i386_install_isr heap idt entry.2 entry.1 with
        | (ret, heap1, idt1) =>
          if ret ≠ KERN_SUCCESS then (ret, heap1, idt1)
          else faulthandler_init_loop n (i + 1) heap1 idt1

/-- Function `faulthandler_init`: the return code, the heap and the IDT. -/
def faulthandler_init (heap : List (Option Nat)) (idt : Nat → Option fault_fn) :
    KERN_RET_CODE × List (Option Nat) × (Nat → Option fault_fn) :=
  match kalloc heap with
  | (none, heap1) => (KERN_NO_MEM, heap1, idt)
  | (some _, heap1) => faulthandler_init_loop 20 0 heap1 idt

/-- Function `fault_generic`: it writes to the kernel log and returns. -/
def fault_generic (s : Machine) : Machine := s

/-- The loop `Q_FOREACH` of `fault_generic_fatal` over the threads left on
the queue of the task; `sfree` has no effect on the state of the model.
`none` when the fuel runs out or an assertion fails. -/
def fatal_loop (task : Nat) : Nat → Nat → Machine → Option Machine
  | 0, _, _ => none
  | fuel + 1, thread, s =>
    if thread = ktask_threads_head_at task then some s
    else
      match Q_REMOVE s.kthread_next (ktask_threads_head_at task) thread with
      | none => none
      | some q =>
        fatal_loop task fuel (q.link thread).next { s with kthread_next := q }

/-- Function `fault_generic_fatal`; the walk over the thread queue has `fuel`
tests.  The handler returns to the faulting code only if `schedule` comes
back to the calling thread. -/
def fault_generic_fatal (G : Symbols) (fuel : Nat) (s : Machine) : Option Outcome :=
  let task := current_task s
  let s1 : Machine :=
    { s with threads := upd s.threads s.current { s.threads s.current with run_flag := -1 } }
  match Q_REMOVE s1.kthread_next (ktask_threads_head_at task) s1.current with
  | none => none
  | some q =>
    let s2 : Machine := { s1 with kthread_next := q }
    let walked : Option Machine :=
      if task = s2.current then
        fatal_loop task fuel (s2.kthread_next.head (ktask_threads_head_at task)).next s2
      else some s2
    match walked with
    | none => none
    | some s3 =>
      let signalled : Option Machine :=
        if (s3.kthread_next.head (ktask_threads_head_at task)).nr_elements = 0 then
          sem_signal G (vultures_at (s3.parentTask task))
            { s3 with state := upd s3.state task TASK_STATUS_ZOMIE }
        else some s3
      match signalled with
      | none => none
      | some s4 =>
        match schedule G false s4 with
        | none => none
        | some s5 =>
          if s5.current ≠ s4.current then some (Outcome.blocked 1 s5)
          else some (Outcome.returned KERN_SUCCESS s5)

/-- The body of a handler of `faulthandler_table`; the handlers with a
message of their own print it and call `fault_generic_fatal`.  The page-fault
handler is the parameter `pf`. -/
def run_fault_fn (G : Symbols) (fuel : Nat) (pf : Machine → Option Outcome) (fn : fault_fn)
    (s : Machine) : Option Outcome :=
  match fn with
  | fault_fn.fault_generic => some (Outcome.returned KERN_SUCCESS (fault_generic s))
  | fault_fn.fault_generic_fatal => fault_generic_fatal G fuel s
  | fault_fn.divby0_fault_handler => fault_generic_fatal G fuel s
  | fault_fn.alignment_fault_handler => fault_generic_fatal G fuel s
  | fault_fn.opcode_fault_handler => fault_generic_fatal G fuel s
  | fault_fn.device_fault_handler => fault_generic_fatal G fuel s
  | fault_fn.double_fault_handler => fault_generic_fatal G fuel s
  | fault_fn.page_fault_handler => pf s

/-- A fault of number `vector` on a machine whose IDT is `idt`: the installed
handler runs; `none` when the slot is empty. -/
def raise_fault (G : Symbols) (fuel : Nat) (pf : Machine → Option Outcome)
    (idt : Nat → Option fault_fn) (vector : Nat) (s : Machine) : Option Outcome :=
  match idt vector with
  | none => none
  | some fn => run_fault_fn G fuel pf fn s

/-- The IDT after `faulthandler_init` on an empty IDT and a heap that serves
every request. -/
def demo_idt : Nat → Option fault_fn :=
  (faulthandler_init ((List.range 24).map (fun i => some (0x200000 + i * 0x10000)))
    (fun _ => none)).2.2

/-- Modelled from the spec: the address lies in an installed range other than
the kernel one, `start ≤ a < start + len`. -/
def in_installed_range (vm : task_vm) (a : Nat) : Bool :=
  vm.vm_ranges_head.any
    (fun r => !r.kernel && decide (r.start ≤ a) && decide (a < r.start + r.len))

/-- Modelled from the spec: the address lies in the remembered extent of the
text or of the read-only data. -/
def in_ro_segment (vm : task_vm) (a : Nat) : Bool :=
  (decide (vm.vm_text_start ≤ a) && decide (a < vm.vm_text_start + vm.vm_text_len)) ||
    (decide (vm.vm_rdata_start ≤ a) && decide (a < vm.vm_rdata_start + vm.vm_rdata_len))

/-! ## exec: the argument frame (`syscall_exec.c`)

The memory of this section is the linear memory that the running thread sees,
one byte for each address: the kernel block of `exec_args` and the user stack
are parts of it.  A store of the kernel to the user stack goes through the
page tables of the task: when the page is not mapped the processor raises a
page fault. -/

/-- The page of a linear address is mapped: the directory slot and the entry
of the page are present. -/
def page_mapped (vm : task_vm) (a : Nat) : Bool :=
  (vm.pde (PDE_IDX a)).PRESENT && (vm.pte (VPN a)).PRESENT

/-- The first address of `[s, s + n)`, going up, whose page is not mapped: the
address of the page fault of a kernel write to this area. -/
def first_unmapped (vm : task_vm) (s n : Nat) : Option Nat :=
  ((List.range' 0 n).map (fun k => (s + k) % WORD)).find? (fun a => !page_mapped vm a)

/-- Result of code that writes to user memory: it runs to its end, or a store
meets a page that is not mapped and the processor raises a page fault at that
address. -/
inductive user_access (α : Type) where
  | done : α → user_access α
  | fault : Nat → user_access α

/-- Read of a 32-bit word, little endian. -/
def load32 (mem : Nat → Nat) (a : Nat) : Nat :=
  mem a % 256 + 256 * (mem ((a + 1) % WORD) % 256) + 65536 * (mem ((a + 2) % WORD) % 256) +
    16777216 * (mem ((a + 3) % WORD) % 256)

/-- Write of a 32-bit word, little endian. -/
def store32 (mem : Nat → Nat) (a v : Nat) : Nat → Nat :=
  upd (upd (upd (upd mem a (v % 256)) ((a + 1) % WORD) (v / 256 % 256)) ((a + 2) % WORD)
    (v / 65536 % 256)) ((a + 3) % WORD) (v / 16777216 % 256)

/-- Modelled from the C library: `memset(s, c, n)`. -/
def memset (mem : Nat → Nat) (s c n : Nat) : Nat → Nat :=
  fun a => if (a + WORD - s) % WORD < n then c % 256 else mem a

/-- Modelled from the C library: `memcpy(dst, src, n)`, for areas that do not
overlap. -/
def memcpy (mem : Nat → Nat) (dst src n : Nat) : Nat → Nat :=
  fun a => if (a + WORD - dst) % WORD < n then mem ((src + (a + WORD - dst) % WORD) % WORD) else mem a

/-- Bound on the search of `strlen`: the size of the address space. -/
def STRLEN_FUEL : Nat := 4294967296

/-- Modelled from the C library: `strlen(s)`; `none` when no NUL byte is found. -/
def strlen (mem : Nat → Nat) : Nat → Nat → Option Nat
  | 0, _ => none
  | fuel + 1, s =>
    if mem s = 0 then some 0 else (strlen mem fuel ((s + 1) % WORD)).map (fun n => n + 1)

/-- Address of the member `argc` of the `exec_args` at `ea`. -/
def argc_at (ea : Nat) : Nat := ea

/-- Address of the member `data_len` of the `exec_args` at `ea`. -/
def data_len_at (ea : Nat) : Nat := (ea + 4) % WORD

/-- Address of the member `filename` of the `exec_args` at `ea`. -/
def filename_at (ea : Nat) : Nat := (ea + 8) % WORD

/-- Address of the member `argv[i]` of the `exec_args` at `ea`. -/
def argv_at (ea i : Nat) : Nat := (ea + 12 + 4 * i) % WORD

/-- Bound on the tests of a loop over the arguments: `argc` is an `int`. -/
def ARGV_LOOP_FUEL : Nat := 2147483649

/-- The first loop of `exec_copy_argv_to_stack`: copy of the strings, from
`copy_at` upward, into the user stack of the address space `vm`; `argv[i]`,
in the kernel block, is overwritten with the address of the copy. -/
def copy_strings (vm : task_vm) (ea : Nat) : Nat → Nat → Nat → (Nat → Nat) →
    Option (user_access ((Nat → Nat) × Nat))
  | 0, _, _, _ => none
  | fuel + 1, i, copy_at, mem =>
    if (i : Int) < to_i32 (load32 mem (argc_at ea)) then
      let temp := copy_at
      match strlen mem STRLEN_FUEL (load32 mem (argv_at ea i)) with
      | none => none
      | some n =>
        match first_unmapped vm copy_at n with
        | some la => some (user_access.fault la)
        | none =>
          let mem1 := memcpy mem copy_at (load32 mem (argv_at ea i)) n
          match strlen mem1 STRLEN_FUEL (load32 mem1 (argv_at ea i)) with
          | none => none
          | some n1 =>
            copy_strings vm ea fuel (i + 1) ((copy_at + n1 + 1) % WORD)
              (store32 mem1 (argv_at ea i) temp)
    else some (user_access.done (mem, copy_at))

/-- The second loop of `exec_copy_argv_to_stack`, `for(i = argc - 1; i >= 0; i--)`:
the first argument is `i + 1`. -/
def push_argv (vm : task_vm) (ea : Nat) : Nat → Nat → (Nat → Nat) →
    user_access ((Nat → Nat) × Nat)
  | 0, data_start, mem => user_access.done (mem, data_start)
  | i + 1, data_start, mem =>
    match first_unmapped vm ((data_start + WORD - 4) % WORD) 4 with
    | some la => user_access.fault la
    | none =>
      push_argv vm ea i ((data_start + WORD - 4) % WORD)
        (store32 mem ((data_start + WORD - 4) % WORD) (load32 mem (argv_at ea i)))

/-- Function `exec_copy_argv_to_stack` in the address space `vm` of the task
after `load_elf`: the result is the memory and the value stored in
`*newStack`, or the address of the page fault of the first store to a page of
the stack area that is not mapped. -/
def exec_copy_argv_to_stack (vm : task_vm) (mem : Nat → Nat) (stack ea : Nat) :
    Option (user_access ((Nat → Nat) × Nat)) :=
  let data_start := (stack + WORD - 4) % WORD
  let data_start := (data_start + WORD - load32 mem (data_len_at ea)) % WORD
  let data_start := data_start - data_start % 4
  match first_unmapped vm data_start ((stack + WORD - data_start) % WORD) with
  | some la => some (user_access.fault la)
  | none =>
    let mem1 := memset mem data_start 0 ((stack + WORD - data_start) % WORD)
    match copy_strings vm ea ARGV_LOOP_FUEL 0 data_start mem1 with
    | none => none
    | some (user_access.fault la) => some (user_access.fault la)
    | some (user_access.done (mem2, _)) =>
      match push_argv vm ea (to_i32 (load32 mem2 (argc_at ea))).toNat data_start mem2 with
      | user_access.fault la => some (user_access.fault la)
      | user_access.done (mem3, data_start) =>
        let data_start := (data_start + WORD - 4) % WORD
        match first_unmapped vm data_start 4 with
        | some la => some (user_access.fault la)
        | none =>
          let mem4 := store32 mem3 data_start ((data_start + 4) % WORD)
          let data_start := (data_start + WORD - 4) % WORD
          match first_unmapped vm data_start 4 with
          | some la => some (user_access.fault la)
          | none =>
            let mem5 := store32 mem4 data_start (load32 mem4 (argc_at ea))
            let data_start := (data_start + WORD - 4) % WORD
            match first_unmapped vm data_start 4 with
            | some la => some (user_access.fault la)
            | none =>
              let mem6 := store32 mem5 data_start 0xDEADBEEF
              some (user_access.done (mem6, data_start))

/-- The macro `GET_ARG_PTR(pppc, idx)`. -/
def GET_ARG_PTR (mem : Nat → Nat) (pppc idx : Nat) : Nat :=
  load32 mem ((load32 mem pppc + 4 * idx) % WORD)

/-- The first loop of `exec_copy_argv`: count of the arguments up to the first
null pointer or empty string, and sum of their sizes. -/
def count_args (mem : Nat → Nat) (argv : Nat) : Nat → Nat → Nat → Option (Nat × Nat)
  | 0, _, _ => none
  | fuel + 1, argc, data_len =>
    if GET_ARG_PTR mem argv argc ≠ 0 ∧ mem (GET_ARG_PTR mem argv argc) ≠ 0 then
      match strlen mem STRLEN_FUEL (GET_ARG_PTR mem argv argc) with
      | none => none
      | some n => count_args mem argv fuel (argc + 1) ((data_len + n + 1) % WORD)
    else some (argc, data_len)

/-- The second loop of `exec_copy_argv`: copy of the strings into the block;
the first argument is the number of rounds left. -/
def fill_args (argv local_exec_args : Nat) : Nat → Nat → Nat → (Nat → Nat) →
    Option ((Nat → Nat) × Nat)
  | 0, _, data, mem => some (mem, data)
  | n + 1, i, data, mem =>
    match strlen mem STRLEN_FUEL (GET_ARG_PTR mem argv i) with
    | none => none
    | some len =>
      let mem1 := memcpy mem data (GET_ARG_PTR mem argv i) len
      let mem2 := store32 mem1 (argv_at local_exec_args i) data
      match strlen mem2 STRLEN_FUEL (GET_ARG_PTR mem2 argv i) with
      | none => none
      | some len1 => fill_args argv local_exec_args n (i + 1) ((data + len1 + 1) % WORD) mem2

/-- Function `exec_copy_argv`; `block` is the answer of `malloc`.  The result
is the return code, the memory and the value stored in `*exec_args`.  When
`malloc` fails the source calls `memset` on the null pointer: no result. -/
def exec_copy_argv (mem : Nat → Nat) (block : Option Nat) (user_param_packet : Nat) :
    Option (KERN_RET_CODE × (Nat → Nat) × Nat) :=
  let filename := user_param_packet
  let argv := (user_param_packet + 4) % WORD
  if filename = 0 ∨ argv = 0 then some (KERN_ERROR_GENERIC, mem, 0)
  else
    match count_args mem argv ARGV_LOOP_FUEL 0 0 with
    | none => none
    | some (argc, data_len) =>
      let data_len := (data_len + 1) % WORD
      match strlen mem STRLEN_FUEL (load32 mem filename) with
      | none => none
      | some n =>
        let data_len := (data_len + n + 1) % WORD
        match block with
        | none => none
        | some local_exec_args =>
          let mem1 := memset mem local_exec_args 0 ((12 + 4 * argc + data_len) % WORD)
          let mem2 := store32 mem1 (argc_at local_exec_args) argc
          let mem3 := store32 mem2 (data_len_at local_exec_args) data_len
          match fill_args argv local_exec_args argc 0 (argv_at local_exec_args argc) mem3 with
          | none => none
          | some (mem4, data) =>
            let mem5 := store32 mem4 (filename_at local_exec_args) data
            match strlen mem5 STRLEN_FUEL (load32 mem5 filename) with
            | none => none
            | some n1 =>
              let mem6 := memcpy mem5 data (load32 mem5 filename) n1
              match strlen mem6 STRLEN_FUEL (load32 mem6 filename) with
              | none => none
              | some n2 =>
                let data := (data + n2 + 1) % WORD
                if data ≤ (local_exec_args + 12 + 4 * argc + data_len) % WORD then
                  some (KERN_SUCCESS, mem6, local_exec_args)
                else none

/-- The bytes at `p` are the string `s` and its final NUL. -/
def is_cstring (mem : Nat → Nat) : Nat → List Nat → Bool
  | p, [] => decide (mem p = 0)
  | p, c :: cs => decide (mem p = c) && decide (c ≠ 0) && is_cstring mem (p + 1) cs

/-- A memory given by some areas of bytes; 0 elsewhere. -/
def mem_of (areas : List (Nat × List Nat)) : Nat → Nat :=
  fun a =>
    match areas.find? (fun r => decide (r.1 ≤ a ∧ a < r.1 + r.2.length)) with
    | some r => r.2.getD (a - r.1) 0
    | none => 0

/-- The string "shell". -/
def demo_shell : List Nat := [115, 104, 101, 108, 108]

/-- The call `exec("shell", ["shell"])` of scenario S2: the packet at
0x01002100, the array `argv` at 0x01002110, the string at 0x01002200. -/
def demo_exec_user_mem : Nat → Nat :=
  mem_of [(0x01002100, [0x00, 0x22, 0x00, 0x01, 0x10, 0x21, 0x00, 0x01]),
    (0x01002110, [0x00, 0x22, 0x00, 0x01, 0, 0, 0, 0]),
    (0x01002200, demo_shell ++ [0])]

/-- The arguments of scenario S2 in a kernel block at 0x00200000. -/
def demo_exec_args : Option (KERN_RET_CODE × (Nat → Nat) × Nat) :=
  exec_copy_argv demo_exec_user_mem (some 0x00200000) 0x01002100

/-- The address space of the task after `load_elf` on the concrete machine:
the two pages of the stack, `[0xffffa000, 0xffffc000)`, are mapped. -/
def demo_exec_vm : Option task_vm := (demo_exec 64).map (fun s => s.2.vm)

/-- The frame of scenario S2 below the stack top 0xffffc000 of `load_elf`. -/
def demo_exec_frame : Option (user_access ((Nat → Nat) × Nat)) :=
  match demo_exec_args, demo_exec_vm with
  | some (_, mem, ea), some vm => exec_copy_argv_to_stack vm mem 0xffffc000 ea
  | _, _ => none

/-- What a closed statement reads of a result: stack pointer and the five
words from it on, or the fault address. -/
def frame_words : user_access ((Nat → Nat) × Nat) → Nat × List Nat
  | user_access.done r => (r.2, (List.range 5).map (fun i => load32 r.1 (r.2 + 4 * i)))
  | user_access.fault la => (la, [])

/-- A kernel block whose `exec_args` has no argument and a `data_len` of
`dl`. -/
def demo_exec_args_of_len (dl : Nat) : Nat → Nat :=
  mem_of [(0x00200000, [0, 0, 0, 0, dl % 256, dl / 256 % 256, dl / 65536 % 256,
    dl / 16777216 % 256, 0, 0, 0, 0])]

/-- The error code of a write of the kernel to a page that is not present. -/
def error_kernel_write_absent : PTE := { PTE.zero with PRESENT := false, RW := true }

/-- Size of the copies of the first `i` strings of `args`, each with its NUL. -/
def arg_offset : List (List Nat) → Nat → Nat
  | [], _ => 0
  | _ :: _, 0 => 0
  | s :: rest, i + 1 => s.length + 1 + arg_offset rest i

/-- The state of the first loop of `exec_copy_argv_to_stack` before round
`i`: `argc` is the number of strings; the entries `argv[j]` from `i` on still
point to the strings of the block, at `p j`; the entries below `i` point to
the copies, which lie from `ds` upward; the rest of the area up to `stack`
is zero. -/
def copy_strings_inv (ea ds stack : Nat) (args : List (List Nat)) (p : Nat → Nat) (i : Nat)
    (m : Nat → Nat) : Prop :=
  load32 m (argc_at ea) = args.length ∧
    (∀ j, i ≤ j → j < args.length →
      load32 m (argv_at ea j) = p j ∧ is_cstring m (p j) (args.getD j []) = true) ∧
    (∀ j, j < i → j < args.length →
      load32 m (argv_at ea j) = ds + arg_offset args j ∧
        is_cstring m (ds + arg_offset args j) (args.getD j []) = true) ∧
    (∀ a, ds + arg_offset args i ≤ a → a < stack → m a = 0)

/-- The state of the second loop of `exec_copy_argv` before round `i`, for a
block at `l` whose strings start at `D` and that ends at `E`, below the user
data, which start at `U`: the user data are those of `mem`, the members
before `argv` are those of `m0`, the entries `argv[j]` below `i` point to the
copies, and the rest of the block is zero. -/
def fill_args_inv (mem m0 : Nat → Nat) (l D E U : Nat) (args : List (List Nat)) (i : Nat)
    (m : Nat → Nat) : Prop :=
  (∀ a, U ≤ a → a < WORD → m a = mem a) ∧
    (∀ a, a < l + 12 → m a = m0 a) ∧
    (∀ j, j < i → j < args.length →
      load32 m (argv_at l j) = D + arg_offset args j ∧
        is_cstring m (D + arg_offset args j) (args.getD j []) = true) ∧
    (∀ a, D + arg_offset args i ≤ a → a < E → m a = 0)

/-! ## `sleep` with the timer interrupt that can arrive inside it -/

/-- Function `syscall_sleep` up to the call of `schedule`: the thread has
stored its ticks and has put itself on the sleepers queue.  Interrupts are
enabled here: a system call is entered through a trap gate and the function
disables nothing. -/
def syscall_sleep_1 (G : Symbols) (user_param_packet : Nat) (s : Machine) : Machine :=
  let ticks := to_i32 user_param_packet
  let s1 : Machine :=
    { s with threads := upd s.threads s.current { s.threads s.current with sleepticks := ticks } }
  { s1 with
    kthread_wait := Q_INSERT_TAIL s1.kthread_wait G.kern_slackers_kthread_head s1.current }

/-- The rest of `syscall_sleep`: the call `schedule(CURRENT_NOT_RUNNABLE)`. -/
def syscall_sleep_2 (G : Symbols) (s : Machine) : Option (KERN_RET_CODE × Machine) :=
  match schedule G false s with
  | none => none
  | some s3 => some (KERN_SUCCESS, s3)


/-- The running thread of `demo_machine`, the initial thread of `TASK1`, has
reached the call of `schedule` in `sleep(5)` when a timer interrupt arrives. -/
def demo_sleep_race : Option Machine :=
  _BASE_TIMER_CALL_BACK demo_symbols (syscall_sleep_1 demo_symbols 5 demo_machine)

/-! ## The queues of link `kthread_wait` in reachable states -/

/-- The heads of the queues that hold threads through link `kthread_wait`:
the run queue, the sleepers queue, and the queue of each semaphore of `W`. -/
def sched_heads (G : Symbols) (W : List Nat) : List Nat :=
  G.run_queue :: G.kern_slackers_kthread_head :: W.map sem_kthread_head_at

/-- The queue at each head `h` of `H` is well formed and holds the threads
`cfg h`; no thread of a queue is a head, and no thread is on two queues. -/
def queues_ok (q : Q_MEM) (H : List Nat) (cfg : Nat → List Nat) : Prop :=
  (∀ h ∈ H, is_queue q h (cfg h)) ∧
    (∀ h ∈ H, ∀ x ∈ cfg h, x ∉ H ∧ ∀ h2 ∈ H, h2 ≠ h → x ∉ cfg h2)

/-- The state of the queues between two kernel entries.  The queues at the
heads `H` are well formed and disjoint and hold threads of `live` only; the
running thread `cur` and the idle thread are on none of them and their links
stand alone; the idle thread is not in `live`; and every thread of `live`
runs or is on a queue. -/
def queue_inv (H live : List Nat) (q : Q_MEM) (cur idle : Nat) (cfg : Nat → List Nat) : Prop :=
  queues_ok q H cfg ∧
    (∀ h ∈ H, ∀ x ∈ cfg h, x ∈ live ∧ x ≠ cur) ∧
    cur ∉ H ∧ cur ≠ 0 ∧ Q_ELEM_STAND_ALONE q cur = true ∧
    idle ∉ H ∧ idle ≠ 0 ∧ idle ∉ live ∧ Q_ELEM_STAND_ALONE q idle = true ∧
    (cur = idle ∨ cur ∈ live) ∧
    (∀ x ∈ live, x = cur ∨ ∃ h ∈ H, x ∈ cfg h)

/-- The invariant of the scheduler for the semaphores `W` and the threads
`live`: the heads are distinct objects, there are fewer than `2^32 - 1`
threads, and the queues are as `queue_inv` says. -/
def sched_inv (G : Symbols) (W live : List Nat) (s : Machine) (cfg : Nat → List Nat) : Prop :=
  (sched_heads G W).Nodup ∧ live.length + 1 < WORD ∧
    queue_inv (sched_heads G W) live s.kthread_wait s.current s.idle_task cfg

/-- One kernel entry, taken as a whole: a timer tick, a call of `schedule`
with `CURRENT_RUNNABLE`, or a call of `sem_wait`, `sem_signal`, `sleep`,
`cas2i_runflag` or `vanish` by the running thread, up to the point where the
call returns or another thread runs.  The semaphores are those of `W`; the
idle thread makes no call that can block.  The list is the list of the
threads that have not vanished. -/
inductive sched_step (G : Symbols) (W : List Nat) :
    List Nat × Machine → List Nat × Machine → Prop where
  | tick (live : List Nat) (s s1 : Machine) :
      _BASE_TIMER_CALL_BACK G s = some s1 → sched_step G W (live, s) (live, s1)
  | yield (live : List Nat) (s s1 : Machine) :
      schedule G true s = some s1 → sched_step G W (live, s) (live, s1)
  | wait (live : List Nat) (s s1 : Machine) (p : Nat) (b : Bool) :
      p ∈ W → s.current ≠ s.idle_task → sem_wait G p s = some (b, s1) →
      sched_step G W (live, s) (live, s1)
  | signal (live : List Nat) (s s1 : Machine) (p : Nat) :
      p ∈ W → sem_signal G p s = some s1 → sched_step G W (live, s) (live, s1)
  | sleep (live : List Nat) (s s1 : Machine) (n : Nat) (ret : KERN_RET_CODE) :
      s.current ≠ s.idle_task → syscall_sleep G n s = some (ret, s1) →
      sched_step G W (live, s) (live, s1)
  | cas2i (live : List Nat) (s s1 : Machine) (user_param_packet : Nat) (ret : KERN_RET_CODE) :
      syscall_cas2irunflag G user_param_packet s = some (ret, s1) →
      sched_step G W (live, s) (live, s1)
  | vanish_wait (live : List Nat) (s s1 : Machine) :
      fork_lock_at (current_task s) ∈ W → vultures_at (s.parentTask (current_task s)) ∈ W →
      s.current ≠ s.idle_task →
      syscall_vanish G s = some (Outcome.blocked 1 s1) → sched_step G W (live, s) (live, s1)
  | vanish (live : List Nat) (s s1 : Machine) :
      fork_lock_at (current_task s) ∈ W → vultures_at (s.parentTask (current_task s)) ∈ W →
      s.current ≠ s.idle_task →
      syscall_vanish G s = some (Outcome.blocked 2 s1) →
      sched_step G W (live, s) (live.filter (fun x => decide (x ≠ s.current)), s1)
  | vanish_resume (live : List Nat) (s s1 : Machine) :
      fork_lock_at (current_task s) ∈ W → vultures_at (s.parentTask (current_task s)) ∈ W →
      s.current ≠ s.idle_task →
      syscall_vanish_1 G s = some (Outcome.blocked 2 s1) →
      sched_step G W (live, s) (live.filter (fun x => decide (x ≠ s.current)), s1)

/-- The states that a sequence of kernel entries leads to. -/
def sched_reach (G : Symbols) (W : List Nat) :
    List Nat × Machine → List Nat × Machine → Prop :=
  Relation.ReflTransGen (sched_step G W)

/-- The queues at the heads `H` hold the same threads under `cfg` and under
`cfg1`. -/
def same_threads (H : List Nat) (cfg cfg1 : Nat → List Nat) : Prop :=
  (∀ h ∈ H, ∀ x ∈ cfg1 h, ∃ h1 ∈ H, x ∈ cfg h1) ∧ (∀ h ∈ H, ∀ x ∈ cfg h, ∃ h1 ∈ H, x ∈ cfg1 h1)

instance queues_ok.decidable (q : Q_MEM) (H : List Nat) (cfg : Nat → List Nat) :
    Decidable (queues_ok q H cfg) :=
  inferInstanceAs (Decidable ((∀ h ∈ H, is_queue q h (cfg h)) ∧
    (∀ h ∈ H, ∀ x ∈ cfg h, x ∉ H ∧ ∀ h2 ∈ H, h2 ≠ h → x ∉ cfg h2)))

instance queue_inv.decidable (H live : List Nat) (q : Q_MEM) (cur idle : Nat)
    (cfg : Nat → List Nat) : Decidable (queue_inv H live q cur idle cfg) :=
  inferInstanceAs (Decidable (queues_ok q H cfg ∧
    (∀ h ∈ H, ∀ x ∈ cfg h, x ∈ live ∧ x ≠ cur) ∧
    cur ∉ H ∧ cur ≠ 0 ∧ Q_ELEM_STAND_ALONE q cur = true ∧
    idle ∉ H ∧ idle ≠ 0 ∧ idle ∉ live ∧ Q_ELEM_STAND_ALONE q idle = true ∧
    (cur = idle ∨ cur ∈ live) ∧
    (∀ x ∈ live, x = cur ∨ ∃ h ∈ H, x ∈ cfg h)))

instance sched_inv.decidable (G : Symbols) (W live : List Nat) (s : Machine)
    (cfg : Nat → List Nat) : Decidable (sched_inv G W live s cfg) :=
  inferInstanceAs (Decidable ((sched_heads G W).Nodup ∧ live.length + 1 < WORD ∧
    queue_inv (sched_heads G W) live s.kthread_wait s.current s.idle_task cfg))

/-- The semaphores of the three tasks of `demo_machine`. -/
def demo_semaphores : List Nat :=
  [fork_lock_at IDLE, vultures_at IDLE, fork_lock_at TASK1, vultures_at TASK1,
    fork_lock_at TASK2, vultures_at TASK2]

/-- The threads of `demo_machine` other than the idle thread. -/
def demo_live : List Nat := [TASK1, THREAD_A, THREAD_B, TASK2]

/-- The queues of `demo_machine`: three threads on the run queue, the other
queues empty. -/
def demo_queues (h : Nat) : List Nat :=
  if h = demo_symbols.run_queue then [THREAD_A, THREAD_B, TASK2] else []

/-! ## Theorems -/

/-! ### Auxiliary facts -/

theorem upd_same {α : Type} (f : Nat → α) (i : Nat) (v : α) : upd f i v i = v := by
  simp [upd]

theorem upd_other {α : Type} (f : Nat → α) (i j : Nat) (v : α) (h : j ≠ i) : upd f i v j = f j := by
  simp [upd, h]

theorem get_free_scan_finds (m : Nat → Int) (hnn : ∀ i, 0 ≤ m i) :
    ∀ n i, (∃ j, i ≤ j ∧ j < i + n ∧ m j = 0) →
      ∃ g, get_free_scan m i n = some (some g) ∧ i ≤ g ∧ g < i + n ∧ m g = 0 := by
  intro n
  induction n with
  | zero => rintro i ⟨j, h1, h2, _⟩; omega
  | succ n ih =>
    rintro i ⟨j, h1, h2, h3⟩
    unfold get_free_scan
    have hi := hnn i
    by_cases h0 : m i = 0
    · exact ⟨i, by simp [h0], le_refl _, by omega, h0⟩
    · have hj : i + 1 ≤ j := by
        rcases Nat.eq_or_lt_of_le h1 with h | h
        · subst h; exact absurd h3 h0
        · exact h
      obtain ⟨g, hg, hg1, hg2, hg3⟩ := ih (i + 1) ⟨j, hj, by omega, h3⟩
      refine ⟨g, ?_, by omega, by omega, hg3⟩
      have : ¬ m i < 0 := by omega
      simp [this, h0, hg]

theorem analyse_fault_vm_congr (P : Platform) (t t1 : ktask) (reason : PTE) (a : Nat)
    (h1 : t1.vm.vm_ranges_head = t.vm.vm_ranges_head)
    (h2 : t1.vm.vm_text_start = t.vm.vm_text_start) (h3 : t1.vm.vm_text_len = t.vm.vm_text_len)
    (h4 : t1.vm.vm_rdata_start = t.vm.vm_rdata_start) (h5 : t1.vm.vm_rdata_len = t.vm.vm_rdata_len)
    (h6 : t1.vm.vm_stack_start = t.vm.vm_stack_start) :
    analyse_fault P t1 reason a = analyse_fault P t reason a := by
  simp [analyse_fault, vmm_get_range, vmm_is_address_ro, h1, h2, h3, h4, h5, h6]

theorem analyse_fault_cow_user (P : Platform) (t : ktask) (reason : PTE) (a : Nat)
    (h : analyse_fault P t reason a = FAULT_ACTION_COW) : P.USER_MEM_START ≤ a := by
  unfold analyse_fault at h
  simp only [FAULT_ACTION_KILL, FAULT_ACTION_COW, FAULT_ACTION_BACK_PAGES,
    FAULT_ACTION_GROW_STACK] at h
  split_ifs at h <;> omega


theorem action_kill_killed (k : Kernel) (t : ktask) (th : Nat) :
    (action_kill k t th).killed = true := by
  unfold action_kill; dsimp only; split_ifs <;> rfl

theorem action_kill_kernel (k : Kernel) (t : ktask) (th : Nat) :
    (action_kill k t th).kernel = k := by
  unfold action_kill; dsimp only; split_ifs <;> rfl

theorem action_kill_vm (k : Kernel) (t : ktask) (th : Nat) :
    (action_kill k t th).task.vm = t.vm := by
  unfold action_kill; dsimp only; split_ifs <;> rfl

theorem is_address_ro_of_mem (vm : task_vm) (a : Nat)
    (h : (vm.vm_text_start ≤ a ∧ a < vm.vm_text_start + vm.vm_text_len ∧
            vm.vm_text_start + vm.vm_text_len < WORD) ∨
         (vm.vm_rdata_start ≤ a ∧ a < vm.vm_rdata_start + vm.vm_rdata_len ∧
            vm.vm_rdata_start + vm.vm_rdata_len < WORD)) :
    vmm_is_address_ro vm a = true := by
  unfold vmm_is_address_ro
  rcases h with ⟨h1, h2, h3⟩ | ⟨h1, h2, h3⟩
  · rw [Nat.mod_eq_of_lt h3]; simp [h1, h2]
  · rw [Nat.mod_eq_of_lt h3]
    split_ifs <;> simp_all

theorem copy_slots_in_window (P : Platform) (k : Kernel)
    (hwin : k.copy_area + 2 * PAGE_SIZE ≤ P.USER_MEM_START) (v : Nat)
    (hv : KERNEL_PAGES_NR P ≤ v) : v ≠ SRC_PAGE_MAP k ∧ v ≠ DST_PAGE_MAP k := by
  simp only [SRC_PAGE_MAP, DST_PAGE_MAP, VPN, KERNEL_PAGES_NR, PAGE_SIZE] at *
  omega

theorem get_free_user_pages_finds (P : Platform) (kv : kern_vmm)
    (hnn : ∀ i, 0 ≤ kv.m_pages i)
    (hfree : ∃ i, KERNEL_PAGES_NR P < i ∧ i < kv.nr_physical_pages ∧ kv.m_pages i = 0) :
    ∃ g, vmm_get_free_user_pages P kv = some (some g, { kv with m_pages := upd kv.m_pages g 1 }) ∧
      KERNEL_PAGES_NR P < g ∧ g < kv.nr_physical_pages ∧ kv.m_pages g = 0 := by
  obtain ⟨j, h1, h2, h3⟩ := hfree
  obtain ⟨g, hg, hg1, hg2, hg3⟩ := get_free_scan_finds kv.m_pages hnn
    (kv.nr_physical_pages - (KERNEL_PAGES_NR P + 1)) (KERNEL_PAGES_NR P + 1)
    ⟨j, by omega, by omega, h3⟩
  refine ⟨g, ?_, by omega, by omega, hg3⟩
  simp [vmm_get_free_user_pages, hg]

theorem for_pages_induct {σ : Type} (body : Nat → σ → Option σ) (last : Nat)
    (C : Nat → σ → Prop) (hlast : last + PAGE_SIZE ≤ WORD)
    (hstep : ∀ la s s1, la < last → C la s → body la s = some s1 → C (la + PAGE_SIZE) s1) :
    ∀ fuel la s s1, C la s → for_pages body last fuel la s = some s1 →
      ∃ la1, last ≤ la1 ∧ C la1 s1 := by
  intro fuel
  induction fuel with
  | zero => intro la s s1 _ h; simp [for_pages] at h
  | succ n ih =>
    intro la s s1 hC h
    unfold for_pages at h
    by_cases hl : la < last
    · simp only [hl, if_true] at h
      cases hb : body la s with
      | none => simp [hb] at h
      | some s2 =>
        simp only [hb] at h
        have hmod : (la + PAGE_SIZE) % WORD = la + PAGE_SIZE := Nat.mod_eq_of_lt (by omega)
        rw [hmod] at h
        exact ih _ _ _ (hstep la s s2 hl hC hb) h
    · simp only [hl, if_false, Option.some.injEq] at h
      subst h
      exact ⟨la, by omega, hC⟩

theorem set_range_attr_effect (vm vm1 : task_vm) (r : vm_range) (attrs : PTE)
    (hwf : range_wf r) (hp : attrs.PRESENT = true)
    (h : vmm_set_range_attr vm r attrs = some vm1) :
    vm1.vm_ranges_head = vm.vm_ranges_head ∧
    (∀ v, vm1.pte v = if r.start / PAGE_SIZE ≤ v ∧ v < (r.start + r.len) / PAGE_SIZE
      then set_attr attrs (vm.pte v) else vm.pte v) ∧
    (∀ d, (vm.pde d).PRESENT = true → (vm1.pde d).PRESENT = true) ∧
    (∀ v, r.start / PAGE_SIZE ≤ v → v < (r.start + r.len) / PAGE_SIZE →
      (vm1.pde (v / PTE_PER_PAGE)).PRESENT = true) := by
  obtain ⟨h1, h2, h3⟩ := hwf
  unfold vmm_set_range_attr at h
  rw [Nat.mod_eq_of_lt h3] at h
  have hlast : r.start + r.len + PAGE_SIZE ≤ WORD := by
    simp only [PAGE_SIZE, WORD] at *; omega
  obtain ⟨la1, hla1, hC⟩ := for_pages_induct (set_range_attr_page attrs) (r.start + r.len)
    (fun la s => la % PAGE_SIZE = 0 ∧ r.start ≤ la ∧ la ≤ r.start + r.len ∧
      s.vm_ranges_head = vm.vm_ranges_head ∧
      (∀ v, s.pte v = if r.start / PAGE_SIZE ≤ v ∧ v < la / PAGE_SIZE
        then set_attr attrs (vm.pte v) else vm.pte v) ∧
      (∀ d, (vm.pde d).PRESENT = true → (s.pde d).PRESENT = true) ∧
      (∀ v, r.start / PAGE_SIZE ≤ v → v < la / PAGE_SIZE →
        (s.pde (v / PTE_PER_PAGE)).PRESENT = true))
    hlast
    (by
      rintro la s s1 hl ⟨c1, c2, c3, c4, c5, c6, c7⟩ hb
      unfold set_range_attr_page at hb
      cases hg : vmm_get_pte s la with
      | none => simp [hg] at hb
      | some pte =>
        simp only [hg, Option.some.injEq] at hb
        have hpte : pte = s.pte (VPN la) := by
          unfold vmm_get_pte at hg
          split_ifs at hg
          simpa using hg.symm
        subst hb
        have hdiv : (la + PAGE_SIZE) / PAGE_SIZE = la / PAGE_SIZE + 1 := by
          simp only [PAGE_SIZE]; omega
        refine ⟨?_, ?_, ?_, c4, ?_, ?_, ?_⟩
        · simp only [PAGE_SIZE] at *; omega
        · omega
        · simp only [PAGE_SIZE] at *; omega
        · intro v
          simp only [upd, VPN, hdiv]
          by_cases hv : v = la / PAGE_SIZE
          · subst hv
            have : r.start / PAGE_SIZE ≤ la / PAGE_SIZE := Nat.div_le_div_right c2
            simp only [if_true, this, true_and, Nat.lt_succ_self, hpte, VPN]
            rw [c5]
            simp
          · simp only [hv, if_false]
            rw [c5]
            have : (v < la / PAGE_SIZE + 1) ↔ (v < la / PAGE_SIZE) := by omega
            simp only [this]
        · intro d hd
          simp only [upd]
          split_ifs
          · simp [set_attr, hp]
          · exact c6 d hd
        · intro v hv1 hv2
          simp only [upd, hdiv] at *
          split_ifs with hx
          · simp [set_attr, hp]
          · by_cases hv : v = la / PAGE_SIZE
            · exfalso
              apply hx
              subst hv
              simp only [PDE_IDX, PAGE_SIZE, PTE_PER_PAGE]
              rw [Nat.div_div_eq_div_mul]
            · exact c7 v hv1 (by omega))
    PAGE_LOOP_FUEL r.start vm vm1
    ⟨h1, le_refl _, by omega, rfl, by
      intro v
      have : ¬ (r.start / PAGE_SIZE ≤ v ∧ v < r.start / PAGE_SIZE) := by omega
      simp [this], fun d hd => hd, by intro v a b; omega⟩ h
  obtain ⟨c1, c2, c3, c4, c5, c6, c7⟩ := hC
  have : la1 = r.start + r.len := by omega
  subst this
  exact ⟨c4, c5, c6, c7⟩


theorem share_physical_effect (P : Platform) (kv kv1 : kern_vmm) (dst dst1 src : task_vm)
    (r : vm_range) (hwf : range_wf r)
    (h : vmm_share_physical_range P kv dst src r = some (kv1, dst1)) :
    dst1.vm_ranges_head = dst.vm_ranges_head ∧ dst1.pde = dst.pde ∧
    (∀ v, dst1.pte v = if r.start / PAGE_SIZE ≤ v ∧ v < (r.start + r.len) / PAGE_SIZE
      then { dst.pte v with ADDRESS := (src.pte v).ADDRESS } else dst.pte v) := by
  obtain ⟨h1, h2, h3⟩ := hwf
  unfold vmm_share_physical_range at h
  rw [Nat.mod_eq_of_lt h3] at h
  have hlast : r.start + r.len + PAGE_SIZE ≤ WORD := by
    simp only [PAGE_SIZE, WORD] at *; omega
  obtain ⟨la1, hla1, hC⟩ := for_pages_induct (share_page P src) (r.start + r.len)
    (fun la s => la % PAGE_SIZE = 0 ∧ r.start ≤ la ∧ la ≤ r.start + r.len ∧
      s.2.vm_ranges_head = dst.vm_ranges_head ∧ s.2.pde = dst.pde ∧
      (∀ v, s.2.pte v = if r.start / PAGE_SIZE ≤ v ∧ v < la / PAGE_SIZE
        then { dst.pte v with ADDRESS := (src.pte v).ADDRESS } else dst.pte v))
    hlast
    (by
      rintro la s s1 hl ⟨c1, c2, c3, c4, c5, c6⟩ hb
      unfold share_page at hb
      cases hg : vmm_get_pte src la with
      | none => simp [hg] at hb
      | some src_pte =>
        cases hg2 : vmm_get_pte s.2 la with
        | none => simp [hg, hg2] at hb
        | some dst_pte =>
          simp only [hg, hg2] at hb
          cases hr : vmm_getref_user_page P s.1 src_pte.ADDRESS with
          | none => simp [hr] at hb
          | some kv2 =>
            simp only [hr, Option.some.injEq] at hb
            have hsrc : src_pte = src.pte (VPN la) := by
              unfold vmm_get_pte at hg
              split_ifs at hg
              simpa using hg.symm
            have hdst : dst_pte = s.2.pte (VPN la) := by
              unfold vmm_get_pte at hg2
              split_ifs at hg2
              simpa using hg2.symm
            subst hb
            have hdiv : (la + PAGE_SIZE) / PAGE_SIZE = la / PAGE_SIZE + 1 := by
              simp only [PAGE_SIZE]; omega
            refine ⟨?_, ?_, ?_, c4, c5, ?_⟩
            · simp only [PAGE_SIZE] at *; omega
            · omega
            · simp only [PAGE_SIZE] at *; omega
            · intro v
              simp only [upd, VPN, hdiv]
              by_cases hv : v = la / PAGE_SIZE
              · subst hv
                have : r.start / PAGE_SIZE ≤ la / PAGE_SIZE := Nat.div_le_div_right c2
                simp only [if_true, this, true_and, Nat.lt_succ_self, hsrc, hdst, VPN]
                rw [c6]
                simp
              · simp only [hv, if_false]
                rw [c6]
                have : (v < la / PAGE_SIZE + 1) ↔ (v < la / PAGE_SIZE) := by omega
                simp only [this])
    PAGE_LOOP_FUEL r.start (kv, dst) (kv1, dst1)
    ⟨h1, le_refl _, by omega, rfl, rfl, by
      intro v
      have : ¬ (r.start / PAGE_SIZE ≤ v ∧ v < r.start / PAGE_SIZE) := by omega
      simp [this]⟩ h
  obtain ⟨c1, c2, c3, c4, c5, c6⟩ := hC
  have : la1 = r.start + r.len := by omega
  subst this
  exact ⟨c4, c5, c6⟩

theorem install_scaled_wf (r : vm_range) (hwf : range_wf r) : install_scaled r = r := by
  obtain ⟨h1, h2, h3⟩ := hwf
  have e1 : (r.start + r.len) % WORD = r.start + r.len := Nat.mod_eq_of_lt h3
  have e2 : page_floor r.start = r.start := by simp [page_floor, h1]
  have e3 : (r.start + r.len + (PAGE_SIZE - 1)) % WORD = r.start + r.len + (PAGE_SIZE - 1) := by
    apply Nat.mod_eq_of_lt
    simp only [PAGE_SIZE, WORD] at *; omega
  have e4 : page_floor (r.start + r.len + (PAGE_SIZE - 1)) = r.start + r.len := by
    simp only [page_floor, PAGE_SIZE] at *; omega
  have e5 : (r.start + r.len + WORD - r.start) % WORD = r.len := by
    have : r.start + r.len + WORD - r.start = r.len + WORD := by omega
    rw [this, Nat.add_mod_right]
    exact Nat.mod_eq_of_lt (by omega)
  unfold install_scaled
  simp only [e1, e2, e3, e4, e5]

theorem install_ptes_effect (start : Nat) :
    ∀ n i heap vm b heap1 vm1, install_ptes start n i heap vm = (b, heap1, vm1) →
      vm1.vm_ranges_head = vm.vm_ranges_head ∧
      (∀ d, (vm.pde d).PRESENT = true → (vm1.pde d).PRESENT = true) ∧
      (∀ v, (vm.pde (v / PTE_PER_PAGE)).PRESENT = true → vm1.pte v = vm.pte v) := by
  intro n
  induction n with
  | zero =>
    intro i heap vm b heap1 vm1 h
    simp only [install_ptes, Prod.mk.injEq] at h
    obtain ⟨_, _, rfl⟩ := h
    exact ⟨rfl, fun d hd => hd, fun v _ => rfl⟩
  | succ n ih =>
    intro i heap vm b heap1 vm1 h
    unfold install_ptes at h
    simp only at h
    split_ifs at h with hp
    · exact ih _ _ _ _ _ _ h
    · cases hk : kalloc heap with
      | mk a heap2 =>
        cases a with
        | none =>
          simp only [hk, Prod.mk.injEq] at h
          obtain ⟨_, _, rfl⟩ := h
          exact ⟨rfl, fun d hd => hd, fun v _ => rfl⟩
        | some new_pte =>
          simp only [hk] at h
          obtain ⟨c1, c2, c3⟩ := ih _ _ _ _ _ _ h
          refine ⟨c1, ?_, ?_⟩
          · intro d hd
            apply c2
            simp only [upd]
            split_ifs
            · rfl
            · exact hd
          · intro v hv
            have hne : v / PTE_PER_PAGE ≠ PDE_IDX ((start + i * PAGE_SIZE) % WORD) := by
              intro he
              rw [he] at hv
              exact hp hv
            rw [c3]
            · simp [hne]
            · simp only [upd]
              split_ifs
              · rfl
              · exact hv

theorem install_range_success (P : Platform) (heap heap1 : List (Option Nat))
    (vm vm1 : task_vm) (r r1 : vm_range) (hwf : range_wf r)
    (h : vmm_install_range P heap vm r = some (KERN_SUCCESS, heap1, vm1, r1)) :
    r1 = r ∧
    vm1.vm_ranges_head = { start := r.start, len := r.len, kernel := false } :: vm.vm_ranges_head ∧
    (∀ d, (vm.pde d).PRESENT = true → (vm1.pde d).PRESENT = true) ∧
    (∀ v, (vm.pde (v / PTE_PER_PAGE)).PRESENT = true → vm1.pte v = vm.pte v) := by
  unfold vmm_install_range at h
  rw [install_scaled_wf r hwf] at h
  simp only at h
  by_cases h1 : r.start < P.USER_MEM_START
  · simp [h1, KERN_ERROR_VM_CANNOT_MAP, KERN_SUCCESS] at h
  · simp only [h1, if_false] at h
    cases hk : kalloc heap with
    | mk a heap2 =>
      cases a with
      | none => simp [hk, KERN_NO_MEM, KERN_SUCCESS] at h
      | some x =>
        simp only [hk] at h
        by_cases h2 : r.len / PAGE_SIZE = 0
        · simp [h2] at h
        · simp only [h2, if_false] at h
          cases hi : install_ptes r.start (r.len / PAGE_SIZE) 0 heap2
              { vm with vm_ranges_head :=
                  { start := r.start, len := r.len, kernel := false } :: vm.vm_ranges_head } with
          | mk b rest =>
            obtain ⟨heap3, vm3⟩ := rest
            obtain ⟨c1, c2, c3⟩ := install_ptes_effect _ _ _ _ _ _ _ _ hi
            cases b with
            | false => simp [hi, KERN_NO_MEM, KERN_SUCCESS] at h
            | true =>
              simp only [hi, Option.some.injEq, Prod.mk.injEq, true_and] at h
              obtain ⟨_, rfl, rfl⟩ := h
              exact ⟨rfl, c1, c2, c3⟩

theorem install_range_ret (P : Platform) (heap heap1 : List (Option Nat))
    (vm vm1 : task_vm) (r r1 : vm_range) (ret : KERN_RET_CODE)
    (h : vmm_install_range P heap vm r = some (ret, heap1, vm1, r1)) :
    ret = KERN_SUCCESS ∨ ret < 0 := by
  unfold vmm_install_range at h
  simp only at h
  by_cases h1 : (install_scaled r).start < P.USER_MEM_START
  · simp only [h1, if_true, Option.some.injEq, Prod.mk.injEq] at h
    right; rw [← h.1]; decide
  · simp only [h1, if_false] at h
    cases hk : kalloc heap with
    | mk a heap2 =>
      cases a with
      | none =>
        simp only [hk, Option.some.injEq, Prod.mk.injEq] at h
        right; rw [← h.1]; decide
      | some x =>
        simp only [hk] at h
        by_cases h2 : (install_scaled r).len / PAGE_SIZE = 0
        · simp [h2] at h
        · simp only [h2, if_false] at h
          split at h
          · simp only [Option.some.injEq, Prod.mk.injEq] at h
            left; exact h.1.symm
          · simp only [Option.some.injEq, Prod.mk.injEq] at h
            right; rw [← h.1]; decide


theorem fork_step (P : Platform) (attrs : PTE) (hp : attrs.PRESENT = true) (s : ForkState)
    (r r1 : vm_range) (hk : r.kernel = false) (hwf : range_wf r)
    (heap1 : List (Option Nat)) (child1 child2 child3 parent1 : task_vm) (kv1 : kern_vmm)
    (h1 : vmm_install_range P s.heap s.child r = some (KERN_SUCCESS, heap1, child1, r1))
    (h2 : vmm_share_physical_range P s.kernel_vmm child1 s.parent r1 = some (kv1, child2))
    (h3 : vmm_set_range_attr s.parent r1 attrs = some parent1)
    (h4 : vmm_set_range_attr child2 r1 attrs = some child3) :
    r1 = r ∧ child3.vm_ranges_head = r :: s.child.vm_ranges_head ∧
    (∀ v, (parent1.pte v).ADDRESS = (s.parent.pte v).ADDRESS) ∧
    (∀ d, (s.parent.pde d).PRESENT = true → (parent1.pde d).PRESENT = true) ∧
    (∀ v, fork_shared attrs s v →
      fork_shared attrs { heap := heap1, kernel_vmm := kv1, parent := parent1, child := child3 } v) ∧
    (∀ v, r.start / PAGE_SIZE ≤ v → v < (r.start + r.len) / PAGE_SIZE →
      fork_shared attrs { heap := heap1, kernel_vmm := kv1, parent := parent1, child := child3 } v ∧
      (parent1.pde (v / PTE_PER_PAGE)).PRESENT = true) := by
  obtain ⟨e1, a1, a2, a3⟩ := install_range_success P _ _ _ _ _ _ hwf h1
  subst e1
  obtain ⟨b1, b2, b3⟩ := share_physical_effect P _ _ _ _ _ _ hwf h2
  obtain ⟨c1, c2, c3, c4⟩ := set_range_attr_effect _ _ _ _ hwf hp h3
  obtain ⟨d1, d2, d3, d4⟩ := set_range_attr_effect _ _ _ _ hwf hp h4
  have hr : ({ start := r1.start, len := r1.len, kernel := false } : vm_range) = r1 := by
    cases r1; simp_all
  refine ⟨rfl, ?_, ?_, c3, ?_, ?_⟩
  · rw [d1, b1, a1, hr]
  · intro v
    rw [c2]
    split_ifs <;> rfl
  · rintro v ⟨g1, g2, g3⟩
    refine ⟨?_, ?_, ?_⟩
    · apply d3
      rw [b2]
      exact a2 _ g1
    · show child3.pte v = parent1.pte v
      rw [d2, c2, b3, a3 v g1, g2]
      split_ifs
      · rfl
      · rfl
    · show parent1.pte v = set_attr attrs (parent1.pte v)
      rw [c2]
      split_ifs
      · rfl
      · exact g3
  · intro v hv1 hv2
    refine ⟨⟨d4 v hv1 hv2, ?_, ?_⟩, c4 v hv1 hv2⟩
    · show child3.pte v = parent1.pte v
      rw [d2, c2, b3]
      simp only [hv1, hv2, and_self, if_true]
      rfl
    · show parent1.pte v = set_attr attrs (parent1.pte v)
      rw [c2]
      simp only [hv1, hv2, and_self, if_true]
      rfl

theorem fork_ranges_success (P : Platform) (attrs : PTE) (hp : attrs.PRESENT = true) :
    ∀ (l : List vm_range) (s : ForkState) (l1 : List vm_range) (s1 : ForkState),
      (∀ r ∈ l, r.kernel = false → range_wf r) →
      fork_ranges P attrs l s = some (KERN_SUCCESS, l1, s1) →
      l1 = l ∧
      s1.child.vm_ranges_head = (l.filter (fun r => !r.kernel)).reverse ++ s.child.vm_ranges_head ∧
      (∀ v, (s1.parent.pte v).ADDRESS = (s.parent.pte v).ADDRESS) ∧
      (∀ v, fork_shared attrs s v → fork_shared attrs s1 v) ∧
      (∀ r ∈ l, r.kernel = false → ∀ v, r.start / PAGE_SIZE ≤ v →
        v < (r.start + r.len) / PAGE_SIZE →
        fork_shared attrs s1 v ∧ (s1.parent.pde (v / PTE_PER_PAGE)).PRESENT = true) ∧
      (∀ d, (s.parent.pde d).PRESENT = true → (s1.parent.pde d).PRESENT = true) := by
  intro l
  induction l with
  | nil =>
    intro s l1 s1 _ h
    simp only [fork_ranges, Option.some.injEq, Prod.mk.injEq, true_and] at h
    obtain ⟨rfl, rfl⟩ := h
    exact ⟨rfl, by simp, fun v => rfl, fun v hv => hv, by simp, fun d hd => hd⟩
  | cons r rest ih =>
    intro s l1 s1 hwf h
    have hwf_rest : ∀ x ∈ rest, x.kernel = false → range_wf x :=
      fun x hx => hwf x (List.mem_cons_of_mem _ hx)
    unfold fork_ranges at h
    by_cases hk : r.kernel = true
    · simp only [hk, if_true] at h
      cases hf : fork_ranges P attrs rest s with
      | none => simp [hf] at h
      | some res =>
        obtain ⟨ret, l2, s2⟩ := res
        simp only [hf, Option.some.injEq, Prod.mk.injEq] at h
        obtain ⟨e1, e2, e3⟩ := h
        subst e1
        obtain ⟨i1, i2, i3, i4, i5, i6⟩ := ih s l2 s2 hwf_rest hf
        subst e2 e3
        refine ⟨by rw [i1], ?_, i3, i4, ?_, i6⟩
        · rw [i2]; simp [List.filter, hk]
        · intro x hx hxk
          rcases List.mem_cons.mp hx with hx | hx
          · subst hx; rw [hk] at hxk; exact absurd hxk (by decide)
          · exact i5 x hx hxk
    · have hk : r.kernel = false := by simpa using hk
      have hwfr := hwf r (List.mem_cons_self _ _) hk
      simp only [hk, Bool.false_eq_true, if_false] at h
      cases h1 : vmm_install_range P s.heap s.child r with
      | none => simp [h1] at h
      | some res1 =>
        obtain ⟨ret, heap1, child1, r1⟩ := res1
        simp only [h1] at h
        by_cases hret : ret = KERN_SUCCESS
        · subst hret
          simp only [ne_eq, not_true_eq_false, if_false] at h
          cases h2 : vmm_share_physical_range P s.kernel_vmm child1 s.parent r1 with
          | none => simp [h2] at h
          | some res2 =>
            obtain ⟨kv1, child2⟩ := res2
            simp only [h2] at h
            cases h3 : vmm_set_range_attr s.parent r1 attrs with
            | none => simp [h3] at h
            | some parent1 =>
              simp only [h3] at h
              cases h4 : vmm_set_range_attr child2 r1 attrs with
              | none => simp [h4] at h
              | some child3 =>
                simp only [h4] at h
                cases hf : fork_ranges P attrs rest
                    { heap := heap1, kernel_vmm := kv1, parent := parent1, child := child3 } with
                | none => simp [hf] at h
                | some res =>
                  obtain ⟨ret2, l2, s2⟩ := res
                  simp only [hf, Option.some.injEq, Prod.mk.injEq] at h
                  obtain ⟨e1, e2, e3⟩ := h
                  subst e1
                  obtain ⟨e1, j2, j3, j4, j5, j6⟩ := fork_step P attrs hp s r r1 hk hwfr heap1
                    child1 child2 child3 parent1 kv1 h1 h2 h3 h4
                  subst e1
                  obtain ⟨i1, i2, i3, i4, i5, i6⟩ := ih _ l2 s2 hwf_rest hf
                  subst e2 e3
                  refine ⟨by rw [i1], ?_, ?_, ?_, ?_, ?_⟩
                  · rw [i2]
                    simp only [List.filter, hk, Bool.not_false, List.reverse_cons,
                      List.append_assoc, List.singleton_append]
                    rw [j2]
                  · intro v; rw [i3]; exact j3 v
                  · intro v hv; exact i4 v (j5 v hv)
                  · intro x hx hxk v hv1 hv2
                    rcases List.mem_cons.mp hx with hx | hx
                    · subst hx
                      obtain ⟨g, gp⟩ := j6 v hv1 hv2
                      exact ⟨i4 v g, i6 _ gp⟩
                    · exact i5 x hx hxk v hv1 hv2
                  · intro d hd; exact i6 d (j4 d hd)
        · rw [if_pos hret] at h
          simp only [Option.some.injEq, Prod.mk.injEq] at h
          exact absurd h.1 hret

theorem fork_ranges_ret (P : Platform) (attrs : PTE) :
    ∀ (l : List vm_range) (s : ForkState) (ret : KERN_RET_CODE) (l1 : List vm_range)
      (s1 : ForkState), fork_ranges P attrs l s = some (ret, l1, s1) →
      ret = KERN_SUCCESS ∨ ret < 0 := by
  intro l
  induction l with
  | nil =>
    intro s ret l1 s1 h
    simp only [fork_ranges, Option.some.injEq, Prod.mk.injEq] at h
    left; exact h.1.symm
  | cons r rest ih =>
    intro s ret l1 s1 h
    unfold fork_ranges at h
    by_cases hk : r.kernel = true
    · simp only [hk, if_true] at h
      cases hf : fork_ranges P attrs rest s with
      | none => simp [hf] at h
      | some res =>
        obtain ⟨ret2, l2, s2⟩ := res
        simp only [hf, Option.some.injEq, Prod.mk.injEq] at h
        rw [← h.1]
        exact ih _ _ _ _ hf
    · have hk : r.kernel = false := by simpa using hk
      simp only [hk, Bool.false_eq_true, if_false] at h
      cases h1 : vmm_install_range P s.heap s.child r with
      | none => simp [h1] at h
      | some res1 =>
        obtain ⟨ret1, heap1, child1, r1⟩ := res1
        simp only [h1] at h
        by_cases hret : ret1 = KERN_SUCCESS
        · subst hret
          simp only [ne_eq, not_true_eq_false, if_false] at h
          cases h2 : vmm_share_physical_range P s.kernel_vmm child1 s.parent r1 with
          | none => simp [h2] at h
          | some res2 =>
            obtain ⟨kv1, child2⟩ := res2
            simp only [h2] at h
            cases h3 : vmm_set_range_attr s.parent r1 attrs with
            | none => simp [h3] at h
            | some parent1 =>
              simp only [h3] at h
              cases h4 : vmm_set_range_attr child2 r1 attrs with
              | none => simp [h4] at h
              | some child3 =>
                simp only [h4] at h
                cases hf : fork_ranges P attrs rest
                    { heap := heap1, kernel_vmm := kv1, parent := parent1, child := child3 } with
                | none => simp [hf] at h
                | some res =>
                  obtain ⟨ret2, l2, s2⟩ := res
                  simp only [hf, Option.some.injEq, Prod.mk.injEq] at h
                  rw [← h.1]
                  exact ih _ _ _ _ hf
        · rw [if_pos hret] at h
          simp only [Option.some.injEq, Prod.mk.injEq] at h
          rw [← h.1]
          rcases install_range_ret P _ _ _ _ _ _ _ h1 with h5 | h5
          · exact absurd h5 hret
          · right; exact h5


theorem init_task_vm_result (P : Platform) (heap heap1 : List (Option Nat)) (p : ktask)
    (ret : KERN_RET_CODE) (pt created : Option ktask)
    (h : vmm_init_task_vm P heap (some p) = some (ret, heap1, pt, created)) :
    (ret ≠ KERN_SUCCESS → ret < 0) ∧
    (ret = KERN_SUCCESS → ∃ p1 c, pt = some p1 ∧ created = some c ∧ p1.vm = p.vm ∧
      c.vm.vm_ranges_head = [{ start := 0, len := P.USER_MEM_START, kernel := true }]) := by
  unfold vmm_init_task_vm at h
  cases hk : kalloc heap with
  | mk a heap2 =>
    cases a with
    | none =>
      simp only [hk, Option.some.injEq, Prod.mk.injEq] at h
      obtain ⟨rfl, _⟩ := h
      exact ⟨fun _ => by decide, fun hc => absurd hc (by decide)⟩
    | some taskmem =>
      simp only [hk] at h
      by_cases hu : KERNEL_PAGES_NR P > initial_pte_pages P * PTE_PER_PAGE
      · simp [hu] at h
      · simp only [hu, if_false, Option.some.injEq, Prod.mk.injEq, Option.map_some'] at h
        obtain ⟨rfl, _, rfl, rfl⟩ := h
        exact ⟨fun hc => absurd rfl hc, fun _ => ⟨_, _, rfl, rfl, rfl, rfl⟩⟩


/-- Whenever the 32-bit quota test of `syscall_newpages` fires, the handler
returns `KERN_NO_MEM` and changes nothing. -/
theorem newpages_over_quota (P : Platform) (k : Kernel) (t : ktask) (base_addr : Nat) (len : Int)
    (junk : PTE) (h : (t.allocated_pages_mem + to_u32 len) % WORD > ALLOC_MEM_QUOTA) :
    syscall_newpages P k t base_addr len junk = some (KERN_NO_MEM, k, t) := by
  simp [syscall_newpages, h]

/-- In every state, a copy-on-write case that returns without killing the
thread changes one reference count only: that of the new frame, set to 1. -/
theorem fault_cow_counts (P : Platform) (k : Kernel) (t : ktask) (thisThread a : Nat)
    (o : FaultOutcome) (h : fault_cow P k t thisThread a = some o) (hk : o.killed = false) :
    ∃ g, k.kernel_vmm.m_pages g = 0 ∧
      o.kernel.kernel_vmm.m_pages = upd k.kernel_vmm.m_pages g 1 := by
  unfold fault_cow at h
  simp only at h
  cases hp : vmm_get_pte t.vm a with
  | none => simp [hp] at h
  | some pte =>
    simp only [hp] at h
    unfold vmm_get_free_user_pages at h
    cases hs : get_free_scan k.kernel_vmm.m_pages (KERNEL_PAGES_NR P + 1)
        (k.kernel_vmm.nr_physical_pages - (KERNEL_PAGES_NR P + 1)) with
    | none => simp [hs] at h
    | some r =>
      cases r with
      | none =>
        simp only [hs, Option.some.injEq] at h
        rw [← h, action_kill_killed] at hk
        exact absurd hk (by decide)
      | some g =>
        simp only [hs, Option.some.injEq] at h
        refine ⟨g, ?_, by rw [← h]⟩
        have hscan : ∀ n i g, get_free_scan k.kernel_vmm.m_pages i n = some (some g) →
            k.kernel_vmm.m_pages g = 0 := by
          intro n
          induction n with
          | zero => intro i g hg; simp [get_free_scan] at hg
          | succ n ih =>
            intro i g hg
            unfold get_free_scan at hg
            split_ifs at hg with h1 h2
            · simp only [Option.some.injEq] at hg
              rw [← hg]; exact h2
            · exact ih _ _ hg
        exact hscan _ _ _ hs

/-! ### The claims -/

/-- C1: after `load_elf` and `fork`, the data page of parent and child is
frame 4099 with reference count 2; the parent then writes to it.  The handler
gives the parent the fresh frame 4102 with reference count 1, but the count of
frame 4099, which only the child maps now, is still 2. -/
theorem cow_old_frame_keeps_count :
    (demo_fork 64).map (fun f =>
        (f.kernel.kernel_vmm.m_pages 4099,
         (f.parent.vm.pte (VPN 0x01002000)).PRESENT, (f.parent.vm.pte (VPN 0x01002000)).ADDRESS))
      = some (2, true, 4099) ∧
    (demo_fork 64).map (fun f =>
        f.child.map (fun c => ((c.vm.pte (VPN 0x01002000)).PRESENT,
          (c.vm.pte (VPN 0x01002000)).ADDRESS)))
      = some (some (true, 4099)) ∧
    (demo_fork 64).map (fun f =>
        analyse_fault demo_platform f.parent error_write_present 0x01002000)
      = some FAULT_ACTION_COW ∧
    (demo_cow 64).map (fun o =>
        (o.killed, (o.task.vm.pte (VPN 0x01002000)).PRESENT,
         (o.task.vm.pte (VPN 0x01002000)).ADDRESS))
      = some (false, true, 4102) ∧
    (demo_cow 64).map (fun o =>
        (o.kernel.kernel_vmm.m_pages 4102, o.kernel.kernel_vmm.m_pages 4099))
      = some (1, 2) := by
  refine ⟨?_, ?_, ?_, ?_, ?_⟩ <;> decide

/-- C2, counterexample: on a machine whose five user frames are all in use
after `load_elf`, the parent writes to the data page it shares with its child
(frame 4099).  The fault is a copy-on-write fault, but no frame is free: the
handler kills the thread and the entry still names frame 4099. -/
theorem cow_without_free_frame :
    (demo_fork 5).map (fun f =>
        (analyse_fault demo_platform f.parent error_write_present 0x01002000,
         (f.parent.vm.pte (VPN 0x01002000)).ADDRESS, refcounts f.kernel 5))
      = some (FAULT_ACTION_COW, 4099, [2, 2, 2, 2, 2]) ∧
    (demo_cow 5).map (fun o =>
        (o.killed, (o.task.vm.pte (VPN 0x01002000)).ADDRESS, refcounts o.kernel 5))
      = some (true, 4099, [2, 2, 2, 2, 2]) := by
  refine ⟨?_, ?_⟩ <;> decide

/-- C2, amended: for a copy-on-write fault of the running task at `a`, whose
present entry names a frame `f` with reference count at least 1, when a free
managed frame exists: the handler returns, the entry of `a` names a frame `g`
different from `f` whose count was 0, the bytes of `g` are those of `f`, the
bytes of `f` are unchanged, and the record of every other task, its page
tables included, is unchanged. -/
theorem cow_fault_gives_private_copy (P : Platform) (s : System) (t : ktask) (reason : PTE)
    (a f : Nat)
    (hcur : s.tasks s.current_task = some t)
    (hcow : analyse_fault P t reason a = FAULT_ACTION_COW)
    (hpde : (t.vm.pde (PDE_IDX a)).PRESENT = true)
    (hpresent : (t.vm.pte (VPN a)).PRESENT = true)
    (hf : (t.vm.pte (VPN a)).ADDRESS = f)
    (href : 1 ≤ s.kernel.kernel_vmm.m_pages f)
    (hcopy : (t.vm.pde (PDE_IDX s.kernel.copy_area)).PRESENT = true)
    (hwin : s.kernel.copy_area + 2 * PAGE_SIZE ≤ P.USER_MEM_START)
    (hnn : ∀ i, 0 ≤ s.kernel.kernel_vmm.m_pages i)
    (hfree : ∃ i, KERNEL_PAGES_NR P < i ∧ i < s.kernel.kernel_vmm.nr_physical_pages ∧
      s.kernel.kernel_vmm.m_pages i = 0)
    (hmem : s.kernel.kernel_vmm.nr_physical_pages ≤ ADDRESS_FIELD) :
    ∃ s1 t1 g, s.page_fault P reason a = some (false, s1) ∧
      s1.tasks s.current_task = some t1 ∧
      (t1.vm.pte (VPN a)).PRESENT = true ∧ (t1.vm.pte (VPN a)).ADDRESS = g ∧
      g ≠ f ∧ s.kernel.kernel_vmm.m_pages g = 0 ∧
      s1.kernel.phys g = s.kernel.phys f ∧ s1.kernel.phys f = s.kernel.phys f ∧
      ∀ i, i ≠ s.current_task → s1.tasks i = s.tasks i := by
  obtain ⟨g, hg, hg1, hg2, hg3⟩ := get_free_user_pages_finds P s.kernel.kernel_vmm hnn hfree
  have hgf : g ≠ f := by
    intro h; rw [h] at hg3; omega
  have hgm : g % ADDRESS_FIELD = g := Nat.mod_eq_of_lt (by omega)
  have hua : P.USER_MEM_START ≤ a := analyse_fault_cow_user P t reason a hcow
  have hv := copy_slots_in_window P s.kernel hwin (VPN a)
    (by simp only [KERNEL_PAGES_NR, VPN]; exact Nat.div_le_div_right hua)
  have hsd : DST_PAGE_MAP s.kernel ≠ SRC_PAGE_MAP s.kernel := by
    simp [DST_PAGE_MAP, SRC_PAGE_MAP]
  have hcow0 : analyse_fault P (copy_setup s.kernel t) reason a = FAULT_ACTION_COW := by
    rw [analyse_fault_vm_congr P t (copy_setup s.kernel t) reason a rfl rfl rfl rfl rfl rfl]
    exact hcow
  have hres : ∃ o, page_fault_handler P s.kernel t s.current_thread reason a = some o ∧
      o.killed = false ∧
      (o.task.vm.pte (VPN a)).PRESENT = true ∧ (o.task.vm.pte (VPN a)).ADDRESS = g ∧
      o.kernel.phys g = s.kernel.phys f ∧ o.kernel.phys f = s.kernel.phys f := by
    have hh : page_fault_handler P s.kernel t s.current_thread reason a
        = fault_cow P s.kernel (copy_setup s.kernel t) s.current_thread a := by
      simp only [page_fault_handler, vmm_get_pte, hcopy, if_true, hcow0]
      simp only [FAULT_ACTION_COW, FAULT_ACTION_GROW_STACK, FAULT_ACTION_BACK_PAGES,
        show ¬ (1 = 4) by decide, show ¬ (1 = 3) by decide, if_false, if_true]
    rw [hh]
    simp only [fault_cow, vmm_get_pte, copy_setup, hpde, if_true, hg, Option.some.injEq,
      exists_eq_left']
    refine ⟨trivial, ?_, ?_, ?_, ?_⟩
    · simp [upd, hv.1, hv.2, hpresent]
    · simp [upd, hgm]
    · simp [upd, hv.1, hv.2, hgm, hsd, hsd.symm, hf]
    · simp [upd, hv.1, hv.2, hgm, hsd, hsd.symm, hf, hgf.symm]
  obtain ⟨o, ho, hk, h1, h2, h3, h4⟩ := hres
  refine ⟨{ s with kernel := o.kernel, tasks := upd s.tasks s.current_task (some o.task) },
    o.task, g, ?_, ?_, h1, h2, hgf, hg3, h3, h4, ?_⟩
  · simp [System.page_fault, hcur, ho, hk]
  · simp [upd]
  · intro i hi
    simp [upd, hi]

/-- Witness of `cow_fault_gives_private_copy`: a write to the shared data page
of `shared_task`. -/
theorem cow_fault_gives_private_copy_witness :
    analyse_fault demo_platform shared_task error_write_present 0x01002000 = FAULT_ACTION_COW ∧
    ∃ s1 t1 g, shared_system.page_fault demo_platform error_write_present 0x01002000
        = some (false, s1) ∧
      s1.tasks shared_system.current_task = some t1 ∧
      (t1.vm.pte (VPN 0x01002000)).PRESENT = true ∧ (t1.vm.pte (VPN 0x01002000)).ADDRESS = g ∧
      g ≠ 4099 ∧ shared_system.kernel.kernel_vmm.m_pages g = 0 ∧
      s1.kernel.phys g = shared_system.kernel.phys 4099 ∧
      s1.kernel.phys 4099 = shared_system.kernel.phys 4099 ∧
      ∀ i, i ≠ shared_system.current_task → s1.tasks i = shared_system.tasks i :=
  ⟨by decide,
   cow_fault_gives_private_copy demo_platform shared_system shared_task error_write_present
     0x01002000 4099 rfl (by decide) (by decide) (by decide) (by decide) (by decide) (by decide)
     (by decide) (fun i => by simp only [shared_system]; split <;> decide)
     ⟨4097, by decide, by decide, by decide⟩ (by decide)⟩

/-- C3: after a successful `syscall_fork` of a parent whose ranges are
page-aligned and end below the top of the address space, the range queue of
the child holds the ranges of the parent, the kernel range apart, followed by
its own kernel range; the queue of the parent is unchanged; and for every
address of every such range the entries of child and parent name the same
frame, the frame the parent named before, and are present, user-accessible
and not writable. -/
theorem fork_shares_ranges (P : Platform) (k : Kernel) (thisTask : ktask) (junk : PTE)
    (res : ForkResult)
    (hwf : ∀ r ∈ thisTask.vm.vm_ranges_head, r.kernel = false →
      r.start % PAGE_SIZE = 0 ∧ r.len % PAGE_SIZE = 0 ∧ r.start + r.len < WORD)
    (hfork : syscall_fork P k thisTask junk = some res) (hsucc : 0 ≤ res.ret) :
    ∃ child, res.child = some child ∧
      child.vm.vm_ranges_head =
        (thisTask.vm.vm_ranges_head.filter (fun r => !r.kernel)).reverse ++
          [{ start := 0, len := P.USER_MEM_START, kernel := true }] ∧
      res.parent.vm.vm_ranges_head = thisTask.vm.vm_ranges_head ∧
      ∀ r ∈ thisTask.vm.vm_ranges_head, r.kernel = false →
        ∀ a, r.start ≤ a → a < r.start + r.len →
          (child.vm.pte (VPN a)).ADDRESS = (res.parent.vm.pte (VPN a)).ADDRESS ∧
          (res.parent.vm.pte (VPN a)).ADDRESS = (thisTask.vm.pte (VPN a)).ADDRESS ∧
          (child.vm.pde (PDE_IDX a)).PRESENT = true ∧
          (res.parent.vm.pde (PDE_IDX a)).PRESENT = true ∧
          (child.vm.pte (VPN a)).PRESENT = true ∧ (child.vm.pte (VPN a)).US = true ∧
          (child.vm.pte (VPN a)).RW = false ∧
          (res.parent.vm.pte (VPN a)).PRESENT = true ∧ (res.parent.vm.pte (VPN a)).US = true ∧
          (res.parent.vm.pte (VPN a)).RW = false := by
  unfold syscall_fork at hfork
  simp only at hfork
  cases hi : vmm_init_task_vm P k.heap (some thisTask) with
  | none => simp [hi] at hfork
  | some r0 =>
    obtain ⟨ret, heap1, pt, created⟩ := r0
    obtain ⟨i1, i2⟩ := init_task_vm_result P _ _ _ _ _ _ hi
    simp only [hi] at hfork
    by_cases hret : ret = KERN_SUCCESS
    · obtain ⟨p1, c, rfl, rfl, hp1, hc⟩ := i2 hret
      simp only [hret, ne_eq, not_true_eq_false, if_false] at hfork
      cases hf : fork_ranges P
          { junk with PRESENT := true, RW := false, US := true, GLOBAL := false }
          p1.vm.vm_ranges_head
          { heap := heap1, kernel_vmm := k.kernel_vmm, parent := p1.vm, child := c.vm } with
      | none => simp [hf] at hfork
      | some r1 =>
        obtain ⟨ret1, l, s⟩ := r1
        simp only [hf] at hfork
        rcases fork_ranges_ret P _ _ _ _ _ _ hf with hr | hr
        · subst hr
          simp only [ne_eq, not_true_eq_false, if_false, Option.some.injEq] at hfork
          subst hfork
          have hwf1 : ∀ r ∈ p1.vm.vm_ranges_head, r.kernel = false → range_wf r := by
            rw [hp1]; exact hwf
          obtain ⟨f1, f2, f3, f4, f5, f6⟩ := fork_ranges_success P _ rfl _ _ _ _ hwf1 hf
          refine ⟨_, rfl, ?_, ?_, ?_⟩
          · show s.child.vm_ranges_head = _
            rw [f2, hp1]
            show _ ++ c.vm.vm_ranges_head = _
            rw [hc]
          · show l = _
            rw [f1, hp1]
          · intro r hr hrk a ha1 ha2
            obtain ⟨w1, w2, w3⟩ := hwf r hr hrk
            have hv1 : r.start / PAGE_SIZE ≤ VPN a := Nat.div_le_div_right ha1
            have hv2 : VPN a < (r.start + r.len) / PAGE_SIZE := by
              simp only [VPN, PAGE_SIZE] at *; omega
            obtain ⟨⟨g1, g2, g3⟩, g4⟩ := f5 r (by rw [hp1]; exact hr) hrk (VPN a) hv1 hv2
            have hidx : VPN a / PTE_PER_PAGE = PDE_IDX a := by
              simp only [VPN, PDE_IDX, PAGE_SIZE, PTE_PER_PAGE]
              rw [Nat.div_div_eq_div_mul]
            rw [hidx] at g1 g4
            have ha : (s.parent.pte (VPN a)).ADDRESS = (thisTask.vm.pte (VPN a)).ADDRESS := by
              rw [f3, hp1]
            have hq : (s.parent.pte (VPN a)).PRESENT = true ∧ (s.parent.pte (VPN a)).US = true ∧
                (s.parent.pte (VPN a)).RW = false := by
              rw [g3]; exact ⟨rfl, rfl, rfl⟩
            show (s.child.pte (VPN a)).ADDRESS = (s.parent.pte (VPN a)).ADDRESS ∧
              (s.parent.pte (VPN a)).ADDRESS = (thisTask.vm.pte (VPN a)).ADDRESS ∧
              (s.child.pde (PDE_IDX a)).PRESENT = true ∧
              (s.parent.pde (PDE_IDX a)).PRESENT = true ∧
              (s.child.pte (VPN a)).PRESENT = true ∧ (s.child.pte (VPN a)).US = true ∧
              (s.child.pte (VPN a)).RW = false ∧
              (s.parent.pte (VPN a)).PRESENT = true ∧ (s.parent.pte (VPN a)).US = true ∧
              (s.parent.pte (VPN a)).RW = false
            rw [g2]
            exact ⟨rfl, ha, g1, g4, hq.1, hq.2.1, hq.2.2, hq.1, hq.2.1, hq.2.2⟩
        · have hne : ret1 ≠ KERN_SUCCESS := by
            intro he; rw [he] at hr; exact absurd hr (by decide)
          rw [if_pos hne] at hfork
          simp only [Option.some.injEq] at hfork
          subst hfork
          exact absurd hsucc (by simpa using hr)
    · rw [if_pos hret] at hfork
      simp only [Option.some.injEq] at hfork
      subst hfork
      exact absurd hsucc (by simpa using i1 hret)

/-- Witness of `fork_shares_ranges`: the fork of the task after `load_elf`
on the machine with 64 user frames. -/
theorem fork_shares_ranges_witness :
    0 ≤ demo_forked.ret ∧
    ∃ child, demo_forked.child = some child ∧
      child.vm.vm_ranges_head =
        (demo_state.2.vm.vm_ranges_head.filter (fun r => !r.kernel)).reverse ++
          [{ start := 0, len := demo_platform.USER_MEM_START, kernel := true }] ∧
      demo_forked.parent.vm.vm_ranges_head = demo_state.2.vm.vm_ranges_head ∧
      ∀ r ∈ demo_state.2.vm.vm_ranges_head, r.kernel = false →
        ∀ a, r.start ≤ a → a < r.start + r.len →
          (child.vm.pte (VPN a)).ADDRESS = (demo_forked.parent.vm.pte (VPN a)).ADDRESS ∧
          (demo_forked.parent.vm.pte (VPN a)).ADDRESS = (demo_state.2.vm.pte (VPN a)).ADDRESS ∧
          (child.vm.pde (PDE_IDX a)).PRESENT = true ∧
          (demo_forked.parent.vm.pde (PDE_IDX a)).PRESENT = true ∧
          (child.vm.pte (VPN a)).PRESENT = true ∧ (child.vm.pte (VPN a)).US = true ∧
          (child.vm.pte (VPN a)).RW = false ∧
          (demo_forked.parent.vm.pte (VPN a)).PRESENT = true ∧
          (demo_forked.parent.vm.pte (VPN a)).US = true ∧
          (demo_forked.parent.vm.pte (VPN a)).RW = false :=
  ⟨by decide,
   fork_shares_ranges demo_platform demo_state.1 demo_state.2 PTE.zero demo_forked (by decide)
     (by
       have e1 : demo_fork 64 = some demo_forked := (Option.some_get _).symm
       have e2 : demo_exec 64 = some demo_state := (Option.some_get _).symm
       have e3 : demo_fork 64 = syscall_fork demo_platform demo_state.1 demo_state.2 PTE.zero := by
         unfold demo_fork; rw [e2]; rfl
       rw [← e3, e1])
     (by decide)⟩

/-- Function `analyse_fault` is the table `spec_fault_table`, first match from
the top, when the two membership tests of the table are the kernel's own:
whether `vmm_get_range` finds a range for the address and whether
`vmm_is_address_ro` holds.  These are membership in an installed range other
than the kernel one and in the remembered text or read-only data extent with
32-bit range ends, which differs from membership for a range that ends at
`2^32`. -/
theorem analyse_fault_eq_table (P : Platform) (t : ktask) (reason : PTE) (a : Nat) :
    analyse_fault P t reason a =
      spec_fault_table P reason.PRESENT reason.RW a (vmm_get_range t.vm a).isSome
        (vmm_is_address_ro t.vm a) t.vm.vm_stack_start ∧
    ((vmm_get_range t.vm a).isSome = true ↔
      ∃ r ∈ t.vm.vm_ranges_head, r.kernel = false ∧ r.start ≤ a ∧ a < (r.start + r.len) % WORD) ∧
    (vmm_is_address_ro t.vm a = true ↔
      (t.vm.vm_text_start ≤ a ∧ a < (t.vm.vm_text_start + t.vm.vm_text_len) % WORD) ∨
      (t.vm.vm_rdata_start ≤ a ∧ a < (t.vm.vm_rdata_start + t.vm.vm_rdata_len) % WORD)) := by
  refine ⟨?_, ?_, ?_⟩
  · unfold analyse_fault spec_fault_table
    cases hp : reason.PRESENT <;> cases hw : reason.RW <;>
      cases hr : vmm_is_address_ro t.vm a <;> cases hg : vmm_get_range t.vm a <;> simp
  · unfold vmm_get_range
    rw [List.find?_isSome]
    simp [range_holds, and_assoc]
  · unfold vmm_is_address_ro
    split_ifs with h1 h2
    · simp [h1]
    · simp [h1, h2]
    · simp [h1, h2]

/-- C5, counterexample: the task after `load_elf` removes its text range with
`remove_pages(0x01000000)` and asks for the page again with
`new_pages(0x01000000, 4096)`.  A store to `0x01000000`, an address inside the
remembered text extent, then faults on a page that is not present: the fault
is classified `FAULT_ACTION_BACK_PAGES`, the handler allocates frame 4101 and
makes the entry present and writable. -/
theorem store_to_text_is_backed :
    (demo_remove_new 0x01000000 0x1000).map (fun o =>
        (o.1, o.2.2.vm.vm_text_start, o.2.2.vm.vm_text_len,
         vmm_is_address_ro o.2.2.vm 0x01000000,
         analyse_fault demo_platform o.2.2 error_write_absent 0x01000000))
      = some (KERN_SUCCESS, 0x01000000, 0x1000, true, FAULT_ACTION_BACK_PAGES) ∧
    (demo_remove_new 0x01000000 0x1000).map (fun o =>
        ((o.2.2.vm.pte (VPN 0x01000000)).PRESENT, o.2.1.kernel_vmm.m_pages 4101))
      = some (false, 0) ∧
    demo_text_store.map (fun o =>
        (o.killed, (o.task.vm.pte (VPN 0x01000000)).PRESENT, (o.task.vm.pte (VPN 0x01000000)).RW,
         (o.task.vm.pte (VPN 0x01000000)).ADDRESS, o.kernel.kernel_vmm.m_pages 4101))
      = some (false, true, true, 4101, 1) := by
  refine ⟨?_, ?_, ?_⟩ <;> decide

/-- C5, amended: a page fault with the present bit and the write bit set, at
an address inside the remembered text or read-only data extent, is classified
`FAULT_ACTION_KILL`; the handler kills the thread, leaves the frame allocator
as it was and changes no page-directory entry and no page-table entry of a
user page. -/
theorem store_to_present_ro_kills (P : Platform) (k : Kernel) (t : ktask) (thisThread : Nat)
    (reason : PTE) (a : Nat)
    (hP : reason.PRESENT = true) (hW : reason.RW = true)
    (hin : (t.vm.vm_text_start ≤ a ∧ a < t.vm.vm_text_start + t.vm.vm_text_len ∧
              t.vm.vm_text_start + t.vm.vm_text_len < WORD) ∨
           (t.vm.vm_rdata_start ≤ a ∧ a < t.vm.vm_rdata_start + t.vm.vm_rdata_len ∧
              t.vm.vm_rdata_start + t.vm.vm_rdata_len < WORD))
    (hcopy : (t.vm.pde (PDE_IDX k.copy_area)).PRESENT = true)
    (hwin : k.copy_area + 2 * PAGE_SIZE ≤ P.USER_MEM_START) :
    analyse_fault P t reason a = FAULT_ACTION_KILL ∧
    ∃ o, page_fault_handler P k t thisThread reason a = some o ∧ o.killed = true ∧
      o.kernel.kernel_vmm = k.kernel_vmm ∧ o.task.vm.pde = t.vm.pde ∧
      ∀ v, KERNEL_PAGES_NR P ≤ v → o.task.vm.pte v = t.vm.pte v := by
  have hro := is_address_ro_of_mem t.vm a hin
  have hk : ∀ t1 : ktask, t1.vm.vm_text_start = t.vm.vm_text_start →
      t1.vm.vm_text_len = t.vm.vm_text_len → t1.vm.vm_rdata_start = t.vm.vm_rdata_start →
      t1.vm.vm_rdata_len = t.vm.vm_rdata_len →
      analyse_fault P t1 reason a = FAULT_ACTION_KILL := by
    intro t1 h1 h2 h3 h4
    have : vmm_is_address_ro t1.vm a = true := by
      simpa [vmm_is_address_ro, h1, h2, h3, h4] using hro
    simp [analyse_fault, hP, hW, this]
  refine ⟨hk t rfl rfl rfl rfl, ?_⟩
  have hk0 : analyse_fault P (copy_setup k t) reason a = FAULT_ACTION_KILL :=
    hk _ rfl rfl rfl rfl
  have hres : page_fault_handler P k t thisThread reason a
      = some (action_kill k (copy_setup k t) thisThread) := by
    simp [page_fault_handler, vmm_get_pte, hcopy, hk0, FAULT_ACTION_KILL, FAULT_ACTION_GROW_STACK,
      FAULT_ACTION_BACK_PAGES, FAULT_ACTION_COW, FAULT_ACTION_PANIC]
  refine ⟨_, hres, action_kill_killed _ _ _, ?_, ?_, ?_⟩
  · rw [action_kill_kernel]
  · rw [action_kill_vm]; rfl
  · intro v hv
    obtain ⟨h1, h2⟩ := copy_slots_in_window P k hwin v hv
    rw [action_kill_vm]
    simp [copy_setup, upd, h1, h2]

/-- Witness of `store_to_present_ro_kills`: a write fault on the present text
page of the task after `load_elf`. -/
theorem store_to_present_ro_kills_witness :
    (demo_state.2.vm.vm_text_start ≤ 0x01000000 ∧
      0x01000000 < demo_state.2.vm.vm_text_start + demo_state.2.vm.vm_text_len) ∧
    (analyse_fault demo_platform demo_state.2 error_write_present 0x01000000 = FAULT_ACTION_KILL ∧
      ∃ o, page_fault_handler demo_platform demo_state.1 demo_state.2 demo_state.2.vm.taskmem
          error_write_present 0x01000000 = some o ∧ o.killed = true ∧
        o.kernel.kernel_vmm = demo_state.1.kernel_vmm ∧ o.task.vm.pde = demo_state.2.vm.pde ∧
        ∀ v, KERNEL_PAGES_NR demo_platform ≤ v → o.task.vm.pte v = demo_state.2.vm.pte v) :=
  ⟨by decide,
   store_to_present_ro_kills demo_platform demo_state.1 demo_state.2 demo_state.2.vm.taskmem
     error_write_present 0x01000000 rfl rfl (by decide) (by decide) (by decide)⟩

/-- C6: the task after `load_elf` has the stack range `[0xffffa000, 0xffffc000)`
and faults at `0xffff9fff`.  The handler grows the stack: the new lowest page
is present, writable, backed by the fresh frame 4102 with count 1 and zeroed,
and `vm_stack_start` is `0xffff9000`; but the range is now
`[0xffff9000, 0xffffb000)`: the start moved down and the length stayed, so the
address `0xffffb000`, in the range before, is in no range after. -/
theorem grow_stack_moves_range :
    (demo_exec 64).map (fun s =>
        (analyse_fault demo_platform s.2 error_write_absent 0xffff9fff,
         vmm_get_range s.2.vm s.2.vm.vm_stack_start, vmm_get_range s.2.vm 0xffffb000))
      = some (FAULT_ACTION_GROW_STACK,
          some { start := 0xffffa000, len := 0x2000, kernel := false },
          some { start := 0xffffa000, len := 0x2000, kernel := false }) ∧
    demo_grow.map (fun o =>
        (o.killed, o.task.vm.vm_stack_start, vmm_get_range o.task.vm o.task.vm.vm_stack_start,
         vmm_get_range o.task.vm 0xffffb000))
      = some (false, 0xffff9000, some { start := 0xffff9000, len := 0x2000, kernel := false },
          none) ∧
    demo_grow.map (fun o =>
        ((o.task.vm.pte (VPN 0xffff9000)).PRESENT, (o.task.vm.pte (VPN 0xffff9000)).RW,
         (o.task.vm.pte (VPN 0xffff9000)).ADDRESS, o.kernel.kernel_vmm.m_pages 4102,
         o.kernel.phys 4102 0, o.kernel.phys 4102 4095))
      = some (true, true, 4102, 1, 0, 0) := by
  refine ⟨?_, ?_, ?_⟩ <;> decide

/-- C7: the task after `load_elf` calls `new_pages(0xfffff000, 0x2000)`, a
request that runs past the top of the address space.  The call returns
`KERN_SUCCESS`, and the entry of page 0, an address of the kernel window, which
was present before, is not present after. -/
theorem new_pages_wraps_into_kernel :
    (demo_exec 64).map (fun s => (s.2.vm.pte (VPN 0)).PRESENT) = some true ∧
    (demo_new_pages 0xfffff000 0x2000).map (fun o => (o.1, (o.2.2.vm.pte (VPN 0)).PRESENT))
      = some (KERN_SUCCESS, false) ∧
    0xfffff000 + 0x2000 > WORD ∧ 0 < demo_platform.USER_MEM_START := by
  refine ⟨?_, ?_, ?_, ?_⟩ <;> decide

/-- C8: the task after `load_elf` calls `new_pages(0xfffff000, 0x1000)`, the
last page of the address space.  The call returns `KERN_SUCCESS` and puts the
range on the queue, but the entry of the page is neither writable nor
user-accessible, and a fault on the page, not present, at `0xfffff000` is
classified `FAULT_ACTION_KILL`. -/
theorem new_pages_top_page_unusable :
    (demo_new_pages 0xfffff000 0x1000).map (fun o => (o.1, range_list o.2.2))
      = some (KERN_SUCCESS, [(0xfffff000, 0x1000), (0, 0x01000000), (0xffffa000, 0x2000),
          (0x01002000, 0x1000), (0x01001000, 0x1000), (0x01000000, 0x1000)]) ∧
    (demo_new_pages 0xfffff000 0x1000).map (fun o =>
        ((o.2.2.vm.pte (VPN 0xfffff000)).PRESENT, (o.2.2.vm.pte (VPN 0xfffff000)).RW,
         (o.2.2.vm.pte (VPN 0xfffff000)).US))
      = some (false, false, false) ∧
    (demo_new_pages 0xfffff000 0x1000).map (fun o =>
        analyse_fault demo_platform o.2.2 error_write_absent 0xfffff000)
      = some FAULT_ACTION_KILL := by
  refine ⟨?_, ?_, ?_⟩ <;> decide

/-- C9: the task after `load_elf` removes its stack range with
`remove_pages(0xffffa000)`, which leaves `allocated_pages_mem = 0xffffe000`.
For the request `new_pages(0xffffa000, 0x2000)` the sum
`allocated_pages_mem + len` is `2^32`, above the quota, but the call returns
`KERN_SUCCESS` and changes the range queue and the counter. -/
theorem quota_sum_wraps :
    (demo_exec 64).bind (fun s =>
        (remove_pages demo_platform s.1 s.2 0xffffa000).map (fun o =>
          (o.1, o.2.2.allocated_pages_mem, range_list o.2.2)))
      = some (KERN_SUCCESS, 0xffffe000,
          [(0, 0x01000000), (0x01002000, 0x1000), (0x01001000, 0x1000), (0x01000000, 0x1000)]) ∧
    0xffffe000 + 0x2000 > ALLOC_MEM_QUOTA ∧
    (demo_remove_new 0xffffa000 0x2000).map (fun o =>
        (o.1, o.2.2.allocated_pages_mem, range_list o.2.2))
      = some (KERN_SUCCESS, 0,
          [(0xffffa000, 0x2000), (0, 0x01000000), (0x01002000, 0x1000), (0x01001000, 0x1000),
           (0x01000000, 0x1000)]) := by
  refine ⟨?_, ?_, ?_⟩ <;> decide

/-- C10: the task after `load_elf` calls `new_pages(0xfffff000, 0x1000)`, which
returns `KERN_SUCCESS`, then `remove_pages(0xfffff000)`.  The second call
returns `KERN_ERR_BAD_SYS_PARAM` from the argument check (the handler alone
returns `KERN_ERROR_ADDRESS_NOT_PRESENT`); the range stays on the queue and
the counter stays at 4096 instead of 0. -/
theorem remove_pages_misses_top_page :
    (demo_exec 64).map (fun s => (s.2.allocated_pages_mem, range_list s.2))
      = some (0, [(0, 0x01000000), (0xffffa000, 0x2000), (0x01002000, 0x1000),
          (0x01001000, 0x1000), (0x01000000, 0x1000)]) ∧
    (demo_new_pages 0xfffff000 0x1000).map (fun o => o.1) = some KERN_SUCCESS ∧
    (demo_new_remove 0xfffff000 0x1000).map (fun o =>
        (o.1, o.2.2.allocated_pages_mem, range_list o.2.2))
      = some (KERN_ERR_BAD_SYS_PARAM, 0x1000,
          [(0xfffff000, 0x1000), (0, 0x01000000), (0xffffa000, 0x2000), (0x01002000, 0x1000),
           (0x01001000, 0x1000), (0x01000000, 0x1000)]) ∧
    (demo_new_pages 0xfffff000 0x1000).bind (fun o =>
        (syscall_removepages demo_platform o.2.1 o.2.2 0xfffff000).map (fun o2 => o2.1))
      = some KERN_ERROR_ADDRESS_NOT_PRESENT := by
  refine ⟨?_, ?_, ?_, ?_⟩ <;> decide

/-! ### Processes: auxiliary facts and claims -/

/-! ### Queues -/

theorem Q_next_head (q : Q_MEM) (h : Nat) : Q_next q h h = (q.head h).next := by
  simp [Q_next]

theorem Q_prev_head (q : Q_MEM) (h : Nat) : Q_prev q h h = (q.head h).prev := by
  simp [Q_prev]

theorem Q_next_elem (q : Q_MEM) (h x : Nat) (hx : x ≠ h) : Q_next q h x = (q.link x).next := by
  simp [Q_next, hx]

theorem Q_prev_elem (q : Q_MEM) (h x : Nat) (hx : x ≠ h) : Q_prev q h x = (q.link x).prev := by
  simp [Q_prev, hx]

theorem Q_seg_append (q : Q_MEM) (h : Nat) (l1 l2 : List Nat) :
    ∀ p, Q_seg q h p (l1 ++ l2) ↔ Q_seg q h p l1 ∧ Q_seg q h (l1.getLastD p) l2 := by
  induction l1 with
  | nil => intro p; simp [Q_seg]
  | cons e rest ih =>
    intro p
    show (Q_next q h p = e ∧ Q_prev q h e = p ∧ Q_seg q h e (rest ++ l2)) ↔ _
    rw [ih e]
    simp only [Q_seg, List.getLastD_cons, and_assoc]

theorem Q_seg_congr (q q1 : Q_MEM) (h : Nat) (l : List Nat) :
    ∀ p, (∀ x ∈ (p :: l).dropLast, Q_next q1 h x = Q_next q h x) →
      (∀ x ∈ l, Q_prev q1 h x = Q_prev q h x) → Q_seg q h p l → Q_seg q1 h p l := by
  induction l with
  | nil => intro p _ _ _; trivial
  | cons e rest ih =>
    intro p hn hp hs
    obtain ⟨h1, h2, h3⟩ := hs
    have hd : (p :: e :: rest).dropLast = p :: (e :: rest).dropLast :=
      List.dropLast_cons_of_ne_nil (List.cons_ne_nil e rest)
    refine ⟨?_, ?_, ih e ?_ ?_ h3⟩
    · rw [hn p (by rw [hd]; exact List.mem_cons_self _ _), h1]
    · rw [hp e (List.mem_cons_self _ _), h2]
    · intro x hx
      exact hn x (by rw [hd]; exact List.mem_cons_of_mem _ hx)
    · intro x hx
      exact hp x (List.mem_cons_of_mem _ hx)

theorem dropLast_append_getLastD (l : List Nat) :
    ∀ p, (p :: l).dropLast ++ [l.getLastD p] = p :: l := by
  induction l with
  | nil => intro p; rfl
  | cons e rest ih =>
    intro p
    rw [List.dropLast_cons_of_ne_nil (List.cons_ne_nil e rest), List.getLastD_cons,
      List.cons_append, ih e]

/-- In a list without repetition, no element of the front part is the last one. -/
theorem not_last_of_mem_dropLast (p : Nat) (l : List Nat) (hnd : (p :: l).Nodup) (x : Nat)
    (hx : x ∈ (p :: l).dropLast) : x ≠ l.getLastD p := by
  have h1 := dropLast_append_getLastD l p
  rw [← h1] at hnd
  intro hxe
  rw [List.nodup_append] at hnd
  exact hnd.2.2 hx (by simp [hxe])

theorem getLastD_mem (p : Nat) (l : List Nat) : l.getLastD p ∈ p :: l := by
  induction l generalizing p with
  | nil => simp
  | cons e rest ih =>
    rw [List.getLastD_cons]
    exact List.mem_cons_of_mem _ (ih e)

theorem getLastD_mem_of_ne_nil (p : Nat) (l : List Nat) (hl : l ≠ []) : l.getLastD p ∈ l := by
  cases l with
  | nil => exact absurd rfl hl
  | cons e rest => rw [List.getLastD_cons]; exact getLastD_mem e rest

theorem is_queue_last (q : Q_MEM) (h : Nat) (l : List Nat) (hq : is_queue q h l) :
    (q.head h).prev = l.getLastD h ∧ Q_next q h (l.getLastD h) = h := by
  have hs := (Q_seg_append q h l [h] h).1 hq.1
  obtain ⟨h1, h2, _⟩ := hs.2
  rw [Q_prev_head] at h2
  exact ⟨h2, h1⟩

theorem is_queue_first (q : Q_MEM) (h : Nat) (l : List Nat) (hq : is_queue q h l) :
    (q.head h).next = l.headD h := by
  have hs := hq.1
  cases l with
  | nil => simpa [Q_seg, Q_next] using hs.1
  | cons e rest => simpa [Q_seg, Q_next] using hs.1

theorem is_queue_empty (q : Q_MEM) (h : Nat) (l : List Nat) (hq : is_queue q h l) :
    Q_HEAD_EMPTY q h = decide (l = []) := by
  have h1 := is_queue_first q h l hq
  have h2 := (is_queue_last q h l hq).1
  cases l with
  | nil =>
    simp only [List.headD_nil, List.getLastD_nil] at h1 h2
    simp [Q_HEAD_EMPTY, h1, h2]
  | cons e rest =>
    have hne : e ≠ h := by
      have := hq.2.1
      simp only [List.nodup_cons, List.mem_cons, not_or] at this
      exact fun he => this.1.1 he.symm
    simp only [List.headD_cons] at h1
    simp [Q_HEAD_EMPTY, h1, hne]

theorem is_queue_front (q : Q_MEM) (h : Nat) (l : List Nat) (hq : is_queue q h l) :
    Q_GET_FRONT q h = l.headD 0 := by
  unfold Q_GET_FRONT
  rw [is_queue_empty q h l hq, is_queue_first q h l hq]
  cases l <;> simp

theorem is_queue_of_frame (q q1 : Q_MEM) (h : Nat) (l hs es : List Nat) (hq : is_queue q h l)
    (hf : Q_frame q q1 hs es) (hh : h ∉ hs) (hl : ∀ x ∈ l, x ∉ es) : is_queue q1 h l := by
  obtain ⟨h1, h2, h3, h4⟩ := hq
  have hhead : q1.head h = q.head h := hf.1 h hh
  have hlink : ∀ x ∈ l, q1.link x = q.link x := fun x hx => hf.2 x (hl x hx)
  have hnx : ∀ x ∈ h :: l, Q_next q1 h x = Q_next q h x := by
    intro x hx
    by_cases hxh : x = h
    · simp [Q_next, hxh, hhead]
    · have : x ∈ l := by simpa [hxh] using hx
      simp [Q_next, hxh, hlink x this]
  have hpv : ∀ x ∈ h :: l, Q_prev q1 h x = Q_prev q h x := by
    intro x hx
    by_cases hxh : x = h
    · simp [Q_prev, hxh, hhead]
    · have : x ∈ l := by simpa [hxh] using hx
      simp [Q_prev, hxh, hlink x this]
  refine ⟨Q_seg_congr q q1 h (l ++ [h]) h ?_ ?_ h1, h2, h3, by rw [hhead]; exact h4⟩
  · intro x hx
    have : (h :: (l ++ [h])).dropLast = h :: l := by
      rw [← List.cons_append, List.dropLast_concat]
    rw [this] at hx
    exact hnx x hx
  · intro x hx
    apply hpv
    simp only [List.mem_append, List.mem_singleton] at hx
    rcases hx with hx | hx
    · exact List.mem_cons_of_mem _ hx
    · rw [hx]; exact List.mem_cons_self _ _

theorem Q_frame_refl (q : Q_MEM) (hs es : List Nat) : Q_frame q q hs es :=
  ⟨fun _ _ => rfl, fun _ _ => rfl⟩

theorem Q_frame_trans (q q1 q2 : Q_MEM) (hs es : List Nat) (h1 : Q_frame q q1 hs es)
    (h2 : Q_frame q1 q2 hs es) : Q_frame q q2 hs es :=
  ⟨fun h hh => (h2.1 h hh).trans (h1.1 h hh), fun x hx => (h2.2 x hx).trans (h1.2 x hx)⟩

theorem Q_frame_mono (q q1 : Q_MEM) (hs es hs1 es1 : List Nat) (h : Q_frame q q1 hs es)
    (hh : ∀ x ∈ hs, x ∈ hs1) (he : ∀ x ∈ es, x ∈ es1) : Q_frame q q1 hs1 es1 :=
  ⟨fun x hx => h.1 x (fun hm => hx (hh x hm)), fun x hx => h.2 x (fun hm => hx (he x hm))⟩

theorem insert_tail_next (q : Q_MEM) (h e x : Nat) (he : e ≠ h) (hl : e ≠ (q.head h).prev) :
    Q_next (Q_INSERT_TAIL q h e) h x =
      if x = e then h else if x = (q.head h).prev then e else Q_next q h x := by
  unfold Q_INSERT_TAIL Q_next
  by_cases hlast : (q.head h).prev = h
  · by_cases hxh : x = h
    · subst hxh
      simp [upd, hlast, Ne.symm he]
    · by_cases hxe : x = e
      · simp [upd, hlast, hxe, he]
      · simp [upd, hlast, hxh, hxe]
  · by_cases hxh : x = h
    · subst hxh
      simp [upd, hlast, Ne.symm he, Ne.symm hlast]
    · by_cases hxe : x = e
      · subst hxe
        simp [upd, hlast, he, hl]
      · by_cases hxl : x = (q.head h).prev
        · simp [upd, hlast, hxl, Ne.symm hl]
        · simp [upd, hlast, hxh, hxe, hxl]

theorem insert_tail_prev (q : Q_MEM) (h e x : Nat) (he : e ≠ h) :
    Q_prev (Q_INSERT_TAIL q h e) h x =
      if x = h then e else if x = e then (q.head h).prev else Q_prev q h x := by
  unfold Q_INSERT_TAIL Q_prev
  by_cases hlast : (q.head h).prev = h
  · by_cases hxh : x = h
    · subst hxh
      simp [upd, hlast]
    · by_cases hxe : x = e
      · simp [upd, hlast, hxe, he]
      · simp [upd, hlast, hxh, hxe]
  · by_cases hxh : x = h
    · subst hxh
      simp [upd, hlast]
    · by_cases hxe : x = e
      · subst hxe
        generalize (q.head h).prev = p at *
        by_cases hl : x = p
        · subst hl
          simp [upd, hlast, he]
        · simp [upd, hlast, he, hl]
      · generalize (q.head h).prev = p at *
        by_cases hxl : x = p
        · subst hxl
          simp [upd, hlast, hxh, hxe]
        · simp [upd, hlast, hxh, hxe, hxl]

theorem insert_tail_nr (q : Q_MEM) (h e : Nat) :
    ((Q_INSERT_TAIL q h e).head h).nr_elements = ((q.head h).nr_elements + 1) % WORD := by
  unfold Q_INSERT_TAIL
  by_cases hlast : (q.head h).prev = h <;> simp [upd, hlast]

theorem insert_tail_head_other (q : Q_MEM) (h e h1 : Nat) (hh : h1 ≠ h) :
    (Q_INSERT_TAIL q h e).head h1 = q.head h1 := by
  unfold Q_INSERT_TAIL
  by_cases hlast : (q.head h).prev = h <;> simp [upd, hlast, hh]

theorem insert_tail_link_other (q : Q_MEM) (h e x : Nat) (hxe : x ≠ e)
    (hxl : x ≠ (q.head h).prev ∨ (q.head h).prev = h) :
    (Q_INSERT_TAIL q h e).link x = q.link x := by
  unfold Q_INSERT_TAIL
  by_cases hlast : (q.head h).prev = h
  · simp [upd, hlast, hxe]
  · have : x ≠ (q.head h).prev := by
      rcases hxl with h1 | h1
      · exact h1
      · exact absurd h1 hlast
    simp [upd, hlast, hxe, this]

theorem insert_tail_frame (q : Q_MEM) (h e : Nat) (l : List Nat) (hq : is_queue q h l) :
    Q_frame q (Q_INSERT_TAIL q h e) [h] (e :: l) := by
  refine ⟨fun h1 hh => insert_tail_head_other q h e h1 (by simpa using hh), fun x hx => ?_⟩
  simp only [List.mem_cons, not_or] at hx
  apply insert_tail_link_other q h e x hx.1
  rw [(is_queue_last q h l hq).1]
  by_cases hl : l = []
  · right; rw [hl]; rfl
  · left
    intro hxe
    exact hx.2 (hxe ▸ getLastD_mem_of_ne_nil h l hl)

theorem is_queue_insert_tail (q : Q_MEM) (h e : Nat) (l : List Nat) (hq : is_queue q h l)
    (hel : e ∉ l) (heh : e ≠ h) (he0 : e ≠ 0) : is_queue (Q_INSERT_TAIL q h e) h (l ++ [e]) := by
  have hlast := is_queue_last q h l hq
  obtain ⟨h1, h2, h3, h4⟩ := hq
  have hs := (Q_seg_append q h l [h] h).1 h1
  have hlm : l.getLastD h ∈ h :: l := getLastD_mem h l
  have hel2 : e ≠ l.getLastD h := by
    intro hc
    rw [← hc] at hlm
    simp only [List.mem_cons] at hlm
    rcases hlm with hc1 | hc1
    · exact heh hc1
    · exact hel hc1
  have hel3 : e ≠ (q.head h).prev := by rw [hlast.1]; exact hel2
  refine ⟨?_, ?_, ?_, ?_⟩
  · rw [List.append_assoc, Q_seg_append]
    refine ⟨Q_seg_congr q _ h l h ?_ ?_ hs.1, ?_⟩
    · intro x hx
      have hx1 : x ≠ l.getLastD h := not_last_of_mem_dropLast h l h2 x hx
      have hx2 : x ∈ h :: l := List.dropLast_subset _ hx
      have hx3 : x ≠ e := by
        intro hc
        rw [hc] at hx2
        simp only [List.mem_cons] at hx2
        rcases hx2 with hc1 | hc1
        · exact heh hc1
        · exact hel hc1
      rw [insert_tail_next q h e x heh hel3, hlast.1, if_neg hx3, if_neg hx1]
    · intro x hx
      have hxh : x ≠ h := by
        intro hc
        rw [hc] at hx
        exact (List.nodup_cons.1 h2).1 hx
      have hxe : x ≠ e := fun hc => hel (hc ▸ hx)
      rw [insert_tail_prev q h e x heh, if_neg hxh, if_neg hxe]
    · show Q_next _ h (l.getLastD h) = e ∧ Q_prev _ h e = l.getLastD h ∧
        Q_next _ h e = h ∧ Q_prev _ h h = e ∧ True
      rw [insert_tail_next q h e _ heh hel3, insert_tail_prev q h e e heh,
        insert_tail_next q h e e heh hel3, insert_tail_prev q h e h heh, hlast.1,
        if_neg (Ne.symm hel2), if_pos rfl, if_neg heh, if_pos rfl, if_pos rfl, if_pos rfl]
      exact ⟨rfl, rfl, rfl, rfl, trivial⟩
  · rw [← List.cons_append, List.nodup_append]
    refine ⟨h2, List.nodup_singleton e, ?_⟩
    intro x hx1 hx2
    simp only [List.mem_singleton] at hx2
    rw [hx2] at hx1
    simp only [List.mem_cons] at hx1
    rcases hx1 with hc | hc
    · exact heh hc
    · exact hel hc
  · simp only [List.mem_append, List.mem_singleton, not_or]
    exact ⟨h3, fun hc => he0 hc.symm⟩
  · rw [insert_tail_nr, h4, List.length_append, List.length_singleton, Nat.mod_add_mod]

/-- The result of `Q_REMOVE` on an element that is linked between its
neighbours: the neighbours are joined and the element stands alone. -/
theorem remove_eq (q : Q_MEM) (h e : Nat) (hp : (q.link e).prev ≠ e)
    (hn : (q.link e).next ≠ e) (hne : Q_HEAD_EMPTY q h = false)
    (h1 : Q_next q h (q.link e).prev = e) (h2 : Q_prev q h (q.link e).next = e) :
    Q_REMOVE q h e = some
      { head := upd q.head h
          { nr_elements := ((q.head h).nr_elements + WORD - 1) % WORD
            next := if (q.link e).prev = h then (q.link e).next else (q.head h).next
            prev := if (q.link e).next = h then (q.link e).prev else (q.head h).prev }
        link := fun x =>
          if x = e then { next := e, prev := e }
          else
            { next := if x = (q.link e).prev ∧ (q.link e).prev ≠ h then (q.link e).next
                else (q.link x).next
              prev := if x = (q.link e).next ∧ (q.link e).next ≠ h then (q.link e).prev
                else (q.link x).prev } } := by
  have hsa : Q_ELEM_STAND_ALONE q e = false := by
    simp [Q_ELEM_STAND_ALONE, hn]
  unfold Q_REMOVE
  rw [hsa, hne]
  simp only [Bool.false_eq_true, if_false]
  unfold Q_next at h1
  unfold Q_prev at h2
  unfold Q_INIT_ELEM
  generalize hpe : (q.link e).prev = p at *
  generalize hne1 : (q.link e).next = n at *
  have hp1 : ¬ e = p := fun hc => hp hc.symm
  have hn1 : ¬ e = n := fun hc => hn hc.symm
  by_cases hph : p = h
  · rw [if_pos hph] at h1
    by_cases hnh : n = h
    · rw [if_pos hnh] at h2
      simp only [if_pos hph, if_pos hnh, h1, hne1, upd, if_true, h2, hpe]
      congr 2
      · funext x
        by_cases hx : x = h
        · simp [upd, hx]
        · simp [upd, hx]
      · funext x
        by_cases hx : x = e
        · simp [upd, hx]
        · simp [upd, hx, hph, hnh]
    · rw [if_neg hnh] at h2
      simp only [if_pos hph, if_neg hnh, h1, hne1, upd, if_true, h2, hpe]
      congr 2
      · funext x
        by_cases hx : x = h
        · simp [upd, hx]
        · simp [upd, hx]
      · funext x
        by_cases hx : x = e
        · simp [upd, hx]
        · by_cases hxn : x = n
          · simp [upd, hx, hph, hnh, hxn, h2, hn1, hpe]
          · simp [upd, hx, hph, hnh, hxn]
  · rw [if_neg hph] at h1
    by_cases hnh : n = h
    · rw [if_pos hnh] at h2
      simp only [if_neg hph, if_pos hnh, h1, hne1, upd, if_true, h2, hpe, hp1, if_false]
      congr 2
      · funext x
        by_cases hx : x = h
        · simp [upd, hx, h2, hp1, hpe]
        · simp [upd, hx]
      · funext x
        by_cases hx : x = e
        · simp [upd, hx]
        · by_cases hxp : x = p
          · simp [upd, hx, hph, hnh, hxp]
          · simp [upd, hx, hph, hnh, hxp]
    · rw [if_neg hnh] at h2
      simp only [if_neg hph, if_neg hnh, h1, hne1, upd, if_true, h2, hpe, hp1, if_false]
      congr 2
      · funext x
        by_cases hx : x = e
        · simp [upd, hx]
        · by_cases hxp : x = p
          · by_cases hxn : x = n
            · have hnp : n = p := hxn.symm.trans hxp
              rw [hnp] at h2
              simp [upd, hph, hxp, hnp, h2, hp1, hpe, hp]
            · have hpn : ¬ p = n := fun hc => hxn (hxp.trans hc)
              have hnp : ¬ n = p := fun hc => hpn hc.symm
              simp [upd, hx, hph, hnh, hxp, hpn, hnp]
          · by_cases hxn : x = n
            · have hnp : ¬ n = p := fun hc => hxp (hxn.trans hc)
              simp [upd, hx, hph, hnh, hxn, hnp, h2, hp1, hpe, hn1]
            · simp [upd, hx, hph, hnh, hxp, hxn]

theorem remove_next (q q1 : Q_MEM) (h e : Nat) (heh : e ≠ h) (hp : (q.link e).prev ≠ e)
    (hn : (q.link e).next ≠ e) (hne : Q_HEAD_EMPTY q h = false)
    (h1 : Q_next q h (q.link e).prev = e) (h2 : Q_prev q h (q.link e).next = e)
    (hr : Q_REMOVE q h e = some q1) (x : Nat) :
    Q_next q1 h x =
      if x = e then e else if x = (q.link e).prev then (q.link e).next else Q_next q h x := by
  rw [remove_eq q h e hp hn hne h1 h2] at hr
  have hq1 := (Option.some.inj hr).symm
  subst hq1
  unfold Q_next
  generalize (q.link e).prev = p at *
  generalize (q.link e).next = n at *
  by_cases hxh : x = h
  · have hxe : ¬ x = e := fun hc => heh (hc.symm.trans hxh)
    by_cases hph : p = h
    · simp [upd, hxh, hph, Ne.symm heh]
    · have hhp : ¬ h = p := fun hc => hph hc.symm
      simp [upd, hxh, hph, hhp, Ne.symm heh]
  · by_cases hxe : x = e
    · simp [upd, hxh, hxe, heh]
    · by_cases hxp : x = p
      · have hph : ¬ p = h := fun hc => hxh (hxp.trans hc)
        simp [upd, hxh, hxe, hxp, hph, hp]
      · simp [upd, hxh, hxe, hxp]

theorem remove_prev (q q1 : Q_MEM) (h e : Nat) (heh : e ≠ h) (hp : (q.link e).prev ≠ e)
    (hn : (q.link e).next ≠ e) (hne : Q_HEAD_EMPTY q h = false)
    (h1 : Q_next q h (q.link e).prev = e) (h2 : Q_prev q h (q.link e).next = e)
    (hr : Q_REMOVE q h e = some q1) (x : Nat) :
    Q_prev q1 h x =
      if x = e then e else if x = (q.link e).next then (q.link e).prev else Q_prev q h x := by
  rw [remove_eq q h e hp hn hne h1 h2] at hr
  have hq1 := (Option.some.inj hr).symm
  subst hq1
  unfold Q_prev
  generalize (q.link e).prev = p at *
  generalize (q.link e).next = n at *
  by_cases hxh : x = h
  · have hxe : ¬ x = e := fun hc => heh (hc.symm.trans hxh)
    by_cases hnh : n = h
    · simp [upd, hxh, hnh, Ne.symm heh]
    · have hhn : ¬ h = n := fun hc => hnh hc.symm
      simp [upd, hxh, hnh, hhn, Ne.symm heh]
  · by_cases hxe : x = e
    · simp [upd, hxh, hxe, heh]
    · by_cases hxn : x = n
      · have hnh : ¬ n = h := fun hc => hxh (hxn.trans hc)
        simp [upd, hxh, hxe, hxn, hnh, hn]
      · simp [upd, hxh, hxe, hxn]

theorem is_queue_remove (q : Q_MEM) (h e : Nat) (l : List Nat) (hq : is_queue q h l)
    (he : e ∈ l) :
    ∃ q1, Q_REMOVE q h e = some q1 ∧ is_queue q1 h (l.erase e) ∧ Q_frame q q1 [h] l ∧
      q1.link e = { next := e, prev := e } := by
  obtain ⟨l1, l2, hl⟩ := List.append_of_mem he
  subst hl
  have hempty := is_queue_empty q h _ hq
  obtain ⟨hs, hnd, h0, hnr⟩ := hq
  -- facts from the absence of repetition
  have hnd1 : (h :: l1 ++ e :: l2).Nodup := hnd
  rw [List.nodup_append] at hnd1
  obtain ⟨hndl, hndr, hdisj⟩ := hnd1
  have hel1 : e ∉ h :: l1 := fun hc => hdisj hc (List.mem_cons_self _ _)
  have hel2 : e ∉ l2 := (List.nodup_cons.1 hndr).1
  have heh : e ≠ h := fun hc => hel1 (hc ▸ List.mem_cons_self _ _)
  have hel1' : e ∉ l1 := fun hc => hel1 (List.mem_cons_of_mem _ hc)
  have hhl2 : h ∉ l2 := fun hc => hdisj (List.mem_cons_self _ _) (List.mem_cons_of_mem _ hc)
  -- the links around `e`
  have hs1 : Q_seg q h h (l1 ++ (e :: (l2 ++ [h]))) := by
    simpa [List.append_assoc] using hs
  rw [Q_seg_append] at hs1
  obtain ⟨hsl, hpe, hep, hse⟩ := hs1
  rw [Q_prev_elem q h e heh] at hep
  obtain ⟨n, t, hnt⟩ : ∃ n t, l2 ++ [h] = n :: t := by
    cases l2 with
    | nil => exact ⟨h, [], rfl⟩
    | cons a b => exact ⟨a, b ++ [h], rfl⟩
  rw [hnt] at hse
  obtain ⟨hen, hne1, hst⟩ := hse
  rw [Q_next_elem q h e heh] at hen
  have hnmem : n ∈ l2 ++ [h] := by rw [hnt]; exact List.mem_cons_self _ _
  have hne : n ≠ e := by
    intro hc
    rw [hc] at hnmem
    simp only [List.mem_append, List.mem_singleton] at hnmem
    rcases hnmem with hc1 | hc1
    · exact hel2 hc1
    · exact heh hc1
  have hpmem : l1.getLastD h ∈ h :: l1 := getLastD_mem h l1
  have hpne : l1.getLastD h ≠ e := fun hc => hel1 (hc ▸ hpmem)
  have hemp : Q_HEAD_EMPTY q h = false := by
    rw [hempty]; simp
  have hp' : (q.link e).prev ≠ e := by rw [hep]; exact hpne
  have hn' : (q.link e).next ≠ e := by rw [hen]; exact hne
  have h1' : Q_next q h (q.link e).prev = e := by rw [hep]; exact hpe
  have h2' : Q_prev q h (q.link e).next = e := by rw [hen]; exact hne1
  have hreq := remove_eq q h e hp' hn' hemp h1' h2'
  obtain ⟨q1, hq1, hfr, hle, hnr1⟩ : ∃ q1, Q_REMOVE q h e = some q1 ∧
      Q_frame q q1 [h] (l1 ++ e :: l2) ∧ q1.link e = { next := e, prev := e } ∧
      (q1.head h).nr_elements = ((q.head h).nr_elements + WORD - 1) % WORD := by
    refine ⟨_, hreq, ⟨?_, ?_⟩, ?_, ?_⟩
    · intro h1 hh
      have : h1 ≠ h := by simpa using hh
      simp [upd, this]
    · intro x hx
      have hxe : x ≠ e := fun hc => hx (hc ▸ he)
      simp only [if_neg hxe]
      have hxp : ¬ (x = (q.link e).prev ∧ (q.link e).prev ≠ h) := by
        rintro ⟨hc1, hc2⟩
        rw [hep] at hc1 hc2
        have : l1.getLastD h ∈ l1 := by
          have := hpmem
          simp only [List.mem_cons] at this
          rcases this with h' | h'
          · exact absurd h' hc2
          · exact h'
        exact hx (hc1 ▸ List.mem_append_left _ this)
      have hxn : ¬ (x = (q.link e).next ∧ (q.link e).next ≠ h) := by
        rintro ⟨hc1, hc2⟩
        rw [hen] at hc1 hc2
        have : n ∈ l2 := by
          have := hnmem
          simp only [List.mem_append, List.mem_singleton] at this
          rcases this with h' | h'
          · exact h'
          · exact absurd h' hc2
        exact hx (hc1 ▸ List.mem_append_right _ (List.mem_cons_of_mem _ this))
      rw [if_neg hxp, if_neg hxn]
    · simp
    · simp [upd]
  refine ⟨q1, hq1, ?_, hfr, hle⟩
  have hnx := remove_next q q1 h e heh hp' hn' hemp h1' h2' hq1
  have hpv := remove_prev q q1 h e heh hp' hn' hemp h1' h2' hq1
  rw [hep, hen] at hnx hpv
  have herase : (l1 ++ e :: l2).erase e = l1 ++ l2 := by
    rw [List.erase_append_right _ hel1', List.erase_cons_head]
  rw [herase]
  -- elements of `l2` are not in `h :: l1`
  have hdisj2 : ∀ x ∈ l2, x ∉ h :: l1 := fun x hx hc =>
    hdisj hc (List.mem_cons_of_mem _ hx)
  refine ⟨?_, ?_, ?_, ?_⟩
  · rw [List.append_assoc, Q_seg_append, hnt]
    refine ⟨Q_seg_congr q _ h l1 h ?_ ?_ hsl, ?_, ?_, Q_seg_congr q _ h t n ?_ ?_ hst⟩
    · intro x hx
      have hx1 : x ≠ l1.getLastD h := not_last_of_mem_dropLast h l1 hndl x hx
      have hx2 : x ∈ h :: l1 := List.dropLast_subset _ hx
      have hx3 : x ≠ e := fun hc => hel1 (hc ▸ hx2)
      rw [hnx x, if_neg hx3, if_neg hx1]
    · intro x hx
      have hx3 : x ≠ e := fun hc => hel1' (hc ▸ hx)
      have hx4 : x ≠ n := by
        intro hc
        rw [← hc] at hnmem
        simp only [List.mem_append, List.mem_singleton] at hnmem
        rcases hnmem with hc1 | hc1
        · exact hdisj2 x hc1 (List.mem_cons_of_mem _ hx)
        · rw [hc1] at hx
          exact (List.nodup_cons.1 hndl).1 hx
      rw [hpv x, if_neg hx3, if_neg hx4]
    · rw [hnx, if_neg hpne, if_pos rfl]
    · rw [hpv, if_neg hne, if_pos rfl]
    · intro x hx
      have hdl : (n :: t).dropLast = l2 := by
        rw [← hnt, List.dropLast_concat]
      rw [hdl] at hx
      have hx3 : x ≠ e := fun hc => hel2 (hc ▸ hx)
      have hx1 : x ≠ l1.getLastD h := fun hc => hdisj2 x hx (hc ▸ hpmem)
      rw [hnx x, if_neg hx3, if_neg hx1]
    · intro x hx
      have hndnt : (n :: t).Nodup := by
        rw [← hnt, List.nodup_append]
        refine ⟨(List.nodup_cons.1 hndr).2, List.nodup_singleton h, ?_⟩
        intro y hy1 hy2
        simp only [List.mem_singleton] at hy2
        exact hhl2 (hy2 ▸ hy1)
      have hx4 : x ≠ n := fun hc => (List.nodup_cons.1 hndnt).1 (hc ▸ hx)
      have hx3 : x ≠ e := by
        intro hc
        have : e ∈ l2 ++ [h] := by rw [hnt, ← hc]; exact List.mem_cons_of_mem _ hx
        simp only [List.mem_append, List.mem_singleton] at this
        rcases this with hc1 | hc1
        · exact hel2 hc1
        · exact heh hc1
      rw [hpv x, if_neg hx3, if_neg hx4]
  · rw [← List.cons_append, List.nodup_append]
    refine ⟨hndl, (List.nodup_cons.1 hndr).2, ?_⟩
    intro x hx1 hx2
    exact hdisj hx1 (List.mem_cons_of_mem _ hx2)
  · intro hc
    apply h0
    simp only [List.mem_append, List.mem_cons] at hc ⊢
    rcases hc with hc | hc
    · exact Or.inl hc
    · exact Or.inr (Or.inr hc)
  · rw [hnr1, hnr]
    simp only [List.length_append, List.length_cons]
    unfold WORD
    omega

/-! ### The scheduler -/

theorem scheduler_add_eq (G : Symbols) (t : Nat) (s : Machine) :
    scheduler_add G t s =
      { s with kthread_wait := Q_INSERT_TAIL s.kthread_wait G.run_queue t } := by
  cases s
  rfl

theorem scheduler_remove_eq (G : Symbols) (t : Nat) (s : Machine) :
    scheduler_remove G t s =
      (Q_REMOVE s.kthread_wait G.run_queue t).map (fun q => { s with kthread_wait := q }) := by
  unfold scheduler_remove
  cases s
  simp only [spinlock_ifsave, spinlock_ifrestore]
  split <;> simp_all

/-- The calling thread joins the tail of a run queue that does not hold it. -/
theorem add_back_queue (q : Q_MEM) (h cur : Nat) (l : List Nat) (c : Prop) [Decidable c]
    (hq : is_queue q h l) (hc : cur ∉ l) (hch : cur ≠ h) (hc0 : cur ≠ 0) :
    is_queue (if c then Q_INSERT_TAIL q h cur else q) h (l ++ if c then [cur] else []) ∧
      Q_frame q (if c then Q_INSERT_TAIL q h cur else q) [h] ((if c then [cur] else []) ++ l) := by
  by_cases hcond : c
  · simp only [if_pos hcond]
    exact ⟨is_queue_insert_tail q h cur l hq hc hch hc0, insert_tail_frame q h cur l hq⟩
  · simp only [if_neg hcond, List.append_nil]
    exact ⟨hq, Q_frame_refl q _ _⟩

theorem schedule_spec (G : Symbols) (r : Bool) (s : Machine) (l : List Nat)
    (hq : is_queue s.kthread_wait G.run_queue l) (hc : s.current ∉ l)
    (hcR : s.current ≠ G.run_queue) (hc0 : s.current ≠ 0) (hi : s.idle_task ∉ l) :
    ∃ q1 b sf,
      schedule G r s = some { s with
        kthread_wait := q1, current := sched_next s l, IF := b, savedflags := sf } ∧
      is_queue q1 G.run_queue (sched_queue s r l) ∧
      Q_frame s.kthread_wait q1 [G.run_queue]
        ((if s.current ≠ s.idle_task ∧ r = true then [s.current] else []) ++ l) := by
  have hfront := is_queue_front s.kthread_wait G.run_queue l hq
  unfold schedule
  simp only [spinlock_ifsave, get_idle_thread, scheduler_add_eq, scheduler_remove_eq,
    spinlock_ifrestore]
  rw [hfront]
  cases l with
  | nil =>
    simp only [List.headD_nil, ne_eq, not_true_eq_false, false_and, if_false, if_true,
      sched_next, sched_queue]
    by_cases hidle : s.idle_task = s.current
    · refine ⟨s.kthread_wait, s.IF, s.savedflags, ?_, ?_, Q_frame_refl _ _ _⟩
      · simp only [hidle, not_true_eq_false, if_false]
      · simp only [hidle, not_true_eq_false, false_and, if_false]
        exact hq
    · have hidle2 : ¬ s.current = s.idle_task := fun h => hidle h.symm
      have hab := add_back_queue s.kthread_wait G.run_queue s.current []
        (¬ s.current = s.idle_task ∧ r = true) hq hc hcR hc0
      refine ⟨if ¬ s.current = s.idle_task ∧ r = true then
          Q_INSERT_TAIL s.kthread_wait G.run_queue s.current else s.kthread_wait,
        upd s.savedflags s.current s.IF s.idle_task, upd s.savedflags s.current s.IF, ?_, ?_, ?_⟩
      · simp only [hidle, not_false_eq_true, if_true]
        by_cases hr : r = true
        · simp [hidle2, hr]
        · simp [hidle2, hr]
      · simpa using hab.1
      · exact hab.2
  | cons f rest =>
    have hf0 : f ≠ 0 := fun h => hq.2.2.1 (h ▸ List.mem_cons_self _ _)
    have hfc : f ≠ s.current := fun h => hc (h ▸ List.mem_cons_self _ _)
    have hfi : f ≠ s.idle_task := fun h => hi (h ▸ List.mem_cons_self _ _)
    have hnd := hq.2.1
    have hfR : f ≠ G.run_queue := by
      intro h
      have := (List.nodup_cons.1 hnd).1
      exact this (h ▸ List.mem_cons_self _ _)
    have hfrest : f ∉ rest := (List.nodup_cons.1 (List.nodup_cons.1 hnd).2).1
    have hcrest : s.current ∉ rest := fun h => hc (List.mem_cons_of_mem _ h)
    obtain ⟨q1, hq1, hq1q, hq1f, -⟩ :=
      is_queue_remove s.kthread_wait G.run_queue f (f :: rest) hq (List.mem_cons_self _ _)
    rw [List.erase_cons_head] at hq1q
    simp only [List.headD_cons, ne_eq, hf0, not_false_eq_true, true_and, sched_next, sched_queue]
    by_cases hneg : (s.threads f).run_flag < 0
    · simp only [hneg, if_true, hq1, Option.map_some']
      have hq2 := is_queue_insert_tail q1 G.run_queue f rest hq1q hfrest hfR hf0
      have hq2f := insert_tail_frame q1 G.run_queue f rest hq1q
      have hfr2 : Q_frame s.kthread_wait (Q_INSERT_TAIL q1 G.run_queue f) [G.run_queue]
          ((if s.current ≠ s.idle_task ∧ r = true then [s.current] else []) ++ f :: rest) := by
        refine Q_frame_trans _ q1 _ _ _ (Q_frame_mono _ _ _ _ _ _ hq1f (fun x hx => hx) ?_)
          (Q_frame_mono _ _ _ _ _ _ hq2f (fun x hx => hx) ?_)
        · intro x hx; exact List.mem_append_right _ hx
        · intro x hx; exact List.mem_append_right _ hx
      by_cases hidle : s.idle_task = s.current
      · refine ⟨Q_INSERT_TAIL q1 G.run_queue f, s.IF, s.savedflags, ?_, ?_, hfr2⟩
        · simp only [hidle, not_true_eq_false, if_false]
        · simp only [hidle, not_true_eq_false, false_and, if_false, List.append_nil]
          exact hq2
      · have hidle2 : ¬ s.current = s.idle_task := fun h => hidle h.symm
        have hcq2 : s.current ∉ rest ++ [f] := by
          simp only [List.mem_append, List.mem_singleton, not_or]
          exact ⟨hcrest, fun h => hfc h.symm⟩
        have hab := add_back_queue (Q_INSERT_TAIL q1 G.run_queue f) G.run_queue s.current
          (rest ++ [f]) (¬ s.current = s.idle_task ∧ r = true) hq2 hcq2 hcR hc0
        refine ⟨if ¬ s.current = s.idle_task ∧ r = true then
            Q_INSERT_TAIL (Q_INSERT_TAIL q1 G.run_queue f) G.run_queue s.current
            else Q_INSERT_TAIL q1 G.run_queue f,
          upd s.savedflags s.current s.IF s.idle_task, upd s.savedflags s.current s.IF,
          ?_, ?_, ?_⟩
        · simp only [hidle, not_false_eq_true, if_true]
          by_cases hr : r = true
          · simp [hidle2, hr]
          · simp [hidle2, hr]
        · simpa using hab.1
        · refine Q_frame_trans _ _ _ _ _ hfr2 (Q_frame_mono _ _ _ _ _ _ hab.2 (fun x hx => hx) ?_)
          intro x hx
          simp only [List.mem_cons, List.mem_append, List.mem_singleton, ne_eq] at hx ⊢
          tauto
    · simp only [hneg, if_false, hf0, hfc, hfi, ne_eq, not_false_eq_true, if_true, hq1,
        Option.map_some']
      have hab := add_back_queue q1 G.run_queue s.current rest
        (¬ s.current = s.idle_task ∧ r = true) hq1q hcrest hcR hc0
      refine ⟨if ¬ s.current = s.idle_task ∧ r = true then
          Q_INSERT_TAIL q1 G.run_queue s.current else q1,
        upd s.savedflags s.current s.IF f, upd s.savedflags s.current s.IF, ?_, ?_, ?_⟩
      · by_cases hr : r = true
        · by_cases hidle2 : s.current = s.idle_task
          · simp [hidle2, hr]
          · simp [hidle2, hr]
        · simp [hr]
      · simpa using hab.1
      · refine Q_frame_trans _ q1 _ _ _ (Q_frame_mono _ _ _ _ _ _ hq1f (fun x hx => hx) ?_)
          (Q_frame_mono _ _ _ _ _ _ hab.2 (fun x hx => hx) ?_)
        · intro x hx; exact List.mem_append_right _ hx
        · intro x hx
          simp only [List.mem_cons, List.mem_append, ne_eq] at hx ⊢
          tauto

/-! ### Semaphores -/

theorem wrap_int_id (x : Int) (h1 : -2147483648 ≤ x) (h2 : x < 2147483648) : wrap_int x = x := by
  unfold wrap_int to_i32 to_u32 WORD
  have h3 : (x % ((4294967296 : Nat) : Int)).toNat % 4294967296 =
      (x % ((4294967296 : Nat) : Int)).toNat := by
    apply Nat.mod_eq_of_lt
    omega
  rw [h3]
  split_ifs with h
  · omega
  · omega

theorem sem_wait_pass (G : Symbols) (psemaphore : Nat) (s : Machine)
    (hc : 1 ≤ s.count psemaphore) (hc2 : s.count psemaphore ≤ 2147483648) :
    sem_wait G psemaphore s =
      some (false, { s with count := upd s.count psemaphore (s.count psemaphore - 1), IF := true }) := by
  unfold sem_wait
  simp only [spinlock_ifsave, spinlock_unlock]
  rw [wrap_int_id _ (by omega) (by omega)]
  simp only [upd_same]
  rw [if_pos (by omega)]

theorem sem_wait_block (G : Symbols) (psemaphore : Nat) (s : Machine) (sl rq : List Nat)
    (hcnt : s.count psemaphore ≤ 0) (hcnt2 : -2147483648 < s.count psemaphore)
    (hsem : is_queue s.kthread_wait (sem_kthread_head_at psemaphore) sl)
    (hrq : is_queue s.kthread_wait G.run_queue rq)
    (hdis : ∀ x ∈ sl, x ∉ rq) (hheads : sem_kthread_head_at psemaphore ≠ G.run_queue)
    (hc1 : s.current ∉ sl) (hc2 : s.current ∉ rq)
    (hcS : s.current ≠ sem_kthread_head_at psemaphore) (hcR : s.current ≠ G.run_queue)
    (hc0 : s.current ≠ 0) (hi : s.idle_task ∉ rq) :
    ∃ q1 b sf,
      sem_wait G psemaphore s = some (decide (sched_next s rq ≠ s.current),
        { s with
          count := upd s.count psemaphore (s.count psemaphore - 1)
          kthread_wait := q1, current := sched_next s rq, IF := b, savedflags := sf }) ∧
      is_queue q1 (sem_kthread_head_at psemaphore) (sl ++ [s.current]) ∧
      is_queue q1 G.run_queue (sched_queue s false rq) ∧
      Q_frame s.kthread_wait q1 [sem_kthread_head_at psemaphore, G.run_queue]
        (s.current :: (sl ++ rq)) := by
  unfold sem_wait
  simp only [spinlock_ifsave, spinlock_ifrestore]
  rw [wrap_int_id _ (by omega) (by omega)]
  simp only [upd_same]
  rw [if_neg (by omega)]
  -- the state that `schedule` starts from
  have hins := is_queue_insert_tail s.kthread_wait (sem_kthread_head_at psemaphore) s.current sl
    hsem hc1 hcS hc0
  have hinsf := insert_tail_frame s.kthread_wait (sem_kthread_head_at psemaphore) s.current sl hsem
  have hrq2 : is_queue (Q_INSERT_TAIL s.kthread_wait (sem_kthread_head_at psemaphore) s.current)
      G.run_queue rq := by
    refine is_queue_of_frame _ _ _ _ _ _ hrq hinsf (by simpa using Ne.symm hheads) ?_
    intro x hx hc
    simp only [List.mem_cons] at hc
    rcases hc with hc | hc
    · exact hc2 (hc ▸ hx)
    · exact hdis x hc hx
  obtain ⟨q1, b, sf, hs, hq1, hf1⟩ := schedule_spec G false
    { s with
      count := upd s.count psemaphore (s.count psemaphore - 1)
      kthread_wait := Q_INSERT_TAIL s.kthread_wait (sem_kthread_head_at psemaphore) s.current
      IF := s.IF } rq hrq2 hc2 hcR hc0 hi
  simp only [Bool.false_eq_true, and_false, if_false, List.nil_append] at hf1
  refine ⟨q1, b, sf, ?_, ?_, ?_, ?_⟩
  · have hs' : schedule G false
        { s with
          IF := s.IF
          count := upd s.count psemaphore (s.count psemaphore - 1)
          kthread_wait := Q_INSERT_TAIL s.kthread_wait (sem_kthread_head_at psemaphore) s.current } =
        some { s with
          count := upd s.count psemaphore (s.count psemaphore - 1)
          kthread_wait := q1, current := sched_next s rq, IF := b, savedflags := sf } := hs
    simp only [hs']
  · refine is_queue_of_frame _ _ _ _ _ _ hins hf1 (by simpa using hheads) ?_
    intro x hx hc
    simp only [List.mem_append, List.mem_singleton] at hx
    rcases hx with hx | hx
    · exact hdis x hx hc
    · exact hc2 (hx ▸ hc)
  · exact hq1
  · refine Q_frame_trans _ _ _ _ _ (Q_frame_mono _ _ _ _ _ _ hinsf ?_ ?_)
      (Q_frame_mono _ _ _ _ _ _ hf1 ?_ ?_)
    · intro x hx; simp only [List.mem_singleton] at hx; simp [hx]
    · intro x hx
      simp only [List.mem_cons, List.mem_append] at hx ⊢
      tauto
    · intro x hx; simp only [List.mem_singleton] at hx; simp [hx]
    · intro x hx
      simp only [List.mem_cons, List.mem_append] at hx ⊢
      tauto

theorem sem_signal_pass (G : Symbols) (psemaphore : Nat) (s : Machine)
    (hc : 0 ≤ s.count psemaphore) (hc2 : s.count psemaphore < 2147483647) :
    sem_signal G psemaphore s =
      some { s with count := upd s.count psemaphore (s.count psemaphore + 1), IF := true } := by
  unfold sem_signal
  simp only [spinlock_ifsave, spinlock_unlock]
  rw [wrap_int_id _ (by omega) (by omega)]
  simp only [upd_same]
  rw [if_pos (by omega)]

theorem sem_signal_wake (G : Symbols) (psemaphore : Nat) (s : Machine) (w : Nat)
    (sl rq : List Nat)
    (hcnt : s.count psemaphore < 0) (hcnt2 : -2147483648 ≤ s.count psemaphore)
    (hsem : is_queue s.kthread_wait (sem_kthread_head_at psemaphore) (w :: sl))
    (hrq : is_queue s.kthread_wait G.run_queue rq)
    (hdis : ∀ x ∈ w :: sl, x ∉ rq) (hheads : sem_kthread_head_at psemaphore ≠ G.run_queue)
    (hwR : w ≠ G.run_queue) :
    ∃ q1,
      sem_signal G psemaphore s = some { s with
        count := upd s.count psemaphore (s.count psemaphore + 1), kthread_wait := q1 } ∧
      is_queue q1 (sem_kthread_head_at psemaphore) sl ∧
      is_queue q1 G.run_queue (rq ++ [w]) ∧
      Q_frame s.kthread_wait q1 [sem_kthread_head_at psemaphore, G.run_queue]
        ((w :: sl) ++ rq) := by
  unfold sem_signal
  simp only [spinlock_ifsave, spinlock_ifrestore, scheduler_add_eq]
  rw [wrap_int_id _ (by omega) (by omega)]
  simp only [upd_same]
  rw [if_neg (by omega)]
  have hfront := is_queue_front s.kthread_wait (sem_kthread_head_at psemaphore) (w :: sl) hsem
  simp only [List.headD_cons] at hfront
  have hw0 : w ≠ 0 := fun h => hsem.2.2.1 (h ▸ List.mem_cons_self _ _)
  obtain ⟨q1, hq1, hq1q, hq1f, -⟩ := is_queue_remove s.kthread_wait
    (sem_kthread_head_at psemaphore) w (w :: sl) hsem (List.mem_cons_self _ _)
  rw [List.erase_cons_head] at hq1q
  simp only [hfront, ne_eq, hw0, not_false_eq_true, if_true, hq1]
  have hrq1 : is_queue q1 G.run_queue rq := by
    refine is_queue_of_frame _ _ _ _ _ _ hrq hq1f (by simpa using Ne.symm hheads) ?_
    intro x hx hc
    exact hdis x hc hx
  have hwrq : w ∉ rq := hdis w (List.mem_cons_self _ _)
  have hins := is_queue_insert_tail q1 G.run_queue w rq hrq1 hwrq hwR hw0
  have hinsf := insert_tail_frame q1 G.run_queue w rq hrq1
  refine ⟨Q_INSERT_TAIL q1 G.run_queue w, ?_, ?_, hins, ?_⟩
  · cases s
    rfl
  · refine is_queue_of_frame _ _ _ _ _ _ hq1q hinsf (by simpa using hheads) ?_
    intro x hx hc
    simp only [List.mem_cons] at hc
    have hnd := hsem.2.1
    rcases hc with hc | hc
    · rw [hc] at hx
      exact (List.nodup_cons.1 (List.nodup_cons.1 hnd).2).1 hx
    · exact hdis x (List.mem_cons_of_mem _ hx) hc
  · refine Q_frame_trans _ _ _ _ _ (Q_frame_mono _ _ _ _ _ _ hq1f ?_ ?_)
      (Q_frame_mono _ _ _ _ _ _ hinsf ?_ ?_)
    · intro x hx; simp only [List.mem_singleton] at hx; simp [hx]
    · intro x hx
      simp only [List.mem_cons, List.mem_append] at hx ⊢
      tauto
    · intro x hx; simp only [List.mem_singleton] at hx; simp [hx]
    · intro x hx
      simp only [List.mem_cons, List.mem_append] at hx ⊢
      tauto

theorem upd_upd {α : Type} (f : Nat → α) (i : Nat) (a b : α) :
    upd (upd f i a) i b = upd f i b := by
  funext j
  unfold upd
  split_ifs <;> rfl

theorem upd_self {α : Type} (f : Nat → α) (i : Nat) : upd f i (f i) = f := by
  funext j
  unfold upd
  split_ifs with h
  · rw [h]
  · rfl

theorem sem_signal_n_spec (G : Symbols) (psemaphore : Nat) :
    ∀ (k : Nat) (ws rq : List Nat) (s : Machine), k ≤ ws.length → ws.length < 2147483648 →
      s.count psemaphore = -(ws.length : Int) →
      is_queue s.kthread_wait (sem_kthread_head_at psemaphore) ws →
      is_queue s.kthread_wait G.run_queue rq → (∀ x ∈ ws, x ∉ rq) →
      sem_kthread_head_at psemaphore ≠ G.run_queue → (∀ x ∈ ws, x ≠ G.run_queue) →
      ∃ q1, sem_signal_n G psemaphore k s = some { s with
          count := upd s.count psemaphore (-((ws.length - k : Nat) : Int)), kthread_wait := q1 } ∧
        is_queue q1 (sem_kthread_head_at psemaphore) (ws.drop k) ∧
        is_queue q1 G.run_queue (rq ++ ws.take k) := by
  intro k
  induction k with
  | zero =>
    intro ws rq s _ _ hc hsem hrq _ _ _
    refine ⟨s.kthread_wait, ?_, by simpa using hsem, by simpa using hrq⟩
    simp only [sem_signal_n, Nat.sub_zero, ← hc, upd_self]
  | succ k ih =>
    intro ws rq s hk hlen hc hsem hrq hdis hheads hR
    cases ws with
    | nil => simp at hk
    | cons w ws1 =>
      simp only [List.length_cons] at hk hlen hc
      obtain ⟨q1, hs1, hq1s, hq1r, -⟩ := sem_signal_wake G psemaphore s w ws1 rq
        (by rw [hc]; omega) (by rw [hc]; omega) hsem hrq hdis hheads (hR w (List.mem_cons_self _ _))
      have hnd := hsem.2.1
      have hwws : w ∉ ws1 := (List.nodup_cons.1 (List.nodup_cons.1 hnd).2).1
      obtain ⟨q2, hs2, hq2s, hq2r⟩ := ih ws1 (rq ++ [w])
        { s with
          count := upd s.count psemaphore (s.count psemaphore + 1), kthread_wait := q1 }
        (by omega) (by omega) (by simp only [upd_same]; rw [hc]; push_cast; ring) hq1s hq1r
        (by
          intro x hx hc1
          simp only [List.mem_append, List.mem_singleton] at hc1
          rcases hc1 with hc1 | hc1
          · exact hdis x (List.mem_cons_of_mem _ hx) hc1
          · exact hwws (hc1 ▸ hx))
        hheads (fun x hx => hR x (List.mem_cons_of_mem _ hx))
      refine ⟨q2, ?_, by simpa using hq2s, by simpa using hq2r⟩
      simp only [sem_signal_n, hs1, hs2, upd_upd, List.length_cons, Nat.add_sub_add_right]

theorem sem_wait_n_spec (G : Symbols) (psemaphore : Nat) :
    ∀ (more : List Nat) (w : Nat) (done rest : List Nat) (s : Machine), s.current = w →
      is_queue s.kthread_wait (sem_kthread_head_at psemaphore) done →
      is_queue s.kthread_wait G.run_queue (more ++ rest) →
      s.count psemaphore = -(done.length : Int) →
      done.length + more.length + 1 < 2147483648 →
      (∀ x ∈ more, 0 ≤ (s.threads x).run_flag) →
      (∀ x ∈ done, x ∉ more ++ rest) → w ∉ done → w ∉ more ++ rest →
      (∀ x ∈ w :: more, x ≠ sem_kthread_head_at psemaphore) → w ≠ G.run_queue → w ≠ 0 →
      sem_kthread_head_at psemaphore ≠ G.run_queue → s.idle_task ∉ more ++ rest →
      ∃ s1 rq1, sem_wait_n G psemaphore (more.length + 1) s = some s1 ∧
        s1.count psemaphore = -((done.length + more.length + 1 : Nat) : Int) ∧
        is_queue s1.kthread_wait (sem_kthread_head_at psemaphore) (done ++ w :: more) ∧
        is_queue s1.kthread_wait G.run_queue rq1 ∧ (∀ x ∈ rq1, x ∈ rest) := by
  intro more
  induction more with
  | nil =>
    intro w done rest s hcur hsem hrq hc hlen _ hdis hwd hwr hsh hwR hw0 hheads hi
    simp only [List.nil_append, List.length_nil, Nat.add_zero] at *
    subst hcur
    obtain ⟨q1, b, sf, hs1, hq1s, hq1r, -⟩ := sem_wait_block G psemaphore s done rest
      (by rw [hc]; omega) (by rw [hc]; omega) hsem hrq hdis hheads hwd hwr
      (hsh _ (List.mem_singleton.2 rfl)) hwR hw0 hi
    refine ⟨{ s with
        count := upd s.count psemaphore (s.count psemaphore - 1)
        kthread_wait := q1, current := sched_next s rest, IF := b, savedflags := sf },
      sched_queue s false rest, ?_, ?_, hq1s, hq1r, ?_⟩
    · simp only [sem_wait_n, hs1]
    · simp only [upd_same]; rw [hc]; push_cast; ring
    · intro x hx
      unfold sched_queue at hx
      simp only [Bool.false_eq_true, and_false, if_false, List.append_nil] at hx
      cases rest with
      | nil => simp at hx
      | cons f r =>
        simp only at hx
        split_ifs at hx
        · simp only [List.mem_append, List.mem_singleton] at hx
          rcases hx with hx | hx
          · exact List.mem_cons_of_mem _ hx
          · rw [hx]; exact List.mem_cons_self _ _
        · exact List.mem_cons_of_mem _ hx
  | cons w2 more1 ih =>
    intro w done rest s hcur hsem hrq hc hlen hfl hdis hwd hwr hsh hwR hw0 hheads hi
    subst hcur
    simp only [List.length_cons] at hlen
    obtain ⟨q1, b, sf, hs1, hq1s, hq1r, -⟩ := sem_wait_block G psemaphore s done
      (w2 :: more1 ++ rest) (by rw [hc]; omega) (by rw [hc]; omega) hsem hrq hdis hheads hwd hwr
      (hsh _ (List.mem_cons_self _ _)) hwR hw0 hi
    have hfl2 : ¬ (s.threads w2).run_flag < 0 := by
      have := hfl w2 (List.mem_cons_self _ _)
      omega
    have hnext : sched_next s (w2 :: more1 ++ rest) = w2 := by
      simp [sched_next, hfl2]
    have hqueue : sched_queue s false (w2 :: more1 ++ rest) = more1 ++ rest := by
      simp [sched_queue, hfl2]
    rw [hnext] at hs1
    rw [hqueue] at hq1r
    have hnd := hrq.2.1
    have hw2R : w2 ≠ G.run_queue := by
      intro h
      exact (List.nodup_cons.1 hnd).1 (h ▸ List.mem_cons_self _ _)
    have hw2rest : w2 ∉ more1 ++ rest := (List.nodup_cons.1 (List.nodup_cons.1 hnd).2).1
    have hw20 : w2 ≠ 0 := fun h => hrq.2.2.1 (h ▸ List.mem_cons_self _ _)
    obtain ⟨s2, rq1, hs2, hc2, hq2s, hq2r, hsub⟩ := ih w2 (done ++ [s.current]) rest
      { s with
        count := upd s.count psemaphore (s.count psemaphore - 1)
        kthread_wait := q1, current := w2, IF := b, savedflags := sf }
      rfl hq1s hq1r
      (by simp only [upd_same, List.length_append, List.length_singleton]; rw [hc]; push_cast; ring)
      (by simp only [List.length_append, List.length_singleton]; omega)
      (fun x hx => hfl x (List.mem_cons_of_mem _ hx))
      (by
        intro x hx hc1
        simp only [List.mem_append, List.mem_singleton] at hx
        rcases hx with hx | hx
        · exact hdis x hx (List.mem_cons_of_mem _ hc1)
        · rw [hx] at hc1
          exact hwr (List.mem_cons_of_mem _ hc1))
      (by
        simp only [List.mem_append, List.mem_singleton, not_or]
        refine ⟨fun h => hdis w2 h (List.mem_cons_self _ _), ?_⟩
        intro h
        exact hwr (h ▸ List.mem_cons_self _ _))
      hw2rest
      (fun x hx => hsh x (List.mem_cons_of_mem _ hx)) hw2R hw20 hheads
      (fun h => hi (List.mem_cons_of_mem _ h))
    refine ⟨s2, rq1, ?_, ?_, ?_, hq2r, hsub⟩
    · simp only [List.length_cons]
      rw [sem_wait_n, hs1]
      exact hs2
    · rw [hc2]
      simp only [List.length_append, List.length_cons, List.length_nil]
      push_cast
      ring
    · simpa using hq2s

/-! ### `vmm_is_range_present` -/

theorem get_range_isSome (vm : task_vm) (a : Nat) (r : vm_range) (hr : r ∈ vm.vm_ranges_head)
    (hh : range_holds a r = true) : (vmm_get_range vm a).isSome = true := by
  unfold vmm_get_range
  rw [List.find?_isSome]
  exact ⟨r, hr, hh⟩

theorem get_range_some (vm : task_vm) (a : Nat) (r : vm_range)
    (h : vmm_get_range vm a = some r) :
    r ∈ vm.vm_ranges_head ∧ r.kernel = false ∧ r.start ≤ a ∧ a < (r.start + r.len) % WORD := by
  unfold vmm_get_range at h
  have h1 := List.find?_some h
  have h2 := List.mem_of_find?_eq_some h
  unfold range_holds at h1
  simp only [Bool.and_eq_true, Bool.not_eq_true', decide_eq_true_eq] at h1
  exact ⟨h2, h1.1.1, h1.1.2, h1.2⟩

/-- The offset that `vmm_is_range_present` computes is the distance to the
end of the range, read as an `int`; adding it leads to the end of the range. -/
theorem range_offset (r : vm_range) (a : Nat) (h2 : a < (r.start + r.len) % WORD) :
    (r.start + r.len + WORD - a) % WORD = (r.start + r.len) % WORD - a ∧
      to_u32 ((a : Int) + to_i32 ((r.start + r.len + WORD - a) % WORD)) =
        (r.start + r.len) % WORD := by
  have hlt : (r.start + r.len) % WORD < WORD := Nat.mod_lt _ (by unfold WORD; omega)
  have e1 : (r.start + r.len + WORD - a) % WORD = (r.start + r.len) % WORD - a := by
    have : r.start + r.len + WORD - a = ((r.start + r.len) % WORD - a) + WORD * ((r.start + r.len) / WORD + 1) := by
      have := Nat.div_add_mod (r.start + r.len) WORD
      have hm := Nat.mul_add WORD ((r.start + r.len) / WORD) 1
      omega
    rw [this, Nat.add_mul_mod_self_left]
    apply Nat.mod_eq_of_lt
    omega
  refine ⟨e1, ?_⟩
  rw [e1]
  generalize (r.start + r.len) % WORD = e at *
  unfold to_i32 to_u32
  have h3 : (e - a) % WORD = e - a := Nat.mod_eq_of_lt (by omega)
  rw [h3]
  unfold WORD at *
  split_ifs with h
  · have : ((a : Int) + ((e - a : Nat) : Int)) = (e : Int) := by omega
    rw [this]
    omega
  · have : ((a : Int) + (((e - a : Nat) : Int) - ((4294967296 : Nat) : Int))) % ((4294967296 : Nat) : Int)
        = (e : Int) := by omega
    rw [this]
    omega

theorem range_present_loop_sound (vm : task_vm) (len : Int) (hlen : 1 ≤ len) :
    ∀ fuel next, is_range_present_loop vm len fuel next = some KERN_SUCCESS →
      ∀ a : Nat, next ≤ a → (a : Int) < next + len → (vmm_get_range vm a).isSome = true := by
  intro fuel
  induction fuel with
  | zero => intro next h; simp [is_range_present_loop] at h
  | succ fuel ih =>
    intro next h a ha1 ha2
    unfold is_range_present_loop at h
    cases hr : vmm_get_range vm next with
    | none =>
      rw [hr] at h
      simp [KERN_ERROR_ADDRESS_NOT_PRESENT, KERN_SUCCESS] at h
    | some r =>
      rw [hr] at h
      simp only at h
      obtain ⟨hmem, hk, hs, he⟩ := get_range_some vm next r hr
      obtain ⟨e1, e2⟩ := range_offset r next he
      have hlt : (r.start + r.len) % WORD < WORD := Nat.mod_lt _ (by unfold WORD; omega)
      have hcov : a < (r.start + r.len) % WORD → (vmm_get_range vm a).isSome = true := by
        intro hae
        apply get_range_isSome vm a r hmem
        unfold range_holds
        simp only [hk, Bool.not_false, Bool.true_and, Bool.and_eq_true, decide_eq_true_eq]
        exact ⟨by omega, hae⟩
      by_cases hle : len ≤ to_i32 ((r.start + r.len + WORD - next) % WORD)
      · apply hcov
        rw [e1] at hle
        unfold to_i32 at hle
        have h3 : ((r.start + r.len) % WORD - next) % WORD = (r.start + r.len) % WORD - next :=
          Nat.mod_eq_of_lt (by omega)
        rw [h3] at hle
        unfold WORD at *
        split_ifs at hle with hc
        · omega
        · omega
      · rw [if_neg hle, e2] at h
        by_cases hae : a < (r.start + r.len) % WORD
        · exact hcov hae
        · exact ih _ h a (by omega) (by omega)

/-- Soundness of `vmm_is_range_present`: when it reports success for a
buffer of at least one byte, every byte of the buffer lies in a user range. -/
theorem range_present_sound (vm : task_vm) (base_addr : Nat) (len : Int) (hlen : 1 ≤ len)
    (h : vmm_is_range_present vm base_addr len = some KERN_SUCCESS) (a : Nat)
    (ha1 : base_addr ≤ a) (ha2 : (a : Int) < base_addr + len) :
    (vmm_get_range vm a).isSome = true :=
  range_present_loop_sound vm len hlen _ _ h a ha1 ha2

theorem countP_lt_of_imp (l : List vm_range) (p q : vm_range → Bool)
    (hpq : ∀ x, p x = true → q x = true) (x : vm_range) (hx : x ∈ l) (hqx : q x = true)
    (hpx : p x = false) : l.countP p < l.countP q := by
  induction l with
  | nil => simp at hx
  | cons y rest ih =>
    simp only [List.mem_cons] at hx
    have hle : rest.countP p ≤ rest.countP q := List.countP_mono_left (fun z _ => hpq z)
    rcases hx with hx | hx
    · subst hx
      rw [List.countP_cons_of_pos _ _ hqx, List.countP_cons_of_neg _ _ (by simp [hpx])]
      omega
    · have := ih hx
      by_cases hpy : p y = true
      · rw [List.countP_cons_of_pos _ _ hpy, List.countP_cons_of_pos _ _ (hpq y hpy)]
        omega
      · rw [List.countP_cons_of_neg _ _ hpy]
        by_cases hqy : q y = true
        · rw [List.countP_cons_of_pos _ _ hqy]; omega
        · rw [List.countP_cons_of_neg _ _ hqy]; omega

theorem range_present_loop_total (vm : task_vm) (len : Int) :
    ∀ fuel next,
      vm.vm_ranges_head.countP (fun r => decide (next < (r.start + r.len) % WORD)) < fuel →
      ∃ ret, is_range_present_loop vm len fuel next = some ret := by
  intro fuel
  induction fuel with
  | zero => intro next h; omega
  | succ fuel ih =>
    intro next h
    unfold is_range_present_loop
    cases hr : vmm_get_range vm next with
    | none => exact ⟨_, rfl⟩
    | some r =>
      simp only
      obtain ⟨hmem, hk, hs, he⟩ := get_range_some vm next r hr
      obtain ⟨e1, e2⟩ := range_offset r next he
      by_cases hle : len ≤ to_i32 ((r.start + r.len + WORD - next) % WORD)
      · rw [if_pos hle]; exact ⟨_, rfl⟩
      · rw [if_neg hle, e2]
        apply ih
        have := countP_lt_of_imp vm.vm_ranges_head
          (fun r1 => decide ((r.start + r.len) % WORD < (r1.start + r1.len) % WORD))
          (fun r1 => decide (next < (r1.start + r1.len) % WORD))
          (by
            intro x hx
            simp only [decide_eq_true_eq] at hx ⊢
            omega)
          r hmem (by simpa using he) (by simp)
        omega

/-- The function `vmm_is_range_present` returns for every address space,
base and length. -/
theorem range_present_total (vm : task_vm) (base_addr : Nat) (len : Int) :
    ∃ ret, vmm_is_range_present vm base_addr len = some ret := by
  apply range_present_loop_total
  have := List.countP_le_length
    (fun r : vm_range => decide (base_addr < (r.start + r.len) % WORD)) (l := vm.vm_ranges_head)
  omega

/-! ### `schedule`, `cas2i_runflag` -/

/-- The members that `schedule` and the run-queue functions leave alone. -/
theorem scheduler_remove_fields (G : Symbols) (t : Nat) (s s1 : Machine)
    (h : scheduler_remove G t s = some s1) :
    s1.threads = s.threads ∧ s1.user_mem = s.user_mem ∧ s1.count = s.count ∧
      s1.idle_task = s.idle_task ∧ s1.current = s.current ∧ s1.IF = s.IF ∧
      s1.savedflags = s.savedflags := by
  rw [scheduler_remove_eq] at h
  cases hq : Q_REMOVE s.kthread_wait G.run_queue t with
  | none => simp [hq] at h
  | some q =>
    simp only [hq, Option.map_some', Option.some.injEq] at h
    rw [← h]
    exact ⟨rfl, rfl, rfl, rfl, rfl, rfl, rfl⟩

theorem schedule_fields (G : Symbols) (r : Bool) (s s1 : Machine)
    (h : schedule G r s = some s1) :
    s1.threads = s.threads ∧ s1.user_mem = s.user_mem ∧ s1.count = s.count ∧
      s1.idle_task = s.idle_task := by
  unfold schedule at h
  simp only [spinlock_ifsave, get_idle_thread, spinlock_ifrestore] at h
  generalize Q_GET_FRONT s.kthread_wait G.run_queue = front at h
  -- the rotation of a front thread with a negative `run_flag`
  have hrot : ∀ s2 n,
      (if front ≠ 0 ∧ (s.threads front).run_flag < 0 then
        match scheduler_remove G front { s with IF := false } with
        | none => none
        | some s1 => some (scheduler_add G front s1, 0)
      else some ({ s with IF := false }, front)) = some (s2, n) →
      s2.threads = s.threads ∧ s2.user_mem = s.user_mem ∧ s2.count = s.count ∧
        s2.idle_task = s.idle_task := by
    intro s2 n hr
    split_ifs at hr with hc
    · cases hrem : scheduler_remove G front { s with IF := false } with
      | none => simp [hrem] at hr
      | some s3 =>
        simp only [hrem, Option.some.injEq, Prod.mk.injEq] at hr
        have hf := scheduler_remove_fields G front _ s3 hrem
        rw [← hr.1, scheduler_add_eq]
        exact ⟨hf.1, hf.2.1, hf.2.2.1, hf.2.2.2.1⟩
    · simp only [Option.some.injEq, Prod.mk.injEq] at hr
      rw [← hr.1]
      exact ⟨rfl, rfl, rfl, rfl⟩
  generalize (if front ≠ 0 ∧ (s.threads front).run_flag < 0 then
        match scheduler_remove G front { s with IF := false } with
        | none => none
        | some s1 => some (scheduler_add G front s1, 0)
      else some ({ s with IF := false }, front)) = rot at h hrot
  cases rot with
  | none => simp at h
  | some pr =>
    obtain ⟨s2, n⟩ := pr
    have hs2 := hrot s2 n rfl
    simp only at h
    generalize (if n = 0 then s2.idle_task else n) = next at h
    -- the removal of the thread that is switched to
    have hrem : ∀ s3,
        (if next ≠ s2.idle_task then scheduler_remove G next s2 else some s2) = some s3 →
        s3.threads = s.threads ∧ s3.user_mem = s.user_mem ∧ s3.count = s.count ∧
          s3.idle_task = s.idle_task := by
      intro s3 hr
      split_ifs at hr with hc
      · have hf := scheduler_remove_fields G _ s2 s3 hr
        exact ⟨hf.1.trans hs2.1, hf.2.1.trans hs2.2.1, hf.2.2.1.trans hs2.2.2.1,
          hf.2.2.2.1.trans hs2.2.2.2⟩
      · simp only [Option.some.injEq] at hr
        rw [← hr]
        exact hs2
    generalize (if next ≠ s2.idle_task then scheduler_remove G next s2 else some s2) = rem
      at h hrem
    by_cases hne : next ≠ s.current
    · rw [if_pos hne] at h
      cases rem with
      | none => simp at h
      | some s3 =>
        have hs3 := hrem s3 rfl
        simp only [Option.some.injEq] at h
        rw [← h]
        by_cases hadd : s.current ≠ s3.idle_task ∧ r = true
        · rw [if_pos hadd, scheduler_add_eq]
          exact hs3
        · rw [if_neg hadd]
          exact hs3
    · rw [if_neg hne] at h
      simp only [Option.some.injEq] at h
      rw [← h]
      exact hs2

theorem not_success_of_outside (vm : task_vm) (buf : Nat) (len : Int)
    (h : buffer_outside vm buf len) :
    ∃ ret, vmm_is_range_present vm buf len = some ret ∧ KERN_SUCCESS ≠ ret := by
  obtain ⟨ret, hret⟩ := range_present_total vm buf len
  refine ⟨ret, hret, ?_⟩
  intro hc
  obtain ⟨i, hi, hnone⟩ := h
  rw [← hc] at hret
  have hlen : 1 ≤ len := by omega
  have := range_present_sound vm buf len hlen hret (buf + i) (by omega) (by omega)
  rw [hnone] at this
  simp at this

/-- C11, counterexample: `print` with a buffer pointer that lies in no range
of the calling task.  The entry point returns `KERN_ERROR_INVALID_SYSCALL`
(-6), which is neither `KERN_ERR_BAD_SYS_PARAM` nor
`KERN_ERROR_ADDRESS_NOT_PRESENT`. -/
theorem print_bad_pointer_code :
    checked_pointer_outside demo_packet_machine PRINT_IDX 0x01002100 ∧
      (syscall_enter demo_platform no_handlers 11 0x01002100 demo_packet_machine).map Prod.fst =
        some KERN_ERROR_INVALID_SYSCALL ∧
      KERN_ERROR_INVALID_SYSCALL ≠ KERN_ERR_BAD_SYS_PARAM ∧
      KERN_ERROR_INVALID_SYSCALL ≠ KERN_ERROR_ADDRESS_NOT_PRESENT := by
  refine ⟨?_, ?_, ?_, ?_⟩
  · unfold checked_pointer_outside PRINT_IDX
    decide
  · decide
  · decide
  · decide

/-- C11, amended: for `wait`, `readline`, `print`, `get_cursor_pos`, `ls` and
`cas2i_runflag`, when the buffer behind the user pointer of the argument
packet has a byte outside the ranges of the calling task, `syscall_enter`
returns the reject code of the check (`KERN_ERROR_INVALID_SYSCALL` for
`readline` and `print`, `KERN_ERR_BAD_SYS_PARAM` for the others) and the state
is unchanged, whatever the handlers are: no handler is called. -/
theorem bad_pointer_is_rejected (P : Platform)
    (fn_address : Nat → Nat → Machine → Option (KERN_RET_CODE × Machine)) (s : Machine)
    (system_call_idx user_param_packet : Nat)
    (h : checked_pointer_outside s system_call_idx user_param_packet) :
    syscall_enter P fn_address (system_call_idx : Int) user_param_packet s =
      some (reject_code system_call_idx, s) := by
  unfold checked_pointer_outside at h
  split at h
  · obtain ⟨ret, h1, h2⟩ := not_success_of_outside _ _ _ h
    have h2' : ¬ ((0 : Int) = ret) := h2
    simp [syscall_enter, TOTAL_SYSTEM_CALLS, fn_address_param_check, syscall_wait_check, h1, h2',
      reject_code, READLINE_IDX, PRINT_IDX, KERN_ERR_BAD_SYS_PARAM, KERN_SUCCESS]
  · obtain ⟨ret, h1, h2⟩ := not_success_of_outside _ _ _ h
    have h2' : ¬ ((0 : Int) = ret) := h2
    simp [syscall_enter, TOTAL_SYSTEM_CALLS, fn_address_param_check, syscall_readline_check, h1,
      h2', reject_code, READLINE_IDX, PRINT_IDX, KERN_ERROR_INVALID_SYSCALL, KERN_SUCCESS]
  · obtain ⟨ret, h1, h2⟩ := not_success_of_outside _ _ _ h
    have h2' : ¬ ((0 : Int) = ret) := h2
    simp [syscall_enter, TOTAL_SYSTEM_CALLS, fn_address_param_check, syscall_print_check, h1,
      h2', reject_code, READLINE_IDX, PRINT_IDX, KERN_ERROR_INVALID_SYSCALL, KERN_SUCCESS]
  · rcases h with h | h
    · obtain ⟨ret, h1, h2⟩ := not_success_of_outside _ _ _ h
      have h2' : ¬ ((0 : Int) = ret) := h2
      simp [syscall_enter, TOTAL_SYSTEM_CALLS, fn_address_param_check, syscall_getcursorpos_check,
        h1, h2', reject_code, READLINE_IDX, PRINT_IDX, KERN_ERR_BAD_SYS_PARAM, KERN_SUCCESS]
    · obtain ⟨ret, h1, h2⟩ := not_success_of_outside _ _ _ h
      have h2' : ¬ ((0 : Int) = ret) := h2
      obtain ⟨ret0, h0⟩ := range_present_total (s.vm (current_task s))
        (packet_word s user_param_packet 0) 4
      by_cases hr : (0 : Int) = ret0
      · simp [syscall_enter, TOTAL_SYSTEM_CALLS, fn_address_param_check,
          syscall_getcursorpos_check, h0, ← hr, h1, h2', reject_code, READLINE_IDX, PRINT_IDX,
          KERN_ERR_BAD_SYS_PARAM, KERN_SUCCESS]
      · simp [syscall_enter, TOTAL_SYSTEM_CALLS, fn_address_param_check,
          syscall_getcursorpos_check, h0, hr, reject_code, READLINE_IDX, PRINT_IDX,
          KERN_ERR_BAD_SYS_PARAM, KERN_SUCCESS]
  · obtain ⟨ret, h1, h2⟩ := not_success_of_outside _ _ _ h
    have h2' : ¬ ((0 : Int) = ret) := h2
    simp [syscall_enter, TOTAL_SYSTEM_CALLS, fn_address_param_check, syscall_ls_check, h1, h2',
      reject_code, READLINE_IDX, PRINT_IDX, KERN_ERR_BAD_SYS_PARAM, KERN_SUCCESS]
  · obtain ⟨ret, h1, h2⟩ := not_success_of_outside _ _ _ h
    have h2' : ¬ ((0 : Int) = ret) := h2
    simp [syscall_enter, TOTAL_SYSTEM_CALLS, fn_address_param_check, syscall_cas2i_check, h1, h2',
      reject_code, READLINE_IDX, PRINT_IDX, KERN_ERR_BAD_SYS_PARAM, KERN_SUCCESS]
  · exact absurd h id

/-- Witness of `bad_pointer_is_rejected`: `ls` with the packet of
`demo_packet_machine`. -/
theorem bad_pointer_is_rejected_witness :
    checked_pointer_outside demo_packet_machine 19 0x01002100 ∧
      syscall_enter demo_platform no_handlers ((19 : Nat) : Int) 0x01002100 demo_packet_machine =
        some (reject_code 19, demo_packet_machine) :=
  ⟨by unfold checked_pointer_outside; decide,
   bad_pointer_is_rejected demo_platform no_handlers demo_packet_machine 19 0x01002100
     (by unfold checked_pointer_outside; decide)⟩

theorem demo_ranges :
    demo_state.2.vm.vm_ranges_head =
      [{ start := 0, len := 16777216, kernel := true },
       { start := 4294942720, len := 8192, kernel := false },
       { start := 16785408, len := 4096, kernel := false },
       { start := 16781312, len := 4096, kernel := false },
       { start := 16777216, len := 4096, kernel := false }] := by
  decide

/-- C12: a buffer of two pages that the text range and the read-only data
range of the loaded program cover together.  Every range is shorter than
`2^31`, the buffer ends below `2^32` and each of its bytes lies in a user
range, yet `vmm_is_range_present` returns `KERN_ERROR_ADDRESS_NOT_PRESENT`:
the loop moves to the next range without taking the bytes already covered
off the length. -/
theorem range_present_rejects_covered_buffer :
    (∀ r ∈ demo_state.2.vm.vm_ranges_head, r.len < 2147483648) ∧
      0x01000000 + 0x2000 ≤ WORD ∧
      (∀ a, 0x01000000 ≤ a → a < 0x01000000 + 0x2000 →
        (vmm_get_range demo_state.2.vm a).isSome = true) ∧
      vmm_is_range_present demo_state.2.vm 0x01000000 0x2000 =
        some KERN_ERROR_ADDRESS_NOT_PRESENT := by
  refine ⟨by decide, by decide, ?_, by decide⟩
  intro a h1 h2
  by_cases ha : a < 0x01001000
  · apply get_range_isSome demo_state.2.vm a { start := 16777216, len := 4096, kernel := false }
    · rw [demo_ranges]; simp
    · simp only [range_holds, WORD, Bool.not_false, Bool.true_and, Bool.and_eq_true,
        decide_eq_true_eq]
      omega
  · apply get_range_isSome demo_state.2.vm a { start := 16781312, len := 4096, kernel := false }
    · rw [demo_ranges]; simp
    · simp only [range_holds, WORD, Bool.not_false, Bool.true_and, Bool.and_eq_true,
        decide_eq_true_eq]
      omega

/-! ### `wait` -/

theorem wait_find_seg (s : Machine) (head Z : Nat) (hZ : Z ≠ head)
    (hz : s.state Z = TASK_STATUS_ZOMIE) :
    ∀ (pre : List Nat) (p fuel : Nat), Q_seg s.ktask_next head p (pre ++ [Z]) → head ∉ pre →
      (∀ x ∈ pre, s.state x ≠ TASK_STATUS_ZOMIE) → pre.length < fuel →
      wait_find s head fuel (Q_next s.ktask_next head p) = some Z := by
  intro pre
  induction pre with
  | nil =>
    intro p fuel hseg _ _ hf
    obtain ⟨n, rfl⟩ : ∃ n, fuel = n + 1 := ⟨fuel - 1, by simp at hf; omega⟩
    simp only [List.nil_append, Q_seg] at hseg
    rw [hseg.1]
    unfold wait_find
    rw [if_neg hZ, if_pos hz]
  | cons a rest ih =>
    intro p fuel hseg hh hst hf
    obtain ⟨n, rfl⟩ : ∃ n, fuel = n + 1 := ⟨fuel - 1, by simp at hf; omega⟩
    simp only [List.cons_append, Q_seg] at hseg
    have ha : a ≠ head := fun h => hh (h ▸ List.mem_cons_self _ _)
    rw [hseg.1]
    unfold wait_find
    rw [if_neg ha, if_neg (hst a (List.mem_cons_self _ _)), ← Q_next_elem _ _ _ ha]
    exact ih a n hseg.2.2 (fun h => hh (List.mem_cons_of_mem _ h))
      (fun x hx => hst x (List.mem_cons_of_mem _ hx))
      (by simp only [List.length_cons] at hf; omega)

theorem wait_find_queue (s : Machine) (head Z : Nat) (pre post : List Nat)
    (hq : is_queue s.ktask_next head (pre ++ Z :: post))
    (hlen : pre.length + post.length + 1 < WORD)
    (hst : ∀ x ∈ pre, s.state x ≠ TASK_STATUS_ZOMIE) (hz : s.state Z = TASK_STATUS_ZOMIE) :
    wait_find s head ((s.ktask_next.head head).nr_elements + 1) (s.ktask_next.head head).next =
      some Z := by
  have hnd := hq.2.1
  simp only [List.nodup_cons, List.mem_append, List.mem_cons, not_or] at hnd
  have hseg : Q_seg s.ktask_next head head ((pre ++ [Z]) ++ (post ++ [head])) := by
    have := hq.1
    simpa using this
  rw [← Q_next_head]
  apply wait_find_seg s head Z (fun h => hnd.1.2.1 h.symm) hz pre head _
    ((Q_seg_append _ _ _ _ _).1 hseg).1 hnd.1.1 hst
  rw [hq.2.2.2]
  simp only [List.length_append, List.length_cons]
  rw [Nat.mod_eq_of_lt (by omega)]
  omega

theorem syscall_wait_3_spec (P : Platform) (G : Symbols) (user_param_packet : Nat) (s : Machine)
    (pre post : List Nat) (Z : Nat) (kv : kern_vmm) (vm : task_vm)
    (hlock : s.count (fork_lock_at (current_task s)) = 0)
    (hq : is_queue s.ktask_next (ktask_task_head_at (current_task s)) (pre ++ Z :: post))
    (hlen : pre.length + post.length + 1 < WORD)
    (hst : ∀ x ∈ pre, s.state x ≠ TASK_STATUS_ZOMIE) (hz : s.state Z = TASK_STATUS_ZOMIE)
    (hfree : vmm_free_task_vm P s.kernel_vmm (s.vm Z) = some (kv, vm)) :
    ∃ s1, syscall_wait_3 P G user_param_packet s = some (Outcome.returned (to_i32 Z) s1) ∧
      is_queue s1.ktask_next (ktask_task_head_at (current_task s)) (pre ++ post) ∧
      s1.user_mem (current_task s) (GET_NTH_PARAM_FROM_PACKET user_param_packet 0) =
        to_u32 (s.status Z) ∧
      s1.count = upd s.count (fork_lock_at (current_task s)) 1 ∧
      s1.threads = s.threads ∧ s1.kthread_wait = s.kthread_wait ∧ s1.current = s.current := by
  have hfind := wait_find_queue s _ Z pre post hq hlen hst hz
  have hnd := hq.2.1
  simp only [List.nodup_cons, List.mem_append, List.mem_cons, not_or] at hnd
  have hnd2 : (pre ++ Z :: post).Nodup := (List.nodup_cons.1 hq.2.1).2
  have hZpre : Z ∉ pre := fun h =>
    (List.nodup_append.1 hnd2).2.2 h (List.mem_cons_self _ _)
  obtain ⟨q1, hrem, hq1, -, -⟩ := is_queue_remove _ _ Z _ hq (by simp)
  have herase : (pre ++ Z :: post).erase Z = pre ++ post := by
    rw [List.erase_append_right _ hZpre, List.erase_cons_head]
  rw [herase] at hq1
  unfold syscall_wait_3
  simp only [hfind, GET_NTH_PARAM_FROM_PACKET, hz, ne_eq, not_true_eq_false, if_false, hrem, hfree]
  unfold task_fork_unlock
  rw [sem_signal_pass G _ _ (by simp only [hlock]; omega) (by simp only [hlock]; omega)]
  refine ⟨_, rfl, hq1, ?_, ?_, rfl, rfl, rfl⟩
  · simp [upd_same, GET_NTH_PARAM_FROM_PACKET]
  · simp only [hlock]; rfl

theorem fork_lock_round (s : Machine) (L : Nat) (hlock : s.count L = 1) :
    ({ s with count := upd (upd s.count L 0) L 1, IF := true } : Machine) =
      { s with IF := true } := by
  have : upd (upd s.count L 0) L 1 = s.count := by
    rw [upd_upd, ← hlock, upd_self]
  rw [this]

/-- C13: in a state where the fork lock of the calling task is free,
`wait` returns `KERN_ERROR_TASK_NOT_FOUND` at once when the children queue
of the task is empty.  When the children queue is `pre ++ Z :: post`, where
`Z` is a zombie and no task of `pre` is one, `wait` passes the vultures
semaphore if its count is positive, and from the return of that `sem_wait`
on it returns the identifier of the initial thread of `Z`, stores the status
of `Z` through the user pointer and leaves the children `pre ++ post` on the
queue, provided that the release of the address space of `Z` meets no failed
assertion.  The status of a task is the value that its last `set_status`
passed. -/
theorem wait_reaps_first_zombie (P : Platform) (G : Symbols) (user_param_packet : Nat)
    (s : Machine) (hlock : s.count (fork_lock_at (current_task s)) = 1) :
    (is_queue s.ktask_next (ktask_task_head_at (current_task s)) [] →
      syscall_wait P G user_param_packet s =
        some (Outcome.returned KERN_ERROR_TASK_NOT_FOUND { s with IF := true })) ∧
    (∀ (pre post : List Nat) (Z : Nat) (kv : kern_vmm) (vm : task_vm),
      is_queue s.ktask_next (ktask_task_head_at (current_task s)) (pre ++ Z :: post) →
      pre.length + post.length + 1 < WORD →
      (∀ x ∈ pre, s.state x ≠ TASK_STATUS_ZOMIE) → s.state Z = TASK_STATUS_ZOMIE →
      vmm_free_task_vm P s.kernel_vmm (s.vm Z) = some (kv, vm) →
      (1 ≤ s.count (vultures_at (current_task s)) →
        s.count (vultures_at (current_task s)) ≤ 2147483648 →
        syscall_wait P G user_param_packet s =
          syscall_wait_2 P G user_param_packet { s with
            count := upd s.count (vultures_at (current_task s))
              (s.count (vultures_at (current_task s)) - 1)
            IF := true }) ∧
      ∃ s1, syscall_wait_2 P G user_param_packet s = some (Outcome.returned (to_i32 Z) s1) ∧
        is_queue s1.ktask_next (ktask_task_head_at (current_task s)) (pre ++ post) ∧
        s1.user_mem (current_task s) (GET_NTH_PARAM_FROM_PACKET user_param_packet 0) =
          to_u32 (s.status Z)) ∧
    (∀ v : Nat, (syscall_set_status v s).1 = KERN_SUCCESS ∧
      (syscall_set_status v s).2.status (current_task s) = to_i32 v) := by
  have hpass : task_fork_lock G (current_task s) s =
      some (false, { s with count := upd s.count (fork_lock_at (current_task s)) 0, IF := true }) := by
    unfold task_fork_lock
    rw [sem_wait_pass G _ _ (by rw [hlock]) (by rw [hlock]; omega), hlock]
    rfl
  have hunlock : task_fork_unlock G (current_task s)
      { s with count := upd s.count (fork_lock_at (current_task s)) 0, IF := true } =
      some { s with IF := true } := by
    unfold task_fork_unlock
    rw [sem_signal_pass G _ _ (by simp only [upd_same]; omega) (by simp only [upd_same]; omega)]
    simp only [upd_same, Int.zero_add]
    exact congrArg some (fork_lock_round s _ hlock)
  refine ⟨?_, ?_, ?_⟩
  · intro hq
    have hnr : (s.ktask_next.head (ktask_task_head_at (current_task s))).nr_elements = 0 := by
      rw [hq.2.2.2]; rfl
    unfold syscall_wait
    rw [hpass]
    simp only
    unfold syscall_wait_1
    simp only [current_task] at hnr hunlock ⊢
    rw [if_pos hnr, hunlock]
  · intro pre post Z kv vm hq hlen hst hz hfree
    constructor
    · intro hv1 hv2
      have hnr : (s.ktask_next.head (ktask_task_head_at (current_task s))).nr_elements ≠ 0 := by
        rw [hq.2.2.2]
        simp only [List.length_append, List.length_cons]
        rw [Nat.mod_eq_of_lt (by omega)]
        omega
      unfold syscall_wait
      rw [hpass]
      simp only
      unfold syscall_wait_1
      simp only [current_task] at hnr hunlock hv1 hv2 ⊢
      rw [if_neg hnr, hunlock]
      simp only
      rw [sem_wait_pass G _ { s with IF := true } hv1 hv2]
    · obtain ⟨s1, h3, hq1, hum, -⟩ := syscall_wait_3_spec P G user_param_packet
        { s with count := upd s.count (fork_lock_at (current_task s)) 0, IF := true }
        pre post Z kv vm (by simp [current_task, upd_same]) hq hlen hst hz hfree
      refine ⟨s1, ?_, hq1, hum⟩
      unfold syscall_wait_2
      rw [hpass]
      exact h3
  · intro v
    constructor
    · rfl
    · simp only [syscall_set_status, upd_same]

/-- Witness of `wait_reaps_first_zombie`: the state of scenario S1 in which
the child `TASK2` has vanished and the initial thread of `TASK1` runs. -/
theorem wait_reaps_first_zombie_witness :
    ∃ s1, syscall_wait_2 demo_platform demo_symbols 0x01002200 demo_child_exited =
        some (Outcome.returned (to_i32 TASK2) s1) ∧
      is_queue s1.ktask_next (ktask_task_head_at (current_task demo_child_exited)) ([] ++ []) ∧
      s1.user_mem (current_task demo_child_exited)
          (GET_NTH_PARAM_FROM_PACKET 0x01002200 0) =
        to_u32 (demo_child_exited.status TASK2) :=
  ((wait_reaps_first_zombie demo_platform demo_symbols 0x01002200 demo_child_exited
    (by decide)).2.1 [] [] TASK2 demo_child_freed.1 demo_child_freed.2 (by decide) (by decide)
    (by decide) (by decide)
    (show vmm_free_task_vm demo_platform demo_child_exited.kernel_vmm
        (demo_child_exited.vm TASK2) = some demo_child_freed from (Option.some_get _).symm)).2

/-- Scenario S1 on the concrete machine: the child `TASK2` calls
`set_status(7)` and `vanish`; the `wait` of its parent returns the identifier
of the initial thread of `TASK2`, stores 7 through the pointer and leaves
the children queue empty. -/
theorem scenario_wait_status_seven :
    demo_child_exited.current = TASK1 ∧
      is_queue demo_child_exited.ktask_next (ktask_task_head_at TASK1) [TASK2] ∧
      demo_child_exited.state TASK2 = TASK_STATUS_ZOMIE ∧
      demo_wait.bind Outcome.ret = some (to_i32 TASK2) ∧
      demo_wait.map (fun o => o.state.user_mem TASK1 0x01002200) = some 7 ∧
      (∃ o, demo_wait = some o ∧ is_queue o.state.ktask_next (ktask_task_head_at TASK1) []) := by
  refine ⟨?_, ?_, ?_, ?_, ?_, ?_⟩
  · decide
  · decide
  · decide
  · decide
  · decide
  · exact ⟨demo_wait.get (by decide), (Option.some_get _).symm, by decide⟩

/-! ### `task_vanish` -/

theorem Q_REMOVE_next_self (q q1 : Q_MEM) (head elem : Nat)
    (h : Q_REMOVE q head elem = some q1) : (q1.link elem).next = elem := by
  unfold Q_REMOVE at h
  by_cases hs : Q_ELEM_STAND_ALONE q elem = true
  · rw [if_pos hs] at h
    simp only [Option.some.injEq] at h
    rw [← h]
    simp only [Q_ELEM_STAND_ALONE, Bool.and_eq_true, decide_eq_true_eq] at hs
    exact hs.2
  · rw [if_neg hs] at h
    by_cases he : Q_HEAD_EMPTY q head = true
    · rw [if_pos he] at h
      exact absurd h (by simp)
    · rw [if_neg he] at h
      simp only [Option.some.injEq] at h
      rw [← h]
      simp only [Q_INIT_ELEM, upd_same]

theorem sem_signal_kthread_next (G : Symbols) (psem : Nat) (s s1 : Machine)
    (h : sem_signal G psem s = some s1) : s1.kthread_next = s.kthread_next := by
  unfold sem_signal at h
  simp only [spinlock_ifsave, spinlock_unlock, spinlock_ifrestore, scheduler_add] at h
  split_ifs at h
  · simp only [Option.some.injEq] at h
    rw [← h]
  · revert h
    split
    · intro h; exact absurd h (by simp)
    · intro h
      simp only [Option.some.injEq] at h
      rw [← h]
  · simp only [Option.some.injEq] at h
    rw [← h]

theorem scheduler_remove_kthread_next (G : Symbols) (t : Nat) (s s1 : Machine)
    (h : scheduler_remove G t s = some s1) : s1.kthread_next = s.kthread_next := by
  rw [scheduler_remove_eq] at h
  cases hq : Q_REMOVE s.kthread_wait G.run_queue t with
  | none => simp [hq] at h
  | some q =>
    simp only [hq, Option.map_some', Option.some.injEq] at h
    rw [← h]

theorem taskvanish_body_next (G : Symbols) (thisTask thread : Nat) (s s1 : Machine)
    (h : taskvanish_body G thisTask thread s = some s1) :
    (s1.kthread_next.link thread).next = thread := by
  unfold taskvanish_body at h
  cases hq : Q_REMOVE s.kthread_next (ktask_threads_head_at thisTask) thread with
  | none => simp [hq] at h
  | some q =>
    have hn := Q_REMOVE_next_self _ _ _ _ hq
    simp only [hq] at h
    cases hr : scheduler_remove G thread { s with kthread_next := q } with
    | none => simp [hr] at h
    | some s2 =>
      have h2 := scheduler_remove_kthread_next _ _ _ _ hr
      simp only [hr] at h
      split_ifs at h
      · have h3 := sem_signal_kthread_next _ _ _ _ h
        rw [h3]
        show (s2.kthread_next.link thread).next = thread
        rw [h2]
        exact hn
      · simp only [Option.some.injEq] at h
        rw [← h, h2]
        exact hn

theorem taskvanish_loop_stuck (G : Symbols) (thisTask thread : Nat)
    (hne : thread ≠ ktask_threads_head_at thisTask) :
    ∀ (fuel : Nat) (s : Machine), taskvanish_loop G thisTask fuel thread s = none := by
  intro fuel
  induction fuel with
  | zero => intro s; rfl
  | succ n ih =>
    intro s
    unfold taskvanish_loop
    rw [if_neg hne]
    cases hb : taskvanish_body G thisTask thread s with
    | none => rfl
    | some s1 =>
      simp only
      rw [taskvanish_body_next _ _ _ _ _ hb]
      exact ih s1

/-- C14: the walk that `syscall_taskvanish` makes over the thread queue of a
task with at least one thread never ends.  `Q_REMOVE` makes the `next`
pointer of the removed thread point to the thread itself, so `Q_FOREACH`
visits the first thread again and again: whatever the number of loop tests
allowed, the loop does not come to its end. -/
theorem task_vanish_walk_never_ends (G : Symbols) (thisTask : Nat) (s : Machine) (l : List Nat)
    (hq : is_queue s.kthread_next (ktask_threads_head_at thisTask) l) (hl : l ≠ []) :
    ∀ fuel : Nat, taskvanish_loop G thisTask fuel
      (s.kthread_next.head (ktask_threads_head_at thisTask)).next s = none := by
  intro fuel
  apply taskvanish_loop_stuck
  have hf := is_queue_first _ _ _ hq
  cases l with
  | nil => exact absurd rfl hl
  | cons a rest =>
    have hnd := hq.2.1
    simp only [List.nodup_cons, List.mem_cons, not_or] at hnd
    rw [hf]
    exact fun h => hnd.1.1 h.symm

/-- Witness of `task_vanish_walk_never_ends`: the task `TASK2`, whose only
thread is running and holds the fork lock. -/
theorem task_vanish_walk_never_ends_witness :
    is_queue demo_vanish_locked.kthread_next (ktask_threads_head_at TASK2) [TASK2] ∧
      ∀ fuel : Nat, taskvanish_loop demo_symbols TASK2 fuel
        (demo_vanish_locked.kthread_next.head (ktask_threads_head_at TASK2)).next
        demo_vanish_locked = none :=
  ⟨by decide, task_vanish_walk_never_ends demo_symbols TASK2 demo_vanish_locked [TASK2]
    (by decide) (by decide)⟩

/-- On the machine of the witness the loop body runs without a failed
assertion each time, on the same thread, and each run signals the vultures
semaphore of the parent task `TASK1` once more. -/
theorem task_vanish_signals_every_round :
    demo_vanish_locked.current = TASK2 ∧
      demo_vanish_locked.count (vultures_at TASK1) = 0 ∧
      (taskvanish_iter demo_symbols TASK2 TASK2 1 demo_vanish_locked).map
        (fun s => (s.count (vultures_at TASK1), (s.kthread_next.link TASK2).next, s.state TASK2)) =
        some (1, TASK2, TASK_STATUS_ZOMIE) ∧
      (taskvanish_iter demo_symbols TASK2 TASK2 2 demo_vanish_locked).map
        (fun s => (s.count (vultures_at TASK1), (s.kthread_next.link TASK2).next, s.state TASK2)) =
        some (2, TASK2, TASK_STATUS_ZOMIE) ∧
      (taskvanish_iter demo_symbols TASK2 TASK2 3 demo_vanish_locked).map
        (fun s => (s.count (vultures_at TASK1), (s.kthread_next.link TASK2).next, s.state TASK2)) =
        some (3, TASK2, TASK_STATUS_ZOMIE) := by
  refine ⟨?_, ?_, ?_, ?_, ?_⟩ <;> decide

/-- C15: threads `W :: more` (N of them) block in `sem_wait` on one
semaphore in that order, starting from count 0 and an empty waiter queue:
`W` runs, the others are the front of the run queue.  Then the count is -N
and the waiter queue is `W :: more`, and for every `k ≤ N`, `k` consecutive
calls of `sem_signal` leave the first `k` waiters at the tail of the run
queue in their order, the other waiters on the waiter queue, and the count
at `-(N - k)`; for `k = N` the waiter queue is empty and the count is 0. -/
theorem semaphore_wakes_in_fifo_order (G : Symbols) (psemaphore W : Nat)
    (more rest : List Nat) (s : Machine) (hcur : s.current = W)
    (hsem : is_queue s.kthread_wait (sem_kthread_head_at psemaphore) [])
    (hcount : s.count psemaphore = 0)
    (hrq : is_queue s.kthread_wait G.run_queue (more ++ rest))
    (hlen : more.length + 1 < 2147483648)
    (hflag : ∀ x ∈ more, 0 ≤ (s.threads x).run_flag)
    (hW : W ∉ more ++ rest) (hhead : ∀ x ∈ W :: more, x ≠ sem_kthread_head_at psemaphore)
    (hWR : W ≠ G.run_queue) (hW0 : W ≠ 0)
    (hheads : sem_kthread_head_at psemaphore ≠ G.run_queue)
    (hidle : s.idle_task ∉ more ++ rest) :
    ∃ s1 rq1, sem_wait_n G psemaphore (more.length + 1) s = some s1 ∧
      s1.count psemaphore = -((more.length + 1 : Nat) : Int) ∧
      is_queue s1.kthread_wait (sem_kthread_head_at psemaphore) (W :: more) ∧
      is_queue s1.kthread_wait G.run_queue rq1 ∧
      ∀ k, k ≤ more.length + 1 → ∃ s2, sem_signal_n G psemaphore k s1 = some s2 ∧
        s2.count psemaphore = -((more.length + 1 - k : Nat) : Int) ∧
        is_queue s2.kthread_wait (sem_kthread_head_at psemaphore) ((W :: more).drop k) ∧
        is_queue s2.kthread_wait G.run_queue (rq1 ++ (W :: more).take k) := by
  obtain ⟨s1, rq1, hw, hc1, hq1, hr1, hsub⟩ := sem_wait_n_spec G psemaphore more W [] rest s hcur
    hsem hrq (by simpa using hcount) (by simpa using hlen) hflag (by simp) (by simp) hW hhead
    hWR hW0 hheads hidle
  simp only [List.length_nil, Nat.zero_add, List.nil_append] at hc1 hq1
  refine ⟨s1, rq1, hw, hc1, hq1, hr1, ?_⟩
  intro k hk
  have hnd : (more ++ rest).Nodup := (List.nodup_cons.1 hrq.2.1).2
  have hRQ : G.run_queue ∉ more ++ rest := (List.nodup_cons.1 hrq.2.1).1
  obtain ⟨q1, hs, hd, ht⟩ := sem_signal_n_spec G psemaphore k (W :: more) rq1 s1
    (by simpa using hk) (by simpa using hlen) (by simpa using hc1) hq1 hr1
    (by
      intro x hx hxr
      have hxrest := hsub x hxr
      rcases List.mem_cons.1 hx with h | h
      · exact hW (h ▸ List.mem_append_right _ hxrest)
      · exact (List.nodup_append.1 hnd).2.2 h hxrest)
    hheads
    (by
      intro x hx
      rcases List.mem_cons.1 hx with h | h
      · exact h ▸ hWR
      · exact fun hxe => hRQ (hxe ▸ List.mem_append_left _ h))
  refine ⟨_, hs, ?_, hd, ht⟩
  simp only [upd_same, List.length_cons]

/-- Witness of `semaphore_wakes_in_fifo_order`: on `demo_machine` the three
threads of `TASK1` wait on the vultures semaphore of their task. -/
theorem semaphore_wakes_in_fifo_order_witness :
    ∃ s1 rq1, sem_wait_n demo_symbols (vultures_at TASK1) 3 demo_machine = some s1 ∧
      s1.count (vultures_at TASK1) = -3 ∧
      is_queue s1.kthread_wait (sem_kthread_head_at (vultures_at TASK1))
        [TASK1, THREAD_A, THREAD_B] ∧
      is_queue s1.kthread_wait demo_symbols.run_queue rq1 ∧
      ∀ k, k ≤ 3 → ∃ s2, sem_signal_n demo_symbols (vultures_at TASK1) k s1 = some s2 ∧
        s2.count (vultures_at TASK1) = -((3 - k : Nat) : Int) ∧
        is_queue s2.kthread_wait (sem_kthread_head_at (vultures_at TASK1))
          ([TASK1, THREAD_A, THREAD_B].drop k) ∧
        is_queue s2.kthread_wait demo_symbols.run_queue
          (rq1 ++ [TASK1, THREAD_A, THREAD_B].take k) :=
  semaphore_wakes_in_fifo_order demo_symbols (vultures_at TASK1) TASK1 [THREAD_A, THREAD_B]
    [TASK2] demo_machine (by decide) (by decide) (by decide) (by decide) (by decide)
    (by decide) (by decide) (by decide) (by decide) (by decide) (by decide) (by decide)

/-- C16: with an empty run queue, after `scheduler_add` of `T1` and then of
`T2` (distinct threads, neither the running thread nor the idle thread, `T1`
with a `run_flag` that is not negative), `schedule(runnable = true)` switches
to `T1` and leaves the run queue `[T2, current]`, or `[T2]` when the caller
is the idle thread. -/
theorem schedule_picks_first_added (G : Symbols) (s : Machine) (T1 T2 : Nat)
    (hq : is_queue s.kthread_wait G.run_queue []) (h12 : T1 ≠ T2)
    (hf1 : 0 ≤ (s.threads T1).run_flag)
    (h1c : T1 ≠ s.current) (h2c : T2 ≠ s.current)
    (h1i : T1 ≠ s.idle_task) (h2i : T2 ≠ s.idle_task)
    (h10 : T1 ≠ 0) (h20 : T2 ≠ 0) (h1R : T1 ≠ G.run_queue) (h2R : T2 ≠ G.run_queue)
    (hcR : s.current ≠ G.run_queue) (hc0 : s.current ≠ 0) :
    ∃ s1, schedule G true (scheduler_add G T2 (scheduler_add G T1 s)) = some s1 ∧
      s1.current = T1 ∧
      is_queue s1.kthread_wait G.run_queue
        (if s.current ≠ s.idle_task then [T2, s.current] else [T2]) := by
  have hq1 := is_queue_insert_tail s.kthread_wait G.run_queue T1 [] hq (by simp) h1R h10
  have hq2 := is_queue_insert_tail _ G.run_queue T2 ([] ++ [T1]) hq1 (by simpa using Ne.symm h12)
    h2R h20
  simp only [List.nil_append, List.singleton_append] at hq2
  obtain ⟨q1, b, sf, hs, hq3, -⟩ := schedule_spec G true
    (scheduler_add G T2 (scheduler_add G T1 s)) [T1, T2]
    (by simpa [scheduler_add_eq] using hq2)
    (by simp [scheduler_add_eq, Ne.symm h1c, Ne.symm h2c])
    (by simpa [scheduler_add_eq] using hcR) (by simpa [scheduler_add_eq] using hc0)
    (by simp [scheduler_add_eq, Ne.symm h1i, Ne.symm h2i])
  have hnf : ¬ (s.threads T1).run_flag < 0 := by omega
  refine ⟨_, hs, ?_, ?_⟩
  · simp [sched_next, scheduler_add_eq, hnf]
  · by_cases hci : s.current = s.idle_task
    · simpa [sched_queue, scheduler_add_eq, hnf, hci] using hq3
    · simpa [sched_queue, scheduler_add_eq, hnf, hci] using hq3

/-- Witness of `schedule_picks_first_added`: the machine before the first
task is created, with the initial threads of two tasks. -/
theorem schedule_picks_first_added_witness :
    ∃ s1, schedule demo_symbols true
        (scheduler_add demo_symbols TASK2 (scheduler_add demo_symbols TASK1 boot_machine)) =
          some s1 ∧
      s1.current = TASK1 ∧
      is_queue s1.kthread_wait demo_symbols.run_queue
        (if boot_machine.current ≠ boot_machine.idle_task then [TASK2, boot_machine.current]
          else [TASK2]) :=
  schedule_picks_first_added demo_symbols boot_machine TASK1 TASK2 (by decide) (by decide)
    (by decide) (by decide) (by decide) (by decide) (by decide) (by decide) (by decide)
    (by decide) (by decide) (by decide) (by decide)

/-- C17, counterexample: after the running thread, the initial thread of
`TASK1`, has called `cas2i_runflag` on itself with a new value of -1, it is
on the run queue with a negative `run_flag`, and the thread that runs,
`THREAD_A`, has a `run_flag` of 0 and is on no queue: the sleepers queue and
the queues of the semaphores of the three tasks are empty. -/
theorem stopped_thread_on_run_queue :
    is_queue demo_self_stopped.kthread_wait demo_symbols.run_queue [THREAD_B, TASK2, TASK1] ∧
      (demo_self_stopped.threads TASK1).run_flag = -1 ∧
      (demo_self_stopped.threads TASK1).state = kthread_runnable ∧
      demo_self_stopped.current = THREAD_A ∧
      (demo_self_stopped.threads THREAD_A).run_flag = 0 ∧
      (demo_self_stopped.threads THREAD_A).state = kthread_runnable ∧
      is_queue demo_self_stopped.kthread_wait demo_symbols.kern_slackers_kthread_head [] ∧
      (∀ T ∈ [IDLE, TASK1, TASK2],
        is_queue demo_self_stopped.kthread_wait (sem_kthread_head_at (fork_lock_at T)) [] ∧
        is_queue demo_self_stopped.kthread_wait (sem_kthread_head_at (vultures_at T)) []) ∧
      demo_self_stop.map Prod.fst = some KERN_SUCCESS := by
  refine ⟨?_, ?_, ?_, ?_, ?_, ?_, ?_, ?_, ?_⟩ <;> decide

/-- One call of `schedule`: when the run queue is well formed and holds
neither the running thread nor the idle thread, `schedule` returns, the
thread that runs afterwards is the idle thread or a thread of the run queue
whose `run_flag` is not negative, and a thread with a negative `run_flag`
stays on the run queue. -/
theorem schedule_skips_stopped_threads (G : Symbols) (r : Bool) (s : Machine) (l : List Nat)
    (hq : is_queue s.kthread_wait G.run_queue l) (hc : s.current ∉ l)
    (hcR : s.current ≠ G.run_queue) (hc0 : s.current ≠ 0) (hi : s.idle_task ∉ l) :
    ∃ s1 l1, schedule G r s = some s1 ∧ is_queue s1.kthread_wait G.run_queue l1 ∧
      s1.threads = s.threads ∧
      (s1.current = s.idle_task ∨ (s1.current ∈ l ∧ 0 ≤ (s.threads s1.current).run_flag)) ∧
      (∀ x ∈ l, (s.threads x).run_flag < 0 → x ∈ l1) := by
  obtain ⟨q1, b, sf, hs, hq1, -⟩ := schedule_spec G r s l hq hc hcR hc0 hi
  refine ⟨_, sched_queue s r l, hs, hq1, rfl, ?_, ?_⟩
  · cases l with
    | nil => left; rfl
    | cons f rest =>
      by_cases hneg : (s.threads f).run_flag < 0
      · left; simp [sched_next, hneg]
      · right
        simp only [sched_next, hneg, if_false]
        exact ⟨List.mem_cons_self _ _, by omega⟩
  · intro x hx hneg
    cases l with
    | nil => simp at hx
    | cons f rest =>
      by_cases hnegf : (s.threads f).run_flag < 0
      · simp only [sched_queue, hnegf, if_true, List.mem_append, List.mem_singleton]
        simp only [List.mem_cons] at hx
        tauto
      · simp only [sched_queue, hnegf, if_false, List.mem_append]
        simp only [List.mem_cons] at hx
        rcases hx with hx | hx
        · rw [hx] at hneg; exact absurd hneg hnegf
        · exact Or.inl hx

/-! ### `sleep` and the timer -/

theorem is_queue_next (q : Q_MEM) (h x : Nat) (a b : List Nat)
    (hq : is_queue q h (a ++ x :: b)) : (q.link x).next = b.headD h := by
  have hnd := hq.2.1
  simp only [List.nodup_cons, List.mem_append, List.mem_cons, not_or] at hnd
  have hx : x ≠ h := fun e => hnd.1.2.1 e.symm
  have hseg : Q_seg q h h ((a ++ [x]) ++ (b ++ [h])) := by
    have := hq.1
    simpa using this
  have h2 := ((Q_seg_append _ _ _ _ _).1 hseg).2
  rw [List.getLastD_concat] at h2
  rw [← Q_next_elem _ _ _ hx]
  cases b with
  | nil => simpa [Q_seg] using h2.1
  | cons c rest => simpa [Q_seg] using h2.1

theorem sleep_loop_spec (G : Symbols)
    (hheads : G.kern_slackers_kthread_head ≠ G.run_queue) :
    ∀ (todo kept rq : List Nat) (fuel threadTrav threadSaveTrav : Nat) (s : Machine),
      is_queue s.kthread_wait G.kern_slackers_kthread_head (kept ++ todo) →
      is_queue s.kthread_wait G.run_queue rq →
      (∀ x ∈ kept ++ todo, x ∉ rq) → (∀ x ∈ todo, x ≠ G.run_queue) →
      todo.length < fuel → threadTrav = todo.headD G.kern_slackers_kthread_head →
      (todo ≠ [] → threadSaveTrav = todo.tail.headD G.kern_slackers_kthread_head) →
      ∃ s1, sleep_loop G fuel threadTrav threadSaveTrav s = some s1 ∧
        is_queue s1.kthread_wait G.kern_slackers_kthread_head (kept ++ sleep_stay s todo) ∧
        is_queue s1.kthread_wait G.run_queue (rq ++ sleep_woken s todo) ∧
        (∀ y ∈ todo, (s1.threads y).sleepticks = slept s y) ∧
        (∀ y, y ∉ todo → (s1.threads y).sleepticks = (s.threads y).sleepticks) ∧
        (∀ y, (s1.threads y).run_flag = (s.threads y).run_flag) ∧
        s1.current = s.current ∧ s1.idle_task = s.idle_task ∧ s1.ticks = s.ticks := by
  intro todo
  induction todo with
  | nil =>
    intro kept rq fuel trav save s hsl hrq _ _ hf ht _
    obtain ⟨n, rfl⟩ : ∃ n, fuel = n + 1 := ⟨fuel - 1, by simp at hf; omega⟩
    simp only [List.headD_nil] at ht
    unfold sleep_loop
    rw [if_pos ht]
    refine ⟨s, rfl, ?_, ?_, ?_, fun _ _ => rfl, fun _ => rfl, rfl, rfl, rfl⟩
    · simpa [sleep_stay] using hsl
    · simpa [sleep_woken] using hrq
    · intro y hy; simp at hy
  | cons y rest ih =>
    intro kept rq fuel trav save s hsl hrq hdis hnR hf ht hsave
    obtain ⟨n, rfl⟩ : ∃ n, fuel = n + 1 := ⟨fuel - 1, by simp at hf; omega⟩
    simp only [List.headD_cons] at ht
    subst ht
    have hsave := hsave (by simp)
    simp only [List.tail_cons] at hsave
    have hnd := hsl.2.1
    simp only [List.nodup_cons, List.mem_append, List.mem_cons, not_or] at hnd
    have hyS : trav ≠ G.kern_slackers_kthread_head := fun e => hnd.1.2.1 e.symm
    have hnd2 : (kept ++ trav :: rest).Nodup := hnd.2
    have hyk : trav ∉ kept := fun h =>
      (List.nodup_append.1 hnd2).2.2 h (List.mem_cons_self _ _)
    have hyr : trav ∉ rest := (List.nodup_cons.1 (List.nodup_append.1 hnd2).2.1).1
    have hy0 : trav ≠ 0 := fun e => hsl.2.2.1 (e ▸ by simp)
    have hcong : ∀ (s2 : Machine), (∀ z, z ≠ trav → s2.threads z = s.threads z) →
        sleep_stay s2 rest = sleep_stay s rest ∧ sleep_woken s2 rest = sleep_woken s rest := by
      intro s2 h2
      constructor
      · apply List.filter_congr
        intro z hz
        have : z ≠ trav := fun e => hyr (e ▸ hz)
        simp only [slept, h2 z this]
      · apply List.filter_congr
        intro z hz
        have : z ≠ trav := fun e => hyr (e ▸ hz)
        simp only [slept, h2 z this]
    unfold sleep_loop
    rw [if_neg hyS]
    simp only [upd_same]
    by_cases hw : slept s trav ≤ 0
    · have hw' : wrap_int ((s.threads trav).sleepticks - 1) ≤ 0 := hw
      rw [if_pos hw']
      obtain ⟨q1, hrem, hq1, hfr, -⟩ := is_queue_remove s.kthread_wait
        G.kern_slackers_kthread_head trav (kept ++ trav :: rest) hsl (by simp)
      have herase : (kept ++ trav :: rest).erase trav = kept ++ rest := by
        rw [List.erase_append_right _ hyk, List.erase_cons_head]
      rw [herase] at hq1
      have hrq1 : is_queue q1 G.run_queue rq :=
        is_queue_of_frame _ _ _ _ _ _ hrq hfr (by simpa using Ne.symm hheads)
          (fun x hx hx2 => hdis x hx2 hx)
      have hrq2 := is_queue_insert_tail q1 G.run_queue trav rq hrq1
        (hdis trav (by simp)) (hnR trav (by simp)) hy0
      have hfr2 := insert_tail_frame q1 G.run_queue trav rq hrq1
      have hsl2 : is_queue (Q_INSERT_TAIL q1 G.run_queue trav) G.kern_slackers_kthread_head
          (kept ++ rest) := by
        apply is_queue_of_frame _ _ _ _ _ _ hq1 hfr2 (by simpa using hheads)
        intro x hx hx2
        rcases List.mem_cons.1 hx2 with e | e
        · subst e
          rcases List.mem_append.1 hx with h | h
          · exact hyk h
          · exact hyr h
        · refine hdis x ?_ e
          rcases List.mem_append.1 hx with h | h
          · exact List.mem_append_left _ h
          · exact List.mem_append_right _ (List.mem_cons_of_mem _ h)
      simp only [hrem, scheduler_add_eq]
      have hth : ∀ z, z ≠ trav →
          upd s.threads trav { s.threads trav with
            sleepticks := wrap_int ((s.threads trav).sleepticks - 1) } z = s.threads z :=
        fun z hz => upd_other _ _ _ _ hz
      obtain ⟨s1, hs1, h1, h2, h3, h4, h5, h6, h7, h8⟩ := ih kept (rq ++ [trav]) n save
        ((Q_INSERT_TAIL q1 G.run_queue trav).link save).next
        { s with
          threads := upd s.threads trav { s.threads trav with
            sleepticks := wrap_int ((s.threads trav).sleepticks - 1) }
          kthread_wait := Q_INSERT_TAIL q1 G.run_queue trav }
        hsl2 hrq2
        (by
          intro x hx hx2
          rcases List.mem_append.1 hx2 with e | e
          · refine hdis x ?_ e
            rcases List.mem_append.1 hx with h | h
            · exact List.mem_append_left _ h
            · exact List.mem_append_right _ (List.mem_cons_of_mem _ h)
          · simp only [List.mem_singleton] at e
            subst e
            rcases List.mem_append.1 hx with h | h
            · exact hyk h
            · exact hyr h)
        (fun x hx => hnR x (List.mem_cons_of_mem _ hx))
        (by simp only [List.length_cons] at hf; omega) hsave
        (by
          intro hne
          cases rest with
          | nil => exact absurd rfl hne
          | cons z r =>
            simp only [List.headD_cons] at hsave
            subst hsave
            simp only [List.tail_cons]
            exact is_queue_next _ _ _ _ _ hsl2)
      obtain ⟨hc1, hc2⟩ := hcong
        { s with
          threads := upd s.threads trav { s.threads trav with
            sleepticks := wrap_int ((s.threads trav).sleepticks - 1) }
          kthread_wait := Q_INSERT_TAIL q1 G.run_queue trav } hth
      rw [hc1] at h1
      rw [hc2] at h2
      refine ⟨s1, hs1, ?_, ?_, ?_, ?_, ?_, h6, h7, h8⟩
      · simpa [sleep_stay, hw] using h1
      · simpa [sleep_woken, hw] using h2
      · intro z hz
        rcases List.mem_cons.1 hz with e | e
        · subst e
          refine (h4 z hyr).trans ?_
          show (upd s.threads z _ z).sleepticks = _
          rw [upd_same]
          rfl
        · refine (h3 z e).trans ?_
          have : z ≠ trav := fun e2 => hyr (e2 ▸ e)
          exact congrArg (fun k : kthread => wrap_int (k.sleepticks - 1)) (hth z this)
      · intro z hz
        simp only [List.mem_cons, not_or] at hz
        exact (h4 z hz.2).trans (congrArg kthread.sleepticks (hth z hz.1))
      · intro z
        refine (h5 z).trans ?_
        by_cases e : z = trav
        · subst e
          show (upd s.threads z _ z).run_flag = _
          rw [upd_same]
        · exact congrArg kthread.run_flag (hth z e)
    · have hw' : ¬ wrap_int ((s.threads trav).sleepticks - 1) ≤ 0 := hw
      rw [if_neg hw']
      simp only
      have hth : ∀ z, z ≠ trav →
          upd s.threads trav { s.threads trav with
            sleepticks := wrap_int ((s.threads trav).sleepticks - 1) } z = s.threads z :=
        fun z hz => upd_other _ _ _ _ hz
      obtain ⟨s1, hs1, h1, h2, h3, h4, h5, h6, h7, h8⟩ := ih (kept ++ [trav]) rq n save
        (s.kthread_wait.link save).next
        { s with
          threads := upd s.threads trav { s.threads trav with
            sleepticks := wrap_int ((s.threads trav).sleepticks - 1) } }
        (by simpa using hsl) hrq
        (by
          intro x hx
          apply hdis x
          simpa using hx)
        (fun x hx => hnR x (List.mem_cons_of_mem _ hx))
        (by simp only [List.length_cons] at hf; omega) hsave
        (by
          intro hne
          cases rest with
          | nil => exact absurd rfl hne
          | cons z r =>
            simp only [List.headD_cons] at hsave
            subst hsave
            simp only [List.tail_cons]
            exact is_queue_next _ _ _ (kept ++ [trav]) _ (by simpa using hsl))
      obtain ⟨hc1, hc2⟩ := hcong
        { s with
          threads := upd s.threads trav { s.threads trav with
            sleepticks := wrap_int ((s.threads trav).sleepticks - 1) } } hth
      rw [hc1] at h1
      rw [hc2] at h2
      refine ⟨s1, hs1, ?_, ?_, ?_, ?_, ?_, h6, h7, h8⟩
      · have hst : sleep_stay s (trav :: rest) = trav :: sleep_stay s rest := by
          unfold sleep_stay
          rw [List.filter_cons_of_pos (by simpa using hw)]
        rw [hst]
        simpa using h1
      · have hwk : sleep_woken s (trav :: rest) = sleep_woken s rest := by
          unfold sleep_woken
          rw [List.filter_cons_of_neg (by simpa using hw)]
        rw [hwk]
        exact h2
      · intro z hz
        rcases List.mem_cons.1 hz with e | e
        · subst e
          refine (h4 z hyr).trans ?_
          show (upd s.threads z _ z).sleepticks = _
          rw [upd_same]
          rfl
        · refine (h3 z e).trans ?_
          have : z ≠ trav := fun e2 => hyr (e2 ▸ e)
          exact congrArg (fun k : kthread => wrap_int (k.sleepticks - 1)) (hth z this)
      · intro z hz
        simp only [List.mem_cons, not_or] at hz
        exact (h4 z hz.2).trans (congrArg kthread.sleepticks (hth z hz.1))
      · intro z
        refine (h5 z).trans ?_
        by_cases e : z = trav
        · subst e
          show (upd s.threads z _ z).run_flag = _
          rw [upd_same]
        · exact congrArg kthread.run_flag (hth z e)

theorem sched_next_mem (s : Machine) (l : List Nat) :
    sched_next s l = s.idle_task ∨ sched_next s l ∈ l := by
  cases l with
  | nil => left; rfl
  | cons f rest =>
    by_cases h : (s.threads f).run_flag < 0
    · left; simp [sched_next, h]
    · right; simp [sched_next, h]

theorem sched_queue_mem (s : Machine) (r : Bool) (l : List Nat) (x : Nat)
    (hx : x ∈ sched_queue s r l) : x ∈ l ∨ (x = s.current ∧ s.current ≠ s.idle_task) := by
  have hback : ∀ y, y ∈ (if s.current ≠ s.idle_task ∧ r = true then [s.current] else []) →
      y = s.current ∧ s.current ≠ s.idle_task := by
    intro y hy
    by_cases hc : s.current ≠ s.idle_task ∧ r = true
    · rw [if_pos hc] at hy
      exact ⟨List.mem_singleton.1 hy, hc.1⟩
    · rw [if_neg hc] at hy
      exact absurd hy (List.not_mem_nil _)
  cases l with
  | nil => exact Or.inr (hback x (by simpa [sched_queue] using hx))
  | cons f rest =>
    by_cases h : (s.threads f).run_flag < 0
    · simp only [sched_queue, h, if_true, List.mem_append, List.mem_singleton] at hx
      rcases hx with (hx | hx) | hx
      · exact Or.inl (List.mem_cons_of_mem _ hx)
      · exact Or.inl (hx ▸ List.mem_cons_self _ _)
      · exact Or.inr (hback x hx)
    · simp only [sched_queue, h, if_false, List.mem_append] at hx
      rcases hx with hx | hx
      · exact Or.inl (List.mem_cons_of_mem _ hx)
      · exact Or.inr (hback x hx)

theorem sched_queue_or_next (s : Machine) (r : Bool) (l : List Nat) (x : Nat) (hx : x ∈ l) :
    x ∈ sched_queue s r l ∨ sched_next s l = x := by
  cases l with
  | nil => exact absurd hx (List.not_mem_nil _)
  | cons f rest =>
    by_cases h : (s.threads f).run_flag < 0
    · left
      simp only [sched_queue, h, if_true, List.mem_append, List.mem_singleton]
      rcases List.mem_cons.1 hx with e | e
      · exact Or.inl (Or.inr e)
      · exact Or.inl (Or.inl e)
    · rcases List.mem_cons.1 hx with e | e
      · right; simp [sched_next, h, e]
      · left
        simp only [sched_queue, h, if_false, List.mem_append]
        exact Or.inl e

theorem sched_next_not_queued (s : Machine) (r : Bool) (l : List Nat) (hnd : l.Nodup)
    (hc : s.current ∉ l) (hi : s.idle_task ∉ l) : sched_next s l ∉ sched_queue s r l := by
  intro hmem
  rcases sched_queue_mem s r l _ hmem with h | ⟨h1, h2⟩
  · cases l with
    | nil => exact absurd h (List.not_mem_nil _)
    | cons f rest =>
      by_cases hf : (s.threads f).run_flag < 0
      · simp only [sched_next, hf, if_true] at h
        exact hi h
      · simp only [sched_next, sched_queue, hf, if_false, List.mem_append] at hmem
        rcases hmem with e | e
        · exact (List.nodup_cons.1 hnd).1 e
        · by_cases hb : s.current ≠ s.idle_task ∧ r = true
          · rw [if_pos hb] at e
            exact hc (List.mem_singleton.1 e ▸ List.mem_cons_self _ _)
          · rw [if_neg hb] at e
            exact absurd e (List.not_mem_nil _)
  · rcases sched_next_mem s l with e | e
    · exact h2 (h1.symm.trans e)
    · exact hc (h1 ▸ e)

theorem sleep_bottom_half_spec (G : Symbols)
    (hheads : G.kern_slackers_kthread_head ≠ G.run_queue) (s : Machine) (sl rq : List Nat)
    (hsl : is_queue s.kthread_wait G.kern_slackers_kthread_head sl)
    (hrq : is_queue s.kthread_wait G.run_queue rq)
    (hdis : ∀ x ∈ sl, x ∉ rq) (hnR : ∀ x ∈ sl, x ≠ G.run_queue) (hlen : sl.length < WORD) :
    ∃ s1, sleep_bottom_half G s = some s1 ∧
      is_queue s1.kthread_wait G.kern_slackers_kthread_head (sleep_stay s sl) ∧
      is_queue s1.kthread_wait G.run_queue (rq ++ sleep_woken s sl) ∧
      (∀ y ∈ sl, (s1.threads y).sleepticks = slept s y) ∧
      (∀ y, (s1.threads y).run_flag = (s.threads y).run_flag) ∧
      s1.current = s.current ∧ s1.idle_task = s.idle_task ∧ s1.ticks = s.ticks := by
  obtain ⟨s1, h0, h1, h2, h3, -, h5, h6, h7, h8⟩ := sleep_loop_spec G hheads sl [] rq
    ((s.kthread_wait.head G.kern_slackers_kthread_head).nr_elements + 1)
    (s.kthread_wait.head G.kern_slackers_kthread_head).next
    (s.kthread_wait.link (s.kthread_wait.head G.kern_slackers_kthread_head).next).next s
    (by simpa using hsl) hrq (by simpa using hdis) hnR
    (by rw [hsl.2.2.2, Nat.mod_eq_of_lt hlen]; omega)
    (is_queue_first _ _ _ hsl)
    (by
      intro hne
      cases sl with
      | nil => exact absurd rfl hne
      | cons a rest =>
        have hf := is_queue_first _ _ _ hsl
        simp only [List.headD_cons] at hf
        rw [hf]
        simp only [List.tail_cons]
        exact is_queue_next _ _ _ [] _ (by simpa using hsl))
  exact ⟨s1, h0, by simpa using h1, h2, h3, h5, h6, h7, h8⟩

theorem sched_queue_false_mem (s : Machine) (l : List Nat) (x : Nat)
    (hx : x ∈ sched_queue s false l) : x ∈ l := by
  cases l with
  | nil => simp [sched_queue] at hx
  | cons f rest =>
    by_cases h : (s.threads f).run_flag < 0
    · simp only [sched_queue, h, if_true, List.mem_append, List.mem_singleton] at hx
      rcases hx with (hx | hx) | hx
      · exact List.mem_cons_of_mem _ hx
      · exact hx ▸ List.mem_cons_self _ _
      · simp at hx
    · simp only [sched_queue, h, if_false, List.mem_append] at hx
      rcases hx with hx | hx
      · exact List.mem_cons_of_mem _ hx
      · simp at hx

/-- C19, counterexample: the target `THREAD_A` is not the calling thread,
`nv1 = 0` is not negative, the `run_flag` of the target is 0 and equals
`ev2`, and `nv2 = -1`.  The call returns `KERN_ERROR_GENERIC`, not 0. -/
theorem cas2i_second_guard :
    (0 : Int) ≤ to_i32 (packet_word (demo_cas_machine THREAD_A 7 0 0 0xffffffff) 0x01002100 3) ∧
      ((demo_cas_machine THREAD_A 7 0 0 0xffffffff).threads THREAD_A).run_flag = 0 ∧
      (syscall_cas2irunflag demo_symbols 0x01002100
        (demo_cas_machine THREAD_A 7 0 0 0xffffffff)).map Prod.fst = some KERN_ERROR_GENERIC := by
  refine ⟨?_, ?_, ?_⟩ <;> decide

/-- C19, amended: a call `cas2i_runflag(tid, oldp, ev1, nv1, ev2, nv2)` with
a valid `oldp`, in which `nv1` and `nv2` are both not negative or the target
is the calling thread, returns 0; `*oldp` receives the `run_flag` of the
target read at entry, and the `run_flag` afterwards is `nv2` if the old value
equals `ev2`, otherwise `nv1` if it equals `ev1`, otherwise the old value.
The run queue is well formed and holds neither the caller nor the idle
thread. -/
theorem cas2i_runflag_result (G : Symbols) (s : Machine) (user_param_packet : Nat)
    (l : List Nat) (tid oldp : Nat) (ev1 nv1 ev2 nv2 : Int)
    (htid : packet_word s user_param_packet 0 = tid)
    (holdp : packet_word s user_param_packet 1 = oldp)
    (hev1 : to_i32 (packet_word s user_param_packet 2) = ev1)
    (hnv1 : to_i32 (packet_word s user_param_packet 3) = nv1)
    (hev2 : to_i32 (packet_word s user_param_packet 4) = ev2)
    (hnv2 : to_i32 (packet_word s user_param_packet 5) = nv2)
    (hvalid : vmm_is_range_present (s.vm (current_task s)) oldp 4 = some KERN_SUCCESS)
    (hq : is_queue s.kthread_wait G.run_queue l) (hc : s.current ∉ l)
    (hcR : s.current ≠ G.run_queue) (hc0 : s.current ≠ 0) (hi : s.idle_task ∉ l)
    (hlo : -2147483648 ≤ (s.threads tid).run_flag) (hhi : (s.threads tid).run_flag < 2147483648)
    (hnv : (0 ≤ nv1 ∧ 0 ≤ nv2) ∨ tid = s.current) :
    ∃ s1, syscall_cas2irunflag G user_param_packet s = some (KERN_SUCCESS, s1) ∧
      s1.user_mem (current_task s) oldp = to_u32 (s.threads tid).run_flag ∧
      (s1.threads tid).run_flag =
        if (s.threads tid).run_flag = ev2 then nv2
        else if (s.threads tid).run_flag = ev1 then nv1 else (s.threads tid).run_flag := by
  have hback : to_i32 (to_u32 (s.threads tid).run_flag) = (s.threads tid).run_flag :=
    wrap_int_id _ hlo hhi
  have hg1 : ¬ ((s.threads tid).run_flag = ev1 ∧ nv1 < 0 ∧ tid ≠ s.current) := by
    rintro ⟨-, h2, h3⟩
    rcases hnv with h | h
    · omega
    · exact h3 h
  have hg2 : ¬ ((s.threads tid).run_flag = ev2 ∧ nv2 < 0 ∧ tid ≠ s.current) := by
    rintro ⟨-, h2, h3⟩
    rcases hnv with h | h
    · omega
    · exact h3 h
  have hsched : ∀ (t : Machine) (r : Option Machine), schedule G true t = r →
      t.kthread_wait = s.kthread_wait → t.current = s.current →
      t.idle_task = s.idle_task → ∃ t1, r = some t1 ∧
        t1.threads = t.threads ∧ t1.user_mem = t.user_mem := by
    intro t r hr h1 h2 h3
    obtain ⟨q1, b, sf, h, -, -⟩ := schedule_spec G true t l (h1 ▸ hq) (h2 ▸ hc) (h2 ▸ hcR)
      (h2 ▸ hc0) (h3 ▸ hi)
    rw [h] at hr
    exact ⟨_, hr.symm, (schedule_fields G true t _ h).1, (schedule_fields G true t _ h).2.1⟩
  have hp : ∀ (v : Int) (x : Nat),
      (upd s.threads tid { s.threads tid with run_flag := v } x).pTask = (s.threads x).pTask := by
    intro v x
    by_cases hx : x = tid
    · subst hx; rw [upd_same]
    · rw [upd_other _ _ _ _ hx]
  have hvalid' := hvalid
  unfold current_task at hvalid'
  unfold syscall_cas2irunflag
  simp only [htid, holdp, hev1, hnv1, hev2, hnv2, spinlock_ifsave, spinlock_ifrestore,
    current_task, hvalid', upd_same, hback, ne_eq, not_true_eq_false, if_false]
  rw [if_neg hg1]
  by_cases h1 : (s.threads tid).run_flag = ev1
  · simp only [if_pos h1, hp, upd_same, hback]
    rw [if_neg hg2]
    by_cases h2 : (s.threads tid).run_flag = ev2
    · simp only [if_pos h2, hp, upd_same, hback]
      generalize hr : schedule G true _ = r
      obtain ⟨t1, rfl, hth, hum⟩ := hsched _ _ hr rfl rfl rfl
      refine ⟨t1, rfl, ?_, ?_⟩
      · rw [hum]; simp only [upd_same]
      · rw [hth]; simp only [upd_same]
    · simp only [if_neg h2, hp, upd_same, hback]
      generalize hr : schedule G true _ = r
      obtain ⟨t1, rfl, hth, hum⟩ := hsched _ _ hr rfl rfl rfl
      refine ⟨t1, rfl, ?_, ?_⟩
      · rw [hum]; simp only [upd_same]
      · rw [hth]; simp only [upd_same]
  · simp only [if_neg h1, hp, upd_same, hback]
    rw [if_neg hg2]
    by_cases h2 : (s.threads tid).run_flag = ev2
    · simp only [if_pos h2, hp, upd_same, hback]
      generalize hr : schedule G true _ = r
      obtain ⟨t1, rfl, hth, hum⟩ := hsched _ _ hr rfl rfl rfl
      refine ⟨t1, rfl, ?_, ?_⟩
      · rw [hum]; simp only [upd_same]
      · rw [hth]; simp only [upd_same]
    · simp only [if_neg h2, hp, upd_same, hback]
      generalize hr : schedule G true _ = r
      obtain ⟨t1, rfl, hth, hum⟩ := hsched _ _ hr rfl rfl rfl
      refine ⟨t1, rfl, ?_, ?_⟩
      · rw [hum]; simp only [upd_same]
      · rw [hth]

/-- Witness of `cas2i_runflag_result`: the running thread of `demo_machine`
calls `cas2i_runflag(THREAD_A, 0x01002200, 0, 5, 9, 0)`; the `run_flag` of
`THREAD_A` goes from 0 to 5. -/
theorem cas2i_runflag_result_witness :
    ∃ s1, syscall_cas2irunflag demo_symbols 0x01002100 (demo_cas_machine THREAD_A 0 5 9 0) =
        some (KERN_SUCCESS, s1) ∧
      s1.user_mem (current_task (demo_cas_machine THREAD_A 0 5 9 0)) 0x01002200 =
        to_u32 ((demo_cas_machine THREAD_A 0 5 9 0).threads THREAD_A).run_flag ∧
      (s1.threads THREAD_A).run_flag =
        if ((demo_cas_machine THREAD_A 0 5 9 0).threads THREAD_A).run_flag = 9 then 0
        else if ((demo_cas_machine THREAD_A 0 5 9 0).threads THREAD_A).run_flag = 0 then 5
        else ((demo_cas_machine THREAD_A 0 5 9 0).threads THREAD_A).run_flag :=
  cas2i_runflag_result demo_symbols (demo_cas_machine THREAD_A 0 5 9 0) 0x01002100
    [THREAD_A, THREAD_B, TASK2] THREAD_A 0x01002200 0 5 9 0
    (by decide) (by decide) (by decide) (by decide) (by decide) (by decide) (by decide)
    (by decide) (by decide) (by decide) (by decide) (by decide) (by decide) (by decide)
    (Or.inl (by decide))

/-- C20: a call of `cas2i_runflag` whose target is not the calling thread
leaves no thread with a negative `run_flag` that it did not have before: a
thread whose `run_flag` is negative after the call had that same `run_flag`
before the call, whatever the return code. -/
theorem cas2i_never_stops_another_thread (G : Symbols) (s s1 : Machine)
    (user_param_packet : Nat) (ret : KERN_RET_CODE) (x : Nat)
    (hcall : syscall_cas2irunflag G user_param_packet s = some (ret, s1))
    (hother : packet_word s user_param_packet 0 ≠ s.current)
    (hneg : (s1.threads x).run_flag < 0) :
    (s1.threads x).run_flag = (s.threads x).run_flag := by
  unfold syscall_cas2irunflag at hcall
  simp only [spinlock_ifsave, spinlock_ifrestore] at hcall
  generalize packet_word s user_param_packet 0 = tid at hcall hother
  generalize packet_word s user_param_packet 1 = oldp at hcall
  generalize to_i32 (packet_word s user_param_packet 2) = ev1 at hcall
  generalize to_i32 (packet_word s user_param_packet 3) = nv1 at hcall
  generalize to_i32 (packet_word s user_param_packet 4) = ev2 at hcall
  generalize to_i32 (packet_word s user_param_packet 5) = nv2 at hcall
  cases hv : vmm_is_range_present (s.vm (current_task s)) oldp 4 with
  | none => rw [hv] at hcall; exact absurd hcall (by simp)
  | some r =>
    rw [hv] at hcall
    simp only at hcall
    by_cases hr : KERN_SUCCESS ≠ r
    · rw [if_pos hr] at hcall
      simp only [Option.some.injEq, Prod.mk.injEq] at hcall
      rw [← hcall.2]
    · rw [if_neg hr] at hcall
      have key : ∀ (th : Nat → kthread) (k : kthread), 0 ≤ k.run_flag →
          (∀ y, (th y).run_flag < 0 → (th y).run_flag = (s.threads y).run_flag) →
          ∀ y, (upd th tid k y).run_flag < 0 →
            (upd th tid k y).run_flag = (s.threads y).run_flag := by
        intro th k hv0 hth y hy
        by_cases hyt : y = tid
        · subst hyt
          rw [upd_same] at hy
          omega
        · rw [upd_other _ _ _ _ hyt] at hy ⊢
          exact hth y hy
      have hsch : ∀ (t : Machine) (o : Option Machine), schedule G true t = o →
          (∀ y, (t.threads y).run_flag < 0 → (t.threads y).run_flag = (s.threads y).run_flag) →
          (match o with
            | none => none
            | some s4 => some (KERN_SUCCESS, s4)) = some (ret, s1) →
          (s1.threads x).run_flag = (s.threads x).run_flag := by
        intro t o ho ht hm
        cases o with
        | none => exact absurd hm (by simp)
        | some s4 =>
          simp only [Option.some.injEq, Prod.mk.injEq] at hm
          have h4 := (schedule_fields G true t s4 ho).1
          rw [← hm.2, h4] at hneg ⊢
          exact ht x hneg
      have hp : ∀ (v : Int) (y : Nat),
          (upd s.threads tid { s.threads tid with run_flag := v } y).pTask = (s.threads y).pTask := by
        intro v y
        by_cases hy : y = tid
        · subst hy; rw [upd_same]
        · rw [upd_other _ _ _ _ hy]
      obtain ⟨old, hold⟩ : ∃ old, to_i32 (to_u32 (s.threads tid).run_flag) = old := ⟨_, rfl⟩
      simp only [current_task, upd_same, hold, ne_eq] at hcall
      by_cases h1 : old = ev1
      · by_cases g1 : nv1 < 0
        · rw [if_pos ⟨h1, g1, hother⟩] at hcall
          simp only [Option.some.injEq, Prod.mk.injEq] at hcall
          rw [← hcall.2]
        · rw [if_neg (fun h => g1 h.2.1)] at hcall
          simp only [if_pos h1, hp, upd_same, hold] at hcall
          by_cases h2 : old = ev2
          · by_cases g2 : nv2 < 0
            · rw [if_pos ⟨h2, g2, hother⟩] at hcall
              simp only [Option.some.injEq, Prod.mk.injEq] at hcall
              rw [← hcall.2] at hneg ⊢
              exact key s.threads _ (by simp only; omega) (fun _ _ => rfl) x hneg
            · rw [if_neg (fun h => g2 h.2.1)] at hcall
              simp only [if_pos h2] at hcall
              generalize hr : schedule G true _ = o at hcall
              exact hsch _ _ hr (key _ _ (by simp only; omega)
                (key s.threads _ (by simp only; omega) (fun _ _ => rfl))) hcall
          · rw [if_neg (fun h => h2 h.1)] at hcall
            simp only [if_neg h2] at hcall
            generalize hr : schedule G true _ = o at hcall
            exact hsch _ _ hr (key s.threads _ (by simp only; omega) (fun _ _ => rfl)) hcall
      · rw [if_neg (fun h => h1 h.1)] at hcall
        simp only [if_neg h1, upd_same, hold] at hcall
        by_cases h2 : old = ev2
        · by_cases g2 : nv2 < 0
          · rw [if_pos ⟨h2, g2, hother⟩] at hcall
            simp only [Option.some.injEq, Prod.mk.injEq] at hcall
            rw [← hcall.2]
          · rw [if_neg (fun h => g2 h.2.1)] at hcall
            simp only [if_pos h2] at hcall
            generalize hr : schedule G true _ = o at hcall
            exact hsch _ _ hr (key s.threads _ (by simp only; omega) (fun _ _ => rfl)) hcall
        · rw [if_neg (fun h => h2 h.1)] at hcall
          simp only [if_neg h2] at hcall
          generalize hr : schedule G true _ = o at hcall
          exact hsch _ _ hr (fun _ _ => rfl) hcall

/-- Witness of `cas2i_never_stops_another_thread`: the running thread calls
`cas2i_runflag` on `THREAD_A`, whose `run_flag` is -1 and stays -1. -/
theorem cas2i_never_stops_another_thread_witness :
    packet_word (demo_cas_stopped THREAD_A 5 0 6 0) 0x01002100 0 ≠
        (demo_cas_stopped THREAD_A 5 0 6 0).current ∧
      (demo_cas_other_result.2.threads THREAD_A).run_flag < 0 ∧
      (demo_cas_other_result.2.threads THREAD_A).run_flag =
        ((demo_cas_stopped THREAD_A 5 0 6 0).threads THREAD_A).run_flag :=
  ⟨by decide, by decide,
    cas2i_never_stops_another_thread demo_symbols (demo_cas_stopped THREAD_A 5 0 6 0)
      demo_cas_other_result.2 0x01002100 demo_cas_other_result.1 THREAD_A
      (show demo_cas_other = some demo_cas_other_result from (Option.some_get _).symm)
      (by decide) (by decide)⟩

set_option linter.unusedVariables false

/-! ### The frame allocator and first fit -/

theorem get_free_scan_eq_find (m : Nat → Int) :
    ∀ n i, (∀ j, i ≤ j → j < i + n → 0 ≤ m j) →
      get_free_scan m i n = some ((List.range' i n).find? (fun j => decide (m j = 0))) := by
  intro n
  induction n with
  | zero => intro i _; rfl
  | succ n ih =>
    intro i h
    unfold get_free_scan
    have hi := h i (le_refl _) (by omega)
    rw [if_neg (by omega), List.range'_succ, List.find?_cons]
    by_cases h0 : m i = 0
    · simp [h0]
    · rw [if_neg h0, ih (i + 1) (fun j h1 h2 => h j (by omega) (by omega))]
      simp [h0]

theorem find_range_least (p : Nat → Bool) :
    ∀ n i g, (List.range' i n).find? p = some g → ∀ j, i ≤ j → j < g → p j = false := by
  intro n
  induction n with
  | zero => intro i g h; simp at h
  | succ n ih =>
    intro i g h j h1 h2
    rw [List.range'_succ, List.find?_cons] at h
    cases hp : p i with
    | true =>
      rw [hp] at h
      simp only [Option.some.injEq] at h
      omega
    | false =>
      rw [hp] at h
      by_cases e : j = i
      · rw [e]; exact hp
      · exact ih (i + 1) g h j (by omega) h2

/-- C24: when no frame of the managed region has a negative reference
count, `vmm_get_free_user_pages` returns and equals the first-fit reference
allocator.  On success the frame `g` is the least frame of the managed region
with reference count 0, lies above the kernel window, gets the count 1, and
no other count changes; success happens whenever the managed region has a
frame with count 0, and otherwise the result is `KERN_NO_MEM` with the state
unchanged. -/
theorem get_free_user_pages_is_first_fit (P : Platform) (kv : kern_vmm)
    (hnn : ∀ i, KERNEL_PAGES_NR P < i → i < kv.nr_physical_pages → 0 ≤ kv.m_pages i) :
    vmm_get_free_user_pages P kv = some (alloc_user_frame P kv) ∧
      (∀ g kv1, alloc_user_frame P kv = (some g, kv1) →
        KERNEL_PAGES_NR P < g ∧ g < kv.nr_physical_pages ∧ kv.m_pages g = 0 ∧
        (∀ j, KERNEL_PAGES_NR P < j → j < g → kv.m_pages j ≠ 0) ∧
        kv1.m_pages g = 1 ∧ (∀ j, j ≠ g → kv1.m_pages j = kv.m_pages j) ∧
        kv1.nr_physical_pages = kv.nr_physical_pages) ∧
      ((∃ i, KERNEL_PAGES_NR P < i ∧ i < kv.nr_physical_pages ∧ kv.m_pages i = 0) →
        ∃ g kv1, alloc_user_frame P kv = (some g, kv1)) ∧
      ((¬ ∃ i, KERNEL_PAGES_NR P < i ∧ i < kv.nr_physical_pages ∧ kv.m_pages i = 0) →
        alloc_user_frame P kv = (none, kv)) := by
  have hscan := get_free_scan_eq_find kv.m_pages
    (kv.nr_physical_pages - (KERNEL_PAGES_NR P + 1)) (KERNEL_PAGES_NR P + 1)
    (fun j h1 h2 => hnn j (by omega) (by omega))
  refine ⟨?_, ?_, ?_, ?_⟩
  · unfold vmm_get_free_user_pages alloc_user_frame first_fit
    rw [hscan]
    cases (List.range' (KERNEL_PAGES_NR P + 1)
      (kv.nr_physical_pages - (KERNEL_PAGES_NR P + 1))).find?
        (fun j => decide (kv.m_pages j = 0)) <;> rfl
  · intro g kv1 h
    unfold alloc_user_frame at h
    cases hf : first_fit P kv with
    | none => rw [hf] at h; simp at h
    | some i =>
      rw [hf] at h
      simp only [Prod.mk.injEq, Option.some.injEq] at h
      obtain ⟨rfl, rfl⟩ := h
      unfold first_fit at hf
      have hmem := List.mem_of_find?_eq_some hf
      have hp := List.find?_some hf
      simp only [decide_eq_true_eq] at hp
      rw [List.mem_range'_1] at hmem
      refine ⟨by omega, by omega, hp, ?_, by simp [upd], ?_, rfl⟩
      · intro j h1 h2 h0
        have := find_range_least _ _ _ _ hf j (by omega) h2
        simp [h0] at this
      · intro j hj
        simp [upd, hj]
  · rintro ⟨i, h1, h2, h3⟩
    unfold alloc_user_frame
    cases hf : first_fit P kv with
    | some g => exact ⟨g, _, rfl⟩
    | none =>
      unfold first_fit at hf
      rw [List.find?_eq_none] at hf
      have := hf i (by rw [List.mem_range'_1]; omega)
      simp [h3] at this
  · intro hno
    unfold alloc_user_frame
    cases hf : first_fit P kv with
    | none => rfl
    | some g =>
      unfold first_fit at hf
      have hmem := List.mem_of_find?_eq_some hf
      have hp := List.find?_some hf
      simp only [decide_eq_true_eq] at hp
      rw [List.mem_range'_1] at hmem
      exact absurd ⟨g, by omega, by omega, hp⟩ hno

/-- Witness of `get_free_user_pages_is_first_fit`: in `demo_frames` the first
free frame is 4099. -/
theorem get_free_user_pages_is_first_fit_witness :
    vmm_get_free_user_pages demo_platform demo_frames =
        some (alloc_user_frame demo_platform demo_frames) ∧
      (alloc_user_frame demo_platform demo_frames).1 = some 4099 :=
  ⟨(get_free_user_pages_is_first_fit demo_platform demo_frames (by
      intro i _ _
      unfold demo_frames
      simp only
      split_ifs <;> omega)).1, by decide⟩

/-! ### Read-only marking by `load_elf` -/

/-- C22: `load_elf` of a program whose text segment is
`[0x01000800, 0x01001800)`.  The call succeeds; the text bytes from
`0x01001000` on lie in the page at `0x01001000`, whose entry is present,
user-accessible and writable: the loop of `vmm_set_range_attr` starts at the
unaligned `e_txtstart`, steps to `0x01001800`, which is not below the end of
the segment, and never reaches that page. -/
theorem text_page_left_writable :
    demo_header_unaligned.e_txtstart ≤ 0x01001000 ∧
      0x01001000 < demo_header_unaligned.e_txtstart + demo_header_unaligned.e_txtlen ∧
      demo_exec_unaligned.map (fun o => (o.1, range_list o.2.2)) =
        some (KERN_SUCCESS, [(0, 0x01000000), (0xffffa000, 0x2000), (0x01003000, 0x1000),
          (0x01002000, 0x1000), (0x01000000, 0x2000)]) ∧
      demo_exec_unaligned.map (fun o =>
          ((o.2.2.vm.pte (VPN 0x01001000)).PRESENT, (o.2.2.vm.pte (VPN 0x01001000)).US,
            (o.2.2.vm.pte (VPN 0x01001000)).RW)) = some (true, true, true) ∧
      demo_exec_unaligned.map (fun o =>
          ((o.2.2.vm.pte (VPN 0x01000800)).PRESENT, (o.2.2.vm.pte (VPN 0x01000800)).US,
            (o.2.2.vm.pte (VPN 0x01000800)).RW)) = some (true, true, false) := by
  refine ⟨?_, ?_, ?_, ?_, ?_⟩ <;> decide

/-! ### Backing and unbacking ranges that share a page -/

/-- C25: an address space with two ranges that the loader scaled to the
same page, no page backed and all four managed frames free.
`vmm_back_all_user_ranges` succeeds and takes a frame for the page once for
each range (4097, then 4098, which replaces 4097 in the entry);
`vmm_unback_all_user_ranges` releases 4098 only.  The entry is not present
afterwards, but the reference count of frame 4097 stays at 1. -/
theorem back_unback_leaks_frame :
    demo_overlap.map (fun s =>
        (s.2.vm_ranges_head, refcounts s.1 4, (s.2.pte (VPN 0x01000000)).ADDRESS)) =
      some ([{ start := 0x01000000, len := 0x1000, kernel := false },
          { start := 0x01000000, len := 0x1000, kernel := false },
          { start := 0, len := 0x01000000, kernel := true }], [0, 0, 0, 0], 0) ∧
      demo_overlap_backed.map (fun s =>
        (s.1, (List.range 4).map (fun i => s.2.1.m_pages (4097 + i)),
          (s.2.2.pte (VPN 0x01000000)).ADDRESS)) = some (KERN_SUCCESS, [1, 1, 0, 0], 4098) ∧
      demo_overlap_unbacked.map (fun s =>
        ((List.range 4).map (fun i => s.1.m_pages (4097 + i)),
          (s.2.pte (VPN 0x01000000)).PRESENT, (s.2.pte (VPN 0x01000000)).ADDRESS)) =
        some ([1, 0, 0, 0], false, 0) := by
  refine ⟨?_, ?_, ?_⟩ <;> decide

/-! ### `fork` and pages that were never touched; the counter `allocated_pages_mem` -/

theorem getref_frame_zero (P : Platform) (kv : kern_vmm) : vmm_getref_user_page P kv 0 = none := by
  unfold vmm_getref_user_page
  by_cases h : 0 < kv.nr_physical_pages
  · rw [if_neg (by omega), if_pos (by omega)]
  · rw [if_pos h]

/-- The body of the loop of `vmm_share_physical_range` fails an assertion of
`vmm_getref_user_page` on a page whose entry in the source names frame 0. -/
theorem share_page_untouched (P : Platform) (vm_src : task_vm) (la : Nat)
    (s : kern_vmm × task_vm) (h : (vm_src.pte (VPN la)).ADDRESS = 0) :
    share_page P vm_src la s = none := by
  unfold share_page vmm_get_pte
  by_cases h1 : (vm_src.pde (PDE_IDX la)).PRESENT = true
  · by_cases h2 : (s.2.pde (PDE_IDX la)).PRESENT = true
    · simp only [h1, h2, if_true, h, getref_frame_zero]
    · simp only [h1, h2, if_true]
      rfl
  · simp only [h1]
    rfl

/-- The loop of `vmm_share_physical_range` fails at once on a range whose
first page has frame number 0 in the source. -/
theorem share_range_untouched (P : Platform) (kv : kern_vmm) (vm_dst vm_src : task_vm)
    (range : vm_range) (h : range.start < (range.start + range.len) % WORD)
    (h0 : (vm_src.pte (VPN range.start)).ADDRESS = 0) :
    vmm_share_physical_range P kv vm_dst vm_src range = none := by
  unfold vmm_share_physical_range PAGE_LOOP_FUEL
  rw [for_pages, if_pos h, share_page_untouched P vm_src range.start _ h0]

/-- C26: the task after `load_elf` calls `new_pages(0x20000000, 0x1000)`,
which returns 0 and leaves the page-table entry of the new page not present
with frame number 0, and forks before it touches the page.  `syscall_fork`
does not return: `vmm_share_physical_range` calls `vmm_getref_user_page` with
frame 0, below the managed region, and the assertion fails. -/
theorem fork_asserts_on_untouched_page :
    (demo_new_pages 0x20000000 0x1000).map (fun o =>
        (o.1, (o.2.2.vm.pte (VPN 0x20000000)).PRESENT, (o.2.2.vm.pte (VPN 0x20000000)).ADDRESS,
          range_list o.2.2)) =
      some (KERN_SUCCESS, false, 0,
        [(0x20000000, 0x1000), (0, 0x01000000), (0xffffa000, 0x2000), (0x01002000, 0x1000),
          (0x01001000, 0x1000), (0x01000000, 0x1000)]) ∧
      (∀ kv, vmm_getref_user_page demo_platform kv 0 = none) ∧
      demo_new_fork = none ∧
      (demo_fork 64).isSome = true := by
  refine ⟨by decide, getref_frame_zero demo_platform, ?_, by decide⟩
  exact Option.isNone_iff_eq_none.1 (by decide)

/-- C28: three states in which the counter `allocated_pages_mem` differs
from the sum of the lengths of the ranges that `new_pages` installed.  After
`load_elf`, with no call of `new_pages`, `remove_pages` on the stack range
leaves the counter at `2^32 - 0x2000`.  After `new_pages(0x20000000, 0x1000)`
and a fork, the child holds the range of `new_pages` and its counter is 0
(that of the parent is 0x1000).  After `new_pages(0x20000000, 0x1000)` and
`exec`, the range list holds the ranges of the loader only and the counter is
still 0x1000. -/
theorem counter_is_not_the_new_pages_sum :
    (demo_state.2.allocated_pages_mem, range_list demo_state.2) =
        (0, [(0, 0x01000000), (0xffffa000, 0x2000), (0x01002000, 0x1000), (0x01001000, 0x1000),
          (0x01000000, 0x1000)]) ∧
      (remove_pages demo_platform demo_state.1 demo_state.2 0xffffa000).map
          (fun o => (o.1, o.2.2.allocated_pages_mem, range_list o.2.2)) =
        some (KERN_SUCCESS, 0xffffe000,
          [(0, 0x01000000), (0x01002000, 0x1000), (0x01001000, 0x1000), (0x01000000, 0x1000)]) ∧
      demo_new_touched_fork.map (fun f => (f.parent.allocated_pages_mem,
          f.child.map (fun c => (c.allocated_pages_mem, range_list c)))) =
        some (0x1000, some (0,
          [(0x01000000, 0x1000), (0x01001000, 0x1000), (0x01002000, 0x1000),
            (0xffffa000, 0x2000), (0x20000000, 0x1000), (0, 0x01000000)])) ∧
      demo_new_exec.map (fun o => (o.1, o.2.2.allocated_pages_mem, range_list o.2.2)) =
        some (KERN_SUCCESS, 0x1000,
          [(0, 0x01000000), (0xffffa000, 0x2000), (0x01002000, 0x1000), (0x01001000, 0x1000),
            (0x01000000, 0x1000)]) := by
  refine ⟨?_, ?_, ?_, ?_⟩ <;> decide

/-! ### `new_pages` with a length of 0 -/

/-- C27: a request `new_pages(base, 0)` with `base` page-aligned and not
below `USER_MEM_START` passes the argument check, and when the counter of the
task is within the quota and `malloc` serves the request of
`vmm_install_range`, the handler fails the assertion `assert(pages_nr)` of
`vmm_install_range`: it returns no status code. -/
theorem new_pages_zero_length_asserts (P : Platform) (k : Kernel) (thisTask : ktask)
    (base_addr : Nat) (junk : PTE) (a : Nat) (rest : List (Option Nat))
    (h1 : P.USER_MEM_START ≤ base_addr) (h2 : base_addr % 4096 = 0) (hb : base_addr < WORD)
    (hq : thisTask.allocated_pages_mem % WORD ≤ ALLOC_MEM_QUOTA)
    (hheap : k.heap = some a :: rest) :
    syscall_newpages_check P base_addr 0 = KERN_SUCCESS ∧
      new_pages P k thisTask base_addr 0 junk = none := by
  have hc : syscall_newpages_check P base_addr 0 = KERN_SUCCESS := by
    unfold syscall_newpages_check PAGE_OFFSET_MASK
    rw [if_neg (by omega), if_neg (by omega), if_neg (by decide)]
  refine ⟨hc, ?_⟩
  have hz : to_u32 0 = 0 := by decide
  have hscaled : install_scaled { start := base_addr, len := to_u32 0, kernel := false } =
      { start := base_addr, len := 0, kernel := false } := by
    have hW : WORD = 4294967296 := rfl
    have hP : PAGE_SIZE = 4096 := rfl
    have e1 : (base_addr + 0) % WORD = base_addr := by
      rw [Nat.add_zero]; exact Nat.mod_eq_of_lt hb
    have e2 : (base_addr + (PAGE_SIZE - 1)) % WORD = base_addr + 4095 := by
      rw [hP]; exact Nat.mod_eq_of_lt (by omega)
    have e3 : page_floor (base_addr + 4095) = base_addr := by
      unfold page_floor; rw [hP]; omega
    have e4 : page_floor base_addr = base_addr := by
      unfold page_floor; rw [hP]; omega
    have e5 : (base_addr + WORD - base_addr) % WORD = 0 := by
      rw [Nat.add_sub_cancel_left]; exact Nat.mod_self _
    unfold install_scaled
    simp only [hz, e1, e2, e3, e4, e5]
  unfold new_pages
  rw [if_neg (by rw [hc]; simp)]
  unfold syscall_newpages
  have hquota : ¬ (thisTask.allocated_pages_mem + to_u32 0) % WORD > ALLOC_MEM_QUOTA := by
    rw [hz]
    simpa using hq
  rw [if_neg hquota, if_neg (by omega), if_neg (by unfold PAGE_OFFSET_MASK; omega),
    if_neg (by decide)]
  have hov : newpages_overlap thisTask.vm base_addr (((0 : Int) + 4095) / 4096).toNat 0 =
      some false := by
    have : (((0 : Int) + 4095) / 4096).toNat = 0 := by decide
    rw [this]
    rfl
  rw [hov]
  simp only
  have hinst : vmm_install_range P k.heap thisTask.vm
      { start := base_addr, len := to_u32 0, kernel := false } = none := by
    unfold vmm_install_range
    rw [hscaled, hheap]
    simp only [kalloc]
    rw [if_neg (by omega)]
    simp
  rw [hinst]

/-- Witness of `new_pages_zero_length_asserts`: the task after `load_elf`
calls `new_pages(0x20000000, 0)`. -/
theorem new_pages_zero_length_asserts_witness :
    syscall_newpages_check demo_platform 0x20000000 0 = KERN_SUCCESS ∧
      new_pages demo_platform demo_state.1 demo_state.2 0x20000000 0 PTE.zero = none :=
  new_pages_zero_length_asserts demo_platform demo_state.1 demo_state.2 0x20000000 PTE.zero
    (((demo_state.1.heap.head?).getD none).getD 0) demo_state.1.heap.tail
    (by decide) (by decide) (by decide) (by decide) (by decide)

/-! ### Fault handlers -/

theorem erase_eq_nil_of_mem (l : List Nat) (x : Nat) (hx : x ∈ l) (he : l.erase x = []) :
    l = [x] := by
  cases l with
  | nil => exact absurd hx (List.not_mem_nil _)
  | cons a rest =>
    by_cases hax : a = x
    · subst hax
      rw [List.erase_cons_head] at he
      rw [he]
    · rw [List.erase_cons_tail (by simpa using hax)] at he
      exact absurd he (List.cons_ne_nil _ _)

theorem fatal_loop_stuck (task thread : Nat) (hne : thread ≠ ktask_threads_head_at task) :
    ∀ (fuel : Nat) (s : Machine), fatal_loop task fuel thread s = none := by
  intro fuel
  induction fuel with
  | zero => intro s; rfl
  | succ n ih =>
    intro s
    unfold fatal_loop
    rw [if_neg hne]
    cases hb : Q_REMOVE s.kthread_next (ktask_threads_head_at task) thread with
    | none => rfl
    | some q =>
      simp only
      rw [Q_REMOVE_next_self _ _ _ _ hb]
      exact ih _

/-- When the faulting thread is the initial thread of a task that has other
threads, the walk of `fault_generic_fatal` over these threads never ends:
the handler does not reach `schedule`. -/
theorem fault_generic_fatal_loops (G : Symbols) (s : Machine) (l : List Nat)
    (hq : is_queue s.kthread_next (ktask_threads_head_at (current_task s)) l)
    (hcl : s.current ∈ l) (hinit : current_task s = s.current) (hmore : l ≠ [s.current]) :
    ∀ fuel : Nat, fault_generic_fatal G fuel s = none := by
  intro fuel
  obtain ⟨q1, hrem, hq1, -, -⟩ := is_queue_remove _ _ s.current l hq hcl
  have hne : l.erase s.current ≠ [] := fun he => hmore (erase_eq_nil_of_mem l _ hcl he)
  have hfirst : (q1.head (ktask_threads_head_at (current_task s))).next ≠
      ktask_threads_head_at (current_task s) := by
    rw [is_queue_first _ _ _ hq1]
    cases hl : l.erase s.current with
    | nil => exact absurd hl hne
    | cons a rest =>
      have hnd := hq1.2.1
      rw [hl] at hnd
      simp only [List.nodup_cons, List.mem_cons, not_or] at hnd
      exact fun e => hnd.1.1 e.symm
  unfold fault_generic_fatal
  simp only [hrem]
  rw [if_pos hinit, fatal_loop_stuck _ _ hfirst]

/-- The fault of the initial thread of `TASK1`, which has two more threads:
the handler of a divide fault never reaches `schedule`. -/
theorem fatal_fault_of_initial_thread_loops :
    ∀ fuel : Nat, raise_fault demo_symbols fuel (fun _ => none) demo_idt FAULT_DE demo_machine =
      none := by
  intro fuel
  unfold raise_fault
  rw [show demo_idt FAULT_DE = some fault_fn.divby0_fault_handler by decide]
  exact fault_generic_fatal_loops demo_symbols demo_machine [THREAD_B, THREAD_A, TASK1]
    (by decide) (by decide) (by decide) (by decide) fuel

/-! ### `cas2i_runflag` on its error path, and the interrupt flag in the semaphores -/

/-- C29: the running thread calls `cas2i_runflag(THREAD_A, oldp, 0, 5, 0, -1)`
while the `run_flag` of `THREAD_A` is 0.  The first step writes 5, then the
guard on `nv2` returns `KERN_ERROR_GENERIC`: the call fails and the
`run_flag` of the target has changed from 0 to 5. -/
theorem cas2i_error_after_write :
    (demo_cas_machine THREAD_A 0 5 0 0xffffffff).current ≠ THREAD_A ∧
      ((demo_cas_machine THREAD_A 0 5 0 0xffffffff).threads THREAD_A).run_flag = 0 ∧
      (syscall_cas2irunflag demo_symbols 0x01002100
          (demo_cas_machine THREAD_A 0 5 0 0xffffffff)).map
        (fun r => (r.1, (r.2.threads THREAD_A).run_flag)) = some (KERN_ERROR_GENERIC, 5) := by
  refine ⟨?_, ?_, ?_⟩ <;> decide

/-- C30: a call of `sem_signal` on a semaphore whose count is not negative,
and a call of `sem_wait` on a semaphore whose count is positive, made with
the interrupt flag clear, return with the interrupt flag set: both leave
through `spinlock_unlock`, which enables interrupts. -/
theorem semaphore_enables_interrupts (G : Symbols) (psemaphore : Nat) (s : Machine)
    (hIF : s.IF = false) (hc : 0 ≤ s.count psemaphore) (hc2 : s.count psemaphore < 2147483647) :
    (∃ s1, sem_signal G psemaphore s = some s1 ∧ s1.IF = true ∧ s1.IF ≠ s.IF) ∧
      (1 ≤ s.count psemaphore →
        ∃ s1, sem_wait G psemaphore s = some (false, s1) ∧ s1.IF = true ∧ s1.IF ≠ s.IF) := by
  constructor
  · exact ⟨_, sem_signal_pass G psemaphore s hc hc2, rfl, by rw [hIF]; simp⟩
  · intro h1
    exact ⟨_, sem_wait_pass G psemaphore s h1 (by omega), rfl, by rw [hIF]; simp⟩

/-- Witness of `semaphore_enables_interrupts`: the fork lock of `TASK1`,
free, on `demo_machine` with interrupts disabled. -/
theorem semaphore_enables_interrupts_witness :
    (∃ s1, sem_signal demo_symbols (fork_lock_at TASK1) { demo_machine with IF := false } =
        some s1 ∧ s1.IF = true ∧ s1.IF ≠ ({ demo_machine with IF := false } : Machine).IF) ∧
      (1 ≤ ({ demo_machine with IF := false } : Machine).count (fork_lock_at TASK1) →
        ∃ s1, sem_wait demo_symbols (fork_lock_at TASK1) { demo_machine with IF := false } =
          some (false, s1) ∧ s1.IF = true ∧
          s1.IF ≠ ({ demo_machine with IF := false } : Machine).IF) :=
  semaphore_enables_interrupts demo_symbols (fork_lock_at TASK1) { demo_machine with IF := false }
    rfl (by decide) (by decide)

/-- On the path that wakes a waiter, `sem_signal` restores the interrupt flag
that it found. -/
theorem sem_signal_wake_keeps_flag (G : Symbols) (psemaphore : Nat) (s : Machine) (w : Nat)
    (sl rq : List Nat)
    (hcnt : s.count psemaphore < 0) (hcnt2 : -2147483648 ≤ s.count psemaphore)
    (hsem : is_queue s.kthread_wait (sem_kthread_head_at psemaphore) (w :: sl))
    (hrq : is_queue s.kthread_wait G.run_queue rq)
    (hdis : ∀ x ∈ w :: sl, x ∉ rq) (hheads : sem_kthread_head_at psemaphore ≠ G.run_queue)
    (hwR : w ≠ G.run_queue) :
    ∃ s1, sem_signal G psemaphore s = some s1 ∧ s1.IF = s.IF := by
  obtain ⟨q1, h, -⟩ := sem_signal_wake G psemaphore s w sl rq hcnt hcnt2 hsem hrq hdis hheads hwR
  exact ⟨_, h, rfl⟩

/-! ### The fault table and ranges that end at the top of the address space -/

theorem in_installed_range_eq (vm : task_vm) (a : Nat)
    (h : ∀ r ∈ vm.vm_ranges_head, r.kernel = false → r.start + r.len < WORD) :
    (vmm_get_range vm a).isSome = in_installed_range vm a := by
  rw [Bool.eq_iff_iff, in_installed_range, vmm_get_range, List.find?_isSome, List.any_eq_true]
  constructor
  · rintro ⟨r, hr, hp⟩
    refine ⟨r, hr, ?_⟩
    simp only [range_holds, Bool.and_eq_true, Bool.not_eq_true', decide_eq_true_eq] at hp ⊢
    have := h r hr hp.1.1
    rw [Nat.mod_eq_of_lt this] at hp
    exact ⟨⟨hp.1.1, hp.1.2⟩, hp.2⟩
  · rintro ⟨r, hr, hp⟩
    refine ⟨r, hr, ?_⟩
    simp only [range_holds, Bool.and_eq_true, Bool.not_eq_true', decide_eq_true_eq] at hp ⊢
    have := h r hr hp.1.1
    rw [Nat.mod_eq_of_lt this]
    exact ⟨⟨hp.1.1, hp.1.2⟩, hp.2⟩

theorem in_ro_segment_eq (vm : task_vm) (a : Nat)
    (ht : vm.vm_text_start + vm.vm_text_len < WORD)
    (hr : vm.vm_rdata_start + vm.vm_rdata_len < WORD) :
    vmm_is_address_ro vm a = in_ro_segment vm a := by
  unfold vmm_is_address_ro in_ro_segment
  rw [Nat.mod_eq_of_lt ht, Nat.mod_eq_of_lt hr]
  by_cases h1 : a ≥ vm.vm_text_start ∧ a < vm.vm_text_start + vm.vm_text_len
  · rw [if_pos h1]
    simp [h1.1, h1.2]
  · rw [if_neg h1]
    by_cases h2 : a ≥ vm.vm_rdata_start ∧ a < vm.vm_rdata_start + vm.vm_rdata_len
    · rw [if_pos h2]
      simp [h2.1, h2.2]
    · rw [if_neg h2]
      simp only [ge_iff_le, not_and, not_lt] at h1 h2
      simp only [Bool.false_eq, Bool.or_eq_false_iff, Bool.and_eq_false_imp, decide_eq_true_eq,
        decide_eq_false_iff_not, not_lt]
      exact ⟨h1, h2⟩

/-- For an address space whose ranges and read-only extents end below `2^32`,
`analyse_fault` is the table of the specification with the membership tests
as the specification words them. -/
theorem analyse_fault_eq_spec_table (P : Platform) (t : ktask) (reason : PTE) (a : Nat)
    (h : ∀ r ∈ t.vm.vm_ranges_head, r.kernel = false → r.start + r.len < WORD)
    (ht : t.vm.vm_text_start + t.vm.vm_text_len < WORD)
    (hr : t.vm.vm_rdata_start + t.vm.vm_rdata_len < WORD) :
    analyse_fault P t reason a =
      spec_fault_table P reason.PRESENT reason.RW a (in_installed_range t.vm a)
        (in_ro_segment t.vm a) t.vm.vm_stack_start := by
  rw [← in_installed_range_eq t.vm a h, ← in_ro_segment_eq t.vm a ht hr]
  unfold analyse_fault spec_fault_table
  cases hp : reason.PRESENT <;> cases hw : reason.RW <;>
    cases hr : vmm_is_address_ro t.vm a <;> cases hg : vmm_get_range t.vm a <;> simp

/-- C4: the task after `load_elf` calls `new_pages(0xfffff000, 0x1000)`, which
returns `KERN_SUCCESS` and installs the range `[0xfffff000, 2^32)`.  For a
write fault on the page, not present, at `0xfffff000`, an address of user
memory that lies in this installed range and in no read-only segment, the
table of the specification gives `BACK`; `analyse_fault` gives `KILL`,
because `vmm_get_range` compares the address with the 32-bit end of the
range, which is 0. -/
theorem fault_table_differs_at_top_page :
    (demo_new_pages 0xfffff000 0x1000).map (fun o => (o.1, range_list o.2.2)) =
        some (KERN_SUCCESS, [(0xfffff000, 0x1000), (0, 0x01000000), (0xffffa000, 0x2000),
          (0x01002000, 0x1000), (0x01001000, 0x1000), (0x01000000, 0x1000)]) ∧
      (demo_new_pages 0xfffff000 0x1000).map (fun o =>
          (in_installed_range o.2.2.vm 0xfffff000, in_ro_segment o.2.2.vm 0xfffff000,
            (vmm_get_range o.2.2.vm 0xfffff000).isSome)) = some (true, false, false) ∧
      (demo_new_pages 0xfffff000 0x1000).map (fun o =>
          spec_fault_table demo_platform error_write_absent.PRESENT error_write_absent.RW
            0xfffff000 (in_installed_range o.2.2.vm 0xfffff000)
            (in_ro_segment o.2.2.vm 0xfffff000) o.2.2.vm.vm_stack_start) =
        some FAULT_ACTION_BACK_PAGES ∧
      (demo_new_pages 0xfffff000 0x1000).map (fun o =>
          analyse_fault demo_platform o.2.2 error_write_absent 0xfffff000) =
        some FAULT_ACTION_KILL := by
  refine ⟨?_, ?_, ?_, ?_⟩ <;> decide

/-! ### exec: the argument frame -/

theorem store32_other (m : Nat → Nat) (a v b : Nat) (ha : a + 4 ≤ WORD)
    (h : b < a ∨ a + 4 ≤ b) : store32 m a v b = m b := by
  unfold WORD at ha
  have h1 : (a + 1) % WORD = a + 1 := Nat.mod_eq_of_lt (by unfold WORD; omega)
  have h2 : (a + 2) % WORD = a + 2 := Nat.mod_eq_of_lt (by unfold WORD; omega)
  have h3 : (a + 3) % WORD = a + 3 := Nat.mod_eq_of_lt (by unfold WORD; omega)
  unfold store32 upd
  rw [h1, h2, h3, if_neg (by omega), if_neg (by omega), if_neg (by omega), if_neg (by omega)]

theorem load32_store32 (m : Nat → Nat) (a v : Nat) (ha : a + 4 ≤ WORD) (hv : v < WORD) :
    load32 (store32 m a v) a = v := by
  unfold WORD at ha hv
  have h1 : (a + 1) % WORD = a + 1 := Nat.mod_eq_of_lt (by unfold WORD; omega)
  have h2 : (a + 2) % WORD = a + 2 := Nat.mod_eq_of_lt (by unfold WORD; omega)
  have h3 : (a + 3) % WORD = a + 3 := Nat.mod_eq_of_lt (by unfold WORD; omega)
  unfold load32 store32 upd
  rw [h1, h2, h3]
  rw [if_neg (show ¬ a = a + 3 by omega), if_neg (show ¬ a = a + 2 by omega),
    if_neg (show ¬ a = a + 1 by omega), if_pos rfl,
    if_neg (show ¬ a + 1 = a + 3 by omega), if_neg (show ¬ a + 1 = a + 2 by omega), if_pos rfl,
    if_neg (show ¬ a + 2 = a + 3 by omega), if_pos rfl, if_pos rfl]
  omega

theorem load32_congr (m1 m2 : Nat → Nat) (a : Nat) (ha : a + 4 ≤ WORD)
    (h : ∀ b, a ≤ b → b < a + 4 → m1 b = m2 b) : load32 m1 a = load32 m2 a := by
  unfold WORD at ha
  have h1 : (a + 1) % WORD = a + 1 := Nat.mod_eq_of_lt (by unfold WORD; omega)
  have h2 : (a + 2) % WORD = a + 2 := Nat.mod_eq_of_lt (by unfold WORD; omega)
  have h3 : (a + 3) % WORD = a + 3 := Nat.mod_eq_of_lt (by unfold WORD; omega)
  unfold load32
  rw [h1, h2, h3, h a (by omega) (by omega), h (a + 1) (by omega) (by omega),
    h (a + 2) (by omega) (by omega), h (a + 3) (by omega) (by omega)]

theorem load32_lt (m : Nat → Nat) (a : Nat) : load32 m a < WORD := by
  unfold load32 WORD
  omega

theorem load32_store32_other (m : Nat → Nat) (a v b : Nat) (ha : a + 4 ≤ WORD)
    (hb : b + 4 ≤ WORD) (h : b + 4 ≤ a ∨ a + 4 ≤ b) :
    load32 (store32 m a v) b = load32 m b :=
  load32_congr _ _ b hb (fun c h1 h2 => store32_other m a v c ha (by omega))

theorem memset_in (m : Nat → Nat) (s c n a : Nat) (hs : s + n ≤ WORD) (h1 : s ≤ a)
    (h2 : a < s + n) : memset m s c n a = c % 256 := by
  unfold WORD at hs
  unfold memset
  rw [if_pos]
  unfold WORD
  omega

theorem memset_out (m : Nat → Nat) (s c n a : Nat) (hs : s + n ≤ WORD) (ha : a < WORD)
    (h : a < s ∨ s + n ≤ a) : memset m s c n a = m a := by
  unfold WORD at hs ha
  unfold memset
  rw [if_neg]
  unfold WORD
  omega

theorem memcpy_in (m : Nat → Nat) (dst src n a : Nat) (hd : dst + n ≤ WORD)
    (hs : src + n ≤ WORD) (h1 : dst ≤ a) (h2 : a < dst + n) :
    memcpy m dst src n a = m (src + (a - dst)) := by
  unfold WORD at hd hs
  have e1 : (a + WORD - dst) % WORD = a - dst := by unfold WORD; omega
  have e2 : (src + (a - dst)) % WORD = src + (a - dst) := Nat.mod_eq_of_lt (by unfold WORD; omega)
  unfold memcpy
  rw [e1, e2, if_pos (by omega)]

theorem memcpy_out (m : Nat → Nat) (dst src n a : Nat) (hd : dst + n ≤ WORD) (ha : a < WORD)
    (h : a < dst ∨ dst + n ≤ a) : memcpy m dst src n a = m a := by
  unfold WORD at hd ha
  unfold memcpy
  rw [if_neg]
  unfold WORD
  omega

theorem is_cstring_iff (m : Nat → Nat) (s : List Nat) :
    ∀ p : Nat, is_cstring m p s = true ↔
      (∀ k, k < s.length → m (p + k) = s.getD k 0 ∧ s.getD k 0 ≠ 0) ∧ m (p + s.length) = 0 := by
  induction s with
  | nil =>
    intro p
    simp [is_cstring]
  | cons c cs ih =>
    intro p
    unfold is_cstring
    simp only [Bool.and_eq_true, decide_eq_true_eq, ih (p + 1), List.length_cons]
    constructor
    · rintro ⟨⟨h1, h2⟩, h3, h4⟩
      refine ⟨?_, ?_⟩
      · intro k hk
        cases k with
        | zero => exact ⟨by simpa using h1, by simpa using h2⟩
        | succ k =>
          have := h3 k (by omega)
          rw [show p + (k + 1) = p + 1 + k by omega]
          simpa using this
      · rw [show p + (cs.length + 1) = p + 1 + cs.length by omega]
        exact h4
    · rintro ⟨h1, h2⟩
      refine ⟨?_, ?_, ?_⟩
      · have := h1 0 (by omega)
        exact ⟨by simpa using this.1, by simpa using this.2⟩
      · intro k hk
        have := h1 (k + 1) (by omega)
        rw [show p + (k + 1) = p + 1 + k by omega] at this
        simpa using this
      · rw [show p + 1 + cs.length = p + (cs.length + 1) by omega]
        exact h2

theorem is_cstring_congr (m1 m2 : Nat → Nat) (s : List Nat) (p : Nat)
    (h : ∀ a, p ≤ a → a < p + s.length + 1 → m2 a = m1 a) (h1 : is_cstring m1 p s = true) :
    is_cstring m2 p s = true := by
  rw [is_cstring_iff] at h1 ⊢
  refine ⟨fun k hk => ?_, ?_⟩
  · rw [h _ (by omega) (by omega)]
    exact h1.1 k hk
  · rw [h _ (by omega) (by omega)]
    exact h1.2

theorem strlen_of_cstring (m : Nat → Nat) (s : List Nat) :
    ∀ (p fuel : Nat), is_cstring m p s = true → p + s.length < WORD → s.length < fuel →
      strlen m fuel p = some s.length := by
  induction s with
  | nil =>
    intro p fuel h _ hf
    cases fuel with
    | zero => omega
    | succ f =>
      unfold strlen
      rw [if_pos (by simpa [is_cstring] using h)]
      rfl
  | cons c cs ih =>
    intro p fuel h hp hf
    cases fuel with
    | zero => omega
    | succ f =>
      unfold is_cstring at h
      simp only [Bool.and_eq_true, decide_eq_true_eq] at h
      simp only [List.length_cons] at hp hf
      unfold strlen
      rw [if_neg (by rw [h.1.1]; exact h.1.2),
        Nat.mod_eq_of_lt (show p + 1 < WORD by omega),
        ih (p + 1) f h.2 (by omega) (by omega)]
      rfl

theorem first_unmapped_none (vm : task_vm) (s n : Nat) (hs : s + n ≤ WORD)
    (h : ∀ a, s ≤ a → a < s + n → page_mapped vm a = true) : first_unmapped vm s n = none := by
  unfold first_unmapped
  rw [List.find?_eq_none]
  intro a ha
  rw [List.mem_map] at ha
  obtain ⟨k, hk, rfl⟩ := ha
  rw [List.mem_range'_1] at hk
  rw [Nat.mod_eq_of_lt (by omega), h (s + k) (by omega) (by omega)]
  decide

theorem first_unmapped_first (vm : task_vm) (s n : Nat) (hn : 0 < n) (hs : s < WORD)
    (h : page_mapped vm s = false) : first_unmapped vm s n = some s := by
  unfold first_unmapped
  obtain ⟨m, rfl⟩ : ∃ m, n = m + 1 := ⟨n - 1, by omega⟩
  rw [List.range'_succ, List.map_cons, Nat.add_zero, Nat.mod_eq_of_lt hs,
    List.find?_cons_of_pos]
  rw [h]
  rfl

theorem arg_offset_succ (args : List (List Nat)) :
    ∀ i, i < args.length →
      arg_offset args (i + 1) = arg_offset args i + ((args.getD i []).length + 1) := by
  induction args with
  | nil => intro i h; simp at h
  | cons s rest ih =>
    intro i h
    cases i with
    | zero =>
      cases rest with
      | nil => simp [arg_offset]
      | cons t r => simp [arg_offset]
    | succ i =>
      simp only [List.length_cons] at h
      have := ih i (by omega)
      simp only [arg_offset, List.getD_cons_succ] at this ⊢
      omega

theorem arg_offset_mono (args : List (List Nat)) (i j : Nat) (hij : i ≤ j)
    (hj : j ≤ args.length) : arg_offset args i ≤ arg_offset args j := by
  induction j with
  | zero =>
    have : i = 0 := by omega
    rw [this]
  | succ j ih =>
    by_cases h : i = j + 1
    · rw [h]
    · have h1 := ih (by omega) (by omega)
      have h2 := arg_offset_succ args j (by omega)
      omega

theorem to_i32_small (n : Nat) (h : n < 2147483648) : to_i32 n = (n : Int) := by
  unfold to_i32 WORD
  rw [Nat.mod_eq_of_lt (by omega), if_pos h]

theorem copy_strings_spec (vm : task_vm) (ea ds stack B : Nat) (args : List (List Nat))
    (p : Nat → Nat) (hmap : ∀ a, ds ≤ a → a < stack → page_mapped vm a = true)
    (hn : args.length < 2147483648)
    (hB : ea + 12 + 4 * args.length ≤ B) (hBds : B ≤ ds)
    (hfit : ds + arg_offset args args.length ≤ stack) (hstack : stack < WORD)
    (hp : ∀ j, j < args.length →
      ea + 12 + 4 * args.length ≤ p j ∧ p j + (args.getD j []).length + 1 ≤ B) :
    ∀ (k i fuel : Nat) (m : Nat → Nat), i + k = args.length → k < fuel →
      copy_strings_inv ea ds stack args p i m →
      ∃ m1 c, copy_strings vm ea fuel i (ds + arg_offset args i) m =
          some (user_access.done (m1, c)) ∧
        copy_strings_inv ea ds stack args p args.length m1 ∧
        (∀ a, a < ds → (a < ea + 12 ∨ ea + 12 + 4 * args.length ≤ a) → m1 a = m a) := by
  have hW : WORD = 4294967296 := rfl
  intro k
  induction k with
  | zero =>
    intro i fuel m hik hf hinv
    have hi : i = args.length := by omega
    cases fuel with
    | zero => omega
    | succ f =>
      unfold copy_strings
      rw [hinv.1, to_i32_small _ hn, if_neg (by rw [hi]; omega)]
      exact ⟨m, _, rfl, by rw [← hi]; exact hinv, fun _ _ _ => rfl⟩
  | succ k ih =>
    intro i fuel m hik hf hinv
    have hi : i < args.length := by omega
    obtain ⟨hargc, hb, hc, hd⟩ := hinv
    obtain ⟨hpi1, hpi2⟩ := hp i hi
    obtain ⟨hsl, hsc⟩ := hb i (Nat.le_refl _) hi
    have hoff := arg_offset_succ args i hi
    have hmono := arg_offset_mono args (i + 1) args.length (by omega) (Nat.le_refl _)
    have hslot : argv_at ea i = ea + 12 + 4 * i := Nat.mod_eq_of_lt (by omega)
    have hslotj : ∀ j, j < args.length → argv_at ea j = ea + 12 + 4 * j :=
      fun j hj => Nat.mod_eq_of_lt (by omega)
    have hc4 : ds + arg_offset args i + (args.getD i []).length ≤ WORD := by omega
    -- the memory after the copy and after the store of the new pointer
    have hm1 : ∀ a, a < WORD →
        (a < ds + arg_offset args i ∨ ds + arg_offset args i + (args.getD i []).length ≤ a) →
        memcpy m (ds + arg_offset args i) (p i) (args.getD i []).length a = m a :=
      fun a ha h => memcpy_out m _ _ _ a hc4 ha h
    have hm2 : ∀ a, a < WORD → (a < ea + 12 + 4 * i ∨ ea + 12 + 4 * i + 4 ≤ a) →
        (a < ds + arg_offset args i ∨ ds + arg_offset args i + (args.getD i []).length ≤ a) →
        store32 (memcpy m (ds + arg_offset args i) (p i) (args.getD i []).length)
          (ea + 12 + 4 * i) (ds + arg_offset args i) a = m a := by
      intro a ha h1 h2
      rw [store32_other _ _ _ _ (by omega) h1, hm1 a ha h2]
    cases fuel with
    | zero => omega
    | succ f =>
      unfold copy_strings
      rw [hargc, to_i32_small _ hn, if_pos (by omega), hsl,
        strlen_of_cstring m _ (p i) STRLEN_FUEL hsc (by omega) (by unfold STRLEN_FUEL; omega)]
      simp only
      rw [first_unmapped_none vm _ _ hc4 (fun a h1 h2 => hmap a (by omega) (by omega))]
      simp only
      have hsl1 : load32 (memcpy m (ds + arg_offset args i) (p i) (args.getD i []).length)
          (argv_at ea i) = p i := by
        refine (load32_congr _ _ _ (by rw [hslot]; omega) (fun b h1 h2 => ?_)).trans hsl
        rw [hslot] at h2
        exact hm1 b (by omega) (Or.inl (by omega))
      have hsc1 : is_cstring (memcpy m (ds + arg_offset args i) (p i) (args.getD i []).length)
          (p i) (args.getD i []) = true :=
        is_cstring_congr m _ _ _ (fun a h1 h2 => hm1 a (by omega) (Or.inl (by omega))) hsc
      rw [hsl1, strlen_of_cstring _ _ (p i) STRLEN_FUEL hsc1 (by omega)
        (by unfold STRLEN_FUEL; omega)]
      simp only
      rw [Nat.mod_eq_of_lt (show ds + arg_offset args i + (args.getD i []).length + 1 < WORD by
        omega), hslot,
        show ds + arg_offset args i + (args.getD i []).length + 1 = ds + arg_offset args (i + 1) by
          omega]
      have hinv1 : copy_strings_inv ea ds stack args p (i + 1)
          (store32 (memcpy m (ds + arg_offset args i) (p i) (args.getD i []).length)
            (ea + 12 + 4 * i) (ds + arg_offset args i)) := by
        refine ⟨?_, ?_, ?_, ?_⟩
        · rw [← hargc]
          exact load32_congr _ _ _ (by unfold argc_at; omega)
            (fun b h1 h2 => hm2 b (by unfold argc_at at h2; omega)
              (Or.inl (by unfold argc_at at h2; omega)) (Or.inl (by unfold argc_at at h2; omega)))
        · intro j hij hj
          obtain ⟨hj1, hj2⟩ := hb j (by omega) hj
          obtain ⟨hpj1, hpj2⟩ := hp j hj
          refine ⟨?_, ?_⟩
          · rw [← hj1]
            exact load32_congr _ _ _ (by rw [hslotj j hj]; omega)
              (fun b h1 h2 => hm2 b (by rw [hslotj j hj] at h2; omega)
                (Or.inr (by rw [hslotj j hj] at h1; omega))
                (Or.inl (by rw [hslotj j hj] at h2; omega)))
          · exact is_cstring_congr m _ _ _
              (fun a h1 h2 => hm2 a (by omega) (Or.inr (by omega)) (Or.inl (by omega))) hj2
        · intro j hji hj
          by_cases hjeq : j = i
          · subst hjeq
            refine ⟨?_, ?_⟩
            · rw [hslot]
              exact load32_store32 _ _ _ (by omega) (by omega)
            · rw [is_cstring_iff] at hsc ⊢
              refine ⟨fun t ht => ?_, ?_⟩
              · rw [store32_other _ _ _ _ (by omega) (Or.inr (by omega)),
                  memcpy_in m _ _ _ _ hc4 (by omega) (by omega) (by omega),
                  show ds + arg_offset args j + t - (ds + arg_offset args j) = t by omega]
                exact hsc.1 t ht
              · rw [hm2 _ (by omega) (Or.inr (by omega)) (Or.inr (by omega))]
                exact hd _ (by omega) (by omega)
          · obtain ⟨hj1, hj2⟩ := hc j (by omega) hj
            have hmj := arg_offset_mono args (j + 1) i (by omega) (by omega)
            have hoj := arg_offset_succ args j hj
            refine ⟨?_, ?_⟩
            · rw [← hj1]
              exact load32_congr _ _ _ (by rw [hslotj j hj]; omega)
                (fun b h1 h2 => hm2 b (by rw [hslotj j hj] at h2; omega)
                  (Or.inl (by rw [hslotj j hj] at h2; omega))
                  (Or.inl (by rw [hslotj j hj] at h2; omega)))
            · exact is_cstring_congr m _ _ _
                (fun a h1 h2 => hm2 a (by omega) (Or.inr (by omega)) (Or.inl (by omega))) hj2
        · intro a h1 h2
          rw [hm2 a (by omega) (Or.inr (by omega)) (Or.inr (by omega))]
          exact hd a (by omega) h2
      obtain ⟨m1, c, hrun, hfin, hframe⟩ := ih (i + 1) f _ (by omega) (by omega) hinv1
      refine ⟨m1, c, hrun, hfin, fun a ha h => ?_⟩
      rw [hframe a ha h]
      exact hm2 a (by omega) (by omega) (Or.inl (by omega))

theorem arg_offset_zero (args : List (List Nat)) : arg_offset args 0 = 0 := by
  cases args <;> rfl

theorem push_argv_spec (vm : task_vm) (ea : Nat) :
    ∀ (k d e : Nat) (m : Nat → Nat), e + 4 * k = d → d ≤ WORD → ea + 12 + 4 * k ≤ e →
      (∀ a, e ≤ a → a < d → page_mapped vm a = true) →
      ∃ m1, push_argv vm ea k d m = user_access.done (m1, e) ∧
        (∀ a, a < e ∨ d ≤ a → m1 a = m a) ∧
        ∀ j, j < k → load32 m1 (e + 4 * j) = load32 m (argv_at ea j) := by
  have hW : WORD = 4294967296 := rfl
  intro k
  induction k with
  | zero =>
    intro d e m h1 _ _ _
    exact ⟨m, by rw [← h1]; rfl, fun _ _ => rfl, fun j hj => absurd hj (Nat.not_lt_zero j)⟩
  | succ k ih =>
    intro d e m h1 h2 h3 hmap
    obtain ⟨d1, hd1⟩ : ∃ d1, d1 + 4 = d := ⟨d - 4, by omega⟩
    have e1 : (d + WORD - 4) % WORD = d1 := by
      unfold WORD at h2 ⊢
      omega
    have hstep : push_argv vm ea (k + 1) d m =
        push_argv vm ea k d1 (store32 m d1 (load32 m (argv_at ea k))) := by
      show (match first_unmapped vm ((d + WORD - 4) % WORD) 4 with
        | some la => user_access.fault la
        | none => push_argv vm ea k ((d + WORD - 4) % WORD)
            (store32 m ((d + WORD - 4) % WORD) (load32 m (argv_at ea k)))) = _
      rw [e1, first_unmapped_none vm d1 4 (by omega) (fun a ha1 ha2 => hmap a (by omega) (by omega))]
    rw [hstep]
    clear hstep e1
    obtain ⟨m1, r1, r2, r3⟩ := ih d1 e (store32 m d1 (load32 m (argv_at ea k))) (by omega)
      (by omega) (by omega) (fun a ha1 ha2 => hmap a ha1 (by omega))
    refine ⟨m1, r1, fun a ha => ?_, fun j hj => ?_⟩
    · rw [r2 a (by omega), store32_other _ _ _ _ (by omega) (by omega)]
    · by_cases hjk : j = k
      · subst hjk
        have hl := load32_lt m (argv_at ea j)
        rw [show e + 4 * j = d1 by omega]
        refine (load32_congr _ _ _ (by omega) (fun b hb1 hb2 => r2 b (by omega))).trans ?_
        exact load32_store32 m d1 (load32 m (argv_at ea j)) (by omega) hl
      · rw [r3 j (by omega)]
        have hs : argv_at ea j = ea + 12 + 4 * j := Nat.mod_eq_of_lt (by omega)
        rw [hs]
        exact load32_store32_other _ _ _ _ (by omega) (by omega) (by omega)

/-- The frame that `exec_copy_argv_to_stack` builds from a well-formed
`exec_args` at `ea`: the block ends at or below `B` and the frame fits
between `B` and the stack top.  `ds` is the aligned start of the strings. -/
theorem exec_copy_argv_to_stack_spec (vm : task_vm) (mem : Nat → Nat) (stack ea B : Nat)
    (args : List (List Nat))
    (hargc : load32 mem (argc_at ea) = args.length)
    (hsum : arg_offset args args.length ≤ load32 mem (data_len_at ea))
    (hB : ea + 12 + 4 * args.length ≤ B)
    (hp : ∀ j, j < args.length →
      ea + 12 + 4 * args.length ≤ load32 mem (argv_at ea j) ∧
        load32 mem (argv_at ea j) + (args.getD j []).length + 1 ≤ B ∧
        is_cstring mem (load32 mem (argv_at ea j)) (args.getD j []) = true)
    (hfit : B + 4 * args.length + 12 + 3 + load32 mem (data_len_at ea) + 4 ≤ stack)
    (hstack : stack < WORD)
    (hmap : ∀ a, stack ≤ a + (4 * args.length + 19 + load32 mem (data_len_at ea)) → a < stack →
      page_mapped vm a = true) :
    ∃ mem1 sp ds, exec_copy_argv_to_stack vm mem stack ea = some (user_access.done (mem1, sp)) ∧
      ds % 4 = 0 ∧ ds + 4 + load32 mem (data_len_at ea) ≤ stack ∧
      stack < ds + 8 + load32 mem (data_len_at ea) ∧
      sp + 12 + 4 * args.length = ds ∧ B ≤ sp ∧
      load32 mem1 sp = 0xDEADBEEF ∧ load32 mem1 (sp + 4) = args.length ∧
      load32 mem1 (sp + 8) = sp + 12 ∧
      (∀ j, j < args.length →
        load32 mem1 (sp + 12 + 4 * j) = ds + arg_offset args j ∧
          is_cstring mem1 (ds + arg_offset args j) (args.getD j []) = true) ∧
      ∀ a, a < sp → mem1 a = mem a ∨ (ea + 12 ≤ a ∧ a < ea + 12 + 4 * args.length) := by
  have hW : WORD = 4294967296 := rfl
  have hn : args.length < 2147483648 := by omega
  generalize hdl : load32 mem (data_len_at ea) = dl at hsum hfit hmap ⊢
  obtain ⟨ds, hds, hds1, hds2, hds3⟩ : ∃ ds,
      stack - 4 - dl - (stack - 4 - dl) % 4 = ds ∧ ds + 4 + dl ≤ stack ∧ stack < ds + 8 + dl ∧
        ds % 4 = 0 :=
    ⟨_, rfl, by omega, by omega, by omega⟩
  obtain ⟨sp, hsp⟩ : ∃ sp, sp + 12 + 4 * args.length = ds := ⟨ds - 4 * args.length - 12, by omega⟩
  -- the run of the function, given the results of its two loops
  have hrunall : ∀ (m2 : Nat → Nat) (c : Nat) (m3 : Nat → Nat),
      copy_strings vm ea ARGV_LOOP_FUEL 0 ds (memset mem ds 0 (stack - ds)) =
        some (user_access.done (m2, c)) →
      load32 m2 (argc_at ea) = args.length →
      push_argv vm ea args.length ds m2 = user_access.done (m3, sp + 12) →
      exec_copy_argv_to_stack vm mem stack ea =
        some (user_access.done (store32 (store32 (store32 m3 (sp + 8) (sp + 12)) (sp + 4)
          (load32 (store32 m3 (sp + 8) (sp + 12)) (argc_at ea))) sp 0xDEADBEEF, sp)) := by
    intro m2 c m3 hrun hargc2 hpush
    have f0 : first_unmapped vm ds (stack - ds) = none :=
      first_unmapped_none vm _ _ (by omega) (fun a h1 h2 => hmap a (by omega) (by omega))
    have f1 : first_unmapped vm (sp + 8) 4 = none :=
      first_unmapped_none vm _ _ (by omega) (fun a h1 h2 => hmap a (by omega) (by omega))
    have f2 : first_unmapped vm (sp + 4) 4 = none :=
      first_unmapped_none vm _ _ (by omega) (fun a h1 h2 => hmap a (by omega) (by omega))
    have f3 : first_unmapped vm sp 4 = none :=
      first_unmapped_none vm _ _ (by omega) (fun a h1 h2 => hmap a (by omega) (by omega))
    have e1 : (stack + WORD - 4) % WORD = stack - 4 := by
      unfold WORD at hstack ⊢
      omega
    have e2 : (stack - 4 + WORD - dl) % WORD = stack - 4 - dl := by
      unfold WORD at hstack ⊢
      omega
    have e3 : (stack + WORD - ds) % WORD = stack - ds := by
      unfold WORD at hstack ⊢
      omega
    have e4 : (sp + 12 + WORD - 4) % WORD = sp + 8 := by
      unfold WORD at hstack ⊢
      omega
    have e5 : (sp + 8 + 4) % WORD = sp + 12 := by
      unfold WORD at hstack ⊢
      omega
    have e6 : (sp + 8 + WORD - 4) % WORD = sp + 4 := by
      unfold WORD at hstack ⊢
      omega
    have e7 : (sp + 4 + WORD - 4) % WORD = sp := by
      unfold WORD at hstack ⊢
      omega
    unfold exec_copy_argv_to_stack
    simp only [hdl, e1, e2, hds, e3, f0, hrun, hargc2, to_i32_small _ hn, Int.toNat_ofNat, hpush,
      e4, e5, e6, e7, f1, f2, f3]
  have hsub : stack - ds + ds = stack := by omega
  generalize stack - ds = len at hrunall hsub
  clear hds
  -- the memory after `memset`
  have hm0 : ∀ a, a < ds → memset mem ds 0 len a = mem a :=
    fun a ha => memset_out mem ds 0 _ a (by omega) (by omega) (Or.inl ha)
  have hslotj : ∀ j, j < args.length → argv_at ea j = ea + 12 + 4 * j :=
    fun j hj => Nat.mod_eq_of_lt (by omega)
  have hinv0 : copy_strings_inv ea ds stack args (fun j => load32 mem (argv_at ea j)) 0
      (memset mem ds 0 len) := by
    refine ⟨?_, ?_, ?_, ?_⟩
    · rw [← hargc]
      exact load32_congr _ _ _ (by unfold argc_at; omega)
        (fun b h1 h2 => hm0 b (by unfold argc_at at h2; omega))
    · intro j _ hj
      obtain ⟨h1, h2, h3⟩ := hp j hj
      beta_reduce
      refine ⟨?_, ?_⟩
      · exact load32_congr _ _ _ (by rw [hslotj j hj]; omega)
          (fun b hb1 hb2 => hm0 b (by rw [hslotj j hj] at hb2; omega))
      · exact is_cstring_congr mem _ _ _ (fun a ha1 ha2 => hm0 a (by omega)) h3
    · intro j hj
      exact absurd hj (Nat.not_lt_zero j)
    · intro a h1 h2
      rw [arg_offset_zero] at h1
      exact memset_in mem ds 0 _ a (by omega) (by omega) (by omega)
  obtain ⟨m2, c, hrun, hfin, hframe2⟩ := copy_strings_spec vm ea ds stack B args
    (fun j => load32 mem (argv_at ea j)) (fun a h1 h2 => hmap a (by omega) h2) hn hB (by omega)
    (by omega) hstack
    (fun j hj => ⟨(hp j hj).1, (hp j hj).2.1⟩) args.length 0 ARGV_LOOP_FUEL
    (memset mem ds 0 len) (by omega) (by unfold ARGV_LOOP_FUEL; omega) hinv0
  rw [arg_offset_zero, show ds + 0 = ds from rfl] at hrun
  obtain ⟨hargc2, -, hc2, -⟩ := hfin
  obtain ⟨m3, hpush, r2, r3⟩ := push_argv_spec vm ea args.length ds (sp + 12) m2 (by omega)
    (by omega) (by omega) (fun a h1 h2 => hmap a (by omega) (by omega))
  have hall := hrunall m2 c m3 hrun hargc2 hpush
  clear hrunall hinv0 hrun hpush hsub hmap
  -- the memory after the three last stores
  have hm6 : ∀ a, a < sp ∨ sp + 12 ≤ a →
      store32 (store32 (store32 m3 (sp + 8) (sp + 12)) (sp + 4)
        (load32 (store32 m3 (sp + 8) (sp + 12)) (argc_at ea))) sp 0xDEADBEEF a = m3 a := by
    intro a ha
    rw [store32_other _ _ _ _ (by omega) (by omega), store32_other _ _ _ _ (by omega) (by omega),
      store32_other _ _ _ _ (by omega) (by omega)]
  refine ⟨_, sp, ds, hall, hds3, hds1, hds2, hsp, by omega, ?_, ?_, ?_, ?_, ?_⟩
  · exact load32_store32 _ _ _ (by omega) (by unfold WORD; omega)
  · rw [load32_store32_other _ _ _ _ (by omega) (by omega) (by omega),
      load32_store32 _ _ _ (by omega) (load32_lt _ _)]
    refine (load32_congr _ m2 _ (by unfold argc_at; omega) (fun b h1 h2 => ?_)).trans hargc2
    unfold argc_at at h1 h2
    rw [store32_other _ _ _ _ (by omega) (by omega), r2 b (by omega)]
  · rw [load32_store32_other _ _ _ _ (by omega) (by omega) (by omega),
      load32_store32_other _ _ _ _ (by omega) (by omega) (by omega)]
    exact load32_store32 _ _ _ (by omega) (by omega)
  · intro j hj
    obtain ⟨h1, h2⟩ := hc2 j hj hj
    have hoj := arg_offset_succ args j hj
    have hmj := arg_offset_mono args (j + 1) args.length (by omega) (Nat.le_refl _)
    refine ⟨?_, ?_⟩
    · refine (load32_congr _ m3 _ (by omega) (fun b hb1 hb2 => hm6 b (by omega))).trans ?_
      rw [r3 j hj]
      exact h1
    · refine is_cstring_congr m2 _ _ _ (fun a ha1 ha2 => ?_) h2
      rw [hm6 a (by omega), r2 a (by omega)]
  · intro a ha
    rw [hm6 a (by omega), r2 a (by omega)]
    by_cases hslot : ea + 12 ≤ a ∧ a < ea + 12 + 4 * args.length
    · exact Or.inr hslot
    · left
      rw [hframe2 a (by omega) (by omega)]
      exact hm0 a (by omega)

theorem is_cstring_first (m : Nat → Nat) (p : Nat) (s : List Nat) (h : is_cstring m p s = true)
    (hs : s ≠ []) : m p ≠ 0 := by
  cases s with
  | nil => exact absurd rfl hs
  | cons c cs =>
    unfold is_cstring at h
    simp only [Bool.and_eq_true, decide_eq_true_eq] at h
    rw [h.1.1]
    exact h.1.2

theorem count_args_spec (mem : Nat → Nat) (argv av : Nat) (args : List (List Nat))
    (hargv : load32 mem argv = av) (hav : av + 4 * args.length + 4 ≤ WORD)
    (hq : ∀ j, j < args.length →
      load32 mem (av + 4 * j) ≠ 0 ∧ args.getD j [] ≠ [] ∧
        is_cstring mem (load32 mem (av + 4 * j)) (args.getD j []) = true ∧
        load32 mem (av + 4 * j) + (args.getD j []).length < WORD)
    (hend : load32 mem (av + 4 * args.length) = 0 ∨
      mem (load32 mem (av + 4 * args.length)) = 0)
    (hsz : arg_offset args args.length < WORD) :
    ∀ (k i fuel : Nat), i + k = args.length → k < fuel →
      count_args mem argv fuel i (arg_offset args i) =
        some (args.length, arg_offset args args.length) := by
  have hW : WORD = 4294967296 := rfl
  intro k
  induction k with
  | zero =>
    intro i fuel hik hf
    have hi : i = args.length := by omega
    subst hi
    cases fuel with
    | zero => omega
    | succ f =>
      unfold count_args GET_ARG_PTR
      rw [hargv, Nat.mod_eq_of_lt (show av + 4 * args.length < WORD by omega),
        if_neg (by
          intro h
          rcases hend with h1 | h1
          · exact h.1 h1
          · exact h.2 h1)]
  | succ k ih =>
    intro i fuel hik hf
    have hi : i < args.length := by omega
    obtain ⟨h1, h2, h3, h4⟩ := hq i hi
    have hoff := arg_offset_succ args i hi
    have hmono := arg_offset_mono args (i + 1) args.length (by omega) (Nat.le_refl _)
    cases fuel with
    | zero => omega
    | succ f =>
      unfold count_args GET_ARG_PTR
      rw [hargv, Nat.mod_eq_of_lt (show av + 4 * i < WORD by omega),
        if_pos ⟨h1, is_cstring_first mem _ _ h3 h2⟩,
        strlen_of_cstring mem _ _ STRLEN_FUEL h3 h4 (by unfold STRLEN_FUEL; omega)]
      simp only
      rw [Nat.mod_eq_of_lt (show arg_offset args i + (args.getD i []).length + 1 < WORD by omega),
        show arg_offset args i + (args.getD i []).length + 1 = arg_offset args (i + 1) by omega]
      exact ih (i + 1) f (by omega) (by omega)

theorem fill_args_spec (mem m0 : Nat → Nat) (argv av l E U : Nat) (args : List (List Nat))
    (hargv : load32 mem argv = av) (hargvU : U ≤ argv) (hargvW : argv + 4 ≤ WORD)
    (havU : U ≤ av) (hav : av + 4 * args.length + 4 ≤ WORD)
    (hq : ∀ j, j < args.length →
      U ≤ load32 mem (av + 4 * j) ∧
        is_cstring mem (load32 mem (av + 4 * j)) (args.getD j []) = true ∧
        load32 mem (av + 4 * j) + (args.getD j []).length < WORD)
    (hfit : l + 12 + 4 * args.length + arg_offset args args.length ≤ E) (hEU : E ≤ U) :
    ∀ (k i : Nat) (m : Nat → Nat), i + k = args.length →
      fill_args_inv mem m0 l (l + 12 + 4 * args.length) E U args i m →
      ∃ m1, fill_args argv l k i (l + 12 + 4 * args.length + arg_offset args i) m =
          some (m1, l + 12 + 4 * args.length + arg_offset args args.length) ∧
        fill_args_inv mem m0 l (l + 12 + 4 * args.length) E U args args.length m1 := by
  have hW : WORD = 4294967296 := rfl
  intro k
  induction k with
  | zero =>
    intro i m hik hinv
    have hi : i = args.length := by omega
    subst hi
    exact ⟨m, rfl, hinv⟩
  | succ k ih =>
    intro i m hik hinv
    have hi : i < args.length := by omega
    obtain ⟨hu, hlow, hc, hd⟩ := hinv
    obtain ⟨hq1, hq2, hq3⟩ := hq i hi
    have hoff := arg_offset_succ args i hi
    have hmono := arg_offset_mono args (i + 1) args.length (by omega) (Nat.le_refl _)
    have hslotj : ∀ j, j < args.length → argv_at l j = l + 12 + 4 * j :=
      fun j hj => Nat.mod_eq_of_lt (by omega)
    generalize hD : l + 12 + 4 * args.length = D at hfit hc hd ih ⊢
    generalize hqi : load32 mem (av + 4 * i) = qi at hq1 hq2 hq3
    -- reads of the user data in a memory that agrees with `mem` there
    have huser : ∀ m1 : Nat → Nat, (∀ a, U ≤ a → a < WORD → m1 a = mem a) →
        GET_ARG_PTR m1 argv i = qi ∧ is_cstring m1 qi (args.getD i []) = true := by
      intro m1 h1
      have e1 : load32 m1 argv = av :=
        (load32_congr _ mem _ hargvW (fun b hb1 hb2 => h1 b (by omega) (by omega))).trans hargv
      refine ⟨?_, is_cstring_congr mem _ _ _ (fun a ha1 ha2 => h1 a (by omega) (by omega)) hq2⟩
      unfold GET_ARG_PTR
      rw [e1, Nat.mod_eq_of_lt (show av + 4 * i < WORD by omega)]
      exact (load32_congr _ mem _ (by omega)
        (fun b hb1 hb2 => h1 b (by omega) (by omega))).trans hqi
    have hc4 : D + arg_offset args i + (args.getD i []).length ≤ WORD := by omega
    have hm2 : ∀ a, a < WORD → (a < l + 12 + 4 * i ∨ l + 12 + 4 * i + 4 ≤ a) →
        (a < D + arg_offset args i ∨ D + arg_offset args i + (args.getD i []).length ≤ a) →
        store32 (memcpy m (D + arg_offset args i) qi (args.getD i []).length)
          (l + 12 + 4 * i) (D + arg_offset args i) a = m a := by
      intro a ha h1 h2
      rw [store32_other _ _ _ _ (by omega) h1, memcpy_out m _ _ _ a hc4 ha h2]
    have hu2 : ∀ a, U ≤ a → a < WORD →
        store32 (memcpy m (D + arg_offset args i) qi (args.getD i []).length)
          (l + 12 + 4 * i) (D + arg_offset args i) a = mem a := by
      intro a h1 h2
      rw [hm2 a h2 (by omega) (by omega)]
      exact hu a h1 h2
    obtain ⟨g1, g2⟩ := huser m hu
    obtain ⟨g3, g4⟩ := huser _ hu2
    rw [← hslotj i hi] at g3 g4
    unfold fill_args
    rw [g1, strlen_of_cstring m _ qi STRLEN_FUEL g2 hq3 (by unfold STRLEN_FUEL; omega)]
    simp only
    rw [g3, strlen_of_cstring _ _ qi STRLEN_FUEL g4 hq3 (by unfold STRLEN_FUEL; omega)]
    simp only
    rw [Nat.mod_eq_of_lt (show D + arg_offset args i + (args.getD i []).length + 1 < WORD by
      omega), hslotj i hi,
      show D + arg_offset args i + (args.getD i []).length + 1 = D + arg_offset args (i + 1) by
        omega]
    refine ih (i + 1) _ (by omega) ⟨hu2, ?_, ?_, ?_⟩
    · intro a ha
      rw [hm2 a (by omega) (by omega) (by omega)]
      exact hlow a ha
    · intro j hji hj
      by_cases hjeq : j = i
      · subst hjeq
        refine ⟨?_, ?_⟩
        · rw [hslotj j hj]
          exact load32_store32 _ _ _ (by omega) (by omega)
        · rw [is_cstring_iff] at g2 ⊢
          refine ⟨fun t ht => ?_, ?_⟩
          · rw [store32_other _ _ _ _ (by omega) (Or.inr (by omega)),
              memcpy_in m _ _ _ _ hc4 (by omega) (by omega) (by omega),
              show D + arg_offset args j + t - (D + arg_offset args j) = t by omega]
            exact g2.1 t ht
          · rw [hm2 _ (by omega) (Or.inr (by omega)) (Or.inr (by omega))]
            exact hd _ (by omega) (by omega)
      · obtain ⟨hj1, hj2⟩ := hc j (by omega) hj
        have hmj := arg_offset_mono args (j + 1) i (by omega) (by omega)
        have hoj := arg_offset_succ args j hj
        refine ⟨?_, ?_⟩
        · refine (load32_congr _ m _ (by rw [hslotj j hj]; omega) (fun b h1 h2 => ?_)).trans hj1
          rw [hslotj j hj] at h1 h2
          exact hm2 b (by omega) (by omega) (Or.inl (by omega))
        · exact is_cstring_congr m _ _ _
            (fun a h1 h2 => hm2 a (by omega) (Or.inr (by omega)) (Or.inl (by omega))) hj2
    · intro a h1 h2
      rw [hm2 a (by omega) (Or.inr (by omega)) (Or.inr (by omega))]
      exact hd a (by omega) h2

/-- The block that `exec_copy_argv` builds at `l` from the packet of the user:
the file name `fname`, the strings `args`, followed in the array of the user
by a null pointer or an empty string.  The user data lie from `U` upward, the
block below `U`. -/
theorem exec_copy_argv_spec (mem : Nat → Nat) (packet l U : Nat) (args : List (List Nat))
    (fname : List Nat)
    (hU : 0 < U) (hpU : U ≤ packet) (hpW : packet + 8 ≤ WORD)
    (hfU : U ≤ load32 mem packet)
    (hfs : is_cstring mem (load32 mem packet) fname = true)
    (hfW : load32 mem packet + fname.length < WORD)
    (havU : U ≤ load32 mem (packet + 4))
    (hav : load32 mem (packet + 4) + 4 * args.length + 4 ≤ WORD)
    (hq : ∀ j, j < args.length →
      U ≤ load32 mem (load32 mem (packet + 4) + 4 * j) ∧ args.getD j [] ≠ [] ∧
        is_cstring mem (load32 mem (load32 mem (packet + 4) + 4 * j)) (args.getD j []) = true ∧
        load32 mem (load32 mem (packet + 4) + 4 * j) + (args.getD j []).length < WORD)
    (hend : load32 mem (load32 mem (packet + 4) + 4 * args.length) = 0 ∨
      mem (load32 mem (load32 mem (packet + 4) + 4 * args.length)) = 0)
    (hblock : l + 12 + 4 * args.length + (arg_offset args args.length + 1 + fname.length + 1) ≤ U) :
    ∃ mem1, exec_copy_argv mem (some l) packet = some (KERN_SUCCESS, mem1, l) ∧
      load32 mem1 (argc_at l) = args.length ∧
      load32 mem1 (data_len_at l) = arg_offset args args.length + 1 + fname.length + 1 ∧
      (∀ j, j < args.length →
        load32 mem1 (argv_at l j) = l + 12 + 4 * args.length + arg_offset args j ∧
          is_cstring mem1 (l + 12 + 4 * args.length + arg_offset args j) (args.getD j []) = true) ∧
      load32 mem1 (filename_at l) = l + 12 + 4 * args.length + arg_offset args args.length ∧
      is_cstring mem1 (l + 12 + 4 * args.length + arg_offset args args.length) fname = true ∧
      ∀ a, U ≤ a → a < WORD → mem1 a = mem a := by
  have hW : WORD = 4294967296 := rfl
  generalize hav0 : load32 mem (packet + 4) = av at havU hav hq hend
  generalize hfn0 : load32 mem packet = fn at hfU hfs hfW
  generalize hdl : arg_offset args args.length + 1 + fname.length + 1 = dl at hblock ⊢
  generalize hD : l + 12 + 4 * args.length = D at hblock ⊢
  have hcount := count_args_spec mem (packet + 4) av args hav0 (by omega)
    (fun j hj => ⟨by have := (hq j hj).1; omega, (hq j hj).2.1, (hq j hj).2.2.1, (hq j hj).2.2.2⟩)
    hend (by omega) args.length 0 ARGV_LOOP_FUEL (by omega)
    (by unfold ARGV_LOOP_FUEL; omega)
  rw [arg_offset_zero] at hcount
  clear hend
  obtain ⟨data, hdata⟩ : ∃ data, D + arg_offset args args.length = data := ⟨_, rfl⟩
  have hdata1 : data + fname.length + 2 = D + dl := by omega
  -- the run of the function, given the result of its second loop
  have hrun : ∀ m4 : Nat → Nat,
      fill_args (packet + 4) l args.length 0 D
        (store32 (store32 (memset mem l 0 (12 + 4 * args.length + dl)) l args.length) (l + 4) dl) =
        some (m4, data) →
      load32 (store32 m4 (l + 8) data) packet = fn →
      is_cstring (store32 m4 (l + 8) data) fn fname = true →
      load32 (memcpy (store32 m4 (l + 8) data) data fn fname.length) packet = fn →
      is_cstring (memcpy (store32 m4 (l + 8) data) data fn fname.length) fn fname = true →
      exec_copy_argv mem (some l) packet =
        some (KERN_SUCCESS, memcpy (store32 m4 (l + 8) data) data fn fname.length, l) := by
    intro m4 hfill g1 g2 g3 g4
    have e0 : (packet + 4) % WORD = packet + 4 := Nat.mod_eq_of_lt (by omega)
    have e1 : (arg_offset args args.length + 1) % WORD = arg_offset args args.length + 1 :=
      Nat.mod_eq_of_lt (by omega)
    have e2 : (arg_offset args args.length + 1 + fname.length + 1) % WORD = dl := by
      rw [hdl]
      exact Nat.mod_eq_of_lt (by omega)
    have e3 : (12 + 4 * args.length + dl) % WORD = 12 + 4 * args.length + dl :=
      Nat.mod_eq_of_lt (by omega)
    have e4 : data_len_at l = l + 4 := Nat.mod_eq_of_lt (by omega)
    have e5 : filename_at l = l + 8 := Nat.mod_eq_of_lt (by omega)
    have e6 : argv_at l args.length = D := by
      rw [← hD]
      exact Nat.mod_eq_of_lt (by omega)
    have e7 : argc_at l = l := rfl
    have e8 : (data + fname.length + 1) % WORD = data + fname.length + 1 :=
      Nat.mod_eq_of_lt (by omega)
    have e9 : (l + 12 + 4 * args.length + dl) % WORD = D + dl := by
      rw [hD]
      exact Nat.mod_eq_of_lt (by omega)
    unfold exec_copy_argv
    rw [e0, if_neg (by omega)]
    simp only [hcount, e1, hfn0,
      strlen_of_cstring mem _ fn STRLEN_FUEL hfs hfW (by unfold STRLEN_FUEL; omega), e2, e3, e4,
      e5, e6, e7, hfill, g1,
      strlen_of_cstring _ _ fn STRLEN_FUEL g2 hfW (by unfold STRLEN_FUEL; omega), g3,
      strlen_of_cstring _ _ fn STRLEN_FUEL g4 hfW (by unfold STRLEN_FUEL; omega), e8, e9]
    rw [if_pos (by omega)]
  clear hcount
  have hslotj : ∀ j, j < args.length → argv_at l j = l + 12 + 4 * j :=
    fun j hj => Nat.mod_eq_of_lt (by omega)
  have e4 : data_len_at l = l + 4 := Nat.mod_eq_of_lt (by omega)
  have e5 : filename_at l = l + 8 := Nat.mod_eq_of_lt (by omega)
  have e7 : argc_at l = l := rfl
  -- the block after `memset` and the stores of `argc` and `data_len`
  have hsize : l + (12 + 4 * args.length + dl) = D + dl := by omega
  generalize 12 + 4 * args.length + dl = size at hrun hsize
  have hm3 : ∀ a, l + 8 ≤ a ∨ a < l →
      store32 (store32 (memset mem l 0 size) l args.length) (l + 4) dl a =
        memset mem l 0 size a := by
    intro a ha
    rw [store32_other _ _ _ _ (by omega) (by omega), store32_other _ _ _ _ (by omega) (by omega)]
  have hargc3 : load32 (store32 (store32 (memset mem l 0 size) l args.length) (l + 4) dl) l =
      args.length := by
    rw [load32_store32_other _ _ _ _ (by omega) (by omega) (by omega)]
    exact load32_store32 _ _ _ (by omega) (by omega)
  have hdl3 : load32 (store32 (store32 (memset mem l 0 size) l args.length) (l + 4) dl) (l + 4) =
      dl := load32_store32 _ _ _ (by omega) (by omega)
  have hinv0 : fill_args_inv mem
      (store32 (store32 (memset mem l 0 size) l args.length) (l + 4) dl) l
      (l + 12 + 4 * args.length) (D + dl) U args 0
      (store32 (store32 (memset mem l 0 size) l args.length) (l + 4) dl) := by
    refine ⟨?_, fun _ _ => rfl, fun j hj => absurd hj (Nat.not_lt_zero j), ?_⟩
    · intro a h1 h2
      rw [hm3 a (by omega)]
      exact memset_out mem l 0 _ a (by omega) h2 (Or.inr (by omega))
    · intro a h1 h2
      rw [arg_offset_zero, hD] at h1
      rw [hm3 a (by omega)]
      exact memset_in mem l 0 _ a (by omega) (by omega) (by omega)
  generalize store32 (store32 (memset mem l 0 size) l args.length) (l + 4) dl = m3
    at hrun hargc3 hdl3 hinv0
  clear hm3
  obtain ⟨m4, hfill, hu4, hlow4, hc4, hd4⟩ := fill_args_spec mem m3 (packet + 4) av l (D + dl) U
    args hav0 (by omega) (by omega) havU (by omega)
    (fun j hj => ⟨(hq j hj).1, (hq j hj).2.2.1, (hq j hj).2.2.2⟩) (by rw [hD]; omega)
    (by omega) args.length 0 m3 (by omega) hinv0
  rw [arg_offset_zero, hD, show D + 0 = D from rfl, hdata] at hfill
  rw [hD, hdata] at hd4
  rw [hD] at hc4
  clear hinv0
  -- the memory after the store of `filename` and after the copy of the name
  have hm5 : ∀ a, l + 12 ≤ a ∨ a < l + 8 → store32 m4 (l + 8) data a = m4 a :=
    fun a ha => store32_other _ _ _ _ (by omega) (by omega)
  have hm6 : ∀ a, a < WORD → (a < data ∨ data + fname.length ≤ a) →
      memcpy (store32 m4 (l + 8) data) data fn fname.length a = store32 m4 (l + 8) data a :=
    fun a ha h => memcpy_out _ _ _ _ a (by omega) ha h
  have hu5 : ∀ a, U ≤ a → a < WORD → store32 m4 (l + 8) data a = mem a := by
    intro a h1 h2
    rw [hm5 a (by omega)]
    exact hu4 a h1 h2
  have hu6 : ∀ a, U ≤ a → a < WORD →
      memcpy (store32 m4 (l + 8) data) data fn fname.length a = mem a := by
    intro a h1 h2
    rw [hm6 a h2 (by omega)]
    exact hu5 a h1 h2
  have huser : ∀ m1 : Nat → Nat, (∀ a, U ≤ a → a < WORD → m1 a = mem a) →
      load32 m1 packet = fn ∧ is_cstring m1 fn fname = true := by
    intro m1 h1
    exact ⟨(load32_congr _ mem _ (by omega) (fun b hb1 hb2 => h1 b (by omega) (by omega))).trans
      hfn0, is_cstring_congr mem _ _ _ (fun a ha1 ha2 => h1 a (by omega) (by omega)) hfs⟩
  have hall := hrun m4 hfill (huser _ hu5).1 (huser _ hu5).2 (huser _ hu6).1 (huser _ hu6).2
  clear hrun huser hfill hav0 hfn0 havU hav hq
  -- what the sequel needs of the layout
  have k3 : data + fname.length + 2 ≤ U := by omega
  have k4 : U + 8 ≤ WORD := by omega
  have k5 : l + 12 ≤ D := by omega
  have k6 : data + fname.length < D + dl := by omega
  clear hU hpU hpW hblock hdl hsize hdata1
  have c1 : load32 (memcpy (store32 m4 (l + 8) data) data fn fname.length) (argc_at l) =
      args.length := by
    rw [e7]
    refine (load32_congr _ m3 _ (by omega) (fun b h1 h2 => ?_)).trans hargc3
    rw [hm6 b (by omega) (Or.inl (by omega)), hm5 b (by omega), hlow4 b (by omega)]
  have c2 : load32 (memcpy (store32 m4 (l + 8) data) data fn fname.length) (data_len_at l) =
      dl := by
    rw [e4]
    refine (load32_congr _ m3 _ (by omega) (fun b h1 h2 => ?_)).trans hdl3
    rw [hm6 b (by omega) (Or.inl (by omega)), hm5 b (by omega), hlow4 b (by omega)]
  clear hargc3 hdl3 e4 e7 hlow4
  have c4 : load32 (memcpy (store32 m4 (l + 8) data) data fn fname.length) (filename_at l) =
      data := by
    rw [e5]
    exact (load32_congr _ (store32 m4 (l + 8) data) _ (by omega)
      (fun b h1 h2 => hm6 b (by omega) (Or.inl (by omega)))).trans
      (load32_store32 _ _ _ (by omega) (by omega))
  clear e5
  have c5 : is_cstring (memcpy (store32 m4 (l + 8) data) data fn fname.length) data fname =
      true := by
    rw [is_cstring_iff] at hfs ⊢
    refine ⟨fun t ht => ?_, ?_⟩
    · rw [memcpy_in _ _ _ _ _ (by omega) (by omega) (by omega) (by omega),
        show data + t - data = t by omega, hu5 _ (by omega) (by omega)]
      exact hfs.1 t ht
    · rw [hm6 _ (by omega) (Or.inr (by omega)), hm5 _ (by omega)]
      exact hd4 _ (by omega) (by omega)
  clear hfs hfW hfU hd4 hu5 hu4
  refine ⟨_, hall, c1, c2, ?_, c4.trans hdata.symm, by rw [hdata]; exact c5, hu6⟩
  clear c1 c2 c4 c5 hall hu6
  intro j hj
  obtain ⟨h1, h2⟩ := hc4 j hj hj
  have hoj := arg_offset_succ args j hj
  have hmj := arg_offset_mono args (j + 1) args.length (by omega) (Nat.le_refl _)
  have hs := hslotj j hj
  clear hc4 hslotj
  refine ⟨?_, ?_⟩
  · refine (load32_congr _ m4 _ (by rw [hs]; omega) (fun b hb1 hb2 => ?_)).trans h1
    rw [hs] at hb1 hb2
    rw [hm6 b (by omega) (Or.inl (by omega)), hm5 b (by omega)]
  · refine is_cstring_congr m4 _ _ _ (fun a ha1 ha2 => ?_) h2
    rw [hm6 a (by omega) (Or.inl (by omega)), hm5 a (by omega)]

/-- The frame of `exec`, for every vector `args` of non-empty strings that
the user passes (with the file name `fname`) and whose frame lies in mapped
pages of the stack: `exec_copy_argv` returns a block, and
`exec_copy_argv_to_stack`, run on any memory that still holds this block,
returns a stack pointer `sp` that is 4-byte aligned and lies below the stack
top; the words from `sp` upward are 0xDEADBEEF, `argc`, the address of the
next word, and `argc` pointers, each to a NUL-terminated copy of its string
that lies above the array of pointers and below the stack top.  The user data
lie from `U` upward, the block of `malloc` below `U`, and the frame fits
between the end of the block and the stack top. -/
theorem exec_frame_layout (vm : task_vm) (mem : Nat → Nat) (packet l U stack : Nat)
    (args : List (List Nat)) (fname : List Nat)
    (hU : 0 < U) (hpU : U ≤ packet) (hpW : packet + 8 ≤ WORD)
    (hfU : U ≤ load32 mem packet)
    (hfs : is_cstring mem (load32 mem packet) fname = true)
    (hfW : load32 mem packet + fname.length < WORD)
    (havU : U ≤ load32 mem (packet + 4))
    (hav : load32 mem (packet + 4) + 4 * args.length + 4 ≤ WORD)
    (hq : ∀ j, j < args.length →
      U ≤ load32 mem (load32 mem (packet + 4) + 4 * j) ∧ args.getD j [] ≠ [] ∧
        is_cstring mem (load32 mem (load32 mem (packet + 4) + 4 * j)) (args.getD j []) = true ∧
        load32 mem (load32 mem (packet + 4) + 4 * j) + (args.getD j []).length < WORD)
    (hend : load32 mem (load32 mem (packet + 4) + 4 * args.length) = 0 ∨
      mem (load32 mem (load32 mem (packet + 4) + 4 * args.length)) = 0)
    (hblock : l + 12 + 4 * args.length + (arg_offset args args.length + 1 + fname.length + 1) ≤ U)
    (hfit : l + 12 + 4 * args.length + (arg_offset args args.length + 1 + fname.length + 1) +
      4 * args.length + 12 + 3 + (arg_offset args args.length + 1 + fname.length + 1) + 4 ≤ stack)
    (hstack : stack < WORD)
    (hmap : ∀ a,
      stack ≤ a + (4 * args.length + 19 +
        (arg_offset args args.length + 1 + fname.length + 1)) →
      a < stack → page_mapped vm a = true) :
    ∃ mem1, exec_copy_argv mem (some l) packet = some (KERN_SUCCESS, mem1, l) ∧
      ∀ mem2 : Nat → Nat,
        (∀ a, l ≤ a →
          a < l + 12 + 4 * args.length + (arg_offset args args.length + 1 + fname.length + 1) →
          mem2 a = mem1 a) →
        ∃ mem3 sp, exec_copy_argv_to_stack vm mem2 stack l =
            some (user_access.done (mem3, sp)) ∧
          sp % 4 = 0 ∧ sp < stack ∧
          load32 mem3 sp = 0xDEADBEEF ∧ load32 mem3 (sp + 4) = args.length ∧
          load32 mem3 (sp + 8) = sp + 12 ∧
          ∀ j, j < args.length →
            sp + 12 + 4 * args.length ≤ load32 mem3 (sp + 12 + 4 * j) ∧
              load32 mem3 (sp + 12 + 4 * j) + (args.getD j []).length + 1 ≤ stack ∧
              is_cstring mem3 (load32 mem3 (sp + 12 + 4 * j)) (args.getD j []) = true := by
  have hW : WORD = 4294967296 := rfl
  obtain ⟨mem1, hrun, hargc, hdl, hargv, -, -, -⟩ := exec_copy_argv_spec mem packet l U args
    fname hU hpU hpW hfU hfs hfW havU hav hq hend hblock
  refine ⟨mem1, hrun, fun mem2 hsame => ?_⟩
  generalize hdl0 : arg_offset args args.length + 1 + fname.length + 1 = dl
    at hblock hfit hdl hsame hmap
  have hslotj : ∀ j, j < args.length → argv_at l j = l + 12 + 4 * j :=
    fun j hj => Nat.mod_eq_of_lt (by omega)
  have hargc2 : load32 mem2 (argc_at l) = args.length :=
    (load32_congr _ mem1 _ (by unfold argc_at; omega)
      (fun b h1 h2 => hsame b (by unfold argc_at at h1; omega)
        (by unfold argc_at at h2; omega))).trans hargc
  have e4 : data_len_at l = l + 4 := Nat.mod_eq_of_lt (by omega)
  have hdl2 : load32 mem2 (data_len_at l) = dl :=
    (load32_congr _ mem1 _ (by rw [e4]; omega)
      (fun b h1 h2 => hsame b (by rw [e4] at h1; omega) (by rw [e4] at h2; omega))).trans hdl
  have hargv2 : ∀ j, j < args.length →
      load32 mem2 (argv_at l j) = l + 12 + 4 * args.length + arg_offset args j ∧
        is_cstring mem2 (l + 12 + 4 * args.length + arg_offset args j) (args.getD j []) = true := by
    intro j hj
    obtain ⟨h1, h2⟩ := hargv j hj
    have hoj := arg_offset_succ args j hj
    have hmj := arg_offset_mono args (j + 1) args.length (by omega) (Nat.le_refl _)
    refine ⟨?_, ?_⟩
    · refine (load32_congr _ mem1 _ (by rw [hslotj j hj]; omega) (fun b hb1 hb2 => ?_)).trans h1
      rw [hslotj j hj] at hb1 hb2
      exact hsame b (by omega) (by omega)
    · exact is_cstring_congr mem1 _ _ _ (fun a ha1 ha2 => hsame a (by omega) (by omega)) h2
  obtain ⟨mem3, sp, ds, hrun3, hds3, hds1, hds2, hsp, hBsp, hw0, hw1, hw2, hptr, -⟩ :=
    exec_copy_argv_to_stack_spec vm mem2 stack l (l + 12 + 4 * args.length + dl) args hargc2
      (by rw [hdl2]; omega) (by omega)
      (fun j hj => by
        obtain ⟨h1, h2⟩ := hargv2 j hj
        have hoj := arg_offset_succ args j hj
        have hmj := arg_offset_mono args (j + 1) args.length (by omega) (Nat.le_refl _)
        rw [h1]
        exact ⟨by omega, by omega, h2⟩)
      (by rw [hdl2]; omega) hstack (by rw [hdl2]; exact hmap)
  rw [hdl2] at hds1 hds2
  refine ⟨mem3, sp, hrun3, by omega, by omega, hw0, hw1, hw2, fun j hj => ?_⟩
  obtain ⟨h1, h2⟩ := hptr j hj
  have hoj := arg_offset_succ args j hj
  have hmj := arg_offset_mono args (j + 1) args.length (by omega) (Nat.le_refl _)
  rw [h1]
  exact ⟨by omega, by omega, h2⟩

/-- In the address space after `load_elf` on the concrete machine the pages of
the stack are `[0xffffa000, 0xffffc000)`; the page below is not mapped and a
fault of the kernel on an aligned address of it is classified KILL. -/
theorem demo_stack_pages (la : Nat) (h1 : 0xffff9000 ≤ la) (h2 : la < 0xffffa000)
    (h4 : la % 4 = 0) :
    demo_state.2.vm.vm_stack_start = 0xffffa000 ∧ demo_state.2.vm.vm_stack_len = 0x2000 ∧
      page_mapped demo_state.2.vm la = false ∧
      analyse_fault demo_platform demo_state.2 error_kernel_write_absent la =
        FAULT_ACTION_KILL := by
  have hs : demo_state.2.vm.vm_stack_start = 0xffffa000 := by decide
  have hr : demo_state.2.vm.vm_ranges_head =
      [{ start := 0, len := 0x01000000, kernel := true },
        { start := 0xffffa000, len := 0x2000, kernel := false },
        { start := 0x01002000, len := 0x1000, kernel := false },
        { start := 0x01001000, len := 0x1000, kernel := false },
        { start := 0x01000000, len := 0x1000, kernel := false }] := by decide
  have hU : demo_platform.USER_MEM_START = 0x01000000 := rfl
  have hW : WORD = 4294967296 := rfl
  refine ⟨hs, by decide, ?_, ?_⟩
  · have hv : VPN la = 0xffff9 := by
      unfold VPN PAGE_SIZE
      omega
    unfold page_mapped
    rw [hv, show (demo_state.2.vm.pte 0xffff9).PRESENT = false by decide, Bool.and_false]
  · have hg : vmm_get_range demo_state.2.vm la = none := by
      unfold vmm_get_range
      rw [hr, List.find?_eq_none]
      intro r hr1
      simp only [List.mem_cons, List.mem_singleton, List.not_mem_nil, or_false] at hr1
      rcases hr1 with rfl | rfl | rfl | rfl | rfl <;>
        simp only [range_holds, Bool.not_true, Bool.not_false, Bool.false_and, Bool.true_and,
          Bool.and_eq_true, decide_eq_true_eq, not_and, not_lt, hW, ge_iff_le, Bool.false_eq_true,
          not_false_eq_true] <;> omega
    unfold analyse_fault
    rw [hg, hs, hU]
    simp only [error_kernel_write_absent, Bool.false_and, Bool.false_eq_true, if_false,
      Option.isSome_none, and_false, false_and, Option.isNone_none, true_and]
    rw [if_neg (by omega), if_neg (by unfold WORD; omega)]

theorem exec_copy_argv_to_stack_fault (vm : task_vm) (mem : Nat → Nat) (stack ea dl la : Nat)
    (hdl : load32 mem (data_len_at ea) = dl) (hstack : stack < WORD) (h : dl + 4 ≤ stack)
    (hla : stack - 4 - dl - (stack - 4 - dl) % 4 = la) (hm : page_mapped vm la = false) :
    exec_copy_argv_to_stack vm mem stack ea = some (user_access.fault la) := by
  have e1 : (stack + WORD - 4) % WORD = stack - 4 := by
    unfold WORD at hstack ⊢
    omega
  have e2 : (stack - 4 + WORD - dl) % WORD = stack - 4 - dl := by
    unfold WORD at hstack ⊢
    omega
  have e3 : 0 < (stack + WORD - la) % WORD := by
    unfold WORD at hstack ⊢
    omega
  have e4 : la < WORD := by
    unfold WORD at hstack ⊢
    omega
  unfold exec_copy_argv_to_stack
  simp only [hdl, e1, e2, hla]
  rw [first_unmapped_first vm la _ e3 e4 hm]

/-- C21: in the address space after `load_elf`, whose stack is the two pages
`[0xffffa000, 0xffffc000)`, `exec_copy_argv_to_stack` builds no frame for an
`exec_args` whose `data_len` lies between 0x1ffd and 0x2ffc, the value that
`exec_copy_argv` stores for arguments of that size in total: the first store,
of `memset`, goes to a 4-byte aligned address `la` of the page below the
stack, which is not mapped, and the page fault at `la` is classified
`FAULT_ACTION_KILL`. -/
theorem exec_frame_overruns_stack (mem : Nat → Nat) (ea dl : Nat)
    (hdl : load32 mem (data_len_at ea) = dl) (h1 : 0x1ffd ≤ dl) (h2 : dl ≤ 0x2ffc) :
    ∃ la, la % 4 = 0 ∧ 0xffff9000 ≤ la ∧ la < 0xffffa000 ∧
      (demo_exec 64).map (fun s =>
          exec_copy_argv_to_stack s.2.vm mem (s.2.vm.vm_stack_start + s.2.vm.vm_stack_len) ea) =
        some (some (user_access.fault la)) ∧
      (demo_exec 64).map (fun s =>
          analyse_fault demo_platform s.2 error_kernel_write_absent la) =
        some FAULT_ACTION_KILL := by
  have he : demo_exec 64 = some demo_state := (Option.some_get _).symm
  obtain ⟨la, hla, k1, k2, k3⟩ : ∃ la,
      0xffffc000 - 4 - dl - (0xffffc000 - 4 - dl) % 4 = la ∧ la % 4 = 0 ∧ 0xffff9000 ≤ la ∧
        la < 0xffffa000 := ⟨_, rfl, by omega, by omega, by omega⟩
  obtain ⟨hs, hl, hm, hk⟩ := demo_stack_pages la k2 k3 k1
  have hrun : ∀ s : Kernel × ktask, s.2.vm.vm_stack_start = 0xffffa000 →
      s.2.vm.vm_stack_len = 0x2000 → page_mapped s.2.vm la = false →
      exec_copy_argv_to_stack s.2.vm mem (s.2.vm.vm_stack_start + s.2.vm.vm_stack_len) ea =
        some (user_access.fault la) := by
    intro s h3 h4 h5
    rw [h3, h4]
    exact exec_copy_argv_to_stack_fault s.2.vm mem _ ea dl la hdl (by decide) (by omega) hla h5
  refine ⟨la, k1, k2, k3, ?_, ?_⟩
  · rw [he]
    exact congrArg some (hrun demo_state hs hl hm)
  · rw [he]
    exact congrArg some hk

/-- Witness of `exec_frame_overruns_stack`: a block whose `data_len` is
0x2000; the fault is at 0xffff9ffc. -/
theorem exec_frame_overruns_stack_witness :
    ∃ la, la % 4 = 0 ∧ 0xffff9000 ≤ la ∧ la < 0xffffa000 ∧
      (demo_exec 64).map (fun s =>
          exec_copy_argv_to_stack s.2.vm (demo_exec_args_of_len 0x2000)
            (s.2.vm.vm_stack_start + s.2.vm.vm_stack_len) 0x00200000) =
        some (some (user_access.fault la)) ∧
      (demo_exec 64).map (fun s =>
          analyse_fault demo_platform s.2 error_kernel_write_absent la) =
        some FAULT_ACTION_KILL :=
  exec_frame_overruns_stack (demo_exec_args_of_len 0x2000) 0x00200000 0x2000 (by decide)
    (by decide) (by decide)

/-- The frame of `exec("shell", ["shell"])`, scenario S2, by the general
lemma: the block is at 0x00200000, the stack top at 0xffffc000 and the frame
lies in the two mapped pages of the stack. -/
theorem exec_shell_frame_layout :
    ∃ mem1, exec_copy_argv demo_exec_user_mem (some 0x00200000) 0x01002100 =
        some (KERN_SUCCESS, mem1, 0x00200000) ∧
      ∀ mem2 : Nat → Nat,
        (∀ a, 0x00200000 ≤ a →
          a < 0x00200000 + 12 + 4 * [demo_shell].length +
            (arg_offset [demo_shell] [demo_shell].length + 1 + demo_shell.length + 1) →
          mem2 a = mem1 a) →
        ∃ mem3 sp, exec_copy_argv_to_stack demo_state.2.vm mem2 0xffffc000 0x00200000 =
            some (user_access.done (mem3, sp)) ∧
          sp % 4 = 0 ∧ sp < 0xffffc000 ∧
          load32 mem3 sp = 0xDEADBEEF ∧ load32 mem3 (sp + 4) = [demo_shell].length ∧
          load32 mem3 (sp + 8) = sp + 12 ∧
          ∀ j, j < [demo_shell].length →
            sp + 12 + 4 * [demo_shell].length ≤ load32 mem3 (sp + 12 + 4 * j) ∧
              load32 mem3 (sp + 12 + 4 * j) + ([demo_shell].getD j []).length + 1 ≤ 0xffffc000 ∧
              is_cstring mem3 (load32 mem3 (sp + 12 + 4 * j)) ([demo_shell].getD j []) = true :=
  exec_frame_layout demo_state.2.vm demo_exec_user_mem 0x01002100 0x00200000 0x01000000 0xffffc000
    [demo_shell] demo_shell (by decide) (by decide) (by decide) (by decide) (by decide)
    (by decide) (by decide) (by decide) (by decide) (by decide) (by decide) (by decide)
    (by decide)
    (fun a h1 h2 => by
      have ho : arg_offset [demo_shell] [demo_shell].length = 6 := by decide
      have hl : demo_shell.length = 5 := rfl
      have hn : [demo_shell].length = 1 := rfl
      rw [ho, hl, hn] at h1
      have hv : VPN a = 0xffffb := by
        unfold VPN PAGE_SIZE
        omega
      have hp : PDE_IDX a = 1023 := by
        unfold PDE_IDX PAGE_SIZE PTE_PER_PAGE
        omega
      unfold page_mapped
      rw [hv, hp]
      decide)

/-- Scenario S2 evaluated: the frame of `exec("shell", ["shell"])` starts at
0xffffbfdc and holds 0xDEADBEEF, 1, the address 0xffffbfe8 of the next word,
the pointer 0xffffbfec, and there the string "shell" with its NUL. -/
theorem exec_shell_frame :
    demo_exec_frame.map frame_words =
        some (0xffffbfdc, [0xDEADBEEF, 1, 0xffffbfe8, 0xffffbfec, 0x6c656873]) ∧
      demo_exec_frame.map (fun r =>
          match r with
          | user_access.done x => is_cstring x.1 0xffffbfec demo_shell
          | user_access.fault _ => false) = some true := by
  refine ⟨?_, ?_⟩ <;> decide

/-! ## `sleep` and a timer interrupt inside it -/

theorem syscall_sleep_eq (G : Symbols) (user_param_packet : Nat) (s : Machine) :
    syscall_sleep G user_param_packet s =
      syscall_sleep_2 G (syscall_sleep_1 G user_param_packet s) := rfl

theorem sched_queue_true_last (s : Machine) (l : List Nat) (hci : s.current ≠ s.idle_task) :
    ∃ l1, sched_queue s true l = l1 ++ [s.current] := by
  cases l with
  | nil => exact ⟨[], by simp [sched_queue, hci]⟩
  | cons f rest =>
    by_cases h : (s.threads f).run_flag < 0
    · exact ⟨rest ++ [f], by simp [sched_queue, hci, h]⟩
    · exact ⟨rest, by simp [sched_queue, hci, h]⟩

/-- The state between the insertion and the `schedule` of `sleep(n)`: the
caller is the last sleeper, it still runs, and the run queue is as before. -/
theorem syscall_sleep_1_spec (G : Symbols) (s : Machine) (n : Nat) (sl rq : List Nat)
    (hn : n < 2147483648) (h : tick_ready G s sl rq)
    (hheads : G.kern_slackers_kthread_head ≠ G.run_queue)
    (hcS : s.current ≠ G.kern_slackers_kthread_head) :
    is_queue (syscall_sleep_1 G n s).kthread_wait G.kern_slackers_kthread_head
        (sl ++ [s.current]) ∧
      is_queue (syscall_sleep_1 G n s).kthread_wait G.run_queue rq ∧
      ((syscall_sleep_1 G n s).threads s.current).sleepticks = n ∧
      (syscall_sleep_1 G n s).current = s.current ∧
      (syscall_sleep_1 G n s).idle_task = s.idle_task ∧
      (syscall_sleep_1 G n s).ticks = s.ticks ∧ (syscall_sleep_1 G n s).IF = s.IF := by
  obtain ⟨hsl, hrq, hdis, hnR, -, hc1, hc2, hcR, hc0, hi1, hi2, hiR, hi0⟩ := h
  have hsl1 := is_queue_insert_tail s.kthread_wait G.kern_slackers_kthread_head s.current sl hsl
    hc1 hcS hc0
  have hfr1 := insert_tail_frame s.kthread_wait G.kern_slackers_kthread_head s.current sl hsl
  have hrq1 : is_queue (Q_INSERT_TAIL s.kthread_wait G.kern_slackers_kthread_head s.current)
      G.run_queue rq := by
    apply is_queue_of_frame _ _ _ _ _ _ hrq hfr1 (by simpa using Ne.symm hheads)
    intro x hx hx2
    rcases List.mem_cons.1 hx2 with e | e
    · exact hc2 (e ▸ hx)
    · exact hdis x e hx
  have hni : to_i32 n = (n : Int) := by
    unfold to_i32 WORD
    rw [Nat.mod_eq_of_lt (by omega), if_pos (by omega)]
  refine ⟨hsl1, hrq1, ?_, rfl, rfl, rfl, rfl⟩
  show (upd s.threads s.current _ s.current).sleepticks = n
  rw [upd_same]
  exact hni

/-- A timer interrupt that arrives between the insertion and the `schedule`
of `sleep(n)`, `2 ≤ n`: the tick leaves the caller on the sleepers queue with
`n - 1` ticks to go, and its `schedule(CURRENT_RUNNABLE)` appends the caller,
the interrupted thread, to the run queue through the same link
`kthread_wait`.  The head of the sleepers queue still names the caller as its
last element, but the link of the caller leads to the head of the run queue:
the sleepers queue is no queue any more. -/
theorem sleep_race_spec (G : Symbols) (s : Machine) (n : Nat) (sl rq : List Nat)
    (hn1 : 2 ≤ n) (hn2 : n < 2147483648)
    (hheads : G.kern_slackers_kthread_head ≠ G.run_queue) (h : tick_ready G s sl rq)
    (hcS : s.current ≠ G.kern_slackers_kthread_head) (hci : s.current ≠ s.idle_task)
    (hlen : sl.length + 1 < WORD) :
    ∃ s1 rq1, _BASE_TIMER_CALL_BACK G (syscall_sleep_1 G n s) = some s1 ∧
      is_queue s1.kthread_wait G.run_queue (rq1 ++ [s.current]) ∧
      s1.current ≠ s.current ∧
      (s1.threads s.current).sleepticks = (n : Int) - 1 ∧
      (s1.kthread_wait.head G.kern_slackers_kthread_head).prev = s.current ∧
      (s1.kthread_wait.link s.current).next = G.run_queue ∧
      (∀ l, ¬ is_queue s1.kthread_wait G.kern_slackers_kthread_head l) ∧
      s1.ticks = (s.ticks + 1) % WORD := by
  obtain ⟨a1, a2, a3, a4, a5, a6, -⟩ := syscall_sleep_1_spec G s n sl rq hn2 h hheads hcS
  obtain ⟨hsl, hrq, hdis, hnR, -, hc1, hc2, hcR, hc0, hi1, hi2, hiR, hi0⟩ := h
  generalize syscall_sleep_1 G n s = s0 at a1 a2 a3 a4 a5 a6 ⊢
  have hmem : ∀ x, x ∈ sl ++ [s.current] → x ∉ rq := by
    intro x hx
    rcases List.mem_append.1 hx with e | e
    · exact hdis x e
    · rw [List.mem_singleton.1 e]; exact hc2
  obtain ⟨m, hm, hm1, hm2, hm3, -, hm5, hm6, hm7⟩ :
      ∃ m, sleep_bottom_half G { s0 with ticks := (s0.ticks + 1) % WORD } = some m ∧
        is_queue m.kthread_wait G.kern_slackers_kthread_head
          (sleep_stay s0 (sl ++ [s.current])) ∧
        is_queue m.kthread_wait G.run_queue (rq ++ sleep_woken s0 (sl ++ [s.current])) ∧
        (∀ y ∈ sl ++ [s.current], (m.threads y).sleepticks = slept s0 y) ∧
        (∀ y, (m.threads y).run_flag = (s0.threads y).run_flag) ∧
        m.current = s0.current ∧ m.idle_task = s0.idle_task ∧
        m.ticks = (s0.ticks + 1) % WORD :=
    sleep_bottom_half_spec G hheads
      { s0 with ticks := (s0.ticks + 1) % WORD } (sl ++ [s.current]) rq a1 a2 hmem
      (by
        intro x hx
        rcases List.mem_append.1 hx with e | e
        · exact hnR x e
        · rw [List.mem_singleton.1 e]; exact hcR)
      (by simpa using hlen)
  have hsl0 : slept s0 s.current = (n : Int) - 1 := by
    unfold slept
    rw [a3]
    exact wrap_int_id _ (by omega) (by omega)
  have hstay : sleep_stay s0 (sl ++ [s.current]) = sleep_stay s0 sl ++ [s.current] := by
    have hd : decide (¬ slept s0 s.current ≤ 0) = true := by
      rw [hsl0]
      exact decide_eq_true (by omega)
    simp only [sleep_stay, List.filter_append, List.filter_cons, hd, if_true, List.filter_nil]
  have hwoken : sleep_woken s0 (sl ++ [s.current]) = sleep_woken s0 sl := by
    have hd : decide (slept s0 s.current ≤ 0) = false := by
      rw [hsl0]
      exact decide_eq_false (by omega)
    simp [sleep_woken, List.filter_append, List.filter_cons, hd]
  rw [hstay] at hm1
  rw [hwoken] at hm2
  have hwk : ∀ x, x ∈ sleep_woken s0 sl → x ∈ sl := by
    intro x hx
    exact (List.mem_filter.1 hx).1
  have hcm : m.current = s.current := hm5.trans a4
  have him : m.idle_task = s.idle_task := hm6.trans a5
  have hcl : m.current ∉ rq ++ sleep_woken s0 sl := by
    rw [hcm]
    intro hx
    rcases List.mem_append.1 hx with e | e
    · exact hc2 e
    · exact hc1 (hwk _ e)
  have hil : m.idle_task ∉ rq ++ sleep_woken s0 sl := by
    rw [him]
    intro hx
    rcases List.mem_append.1 hx with e | e
    · exact hi2 e
    · exact hi1 (hwk _ e)
  obtain ⟨q1, b, sf, hs, hq1, hfr⟩ := schedule_spec G true m (rq ++ sleep_woken s0 sl) hm2 hcl
    (by rw [hcm]; exact hcR) (by rw [hcm]; exact hc0) hil
  obtain ⟨rq1, hrq1⟩ := sched_queue_true_last m (rq ++ sleep_woken s0 sl)
    (by rw [hcm, him]; exact hci)
  rw [hrq1, hcm] at hq1
  have hlast1 := is_queue_last _ _ _ hm1
  have hlast2 := is_queue_last _ _ _ hq1
  simp only [List.getLastD_concat] at hlast1 hlast2
  have hnext : (q1.link s.current).next = G.run_queue := by
    have := hlast2.2
    unfold Q_next at this
    rwa [if_neg hcR] at this
  have hprev : (q1.head G.kern_slackers_kthread_head).prev = s.current := by
    rw [hfr.1 _ (by simpa using hheads)]
    exact hlast1.1
  refine ⟨{ m with
    kthread_wait := q1, current := sched_next m (rq ++ sleep_woken s0 sl), IF := b,
    savedflags := sf }, rq1, ?_, hq1, ?_, ?_, hprev, hnext, ?_, hm7.trans (by rw [a6])⟩
  · unfold _BASE_TIMER_CALL_BACK scheduler_timer_callback
    simp only [hm]
    exact hs
  · show sched_next m _ ≠ s.current
    rcases sched_next_mem m (rq ++ sleep_woken s0 sl) with e | e
    · rw [e, him]; exact Ne.symm hci
    · exact fun e2 => hcl (by rw [hcm, ← e2]; exact e)
  · show (m.threads s.current).sleepticks = (n : Int) - 1
    rw [hm3 _ (by simp), hsl0]
  · intro l hl
    have h3 := is_queue_last _ _ _ hl
    have h4 : l.getLastD G.kern_slackers_kthread_head = s.current := h3.1.symm.trans hprev
    have h5 := h3.2
    rw [h4] at h5
    unfold Q_next at h5
    rw [if_neg hcS] at h5
    exact hheads (h5.symm.trans hnext)

/-- The race on `demo_machine`: the initial thread of `TASK1` is interrupted
by the timer between the insertion and the `schedule` of `sleep(5)`.  After
that tick it is the last thread of the run queue with 4 ticks to go, the head
of the sleepers queue still names it, and its link leads to the head of the
run queue.  With `sleep(1)` the tick wakes the thread while it still runs and
`schedule` appends it to the run queue a second time: the queue of three
threads counts four elements and the link of the thread leads to itself. -/
theorem sleep_race_demo :
    demo_machine.current = TASK1 ∧ demo_machine.IF = true ∧
      run_queue_list demo_symbols demo_machine = [THREAD_A, THREAD_B, TASK2] ∧
      demo_sleep_race.map (fun s => (s.current, run_queue_list demo_symbols s,
          (s.threads TASK1).sleepticks,
          (s.kthread_wait.head demo_symbols.kern_slackers_kthread_head).next,
          (s.kthread_wait.head demo_symbols.kern_slackers_kthread_head).prev,
          decide ((s.kthread_wait.link TASK1).next = demo_symbols.run_queue))) =
        some (THREAD_A, [THREAD_B, TASK2, TASK1], 4, TASK1, TASK1, true) ∧
      (_BASE_TIMER_CALL_BACK demo_symbols (syscall_sleep_1 demo_symbols 1 demo_machine)).map
          (fun s => (s.current, (s.kthread_wait.head demo_symbols.run_queue).nr_elements,
            decide ((s.kthread_wait.link TASK1).next = TASK1))) =
        some (THREAD_A, 4, true) := by
  refine ⟨?_, ?_, ?_, ?_, ?_⟩ <;> decide

theorem queues_ok_update (q q1 : Q_MEM) (H : List Nat) (cfg : Nat → List Nat) (h : Nat)
    (l1 es : List Nat) (hok : queues_ok q H cfg) (hq1 : is_queue q1 h l1)
    (hfr : Q_frame q q1 [h] es)
    (hes : ∀ x ∈ es, ∀ h2 ∈ H, h2 ≠ h → x ∉ cfg h2)
    (hl1 : ∀ x ∈ l1, x ∉ H ∧ ∀ h2 ∈ H, h2 ≠ h → x ∉ cfg h2) :
    queues_ok q1 H (Function.update cfg h l1) := by
  constructor
  · intro h' hh'
    by_cases e : h' = h
    · subst e
      rw [Function.update_same]
      exact hq1
    · rw [Function.update_noteq e]
      apply is_queue_of_frame _ _ _ _ _ _ (hok.1 h' hh') hfr (by simpa using e)
      intro x hx hx2
      exact hes x hx2 h' hh' e hx
  · intro h' hh' x hx
    by_cases e : h' = h
    · subst e
      rw [Function.update_same] at hx
      refine ⟨(hl1 x hx).1, ?_⟩
      intro h2 hh2 hne
      rw [Function.update_noteq hne]
      exact (hl1 x hx).2 h2 hh2 hne
    · rw [Function.update_noteq e] at hx
      refine ⟨(hok.2 h' hh' x hx).1, ?_⟩
      intro h2 hh2 hne
      by_cases e2 : h2 = h
      · subst e2
        rw [Function.update_same]
        intro hx1
        exact (hl1 x hx1).2 h' hh' e hx
      · rw [Function.update_noteq e2]
        exact (hok.2 h' hh' x hx).2 h2 hh2 hne

/-- A thread that is on no queue joins the tail of the queue at `h`. -/
theorem queues_ok_insert (q : Q_MEM) (H : List Nat) (cfg : Nat → List Nat) (h e : Nat)
    (hok : queues_ok q H cfg) (hh : h ∈ H) (heH : e ∉ H) (he0 : e ≠ 0)
    (hel : ∀ h2 ∈ H, e ∉ cfg h2) :
    queues_ok (Q_INSERT_TAIL q h e) H (Function.update cfg h (cfg h ++ [e])) ∧
      (∀ x, x ≠ e → x ∉ cfg h → (Q_INSERT_TAIL q h e).link x = q.link x) := by
  have hq := hok.1 h hh
  have hfr := insert_tail_frame q h e (cfg h) hq
  refine ⟨queues_ok_update q _ H cfg h _ (e :: cfg h) hok
    (is_queue_insert_tail q h e (cfg h) hq (hel h hh) (fun e1 => heH (e1 ▸ hh)) he0) hfr ?_ ?_, ?_⟩
  · intro x hx h2 hh2 hne
    rcases List.mem_cons.1 hx with e1 | e1
    · rw [e1]; exact hel h2 hh2
    · exact (hok.2 h hh x e1).2 h2 hh2 hne
  · intro x hx
    rcases List.mem_append.1 hx with e1 | e1
    · exact hok.2 h hh x e1
    · rw [List.mem_singleton.1 e1]
      exact ⟨heH, fun h2 hh2 _ => hel h2 hh2⟩
  · intro x hxe hx
    exact hfr.2 x (by simp [hxe, hx])

/-- A thread leaves the queue at `h`; its link stands alone afterwards. -/
theorem queues_ok_remove (q : Q_MEM) (H : List Nat) (cfg : Nat → List Nat) (h e : Nat)
    (hok : queues_ok q H cfg) (hh : h ∈ H) (he : e ∈ cfg h) :
    ∃ q1, Q_REMOVE q h e = some q1 ∧
      queues_ok q1 H (Function.update cfg h ((cfg h).erase e)) ∧
      q1.link e = { next := e, prev := e } ∧
      (∀ x, x ∉ cfg h → q1.link x = q.link x) ∧
      e ∉ (cfg h).erase e := by
  have hq := hok.1 h hh
  obtain ⟨q1, h1, h2, h3, h4⟩ := is_queue_remove q h e (cfg h) hq he
  have hnd : (cfg h).Nodup := (List.nodup_cons.1 hq.2.1).2
  refine ⟨q1, h1, queues_ok_update q q1 H cfg h _ (cfg h) hok h2 h3 ?_ ?_, h4,
    fun x hx => h3.2 x hx, ?_⟩
  · intro x hx h2 hh2 hne
    exact (hok.2 h hh x hx).2 h2 hh2 hne
  · intro x hx
    exact hok.2 h hh x (List.mem_of_mem_erase hx)
  · exact fun hm => ((List.Nodup.mem_erase_iff hnd).1 hm).1 rfl

theorem stand_alone_iff (q : Q_MEM) (e : Nat) :
    Q_ELEM_STAND_ALONE q e = true ↔ q.link e = { next := e, prev := e } := by
  unfold Q_ELEM_STAND_ALONE
  simp only [Bool.and_eq_true, decide_eq_true_eq]
  constructor
  · intro h
    cases hl : q.link e with
    | mk n p =>
      rw [hl] at h
      simp only at h
      rw [← h.1, h.2]
  · intro h
    rw [h]
    exact ⟨rfl, rfl⟩

theorem sched_heads_mem (G : Symbols) (W : List Nat) :
    G.run_queue ∈ sched_heads G W ∧ G.kern_slackers_kthread_head ∈ sched_heads G W ∧
      ∀ p ∈ W, sem_kthread_head_at p ∈ sched_heads G W := by
  refine ⟨by simp [sched_heads], by simp [sched_heads], ?_⟩
  intro p hp
  simp only [sched_heads, List.mem_cons, List.mem_map]
  exact Or.inr (Or.inr ⟨p, hp, rfl⟩)

theorem sched_heads_ne (G : Symbols) (W : List Nat) (hnd : (sched_heads G W).Nodup) :
    G.kern_slackers_kthread_head ≠ G.run_queue ∧
      ∀ p ∈ W, sem_kthread_head_at p ≠ G.run_queue ∧
        sem_kthread_head_at p ≠ G.kern_slackers_kthread_head := by
  unfold sched_heads at hnd
  simp only [List.nodup_cons, List.mem_cons, List.mem_map, not_or, not_exists, not_and] at hnd
  refine ⟨fun e => hnd.1.1 e.symm, fun p hp => ⟨fun e => hnd.1.2 p hp e, fun e => hnd.2.1 p hp e⟩⟩

theorem stand_alone_of_frame (q q1 : Q_MEM) (hs es : List Nat) (x : Nat)
    (hf : Q_frame q q1 hs es) (hx : x ∉ es) (ha : Q_ELEM_STAND_ALONE q x = true) :
    Q_ELEM_STAND_ALONE q1 x = true := by
  rw [stand_alone_iff] at ha ⊢
  rw [hf.2 x hx]
  exact ha

/-- The result of `schedule` as in `schedule_spec`, and the link of the
thread that is switched to stands alone: the thread has left the run queue,
or it is the idle thread. -/
theorem schedule_spec_alone (G : Symbols) (r : Bool) (s : Machine) (l : List Nat)
    (hq : is_queue s.kthread_wait G.run_queue l) (hc : s.current ∉ l)
    (hcR : s.current ≠ G.run_queue) (hc0 : s.current ≠ 0) (hi : s.idle_task ∉ l)
    (hia : Q_ELEM_STAND_ALONE s.kthread_wait s.idle_task = true) :
    ∃ q1 b sf,
      schedule G r s = some { s with
        kthread_wait := q1, current := sched_next s l, IF := b, savedflags := sf } ∧
      is_queue q1 G.run_queue (sched_queue s r l) ∧
      Q_frame s.kthread_wait q1 [G.run_queue]
        ((if s.current ≠ s.idle_task ∧ r = true then [s.current] else []) ++ l) ∧
      Q_ELEM_STAND_ALONE q1 (sched_next s l) = true := by
  have hfront := is_queue_front s.kthread_wait G.run_queue l hq
  -- the case where the idle thread is switched to
  have hidlecase : ∀ q1, Q_frame s.kthread_wait q1 [G.run_queue]
      ((if s.current ≠ s.idle_task ∧ r = true then [s.current] else []) ++ l) →
      Q_ELEM_STAND_ALONE q1 s.idle_task = true := by
    intro q1 hf
    refine stand_alone_of_frame _ _ _ _ _ hf ?_ hia
    intro hm
    rcases List.mem_append.1 hm with e | e
    · split_ifs at e with hcond
      · exact hcond.1 (List.mem_singleton.1 e).symm
      · simp at e
    · exact hi e
  unfold schedule
  simp only [spinlock_ifsave, get_idle_thread, scheduler_add_eq, scheduler_remove_eq,
    spinlock_ifrestore]
  rw [hfront]
  cases l with
  | nil =>
    simp only [List.headD_nil, ne_eq, not_true_eq_false, false_and, if_false, if_true,
      sched_next, sched_queue]
    by_cases hidle : s.idle_task = s.current
    · refine ⟨s.kthread_wait, s.IF, s.savedflags, ?_, ?_, Q_frame_refl _ _ _, hia⟩
      · simp only [hidle, not_true_eq_false, if_false]
      · simp only [hidle, not_true_eq_false, false_and, if_false]
        exact hq
    · have hidle2 : ¬ s.current = s.idle_task := fun h => hidle h.symm
      have hab := add_back_queue s.kthread_wait G.run_queue s.current []
        (¬ s.current = s.idle_task ∧ r = true) hq hc hcR hc0
      refine ⟨if ¬ s.current = s.idle_task ∧ r = true then
          Q_INSERT_TAIL s.kthread_wait G.run_queue s.current else s.kthread_wait,
        upd s.savedflags s.current s.IF s.idle_task, upd s.savedflags s.current s.IF,
        ?_, ?_, ?_, hidlecase _ hab.2⟩
      · simp only [hidle, not_false_eq_true, if_true]
        by_cases hr : r = true
        · simp [hidle2, hr]
        · simp [hidle2, hr]
      · simpa using hab.1
      · exact hab.2
  | cons f rest =>
    have hf0 : f ≠ 0 := fun h => hq.2.2.1 (h ▸ List.mem_cons_self _ _)
    have hfc : f ≠ s.current := fun h => hc (h ▸ List.mem_cons_self _ _)
    have hfi : f ≠ s.idle_task := fun h => hi (h ▸ List.mem_cons_self _ _)
    have hnd := hq.2.1
    have hfR : f ≠ G.run_queue := by
      intro h
      have := (List.nodup_cons.1 hnd).1
      exact this (h ▸ List.mem_cons_self _ _)
    have hfrest : f ∉ rest := (List.nodup_cons.1 (List.nodup_cons.1 hnd).2).1
    have hcrest : s.current ∉ rest := fun h => hc (List.mem_cons_of_mem _ h)
    obtain ⟨q1, hq1, hq1q, hq1f, hq1a⟩ :=
      is_queue_remove s.kthread_wait G.run_queue f (f :: rest) hq (List.mem_cons_self _ _)
    rw [List.erase_cons_head] at hq1q
    simp only [List.headD_cons, ne_eq, hf0, not_false_eq_true, true_and, sched_next, sched_queue]
    by_cases hneg : (s.threads f).run_flag < 0
    · simp only [hneg, if_true, hq1, Option.map_some']
      have hq2 := is_queue_insert_tail q1 G.run_queue f rest hq1q hfrest hfR hf0
      have hq2f := insert_tail_frame q1 G.run_queue f rest hq1q
      have hfr2 : Q_frame s.kthread_wait (Q_INSERT_TAIL q1 G.run_queue f) [G.run_queue]
          ((if s.current ≠ s.idle_task ∧ r = true then [s.current] else []) ++ f :: rest) := by
        refine Q_frame_trans _ q1 _ _ _ (Q_frame_mono _ _ _ _ _ _ hq1f (fun x hx => hx) ?_)
          (Q_frame_mono _ _ _ _ _ _ hq2f (fun x hx => hx) ?_)
        · intro x hx; exact List.mem_append_right _ hx
        · intro x hx; exact List.mem_append_right _ hx
      by_cases hidle : s.idle_task = s.current
      · refine ⟨Q_INSERT_TAIL q1 G.run_queue f, s.IF, s.savedflags, ?_, ?_, hfr2,
          hidlecase _ hfr2⟩
        · simp only [hidle, not_true_eq_false, if_false]
        · simp only [hidle, not_true_eq_false, false_and, if_false, List.append_nil]
          exact hq2
      · have hidle2 : ¬ s.current = s.idle_task := fun h => hidle h.symm
        have hcq2 : s.current ∉ rest ++ [f] := by
          simp only [List.mem_append, List.mem_singleton, not_or]
          exact ⟨hcrest, fun h => hfc h.symm⟩
        have hab := add_back_queue (Q_INSERT_TAIL q1 G.run_queue f) G.run_queue s.current
          (rest ++ [f]) (¬ s.current = s.idle_task ∧ r = true) hq2 hcq2 hcR hc0
        have hfr3 : Q_frame s.kthread_wait
            (if ¬ s.current = s.idle_task ∧ r = true then
              Q_INSERT_TAIL (Q_INSERT_TAIL q1 G.run_queue f) G.run_queue s.current
              else Q_INSERT_TAIL q1 G.run_queue f) [G.run_queue]
            ((if s.current ≠ s.idle_task ∧ r = true then [s.current] else []) ++ f :: rest) := by
          refine Q_frame_trans _ _ _ _ _ hfr2 (Q_frame_mono _ _ _ _ _ _ hab.2 (fun x hx => hx) ?_)
          intro x hx
          simp only [List.mem_cons, List.mem_append, List.mem_singleton, ne_eq] at hx ⊢
          tauto
        refine ⟨if ¬ s.current = s.idle_task ∧ r = true then
            Q_INSERT_TAIL (Q_INSERT_TAIL q1 G.run_queue f) G.run_queue s.current
            else Q_INSERT_TAIL q1 G.run_queue f,
          upd s.savedflags s.current s.IF s.idle_task, upd s.savedflags s.current s.IF,
          ?_, ?_, hfr3, hidlecase _ hfr3⟩
        · simp only [hidle, not_false_eq_true, if_true]
          by_cases hr : r = true
          · simp [hidle2, hr]
          · simp [hidle2, hr]
        · simpa using hab.1
    · simp only [hneg, if_false, hf0, hfc, hfi, ne_eq, not_false_eq_true, if_true, hq1,
        Option.map_some']
      have hab := add_back_queue q1 G.run_queue s.current rest
        (¬ s.current = s.idle_task ∧ r = true) hq1q hcrest hcR hc0
      refine ⟨if ¬ s.current = s.idle_task ∧ r = true then
          Q_INSERT_TAIL q1 G.run_queue s.current else q1,
        upd s.savedflags s.current s.IF f, upd s.savedflags s.current s.IF, ?_, ?_, ?_, ?_⟩
      · by_cases hr : r = true
        · by_cases hidle2 : s.current = s.idle_task
          · simp [hidle2, hr]
          · simp [hidle2, hr]
        · simp [hr]
      · simpa using hab.1
      · refine Q_frame_trans _ q1 _ _ _ (Q_frame_mono _ _ _ _ _ _ hq1f (fun x hx => hx) ?_)
          (Q_frame_mono _ _ _ _ _ _ hab.2 (fun x hx => hx) ?_)
        · intro x hx; exact List.mem_append_right _ hx
        · intro x hx
          simp only [List.mem_cons, List.mem_append, ne_eq] at hx ⊢
          tauto
      · refine stand_alone_of_frame q1 _ _ _ f hab.2 ?_ ((stand_alone_iff q1 f).2 hq1a)
        intro hm
        rcases List.mem_append.1 hm with e | e
        · split_ifs at e with hcond
          · exact hfc (List.mem_singleton.1 e)
          · simp at e
        · exact hfrest e

theorem same_threads_refl (H : List Nat) (cfg : Nat → List Nat) : same_threads H cfg cfg :=
  ⟨fun h hh x hx => ⟨h, hh, hx⟩, fun h hh x hx => ⟨h, hh, hx⟩⟩

theorem same_threads_trans (H : List Nat) (cfg cfg1 cfg2 : Nat → List Nat)
    (h1 : same_threads H cfg cfg1) (h2 : same_threads H cfg1 cfg2) : same_threads H cfg cfg2 := by
  constructor
  · intro h hh x hx
    obtain ⟨k, hk, hxk⟩ := h2.1 h hh x hx
    exact h1.1 k hk x hxk
  · intro h hh x hx
    obtain ⟨k, hk, hxk⟩ := h1.2 h hh x hx
    exact h2.2 k hk x hxk

/-- A kernel entry that moves threads between the queues and leaves the
running thread where it is keeps the invariant. -/
theorem queue_inv_same (H live : List Nat) (q q1 : Q_MEM) (cur idle : Nat)
    (cfg cfg1 : Nat → List Nat) (hinv : queue_inv H live q cur idle cfg)
    (hok : queues_ok q1 H cfg1) (hsame : same_threads H cfg cfg1)
    (hlink : ∀ x, (∀ h ∈ H, x ∉ cfg h) → q1.link x = q.link x) :
    queue_inv H live q1 cur idle cfg1 := by
  obtain ⟨a1, a2, a3, a4, a5, a6, a7, a8, a9, a10, a11⟩ := hinv
  have hcn : ∀ h ∈ H, cur ∉ cfg h := fun h hh hx => (a2 h hh cur hx).2 rfl
  have hin : ∀ h ∈ H, idle ∉ cfg h := fun h hh hx => a8 (a2 h hh idle hx).1
  refine ⟨hok, ?_, a3, a4, ?_, a6, a7, a8, ?_, a10, ?_⟩
  · intro h hh x hx
    obtain ⟨k, hk, hxk⟩ := hsame.1 h hh x hx
    exact a2 k hk x hxk
  · rw [stand_alone_iff] at a5 ⊢
    rw [hlink cur hcn]
    exact a5
  · rw [stand_alone_iff] at a9 ⊢
    rw [hlink idle hin]
    exact a9
  · intro x hx
    rcases a11 x hx with e | ⟨h, hh, hxh⟩
    · exact Or.inl e
    · exact Or.inr (hsame.2 h hh x hxh)

theorem sched_queue_true_cur (s : Machine) (l : List Nat) (hci : s.current ≠ s.idle_task) :
    s.current ∈ sched_queue s true l := by
  obtain ⟨l1, h⟩ := sched_queue_true_last s l hci
  rw [h]
  simp

/-- The state after `schedule`, in terms of the invariant.  Before the call
the running thread is on no queue, or, with `CURRENT_NOT_RUNNABLE`, on a
queue other than the run queue; `live0` are the threads before the call and
`live` the threads after it. -/
theorem schedule_queue_inv (G : Symbols) (W live0 live : List Nat) (s : Machine)
    (cfg : Nat → List Nat) (r : Bool)
    (hnd : (sched_heads G W).Nodup)
    (hok : queues_ok s.kthread_wait (sched_heads G W) cfg)
    (hlive0 : ∀ h ∈ sched_heads G W, ∀ x ∈ cfg h, x ∈ live0)
    (hcrq : s.current ∉ cfg G.run_queue)
    (hcH : s.current ∉ sched_heads G W) (hc0 : s.current ≠ 0)
    (hiH : s.idle_task ∉ sched_heads G W) (hi0 : s.idle_task ≠ 0)
    (hil : s.idle_task ∉ live0)
    (hia : Q_ELEM_STAND_ALONE s.kthread_wait s.idle_task = true)
    (hback : r = true → ∀ h ∈ sched_heads G W, s.current ∉ cfg h)
    (hsub1 : ∀ x ∈ live, x ∈ live0)
    (hsub2 : ∀ x ∈ live0, x ≠ s.current → x ∈ live)
    (hcur : s.current ∈ live →
      r = true ∨ ∃ h0 ∈ sched_heads G W, h0 ≠ G.run_queue ∧ s.current ∈ cfg h0)
    (hcur1 : (∃ k ∈ sched_heads G W, s.current ∈ cfg k) → s.current ∈ live)
    (hcur2 : r = true → s.current ≠ s.idle_task → s.current ∈ live)
    (hconv : ∀ x ∈ live0, x = s.current ∨ ∃ h ∈ sched_heads G W, x ∈ cfg h) :
    ∃ s1, schedule G r s = some s1 ∧ s1.idle_task = s.idle_task ∧
      s1.current = sched_next s (cfg G.run_queue) ∧ s1.threads = s.threads ∧
      queue_inv (sched_heads G W) live s1.kthread_wait s1.current s1.idle_task
        (Function.update cfg G.run_queue (sched_queue s r (cfg G.run_queue))) := by
  obtain ⟨hrunH, -, -⟩ := sched_heads_mem G W
  have hrq := hok.1 _ hrunH
  have hi : s.idle_task ∉ cfg G.run_queue := fun hx => hil (hlive0 _ hrunH _ hx)
  have hqnd : (cfg G.run_queue).Nodup := (List.nodup_cons.1 hrq.2.1).2
  obtain ⟨q1, b, sf, hs, hq1, hfr, hal⟩ := schedule_spec_alone G r s (cfg G.run_queue) hrq hcrq
    (fun e => hcH (e ▸ hrunH)) hc0 hi hia
  refine ⟨_, hs, rfl, rfl, rfl, ?_⟩
  show queue_inv (sched_heads G W) live q1 (sched_next s (cfg G.run_queue)) s.idle_task
    (Function.update cfg G.run_queue (sched_queue s r (cfg G.run_queue)))
  have hnext := sched_next_mem s (cfg G.run_queue)
  have hnq := sched_next_not_queued s r (cfg G.run_queue) hqnd hcrq hi
  have hmemq : ∀ x ∈ sched_queue s r (cfg G.run_queue),
      x ∈ cfg G.run_queue ∨ (x = s.current ∧ s.current ≠ s.idle_task ∧ r = true) := by
    intro x hx
    cases r with
    | false => exact Or.inl (sched_queue_false_mem s _ x hx)
    | true =>
      rcases sched_queue_mem s true _ x hx with e | e
      · exact Or.inl e
      · exact Or.inr ⟨e.1, e.2, rfl⟩
  -- the threads of the queues after the call
  have hcfg1 : ∀ h ∈ sched_heads G W, ∀ x ∈ Function.update cfg G.run_queue
      (sched_queue s r (cfg G.run_queue)) h,
      (∃ k ∈ sched_heads G W, x ∈ cfg k) ∨ (x = s.current ∧ s.current ≠ s.idle_task ∧ r = true) := by
    intro h hh x hx
    by_cases e : h = G.run_queue
    · subst e
      rw [Function.update_same] at hx
      rcases hmemq x hx with e1 | e1
      · exact Or.inl ⟨_, hrunH, e1⟩
      · exact Or.inr e1
    · rw [Function.update_noteq e] at hx
      exact Or.inl ⟨h, hh, hx⟩
  have hok1 : queues_ok q1 (sched_heads G W)
      (Function.update cfg G.run_queue (sched_queue s r (cfg G.run_queue))) := by
    apply queues_ok_update _ _ _ _ _ _ _ hok hq1 hfr
    · intro x hx h2 hh2 hne
      rcases List.mem_append.1 hx with e | e
      · split_ifs at e with hcond
        · rw [List.mem_singleton.1 e]
          exact hback hcond.2 h2 hh2
        · simp at e
      · exact (hok.2 _ hrunH x e).2 h2 hh2 hne
    · intro x hx
      rcases hmemq x hx with e | e
      · exact hok.2 _ hrunH x e
      · rw [e.1]
        exact ⟨hcH, fun h2 hh2 _ => hback e.2.2 h2 hh2⟩
  have hrqH : ∀ x ∈ cfg G.run_queue, x ∈ live0 ∧ x ≠ s.current ∧ x ∉ sched_heads G W ∧ x ≠ 0 := by
    intro x hx
    exact ⟨hlive0 _ hrunH x hx, fun e => hcrq (e ▸ hx), (hok.2 _ hrunH x hx).1,
      fun e => hrq.2.2.1 (e ▸ hx)⟩
  refine ⟨hok1, ?_, ?_, ?_, hal, hiH, hi0, fun hx => hil (hsub1 _ hx), ?_, ?_, ?_⟩
  · -- the threads of the queues are live and do not run
    intro h hh x hx
    constructor
    · rcases hcfg1 h hh x hx with ⟨k, hk, hxk⟩ | e
      · by_cases e : x = s.current
        · rw [e]
          exact hcur1 ⟨k, hk, e ▸ hxk⟩
        · exact hsub2 x (hlive0 k hk x hxk) e
      · rw [e.1]
        exact hcur2 e.2.2 e.2.1
    · by_cases e2 : h = G.run_queue
      · subst e2
        rw [Function.update_same] at hx
        exact fun e => hnq (e ▸ hx)
      · rw [Function.update_noteq e2] at hx
        intro e
        rcases hnext with e3 | e3
        · exact hil (e3 ▸ e ▸ hlive0 h hh x hx)
        · exact (hok.2 _ hrunH _ e3).2 h hh e2 (e ▸ hx)
  · rcases hnext with e3 | e3
    · rw [e3]; exact hiH
    · exact (hrqH _ e3).2.2.1
  · rcases hnext with e3 | e3
    · rw [e3]; exact hi0
    · exact (hrqH _ e3).2.2.2
  · refine stand_alone_of_frame _ _ _ _ _ hfr ?_ hia
    intro hm
    rcases List.mem_append.1 hm with e | e
    · split_ifs at e with hcond
      · exact hcond.1 (List.mem_singleton.1 e).symm
      · simp at e
    · exact hi e
  · rcases hnext with e3 | e3
    · exact Or.inl e3
    · exact Or.inr (hsub2 _ (hrqH _ e3).1 (hrqH _ e3).2.1)
  · intro x hx
    rcases hconv x (hsub1 x hx) with e | ⟨h, hh, hxh⟩
    · subst e
      right
      rcases hcur hx with hr | ⟨h0, hh0, hne, hx0⟩
      · refine ⟨G.run_queue, hrunH, ?_⟩
        rw [Function.update_same, hr]
        exact sched_queue_true_cur s _ (fun e => hil (e ▸ hsub1 _ hx))
      · refine ⟨h0, hh0, ?_⟩
        rw [Function.update_noteq hne]
        exact hx0
    · by_cases e2 : h = G.run_queue
      · subst e2
        rcases sched_queue_or_next s r _ x hxh with e3 | e3
        · right
          refine ⟨G.run_queue, hrunH, ?_⟩
          rw [Function.update_same]
          exact e3
        · exact Or.inl e3.symm
      · right
        refine ⟨h, hh, ?_⟩
        rw [Function.update_noteq e2]
        exact hxh

/-- A thread moves from the queue at `a` to the tail of the queue at `b`. -/
theorem queues_ok_move (q : Q_MEM) (H : List Nat) (cfg : Nat → List Nat) (a b y : Nat)
    (hok : queues_ok q H cfg) (ha : a ∈ H) (hb : b ∈ H) (hab : a ≠ b) (hy : y ∈ cfg a) :
    ∃ q1 cfg2, Q_REMOVE q a y = some q1 ∧ queues_ok (Q_INSERT_TAIL q1 b y) H cfg2 ∧
      same_threads H cfg cfg2 ∧
      (∀ x, (∀ h ∈ H, x ∉ cfg h) → (Q_INSERT_TAIL q1 b y).link x = q.link x) ∧
      cfg2 a = (cfg a).erase y ∧ cfg2 b = cfg b ++ [y] ∧
      (∀ h, h ≠ a → h ≠ b → cfg2 h = cfg h) := by
  obtain ⟨q1, h1, h2, -, h4, h5⟩ := queues_ok_remove q H cfg a y hok ha hy
  have hyH := hok.2 a ha y hy
  have hy0 : y ≠ 0 := fun e => (hok.1 a ha).2.2.1 (e ▸ hy)
  have hba : b ≠ a := fun e => hab e.symm
  have hyn : ∀ h2 ∈ H, y ∉ Function.update cfg a ((cfg a).erase y) h2 := by
    intro h2 hh2
    by_cases e : h2 = a
    · subst e
      rw [Function.update_same]
      exact h5
    · rw [Function.update_noteq e]
      exact hyH.2 h2 hh2 e
  obtain ⟨h6, h7⟩ := queues_ok_insert q1 H _ b y h2 hb hyH.1 hy0 hyn
  rw [Function.update_noteq hba] at h6 h7
  refine ⟨q1, _, h1, h6, ⟨?_, ?_⟩, ?_, ?_, ?_, ?_⟩
  · intro h hh x hx
    by_cases e : h = b
    · subst e
      rw [Function.update_same] at hx
      rcases List.mem_append.1 hx with e1 | e1
      · exact ⟨h, hh, e1⟩
      · exact ⟨a, ha, (List.mem_singleton.1 e1) ▸ hy⟩
    · rw [Function.update_noteq e] at hx
      by_cases e2 : h = a
      · subst e2
        rw [Function.update_same] at hx
        exact ⟨h, hh, List.mem_of_mem_erase hx⟩
      · rw [Function.update_noteq e2] at hx
        exact ⟨h, hh, hx⟩
  · intro h hh x hx
    by_cases e3 : x = y
    · refine ⟨b, hb, ?_⟩
      rw [Function.update_same, e3]
      simp
    · by_cases e : h = b
      · subst e
        refine ⟨h, hh, ?_⟩
        rw [Function.update_same]
        exact List.mem_append_left _ hx
      · refine ⟨h, hh, ?_⟩
        rw [Function.update_noteq e]
        by_cases e2 : h = a
        · subst e2
          rw [Function.update_same]
          exact (List.mem_erase_of_ne e3).2 hx
        · rw [Function.update_noteq e2]
          exact hx
  · intro x hx
    rw [h7 x (fun e => hx a ha (e ▸ hy)) (hx b hb)]
    exact h4 x (hx a ha)
  · rw [Function.update_noteq hab, Function.update_same]
  · rw [Function.update_same]
  · intro h e1 e2
    rw [Function.update_noteq e2, Function.update_noteq e1]

/-- The walk of `sleep_bottom_half` in terms of the queues: it ends, and it
moves threads from the sleepers queue to the run queue only. -/
theorem sleep_loop_ok (G : Symbols) (W : List Nat) (hnd : (sched_heads G W).Nodup) :
    ∀ (todo kept : List Nat) (cfg : Nat → List Nat) (fuel threadTrav threadSaveTrav : Nat)
      (s : Machine),
      queues_ok s.kthread_wait (sched_heads G W) cfg →
      cfg G.kern_slackers_kthread_head = kept ++ todo →
      todo.length < fuel → threadTrav = todo.headD G.kern_slackers_kthread_head →
      (todo ≠ [] → threadSaveTrav = todo.tail.headD G.kern_slackers_kthread_head) →
      ∃ s1 cfg1, sleep_loop G fuel threadTrav threadSaveTrav s = some s1 ∧
        queues_ok s1.kthread_wait (sched_heads G W) cfg1 ∧
        same_threads (sched_heads G W) cfg cfg1 ∧
        (∀ x, (∀ h ∈ sched_heads G W, x ∉ cfg h) →
          s1.kthread_wait.link x = s.kthread_wait.link x) ∧
        s1.current = s.current ∧ s1.idle_task = s.idle_task ∧
        (∀ y, (s1.threads y).state = (s.threads y).state) := by
  obtain ⟨hrunH, hslH, -⟩ := sched_heads_mem G W
  obtain ⟨hheads, -⟩ := sched_heads_ne G W hnd
  intro todo
  induction todo with
  | nil =>
    intro kept cfg fuel trav save s hok _ hf ht _
    obtain ⟨n, rfl⟩ : ∃ n, fuel = n + 1 := ⟨fuel - 1, by simp at hf; omega⟩
    simp only [List.headD_nil] at ht
    unfold sleep_loop
    rw [if_pos ht]
    exact ⟨s, cfg, rfl, hok, same_threads_refl _ _, fun _ _ => rfl, rfl, rfl, fun _ => rfl⟩
  | cons y rest ih =>
    intro kept cfg fuel trav save s hok hcfg hf ht hsave
    obtain ⟨n, rfl⟩ : ∃ n, fuel = n + 1 := ⟨fuel - 1, by simp at hf; omega⟩
    simp only [List.headD_cons] at ht
    subst ht
    have hsave := hsave (by simp)
    simp only [List.tail_cons] at hsave
    have hsl := hok.1 _ hslH
    rw [hcfg] at hsl
    have hym : trav ∈ cfg G.kern_slackers_kthread_head := by rw [hcfg]; simp
    have hyS : trav ≠ G.kern_slackers_kthread_head :=
      fun e => (hok.2 _ hslH trav hym).1 (e ▸ hslH)
    have hnd2 : (kept ++ trav :: rest).Nodup := (List.nodup_cons.1 hsl.2.1).2
    have hyk : trav ∉ kept := fun h =>
      (List.nodup_append.1 hnd2).2.2 h (List.mem_cons_self _ _)
    have hst : ∀ (t : Nat → kthread) (z : Nat),
        ((upd t trav { t trav with sleepticks := wrap_int ((t trav).sleepticks - 1) }) z).state =
          (t z).state := by
      intro t z
      by_cases e : z = trav
      · subst e
        rw [upd_same]
      · rw [upd_other _ _ _ _ e]
    unfold sleep_loop
    rw [if_neg hyS]
    simp only [upd_same]
    by_cases hw : wrap_int ((s.threads trav).sleepticks - 1) ≤ 0
    · rw [if_pos hw]
      obtain ⟨q1, cfg2, hrem, hok2, hsame2, hlink2, hca, hcb, -⟩ := queues_ok_move s.kthread_wait
        (sched_heads G W) cfg G.kern_slackers_kthread_head G.run_queue trav hok hslH hrunH
        hheads hym
      have herase : (kept ++ trav :: rest).erase trav = kept ++ rest := by
        rw [List.erase_append_right _ hyk, List.erase_cons_head]
      rw [hcfg, herase] at hca
      simp only [hrem, scheduler_add_eq]
      obtain ⟨s1, cfg1, hs1, h1, h2, h3, h4, h5, h6⟩ := ih kept cfg2 n save
        ((Q_INSERT_TAIL q1 G.run_queue trav).link save).next
        { s with
          threads := upd s.threads trav { s.threads trav with
            sleepticks := wrap_int ((s.threads trav).sleepticks - 1) }
          kthread_wait := Q_INSERT_TAIL q1 G.run_queue trav }
        hok2 hca (by simp only [List.length_cons] at hf; omega) hsave
        (by
          intro hne
          cases rest with
          | nil => exact absurd rfl hne
          | cons z r =>
            simp only [List.headD_cons] at hsave
            subst hsave
            simp only [List.tail_cons]
            have hq2 := hok2.1 _ hslH
            rw [hca] at hq2
            exact is_queue_next _ _ _ _ _ hq2)
      refine ⟨s1, cfg1, hs1, h1, same_threads_trans _ _ _ _ hsame2 h2, ?_, h4, h5, ?_⟩
      · intro x hx
        rw [h3 x, hlink2 x hx]
        intro h hh hxh
        obtain ⟨k, hk, hxk⟩ := hsame2.1 h hh x hxh
        exact hx k hk hxk
      · intro z
        rw [h6 z]
        exact hst s.threads z
    · rw [if_neg hw]
      simp only
      obtain ⟨s1, cfg1, hs1, h1, h2, h3, h4, h5, h6⟩ := ih (kept ++ [trav]) cfg n save
        (s.kthread_wait.link save).next
        { s with
          threads := upd s.threads trav { s.threads trav with
            sleepticks := wrap_int ((s.threads trav).sleepticks - 1) } }
        hok (by rw [hcfg]; simp) (by simp only [List.length_cons] at hf; omega) hsave
        (by
          intro hne
          cases rest with
          | nil => exact absurd rfl hne
          | cons z r =>
            simp only [List.headD_cons] at hsave
            subst hsave
            simp only [List.tail_cons]
            exact is_queue_next _ _ _ (kept ++ [trav]) _ (by simpa using hsl))
      refine ⟨s1, cfg1, hs1, h1, h2, h3, h4, h5, ?_⟩
      intro z
      rw [h6 z]
      exact hst s.threads z

/-- Function `sleep_bottom_half` in terms of the queues. -/
theorem sleep_bottom_half_ok (G : Symbols) (W : List Nat) (hnd : (sched_heads G W).Nodup)
    (s : Machine) (cfg : Nat → List Nat)
    (hok : queues_ok s.kthread_wait (sched_heads G W) cfg)
    (hlen : (cfg G.kern_slackers_kthread_head).length < WORD) :
    ∃ s1 cfg1, sleep_bottom_half G s = some s1 ∧
      queues_ok s1.kthread_wait (sched_heads G W) cfg1 ∧
      same_threads (sched_heads G W) cfg cfg1 ∧
      (∀ x, (∀ h ∈ sched_heads G W, x ∉ cfg h) →
        s1.kthread_wait.link x = s.kthread_wait.link x) ∧
      s1.current = s.current ∧ s1.idle_task = s.idle_task ∧
      (∀ y, (s1.threads y).state = (s.threads y).state) := by
  obtain ⟨-, hslH, -⟩ := sched_heads_mem G W
  have hsl := hok.1 _ hslH
  exact sleep_loop_ok G W hnd (cfg G.kern_slackers_kthread_head) [] cfg
    ((s.kthread_wait.head G.kern_slackers_kthread_head).nr_elements + 1)
    (s.kthread_wait.head G.kern_slackers_kthread_head).next
    (s.kthread_wait.link (s.kthread_wait.head G.kern_slackers_kthread_head).next).next s
    hok (by simp)
    (by rw [hsl.2.2.2, Nat.mod_eq_of_lt hlen]; omega)
    (is_queue_first _ _ _ hsl)
    (by
      intro hne
      cases hl : cfg G.kern_slackers_kthread_head with
      | nil => exact absurd hl hne
      | cons a rest =>
        rw [hl] at hsl
        have hf := is_queue_first _ _ _ hsl
        simp only [List.headD_cons] at hf
        rw [hf]
        simp only [List.tail_cons]
        exact is_queue_next _ _ _ [] _ (by simpa using hsl))

theorem queue_inv_off (H live : List Nat) (q : Q_MEM) (cur idle : Nat) (cfg : Nat → List Nat)
    (hinv : queue_inv H live q cur idle cfg) :
    (∀ h ∈ H, cur ∉ cfg h) ∧ (∀ h ∈ H, idle ∉ cfg h) :=
  ⟨fun h hh hx => (hinv.2.1 h hh cur hx).2 rfl,
    fun h hh hx => hinv.2.2.2.2.2.2.2.1 (hinv.2.1 h hh idle hx).1⟩

/-- A call `schedule(CURRENT_RUNNABLE)` keeps the invariant. -/
theorem sched_inv_yield (G : Symbols) (W live : List Nat) (s : Machine) (cfg : Nat → List Nat)
    (hinv : sched_inv G W live s cfg) :
    ∃ s1 cfg1, schedule G true s = some s1 ∧ sched_inv G W live s1 cfg1 ∧
      s1.idle_task = s.idle_task ∧ s1.threads = s.threads := by
  obtain ⟨hnd, hlen, hq⟩ := hinv
  obtain ⟨hcoff, -⟩ := queue_inv_off _ _ _ _ _ _ hq
  obtain ⟨a1, a2, a3, a4, a5, a6, a7, a8, a9, a10, a11⟩ := hq
  obtain ⟨hrunH, -, -⟩ := sched_heads_mem G W
  obtain ⟨s1, h1, h2, h3, h4, h5⟩ := schedule_queue_inv G W live live s cfg true hnd a1
    (fun h hh x hx => (a2 h hh x hx).1) (hcoff _ hrunH) a3 a4 a6 a7 a8 a9
    (fun _ => hcoff) (fun x hx => hx) (fun x hx _ => hx) (fun _ => Or.inl rfl)
    (fun ⟨k, hk, hx⟩ => absurd hx (hcoff k hk))
    (fun _ hci => a10.resolve_left hci) a11
  exact ⟨s1, _, h1, ⟨hnd, hlen, h5⟩, h2, h4⟩

/-- The running thread has put itself at the tail of a queue other than the
run queue and calls `schedule(CURRENT_NOT_RUNNABLE)`: the invariant holds
afterwards, and another thread runs. -/
theorem sched_inv_block (G : Symbols) (W live : List Nat) (s : Machine) (cfg : Nat → List Nat)
    (hinv : sched_inv G W live s cfg) (hci : s.current ≠ s.idle_task) (h0 : Nat)
    (hh0 : h0 ∈ sched_heads G W) (hne : h0 ≠ G.run_queue) (s2 : Machine)
    (hk : s2.kthread_wait = Q_INSERT_TAIL s.kthread_wait h0 s.current)
    (hc : s2.current = s.current) (hi : s2.idle_task = s.idle_task) :
    ∃ s1 cfg1, schedule G false s2 = some s1 ∧ sched_inv G W live s1 cfg1 ∧
      s1.current ≠ s.current ∧ s1.idle_task = s.idle_task ∧ s1.threads = s2.threads := by
  obtain ⟨hnd, hlen, hq⟩ := hinv
  obtain ⟨hcoff, hioff⟩ := queue_inv_off _ _ _ _ _ _ hq
  obtain ⟨a1, a2, a3, a4, a5, a6, a7, a8, a9, a10, a11⟩ := hq
  obtain ⟨hrunH, -, -⟩ := sched_heads_mem G W
  have hcl : s.current ∈ live := a10.resolve_left hci
  obtain ⟨b1, b2⟩ := queues_ok_insert s.kthread_wait _ cfg h0 s.current a1 hh0 a3 a4 hcoff
  rw [← hk] at b1 b2
  have hmem : ∀ h ∈ sched_heads G W, ∀ x ∈ Function.update cfg h0 (cfg h0 ++ [s.current]) h,
      x ∈ live := by
    intro h hh x hx
    by_cases e : h = h0
    · subst e
      rw [Function.update_same] at hx
      rcases List.mem_append.1 hx with e1 | e1
      · exact (a2 h hh x e1).1
      · rw [List.mem_singleton.1 e1]; exact hcl
    · rw [Function.update_noteq e] at hx
      exact (a2 h hh x hx).1
  have hcin : s.current ∈ Function.update cfg h0 (cfg h0 ++ [s.current]) h0 := by
    rw [Function.update_same]
    simp
  obtain ⟨s1, h1, h2, h3, h4, h5⟩ := schedule_queue_inv G W live live s2
    (Function.update cfg h0 (cfg h0 ++ [s.current])) false hnd b1 hmem
    (by rw [hc, Function.update_noteq (Ne.symm hne)]; exact hcoff _ hrunH)
    (by rw [hc]; exact a3) (by rw [hc]; exact a4) (by rw [hi]; exact a6) (by rw [hi]; exact a7)
    (by rw [hi]; exact a8)
    (by
      rw [hi, stand_alone_iff, b2 _ (Ne.symm hci) (hioff h0 hh0)]
      exact (stand_alone_iff _ _).1 a9)
    (fun hr => absurd hr (by decide)) (fun x hx => hx) (fun x hx _ => hx)
    (fun _ => Or.inr ⟨h0, hh0, hne, by rw [hc]; exact hcin⟩)
    (fun _ => by rw [hc]; exact hcl) (fun hr => absurd hr (by decide))
    (by
      intro x hx
      rcases a11 x hx with e | ⟨h, hh, hxh⟩
      · exact Or.inl (e.trans hc.symm)
      · refine Or.inr ⟨h, hh, ?_⟩
        by_cases e : h = h0
        · subst e
          rw [Function.update_same]
          exact List.mem_append_left _ hxh
        · rw [Function.update_noteq e]
          exact hxh)
  refine ⟨s1, _, h1, ⟨hnd, hlen, h5⟩, ?_, h2.trans hi, h4⟩
  rw [h3, Function.update_noteq (Ne.symm hne)]
  rcases sched_next_mem s2 (cfg G.run_queue) with e | e
  · rw [e, hi]; exact Ne.symm hci
  · exact fun e2 => hcoff _ hrunH (e2 ▸ e)

theorem sched_inv_same (G : Symbols) (W live : List Nat) (s : Machine) (cfg : Nat → List Nat)
    (hinv : sched_inv G W live s cfg) (q1 : Q_MEM) (cfg1 : Nat → List Nat)
    (hok : queues_ok q1 (sched_heads G W) cfg1)
    (hsame : same_threads (sched_heads G W) cfg cfg1)
    (hlink : ∀ x, (∀ h ∈ sched_heads G W, x ∉ cfg h) → q1.link x = s.kthread_wait.link x)
    (s1 : Machine) (hk : s1.kthread_wait = q1) (hc : s1.current = s.current)
    (hi : s1.idle_task = s.idle_task) : sched_inv G W live s1 cfg1 := by
  refine ⟨hinv.1, hinv.2.1, ?_⟩
  rw [hk, hc, hi]
  exact queue_inv_same _ _ _ _ _ _ _ _ hinv.2.2 hok hsame hlink

/-- A call of `sem_signal` on a semaphore of `W` returns and keeps the
invariant; the calling thread goes on running. -/
theorem sched_inv_signal (G : Symbols) (W live : List Nat) (s : Machine) (cfg : Nat → List Nat)
    (hinv : sched_inv G W live s cfg) (p : Nat) (hp : p ∈ W) :
    ∃ s1 cfg1, sem_signal G p s = some s1 ∧ sched_inv G W live s1 cfg1 ∧
      s1.current = s.current ∧ s1.idle_task = s.idle_task ∧ s1.threads = s.threads := by
  obtain ⟨hrunH, -, hsemH⟩ := sched_heads_mem G W
  have hpH := hsemH p hp
  have hpR := ((sched_heads_ne G W hinv.1).2 p hp).1
  have hok := hinv.2.2.1
  have hfront := is_queue_front s.kthread_wait (sem_kthread_head_at p) _ (hok.1 _ hpH)
  unfold sem_signal
  simp only [spinlock_ifsave, spinlock_unlock, spinlock_ifrestore, scheduler_add_eq]
  split_ifs with h1 h2
  · exact ⟨_, cfg, rfl, hinv, rfl, rfl, rfl⟩
  · rw [hfront] at h2 ⊢
    cases hl : cfg (sem_kthread_head_at p) with
    | nil => rw [hl] at h2; exact absurd rfl h2
    | cons w rest =>
      simp only [List.headD_cons]
      obtain ⟨q1, cfg2, hrem, hok2, hsame2, hlink2, -⟩ := queues_ok_move s.kthread_wait
        (sched_heads G W) cfg (sem_kthread_head_at p) G.run_queue w hok hpH hrunH hpR
        (by rw [hl]; simp)
      simp only [hrem]
      exact ⟨_, cfg2, rfl, sched_inv_same G W live s cfg hinv _ cfg2 hok2 hsame2 hlink2 _ rfl
        rfl rfl, rfl, rfl, rfl⟩
  · exact ⟨_, cfg, rfl, hinv, rfl, rfl, rfl⟩

/-- A call of `sem_wait` on a semaphore of `W` by a thread other than the
idle thread returns or switches to another thread, and keeps the invariant. -/
theorem sched_inv_wait (G : Symbols) (W live : List Nat) (s : Machine) (cfg : Nat → List Nat)
    (hinv : sched_inv G W live s cfg) (hci : s.current ≠ s.idle_task) (p : Nat) (hp : p ∈ W) :
    ∃ b s1 cfg1, sem_wait G p s = some (b, s1) ∧ sched_inv G W live s1 cfg1 ∧
      s1.idle_task = s.idle_task ∧ s1.threads = s.threads ∧
      (b = false → s1.current = s.current ∧ s1.parentTask = s.parentTask ∧
        s1.kthread_next = s.kthread_next) := by
  obtain ⟨-, -, hsemH⟩ := sched_heads_mem G W
  have hpH := hsemH p hp
  have hpR := ((sched_heads_ne G W hinv.1).2 p hp).1
  unfold sem_wait
  simp only [spinlock_ifsave, spinlock_unlock, spinlock_ifrestore]
  split_ifs with h1
  · exact ⟨false, _, cfg, rfl, hinv, rfl, rfl, fun _ => ⟨rfl, rfl, rfl⟩⟩
  · obtain ⟨s1, cfg1, hs, h2, h3, h4, h5⟩ := sched_inv_block G W live s cfg hinv hci
      (sem_kthread_head_at p) hpH hpR
      { s with
        IF := s.IF
        count := upd s.count p (wrap_int (s.count p - 1))
        kthread_wait := Q_INSERT_TAIL s.kthread_wait (sem_kthread_head_at p) s.current }
      rfl rfl rfl
    simp only [hs]
    refine ⟨_, s1, cfg1, rfl, h2, h4, h5, ?_⟩
    intro hb
    simp only [decide_eq_false_iff_not, not_not] at hb
    exact absurd hb h3

/-- A call of `sleep` by a thread other than the idle thread switches to
another thread and keeps the invariant. -/
theorem sched_inv_sleep (G : Symbols) (W live : List Nat) (s : Machine) (cfg : Nat → List Nat)
    (hinv : sched_inv G W live s cfg) (hci : s.current ≠ s.idle_task) (n : Nat) :
    ∃ s1 cfg1, syscall_sleep G n s = some (KERN_SUCCESS, s1) ∧ sched_inv G W live s1 cfg1 ∧
      s1.idle_task = s.idle_task ∧ (∀ y, (s1.threads y).state = (s.threads y).state) := by
  obtain ⟨-, hslH, -⟩ := sched_heads_mem G W
  have hslR := (sched_heads_ne G W hinv.1).1
  obtain ⟨s1, cfg1, hs, h2, h3, h4, h5⟩ := sched_inv_block G W live s cfg hinv hci
    G.kern_slackers_kthread_head hslH hslR
    { s with
      threads := upd s.threads s.current { s.threads s.current with sleepticks := to_i32 n }
      kthread_wait := Q_INSERT_TAIL s.kthread_wait G.kern_slackers_kthread_head s.current }
    rfl rfl rfl
  unfold syscall_sleep
  simp only [hs]
  refine ⟨s1, cfg1, rfl, h2, h4, ?_⟩
  intro y
  rw [h5]
  show (upd s.threads s.current _ y).state = _
  by_cases e : y = s.current
  · subst e
    rw [upd_same]
  · rw [upd_other _ _ _ _ e]

/-- A timer tick returns and keeps the invariant. -/
theorem sched_inv_tick (G : Symbols) (W live : List Nat) (s : Machine) (cfg : Nat → List Nat)
    (hinv : sched_inv G W live s cfg) :
    ∃ s1 cfg1, _BASE_TIMER_CALL_BACK G s = some s1 ∧ sched_inv G W live s1 cfg1 ∧
      s1.idle_task = s.idle_task ∧ (∀ y, (s1.threads y).state = (s.threads y).state) := by
  obtain ⟨-, hslH, -⟩ := sched_heads_mem G W
  have hok := hinv.2.2.1
  have hsl := hok.1 _ hslH
  have hlen : (cfg G.kern_slackers_kthread_head).length < WORD := by
    have hsub : cfg G.kern_slackers_kthread_head ⊆ live :=
      fun x hx => (hinv.2.2.2.1 _ hslH x hx).1
    have := (List.Nodup.subperm (List.nodup_cons.1 hsl.2.1).2 hsub).length_le
    have := hinv.2.1
    omega
  obtain ⟨s2, cfg2, hs2, b1, b2, b3, b4, b5, b6⟩ := sleep_bottom_half_ok G W hinv.1
    { s with ticks := (s.ticks + 1) % WORD } cfg hok hlen
  have hinv2 := sched_inv_same G W live s cfg hinv _ cfg2 b1 b2 b3 s2 rfl b4 b5
  obtain ⟨s1, cfg1, hs1, c1, c2, c3⟩ := sched_inv_yield G W live s2 cfg2 hinv2
  unfold _BASE_TIMER_CALL_BACK scheduler_timer_callback
  simp only [hs2]
  refine ⟨s1, cfg1, hs1, c1, c2.trans b5, ?_⟩
  intro y
  rw [c3]
  exact b6 y

theorem sched_inv_congr (G : Symbols) (W live : List Nat) (s s1 : Machine)
    (cfg : Nat → List Nat) (hinv : sched_inv G W live s cfg)
    (hk : s1.kthread_wait = s.kthread_wait) (hc : s1.current = s.current)
    (hi : s1.idle_task = s.idle_task) : sched_inv G W live s1 cfg := by
  refine ⟨hinv.1, hinv.2.1, ?_⟩
  rw [hk, hc, hi]
  exact hinv.2.2

theorem run_flag_write_state (t : Nat → kthread) (x : Nat) (v : Int) (y : Nat) :
    ((upd t x { t x with run_flag := v }) y).state = (t y).state := by
  by_cases e : y = x
  · subst e
    rw [upd_same]
  · rw [upd_other _ _ _ _ e]

theorem schedule_match_some (G : Symbols) (s3 s1 : Machine) (ret : KERN_RET_CODE)
    (h : (match schedule G true s3 with
      | none => none
      | some s4 => some (KERN_SUCCESS, s4)) = some (ret, s1)) : schedule G true s3 = some s1 := by
  cases hs : schedule G true s3 with
  | none => rw [hs] at h; simp at h
  | some s4 =>
    rw [hs] at h
    simp only [Option.some.injEq, Prod.mk.injEq] at h
    rw [h.2]

/-- The shape of `syscall_cas2irunflag`: it returns with the queues as they
were, or it ends with `schedule(CURRENT_RUNNABLE)` from a state with the
queues as they were.  The member `state` of no thread is written. -/
theorem cas2i_shape (G : Symbols) (user_param_packet : Nat) (s s1 : Machine)
    (ret : KERN_RET_CODE) (h : syscall_cas2irunflag G user_param_packet s = some (ret, s1)) :
    (s1.kthread_wait = s.kthread_wait ∧ s1.current = s.current ∧
        s1.idle_task = s.idle_task ∧ ∀ y, (s1.threads y).state = (s.threads y).state) ∨
      ∃ s3, s3.kthread_wait = s.kthread_wait ∧ s3.current = s.current ∧
        s3.idle_task = s.idle_task ∧ (∀ y, (s3.threads y).state = (s.threads y).state) ∧
        schedule G true s3 = some s1 := by
  unfold syscall_cas2irunflag at h
  simp only [spinlock_ifsave, spinlock_ifrestore] at h
  generalize packet_word s user_param_packet 0 = tid at h
  generalize packet_word s user_param_packet 1 = oldp at h
  generalize to_i32 (packet_word s user_param_packet 2) = ev1 at h
  generalize to_i32 (packet_word s user_param_packet 3) = nv1 at h
  generalize to_i32 (packet_word s user_param_packet 4) = ev2 at h
  generalize to_i32 (packet_word s user_param_packet 5) = nv2 at h
  cases hv : vmm_is_range_present (s.vm (current_task s)) oldp 4 with
  | none => simp [hv] at h
  | some r0 =>
    simp only [hv] at h
    split_ifs at h with c1 c2 c3 c4 c5
    all_goals first
      | (obtain ⟨-, rfl⟩ := Prod.mk.inj (Option.some.inj h)
         left
         refine ⟨rfl, rfl, rfl, fun y => ?_⟩
         first
           | rfl
           | exact run_flag_write_state _ _ _ y)
      | (right
         refine ⟨_, ?_, ?_, ?_, ?_, schedule_match_some G _ s1 ret h⟩
         · rfl
         · rfl
         · rfl
         · intro y
           first
             | rfl
             | exact run_flag_write_state _ _ _ y
             | exact (run_flag_write_state _ _ _ y).trans (run_flag_write_state _ _ _ y))

/-- A call of `cas2i_runflag` that returns keeps the invariant. -/
theorem sched_inv_cas2i (G : Symbols) (W live : List Nat) (s : Machine) (cfg : Nat → List Nat)
    (hinv : sched_inv G W live s cfg) (user_param_packet : Nat) (s1 : Machine)
    (ret : KERN_RET_CODE) (h : syscall_cas2irunflag G user_param_packet s = some (ret, s1)) :
    ∃ cfg1, sched_inv G W live s1 cfg1 ∧ s1.idle_task = s.idle_task ∧
      ∀ y, (s1.threads y).state = (s.threads y).state := by
  rcases cas2i_shape G user_param_packet s s1 ret h with ⟨h1, h2, h3, h4⟩ | ⟨s3, h1, h2, h3, h4, h5⟩
  · exact ⟨cfg, sched_inv_congr G W live s s1 cfg hinv h1 h2 h3, h3, h4⟩
  · obtain ⟨s4, cfg1, hs, c1, c2, c3⟩ := sched_inv_yield G W live s3 cfg
      (sched_inv_congr G W live s s3 cfg hinv h1 h2 h3)
    rw [hs] at h5
    obtain rfl := Option.some.inj h5
    refine ⟨cfg1, c1, c2.trans h3, ?_⟩
    intro y
    rw [c3]
    exact h4 y

/-- The running thread calls `schedule(CURRENT_NOT_RUNNABLE)` while it is on
no queue, as `vanish` does: it is not among the threads afterwards, and the
invariant holds for the others. -/
theorem sched_inv_leave (G : Symbols) (W live : List Nat) (s : Machine) (cfg : Nat → List Nat)
    (hinv : sched_inv G W live s cfg) (hci : s.current ≠ s.idle_task) :
    ∃ s1 cfg1, schedule G false s = some s1 ∧
      sched_inv G W (live.filter (fun x => decide (x ≠ s.current))) s1 cfg1 ∧
      s1.current ≠ s.current ∧ s1.idle_task = s.idle_task ∧ s1.threads = s.threads := by
  obtain ⟨hnd, hlen, hq⟩ := hinv
  obtain ⟨hcoff, -⟩ := queue_inv_off _ _ _ _ _ _ hq
  obtain ⟨a1, a2, a3, a4, a5, a6, a7, a8, a9, a10, a11⟩ := hq
  obtain ⟨hrunH, -, -⟩ := sched_heads_mem G W
  obtain ⟨s1, h1, h2, h3, h4, h5⟩ := schedule_queue_inv G W live
    (live.filter (fun x => decide (x ≠ s.current))) s cfg false hnd a1
    (fun h hh x hx => (a2 h hh x hx).1) (hcoff _ hrunH) a3 a4 a6 a7 a8 a9
    (fun hr => absurd hr (by decide)) (fun x hx => (List.mem_filter.1 hx).1)
    (fun x hx hne => List.mem_filter.2 ⟨hx, by simpa using hne⟩)
    (fun hx => False.elim (by simpa using (List.mem_filter.1 hx).2))
    (fun ⟨k, hk, hx⟩ => absurd hx (hcoff k hk))
    (fun hr => absurd hr (by decide)) a11
  refine ⟨s1, _, h1, ⟨hnd, ?_, h5⟩, ?_, h2, h4⟩
  · have := List.length_filter_le (fun x => decide (x ≠ s.current)) live
    omega
  · rw [h3]
    rcases sched_next_mem s (cfg G.run_queue) with e | e
    · rw [e]; exact Ne.symm hci
    · exact fun e2 => hcoff _ hrunH (e2 ▸ e)

theorem Q_REMOVE_alone (q : Q_MEM) (h e : Nat) (ha : Q_ELEM_STAND_ALONE q e = true) :
    Q_REMOVE q h e = some q := by
  unfold Q_REMOVE
  rw [if_pos ha]

/-- The loop of `syscall_vanish` leaves the queues of link `kthread_wait` as
they are, or it ends with `sem_signal` on the semaphore `vultures` of the
parent task. -/
theorem vanish_loop_shape (G : Symbols) (T : Nat) :
    ∀ (fuel thread : Nat) (s s1 : Machine), vanish_loop G T fuel thread s = some s1 →
      (s1.kthread_wait = s.kthread_wait ∧ s1.current = s.current ∧
          s1.idle_task = s.idle_task ∧ s1.threads = s.threads) ∨
        ∃ s2, s2.kthread_wait = s.kthread_wait ∧ s2.current = s.current ∧
          s2.idle_task = s.idle_task ∧ s2.threads = s.threads ∧
          s2.parentTask = s.parentTask ∧
          sem_signal G (vultures_at (s2.parentTask T)) s2 = some s1 := by
  intro fuel
  induction fuel with
  | zero =>
    intro thread s s1 h
    simp [vanish_loop] at h
  | succ n ih =>
    intro thread s s1 h
    unfold vanish_loop at h
    split_ifs at h with c1 c2
    · obtain rfl := Option.some.inj h
      exact Or.inl ⟨rfl, rfl, rfl, rfl⟩
    · cases hq : Q_REMOVE s.kthread_next (ktask_threads_head_at T) thread with
      | none => rw [hq] at h; simp at h
      | some q =>
        rw [hq] at h
        simp only at h
        split_ifs at h with c3
        · exact Or.inr ⟨{ s with
            kthread_next := q, state := upd s.state T TASK_STATUS_ZOMIE }, rfl, rfl, rfl, rfl,
            rfl, h⟩
        · obtain rfl := Option.some.inj h
          exact Or.inl ⟨rfl, rfl, rfl, rfl⟩
    · exact ih _ s s1 h

/-- Function `syscall_vanish_1` under the invariant: the calling thread is
switched away from for good and is not among the threads afterwards; the
invariant holds for the others. -/
theorem sched_inv_vanish_1 (G : Symbols) (W live : List Nat) (s : Machine)
    (cfg : Nat → List Nat) (hinv : sched_inv G W live s cfg) (hci : s.current ≠ s.idle_task)
    (hlock : fork_lock_at (current_task s) ∈ W)
    (hvul : vultures_at (s.parentTask (current_task s)) ∈ W) (o : Outcome)
    (h : syscall_vanish_1 G s = some o) :
    ∃ s1 cfg1, o = Outcome.blocked 2 s1 ∧
      sched_inv G W (live.filter (fun x => decide (x ≠ s.current))) s1 cfg1 ∧
      s1.idle_task = s.idle_task ∧ ∀ y, (s1.threads y).state = (s.threads y).state := by
  unfold syscall_vanish_1 at h
  simp only [scheduler_remove_eq] at h
  rw [Q_REMOVE_alone _ _ _ hinv.2.2.2.2.2.2.1] at h
  simp only [Option.map_some'] at h
  -- the state in which the walk over the threads of the task starts
  have hinv2 : sched_inv G W live
      { s with
        threads := upd s.threads s.current { s.threads s.current with run_flag := -1 } }
      cfg := sched_inv_congr G W live s _ cfg hinv rfl rfl rfl
  generalize hs2 : ({ s with
      threads := upd s.threads s.current { s.threads s.current with run_flag := -1 } } :
      Machine) = s2 at h hinv2
  have hs2c : s2.current = s.current := by rw [← hs2]
  have hs2i : s2.idle_task = s.idle_task := by rw [← hs2]
  have hs2p : s2.parentTask = s.parentTask := by rw [← hs2]
  have hs2t : ∀ y, (s2.threads y).state = (s.threads y).state := by
    intro y
    rw [← hs2]
    exact run_flag_write_state _ _ _ y
  clear hs2
  cases hl : vanish_loop G (current_task s)
      ((s.kthread_next.head (ktask_threads_head_at (current_task s))).nr_elements + 1)
      (s.kthread_next.head (ktask_threads_head_at (current_task s))).next s2 with
  | none => rw [hl] at h; simp at h
  | some s3 =>
    rw [hl] at h
    simp only [task_fork_unlock] at h
    -- the state after the walk
    have h3 : ∃ cfg3, sched_inv G W live s3 cfg3 ∧ s3.current = s.current ∧
        s3.idle_task = s.idle_task ∧ ∀ y, (s3.threads y).state = (s.threads y).state := by
      rcases vanish_loop_shape G _ _ _ s2 s3 hl with ⟨k1, k2, k3, k4⟩ | ⟨m, k1, k2, k3, k4, k5, k6⟩
      · refine ⟨cfg, sched_inv_congr G W live s2 s3 cfg hinv2 k1 k2 k3, k2.trans hs2c,
          k3.trans hs2i, ?_⟩
        intro y
        rw [k4]
        exact hs2t y
      · obtain ⟨m1, cfg1, e1, e2, e3, e4, e5⟩ := sched_inv_signal G W live m cfg
          (sched_inv_congr G W live s2 m cfg hinv2 k1 k2 k3)
          (vultures_at (m.parentTask (current_task s))) (by rw [k5, hs2p]; exact hvul)
        rw [e1] at k6
        obtain rfl := Option.some.inj k6
        refine ⟨cfg1, e2, e3.trans (k2.trans hs2c), e4.trans (k3.trans hs2i), ?_⟩
        intro y
        rw [e5, k4]
        exact hs2t y
    obtain ⟨cfg3, c1, c2, c3, c4⟩ := h3
    obtain ⟨s4, cfg4, d1, d2, d3, d4, d5⟩ := sched_inv_signal G W live s3 cfg3 c1
      (fork_lock_at (current_task s)) hlock
    rw [d1] at h
    simp only at h
    obtain ⟨s5, cfg5, f1, f2, f3, f4, f5⟩ := sched_inv_leave G W live s4 cfg4 d2
      (by rw [d3, d4, c2, c3]; exact hci)
    rw [f1] at h
    simp only [ne_eq, f3, not_false_eq_true, if_true] at h
    obtain rfl := Option.some.inj h
    have hcur : s4.current = s.current := d3.trans c2
    rw [hcur] at f2
    refine ⟨s5, cfg5, rfl, f2, f4.trans (d4.trans c3), ?_⟩
    intro y
    rw [f5, d5]
    exact c4 y

/-- Function `syscall_vanish` under the invariant: the calling thread waits
for the fork lock of its task, with the invariant as it is, or it is switched
away from for good. -/
theorem sched_inv_vanish (G : Symbols) (W live : List Nat) (s : Machine)
    (cfg : Nat → List Nat) (hinv : sched_inv G W live s cfg) (hci : s.current ≠ s.idle_task)
    (hlock : fork_lock_at (current_task s) ∈ W)
    (hvul : vultures_at (s.parentTask (current_task s)) ∈ W) (o : Outcome)
    (h : syscall_vanish G s = some o) :
    (∃ s1 cfg1, o = Outcome.blocked 1 s1 ∧ sched_inv G W live s1 cfg1 ∧
        s1.idle_task = s.idle_task ∧ ∀ y, (s1.threads y).state = (s.threads y).state) ∨
      ∃ s1 cfg1, o = Outcome.blocked 2 s1 ∧
        sched_inv G W (live.filter (fun x => decide (x ≠ s.current))) s1 cfg1 ∧
        s1.idle_task = s.idle_task ∧ ∀ y, (s1.threads y).state = (s.threads y).state := by
  unfold syscall_vanish task_fork_lock at h
  obtain ⟨b, s1, cfg1, h1, h2, h3, h4, h5⟩ := sched_inv_wait G W live s cfg hinv hci
    (fork_lock_at (current_task s)) hlock
  rw [h1] at h
  cases b with
  | true =>
    simp only at h
    obtain rfl := Option.some.inj h
    exact Or.inl ⟨s1, cfg1, rfl, h2, h3, fun y => by rw [h4]⟩
  | false =>
    simp only at h
    obtain ⟨k1, k2, -⟩ := h5 rfl
    have hct : current_task s1 = current_task s := by
      unfold current_task
      rw [h4, k1]
    obtain ⟨s5, cfg5, e1, e2, e3, e4⟩ := sched_inv_vanish_1 G W live s1 cfg1 h2
      (by rw [k1, h3]; exact hci) (by rw [hct]; exact hlock) (by rw [hct, k2]; exact hvul) o h
    rw [k1] at e2
    exact Or.inr ⟨s5, cfg5, e1, e2, e3.trans h3, fun y => by rw [e4 y, h4]⟩

/-- Each kernel entry keeps the invariant.  The idle thread stays the same,
the member `state` of no thread is written, and no thread is added. -/
theorem sched_step_inv (G : Symbols) (W : List Nat) (a b : List Nat × Machine)
    (h : sched_step G W a b) (cfg : Nat → List Nat) (hinv : sched_inv G W a.1 a.2 cfg) :
    ∃ cfg1, sched_inv G W b.1 b.2 cfg1 ∧ b.2.idle_task = a.2.idle_task ∧
      (∀ y, (b.2.threads y).state = (a.2.threads y).state) ∧ ∀ x ∈ b.1, x ∈ a.1 := by
  cases h with
  | tick live s s1 h =>
    obtain ⟨m, cfg1, e, c1, c2, c3⟩ := sched_inv_tick G W live s cfg hinv
    rw [e] at h
    obtain rfl := Option.some.inj h
    exact ⟨cfg1, c1, c2, c3, fun x hx => hx⟩
  | yield live s s1 h =>
    obtain ⟨m, cfg1, e, c1, c2, c3⟩ := sched_inv_yield G W live s cfg hinv
    rw [e] at h
    obtain rfl := Option.some.inj h
    exact ⟨cfg1, c1, c2, fun y => by rw [c3], fun x hx => hx⟩
  | wait live s s1 p b hp hci h =>
    obtain ⟨b1, m, cfg1, e, c1, c2, c3, -⟩ := sched_inv_wait G W live s cfg hinv hci p hp
    rw [e] at h
    obtain ⟨-, rfl⟩ := Prod.mk.inj (Option.some.inj h)
    exact ⟨cfg1, c1, c2, fun y => by rw [c3], fun x hx => hx⟩
  | signal live s s1 p hp h =>
    obtain ⟨m, cfg1, e, c1, -, c2, c3⟩ := sched_inv_signal G W live s cfg hinv p hp
    rw [e] at h
    obtain rfl := Option.some.inj h
    exact ⟨cfg1, c1, c2, fun y => by rw [c3], fun x hx => hx⟩
  | sleep live s s1 n ret hci h =>
    obtain ⟨m, cfg1, e, c1, c2, c3⟩ := sched_inv_sleep G W live s cfg hinv hci n
    rw [e] at h
    obtain ⟨-, rfl⟩ := Prod.mk.inj (Option.some.inj h)
    exact ⟨cfg1, c1, c2, c3, fun x hx => hx⟩
  | cas2i live s s1 pkt ret h =>
    obtain ⟨cfg1, c1, c2, c3⟩ := sched_inv_cas2i G W live s cfg hinv pkt s1 ret h
    exact ⟨cfg1, c1, c2, c3, fun x hx => hx⟩
  | vanish_wait live s s1 hlock hvul hci h =>
    rcases sched_inv_vanish G W live s cfg hinv hci hlock hvul _ h with
      ⟨m, cfg1, e, c1, c2, c3⟩ | ⟨m, cfg1, e, -⟩
    · obtain ⟨-, rfl⟩ := Outcome.blocked.inj e
      exact ⟨cfg1, c1, c2, c3, fun x hx => hx⟩
    · exact absurd (Outcome.blocked.inj e).1 (by decide)
  | vanish live s s1 hlock hvul hci h =>
    rcases sched_inv_vanish G W live s cfg hinv hci hlock hvul _ h with
      ⟨m, cfg1, e, -⟩ | ⟨m, cfg1, e, c1, c2, c3⟩
    · exact absurd (Outcome.blocked.inj e).1 (by decide)
    · obtain ⟨-, rfl⟩ := Outcome.blocked.inj e
      exact ⟨cfg1, c1, c2, c3, fun x hx => (List.mem_filter.1 hx).1⟩
  | vanish_resume live s s1 hlock hvul hci h =>
    obtain ⟨m, cfg1, e, c1, c2, c3⟩ := sched_inv_vanish_1 G W live s cfg hinv hci hlock hvul _ h
    obtain ⟨-, rfl⟩ := Outcome.blocked.inj e
    exact ⟨cfg1, c1, c2, c3, fun x hx => (List.mem_filter.1 hx).1⟩

/-- The invariant holds in every state that kernel entries lead to. -/
theorem sched_reach_inv (G : Symbols) (W : List Nat) (a b : List Nat × Machine)
    (h : sched_reach G W a b) (cfg : Nat → List Nat) (hinv : sched_inv G W a.1 a.2 cfg) :
    ∃ cfg1, sched_inv G W b.1 b.2 cfg1 ∧ b.2.idle_task = a.2.idle_task ∧
      (∀ y, (b.2.threads y).state = (a.2.threads y).state) ∧ ∀ x ∈ b.1, x ∈ a.1 := by
  induction h with
  | refl => exact ⟨cfg, hinv, rfl, fun _ => rfl, fun x hx => hx⟩
  | tail _ hstep ih =>
    obtain ⟨cfg1, c1, c2, c3, c4⟩ := ih
    obtain ⟨cfg2, d1, d2, d3, d4⟩ := sched_step_inv G W _ _ hstep cfg1 c1
    exact ⟨cfg2, d1, d2.trans c2, fun y => (d3 y).trans (c3 y), fun x hx => c4 x (d4 x hx)⟩

theorem sched_next_flag (s : Machine) (l : List Nat) :
    sched_next s l = s.idle_task ∨
      (sched_next s l ∈ l ∧ 0 ≤ (s.threads (sched_next s l)).run_flag) := by
  cases l with
  | nil => left; rfl
  | cons f rest =>
    by_cases hneg : (s.threads f).run_flag < 0
    · left; simp [sched_next, hneg]
    · right
      simp only [sched_next, hneg, if_false]
      exact ⟨List.mem_cons_self _ _, by omega⟩

theorem sched_queue_keeps_stopped (s : Machine) (r : Bool) (l : List Nat) (x : Nat)
    (hx : x ∈ l) (hneg : (s.threads x).run_flag < 0) : x ∈ sched_queue s r l := by
  cases l with
  | nil => simp at hx
  | cons f rest =>
    by_cases hnegf : (s.threads f).run_flag < 0
    · simp only [sched_queue, hnegf, if_true, List.mem_append, List.mem_singleton]
      simp only [List.mem_cons] at hx
      tauto
    · simp only [sched_queue, hnegf, if_false, List.mem_append]
      simp only [List.mem_cons] at hx
      rcases hx with hx | hx
      · rw [hx] at hneg; exact absurd hneg hnegf
      · exact Or.inl hx

theorem sched_queue_rotates (s : Machine) (r : Bool) (f : Nat) (rest : List Nat)
    (hneg : (s.threads f).run_flag < 0) :
    sched_next s (f :: rest) = s.idle_task ∧
      sched_queue s r (f :: rest) =
        rest ++ [f] ++ (if s.current ≠ s.idle_task ∧ r = true then [s.current] else []) := by
  simp [sched_next, sched_queue, hneg]

/-- C17, amended: take a state in which the run queue, the sleepers queue and
the queues of the semaphores `W` are well formed and disjoint, the running
thread and the idle thread are on none of them, and every thread of `live0`
runs or is on one of them and has the state runnable.  In every state that
is reached from it through timer ticks and calls of `schedule`, `sem_wait`,
`sem_signal`, `sleep`, `cas2i_runflag` and `vanish`, each taken as one step,
the queues are well formed again, and a thread on the run queue has the
state runnable, is on no wait queue, is not the running thread, is not the
idle thread and has not vanished; the running thread is on no queue; a
thread on a wait queue is on one wait queue only; and a thread that has not
vanished, does not run and is on no wait queue is on the run queue.  The
`run_flag` of a thread on the run queue can be negative: `schedule` returns,
switches to the idle thread or to the front thread of the run queue when its
`run_flag` is not negative, takes that thread off the run queue, keeps every
thread with a negative `run_flag` on the run queue, and moves a front thread
with a negative `run_flag` to the tail, before the calling thread. -/
theorem run_queue_invariant (G : Symbols) (W live0 live : List Nat) (s0 s : Machine)
    (cfg0 : Nat → List Nat) (h0 : sched_inv G W live0 s0 cfg0)
    (hst : ∀ x ∈ live0, (s0.threads x).state = kthread_runnable)
    (hr : sched_reach G W (live0, s0) (live, s)) :
    ∃ (rq sl : List Nat) (wq : Nat → List Nat),
      is_queue s.kthread_wait G.run_queue rq ∧
      is_queue s.kthread_wait G.kern_slackers_kthread_head sl ∧
      (∀ p ∈ W, is_queue s.kthread_wait (sem_kthread_head_at p) (wq p)) ∧
      (∀ x ∈ rq, (s.threads x).state = kthread_runnable ∧ x ∉ sl ∧ (∀ p ∈ W, x ∉ wq p) ∧
        x ≠ s.current ∧ x ≠ s.idle_task ∧ x ∈ live) ∧
      (s.current ∉ rq ∧ s.current ∉ sl ∧ ∀ p ∈ W, s.current ∉ wq p) ∧
      (∀ x ∈ sl, x ∈ live ∧ ∀ p ∈ W, x ∉ wq p) ∧
      (∀ p ∈ W, ∀ x ∈ wq p, x ∈ live ∧ ∀ p2 ∈ W, p2 ≠ p → x ∉ wq p2) ∧
      (∀ x ∈ live, x ≠ s.current → x ∉ sl → (∀ p ∈ W, x ∉ wq p) → x ∈ rq) ∧
      (∀ r : Bool, ∃ s1, schedule G r s = some s1 ∧
        is_queue s1.kthread_wait G.run_queue (sched_queue s r rq) ∧
        s1.current = sched_next s rq ∧ s1.current ∉ sched_queue s r rq ∧
        (s1.current = s.idle_task ∨
          (s1.current ∈ rq ∧ 0 ≤ (s.threads s1.current).run_flag)) ∧
        (∀ x ∈ rq, (s.threads x).run_flag < 0 → x ∈ sched_queue s r rq) ∧
        (∀ f rest, rq = f :: rest → (s.threads f).run_flag < 0 →
          s1.current = s.idle_task ∧
          sched_queue s r rq =
            rest ++ [f] ++ (if s.current ≠ s.idle_task ∧ r = true then [s.current] else []))) := by
  obtain ⟨cfg, ⟨hnd, -, hq⟩, -, c3, c4⟩ := sched_reach_inv G W _ _ hr cfg0 h0
  obtain ⟨hrunH, hslH, hsemH⟩ := sched_heads_mem G W
  obtain ⟨hheads, hsemne⟩ := sched_heads_ne G W hnd
  obtain ⟨hcoff, hioff⟩ := queue_inv_off _ _ _ _ _ _ hq
  obtain ⟨a1, a2, a3, a4, -, a6, a7, a8, -, -, a11⟩ := hq
  simp only at a1 a2 a3 a4 a6 a7 a8 a11 hcoff hioff c3 c4
  have hrq := a1.1 _ hrunH
  refine ⟨cfg G.run_queue, cfg G.kern_slackers_kthread_head,
    fun p => cfg (sem_kthread_head_at p), hrq, a1.1 _ hslH,
    fun p hp => a1.1 _ (hsemH p hp), ?_, ⟨hcoff _ hrunH, hcoff _ hslH,
      fun p hp => hcoff _ (hsemH p hp)⟩, ?_, ?_, ?_, ?_⟩
  · intro x hx
    have hxl := (a2 _ hrunH x hx).1
    refine ⟨?_, (a1.2 _ hrunH x hx).2 _ hslH hheads,
      fun p hp => (a1.2 _ hrunH x hx).2 _ (hsemH p hp) (hsemne p hp).1,
      (a2 _ hrunH x hx).2, fun e => a8 (e ▸ hxl), hxl⟩
    rw [c3 x]
    exact hst x (c4 x hxl)
  · intro x hx
    exact ⟨(a2 _ hslH x hx).1,
      fun p hp => (a1.2 _ hslH x hx).2 _ (hsemH p hp) (hsemne p hp).2⟩
  · intro p hp x hx
    refine ⟨(a2 _ (hsemH p hp) x hx).1, fun p2 hp2 hne => ?_⟩
    apply (a1.2 _ (hsemH p hp) x hx).2 _ (hsemH p2 hp2)
    unfold sem_kthread_head_at
    omega
  · intro x hx hxc hxs hxw
    rcases a11 x hx with e | ⟨h, hh, hxh⟩
    · exact absurd e hxc
    · simp only [sched_heads, List.mem_cons, List.mem_map] at hh
      rcases hh with e | e | ⟨p, hp, e⟩
      · rw [← e]; exact hxh
      · exact absurd (e ▸ hxh) hxs
      · exact absurd (show x ∈ cfg (sem_kthread_head_at p) from e ▸ hxh) (hxw p hp)
  · intro r
    obtain ⟨q1, b, sf, hs, hq1, -⟩ := schedule_spec G r s (cfg G.run_queue) hrq (hcoff _ hrunH)
      (fun e => a3 (e ▸ hrunH)) a4 (hioff _ hrunH)
    refine ⟨_, hs, hq1, rfl, ?_, ?_, ?_, ?_⟩
    · exact sched_next_not_queued s r _ (List.nodup_cons.1 hrq.2.1).2 (hcoff _ hrunH)
        (hioff _ hrunH)
    · exact sched_next_flag s _
    · exact fun x hx hneg => sched_queue_keeps_stopped s r _ x hx hneg
    · intro f rest hl hneg
      rw [hl]
      exact sched_queue_rotates s r f rest hneg

/-- Witness of `run_queue_invariant`: the state that the running thread of
`demo_machine` reaches when it stops itself with `cas2i_runflag`. -/
theorem run_queue_invariant_witness :
    ∃ (rq sl : List Nat) (wq : Nat → List Nat),
      is_queue demo_self_stopped.kthread_wait demo_symbols.run_queue rq ∧
      is_queue demo_self_stopped.kthread_wait demo_symbols.kern_slackers_kthread_head sl ∧
      (∀ p ∈ demo_semaphores,
        is_queue demo_self_stopped.kthread_wait (sem_kthread_head_at p) (wq p)) ∧
      (∀ x ∈ rq, (demo_self_stopped.threads x).state = kthread_runnable ∧ x ∉ sl ∧
        (∀ p ∈ demo_semaphores, x ∉ wq p) ∧
        x ≠ demo_self_stopped.current ∧ x ≠ demo_self_stopped.idle_task ∧ x ∈ demo_live) ∧
      (demo_self_stopped.current ∉ rq ∧ demo_self_stopped.current ∉ sl ∧
        ∀ p ∈ demo_semaphores, demo_self_stopped.current ∉ wq p) ∧
      (∀ x ∈ sl, x ∈ demo_live ∧ ∀ p ∈ demo_semaphores, x ∉ wq p) ∧
      (∀ p ∈ demo_semaphores, ∀ x ∈ wq p,
        x ∈ demo_live ∧ ∀ p2 ∈ demo_semaphores, p2 ≠ p → x ∉ wq p2) ∧
      (∀ x ∈ demo_live, x ≠ demo_self_stopped.current → x ∉ sl →
        (∀ p ∈ demo_semaphores, x ∉ wq p) → x ∈ rq) ∧
      (∀ r : Bool, ∃ s1, schedule demo_symbols r demo_self_stopped = some s1 ∧
        is_queue s1.kthread_wait demo_symbols.run_queue (sched_queue demo_self_stopped r rq) ∧
        s1.current = sched_next demo_self_stopped rq ∧
        s1.current ∉ sched_queue demo_self_stopped r rq ∧
        (s1.current = demo_self_stopped.idle_task ∨
          (s1.current ∈ rq ∧ 0 ≤ (demo_self_stopped.threads s1.current).run_flag)) ∧
        (∀ x ∈ rq, (demo_self_stopped.threads x).run_flag < 0 →
          x ∈ sched_queue demo_self_stopped r rq) ∧
        (∀ f rest, rq = f :: rest → (demo_self_stopped.threads f).run_flag < 0 →
          s1.current = demo_self_stopped.idle_task ∧
          sched_queue demo_self_stopped r rq =
            rest ++ [f] ++
              (if demo_self_stopped.current ≠ demo_self_stopped.idle_task ∧ r = true then
                [demo_self_stopped.current] else []))) :=
  run_queue_invariant demo_symbols demo_semaphores demo_live demo_live
    (demo_cas_machine TASK1 0 0xffffffff 5 0) demo_self_stopped demo_queues
    (by decide) (by decide)
    (Relation.ReflTransGen.single
      (sched_step.cas2i demo_live (demo_cas_machine TASK1 0 0xffffffff 5 0) demo_self_stopped
        0x01002100 (demo_self_stop.get (by decide)).1
        (Option.some_get (by decide : demo_self_stop.isSome = true)).symm))

/-- The invariant does not survive a timer interrupt that arrives inside
`sleep(n)`, `2 ≤ n`, between the insertion into the sleepers queue and the
call of `schedule`: after that tick the sleepers queue is not well formed. -/
theorem sleep_race_breaks_invariant (G : Symbols) (W live : List Nat) (s : Machine)
    (cfg : Nat → List Nat) (hinv : sched_inv G W live s cfg) (hci : s.current ≠ s.idle_task)
    (n : Nat) (hn1 : 2 ≤ n) (hn2 : n < 2147483648) :
    ∃ s1, _BASE_TIMER_CALL_BACK G (syscall_sleep_1 G n s) = some s1 ∧
      ∀ live1 cfg1, ¬ sched_inv G W live1 s1 cfg1 := by
  obtain ⟨hnd, hlen, hq⟩ := hinv
  obtain ⟨hrunH, hslH, -⟩ := sched_heads_mem G W
  obtain ⟨hheads, -⟩ := sched_heads_ne G W hnd
  obtain ⟨hcoff, hioff⟩ := queue_inv_off _ _ _ _ _ _ hq
  obtain ⟨a1, a2, a3, a4, -, a6, a7, -, -, -, -⟩ := hq
  have hsl := a1.1 _ hslH
  have hslen : (cfg G.kern_slackers_kthread_head).length ≤ live.length :=
    (List.Nodup.subperm (List.nodup_cons.1 hsl.2.1).2
      (fun x hx => (a2 _ hslH x hx).1)).length_le
  have hready : tick_ready G s (cfg G.kern_slackers_kthread_head) (cfg G.run_queue) :=
    ⟨hsl, a1.1 _ hrunH, fun x hx => (a1.2 _ hslH x hx).2 _ hrunH (Ne.symm hheads),
      fun x hx e => (a1.2 _ hslH x hx).1 (e ▸ hrunH), by omega,
      hcoff _ hslH, hcoff _ hrunH, fun e => a3 (e ▸ hrunH), a4,
      hioff _ hslH, hioff _ hrunH, fun e => a6 (e ▸ hrunH), a7⟩
  obtain ⟨s1, rq1, h1, -, -, -, -, -, h7, -⟩ := sleep_race_spec G s n _ _ hn1 hn2 hheads hready
    (fun e => a3 (e ▸ hslH)) hci (by omega)
  refine ⟨s1, h1, ?_⟩
  intro live1 cfg1 hinv1
  exact h7 _ (hinv1.2.2.1.1 _ hslH)

end ZeOS
